import Mathlib

/-!
# Bucket engine (`bucket_engine/bucket_engine.c`)

A shallow embedding of the bucket registry: reference-counted engine handles with a
lifecycle state, the per-connection holder stored behind a cookie, the administrative
commands and the deferred teardown thread.

Conventions of the embedding

* a pointer to a `proxied_engine_handle_t` is an index into `bucket_engine.heap`;
  index `0` is the embedded `default_engine`, `calloc` returns the next free index;
* a cookie is an index into `bucket_engine.conns`;
* `assert` failures and `abort()` are `Except.error`; a dereference of released memory
  is outside the model and is an error too;
* C `int` counters are `Int` (no counter comes near `2^31`);
* every handler runs atomically, except that entering and leaving an engine call are
  separate steps, the teardown thread runs in the sections delimited by its locks, and
  `handle_disconnect` is cut at the ON_DISCONNECT callback it makes into the engine after
  it has dropped the handle lock: the callback starts in one step and returns in another.
-/

namespace BucketEngine

/-- The lifecycle states of `bucket_state_t`. -/
inductive bucket_state_t where
  | STATE_NULL
  | STATE_RUNNING
  | STATE_STOP_REQUESTED
  | STATE_STOPPING
  | STATE_STOPPED
  deriving DecidableEq

open bucket_state_t

/-- The error codes of `ENGINE_ERROR_CODE` (memcached/types.h). -/
inductive ENGINE_ERROR_CODE where
  | ENGINE_SUCCESS
  | ENGINE_KEY_ENOENT
  | ENGINE_KEY_EEXISTS
  | ENGINE_ENOMEM
  | ENGINE_NOT_STORED
  | ENGINE_EINVAL
  | ENGINE_ENOTSUP
  | ENGINE_EWOULDBLOCK
  | ENGINE_E2BIG
  | ENGINE_WANT_MORE
  | ENGINE_DISCONNECT
  | ENGINE_EACCESS
  | ENGINE_NOT_MY_VBUCKET
  | ENGINE_TMPFAIL
  | ENGINE_FAILED
  deriving DecidableEq

open ENGINE_ERROR_CODE

/-- The binary protocol response statuses used by the administrative commands. -/
inductive protocol_binary_response_status where
  | PROTOCOL_BINARY_RESPONSE_SUCCESS
  | PROTOCOL_BINARY_RESPONSE_KEY_ENOENT
  | PROTOCOL_BINARY_RESPONSE_KEY_EEXISTS
  | PROTOCOL_BINARY_RESPONSE_EINVAL
  | PROTOCOL_BINARY_RESPONSE_NOT_STORED
  deriving DecidableEq

open protocol_binary_response_status

/-- The fields of `struct proxied_engine_handle` the registry logic reads or writes.
`pe` is true while `pe.v0`/`pe.v1` is non-NULL. The last three fields are ghost state:
`freed` records `free_engine_handle`, `trace` lists the values `state` held before the
current one (most recent first), `shutdown_threads` holds the program counter of every
`engine_shutdown_thread` started with this handle as argument. -/
structure proxied_engine_handle_t where
  name : String
  pe : Bool
  wants_disconnects : Bool
  force_shutdown : Bool
  refcount : Int
  clients : Int
  cookie : Option Nat
  state : bucket_state_t
  freed : Bool
  trace : List bucket_state_t
  shutdown_threads : List Nat
  deriving DecidableEq

/-- The holder `struct engine_specific` kept behind a cookie. -/
structure engine_specific_t where
  peh : Option Nat
  engine_specific : Option Nat
  reserved : Int
  notified : Bool
  deriving DecidableEq

/-- Convert a bucket state to its textual name. -/
def bucket_state_name : bucket_state_t → String
  | STATE_NULL => "NULL"
  | STATE_RUNNING => "running"
  | STATE_STOP_REQUESTED => "stop requested"
  | STATE_STOPPING => "stopping"
  | STATE_STOPPED => "stopped"

/-- The C-locale `isalpha` on a `char`. -/
def isalpha (c : Char) : Bool :=
  (decide ('a' ≤ c) && decide (c ≤ 'z')) || (decide ('A' ≤ c) && decide (c ≤ 'Z'))

/-- The C-locale `isdigit` on a `char`. -/
def isdigit (c : Char) : Bool :=
  decide ('0' ≤ c) && decide (c ≤ '9')

/-- The characters of a C string: the bytes before the first NUL. -/
def cstr : List Char → List Char
  | [] => []
  | c :: cs => if c = '\x00' then [] else c :: cstr cs

/-- The loop of `has_valid_bucket_name`: `for (; *n; n++) rv &= ...`. -/
def has_valid_bucket_name_loop : List Char → Bool → Bool
  | [], rv => rv
  | c :: cs, rv =>
    if c = '\x00' then rv
    else has_valid_bucket_name_loop cs
      (rv && (isalpha c || isdigit c || c == '.' || c == '%' || c == '_' || c == '-'))

/-- Validate that the bucket name only consists of legal characters. The argument is
the memory at `n`; reading stops at the first NUL (the end of the list stands for the
terminator). -/
def has_valid_bucket_name (n : List Char) : Bool :=
  has_valid_bucket_name_loop n (n.headD '\x00' != '\x00')

/-- The assignment `e->state = x`, which also extends the ghost trace. -/
def set_state (e : proxied_engine_handle_t) (x : bucket_state_t) : proxied_engine_handle_t :=
  { e with state := x, trace := e.state :: e.trace }

/-- Check to see if we should start shutdown of the specified engine: no client is
calling into the engine and someone requested shutdown. `pthread_create` of
`engine_shutdown_thread` is recorded as a new thread at program counter 0. -/
def maybe_start_engine_shutdown_LOCKED (e : proxied_engine_handle_t) :
    proxied_engine_handle_t :=
  if e.clients = 0 ∧ e.state = STATE_STOP_REQUESTED then
    { set_state e STATE_STOPPING with shutdown_threads := e.shutdown_threads ++ [0] }
  else e

/-- Release the reference to the proxied engine handle (handle lock held). -/
def release_handle_locked (peh : proxied_engine_handle_t) :
    Except String proxied_engine_handle_t :=
  if 0 < peh.refcount then
    .ok (maybe_start_engine_shutdown_LOCKED { peh with refcount := peh.refcount - 1 })
  else .error "release_handle_locked: assert(peh->refcount > 0)"

/-- The locked section of `retain_handle`: the reference count is incremented only in
state RUNNING; the boolean tells whether `rv = peh` was set. -/
def retain_handle_locked (peh : proxied_engine_handle_t) :
    Except String (proxied_engine_handle_t × Bool) :=
  if peh.state = STATE_RUNNING then
    if 0 < peh.refcount + 1 then .ok ({ peh with refcount := peh.refcount + 1 }, true)
    else .error "retain_handle: assert(peh->refcount > 0)"
  else .ok (peh, false)

/-- The locked section of `release_engine_handle`: the client returned from the call
inside the engine. -/
def release_engine_handle_locked (engine : proxied_engine_handle_t) :
    Except String proxied_engine_handle_t :=
  if 0 < engine.clients then
    .ok (maybe_start_engine_shutdown_LOCKED { engine with clients := engine.clients - 1 })
  else .error "release_engine_handle: assert(engine->clients > 0)"

/-- How `init_engine_handle` ends: success, `strdup` failure (ENGINE_ENOMEM), or a
failing `pthread_mutex_init`/`pthread_cond_init` (ENGINE_FAILED). -/
inductive init_outcome where
  | ok
  | strdup_failed
  | pthread_init_failed
  deriving DecidableEq

/-- A zeroed `proxied_engine_handle_t`, as `calloc` or `memset` leave it. -/
def calloc_handle : proxied_engine_handle_t :=
  { name := "", pe := false, wants_disconnects := false, force_shutdown := false,
    refcount := 0, clients := 0, cookie := none, state := STATE_NULL,
    freed := false, trace := [], shutdown_threads := [] }

/-- Initialize a proxied engine handle (assumes that it is zeroed already): reference
count 1 and, on success, the name and state RUNNING. The ghost trace starts here. -/
def init_engine_handle (peh : proxied_engine_handle_t) (name : String) (o : init_outcome) :
    proxied_engine_handle_t × ENGINE_ERROR_CODE :=
  match o with
  | init_outcome.strdup_failed => ({ peh with refcount := 1 }, ENGINE_ENOMEM)
  | init_outcome.pthread_init_failed => ({ peh with refcount := 1 }, ENGINE_FAILED)
  | init_outcome.ok =>
    ({ peh with refcount := 1, name := name, state := STATE_RUNNING }, ENGINE_SUCCESS)

/-- The operations of a proxied engine that the bucket engine invokes (entries of the
ghost call log). -/
inductive engine_op where
  | initialize_call
  | destroy (force : Bool)
  | allocate
  | remove
  | release
  | get
  | store
  | arithmetic
  | flush
  | get_stats
  | reset_stats
  | unknown_command
  | tap_notify
  | item_set_cas
  | get_item_info
  | errinfo
  | on_disconnect
  deriving DecidableEq

/-- A connection as the host holds it: the engine-specific slot of the cookie, the
username `get_auth_data` reports, and two ghost fields: `inside` is the handle whose
engine the worker thread of the connection is calling into through one of the wrappers
(counted in `clients`), `callback` the handle whose ON_DISCONNECT callback the thread is
running on behalf of `handle_disconnect` (not counted anywhere). The host serves a
connection from one worker thread, so a cookie is inside at most one engine call. -/
structure conn_t where
  es : Option engine_specific_t
  auth_user : Option String
  inside : Option Nat
  callback : Option Nat
  deriving DecidableEq

/-- One invocation of the `ADD_RESPONSE` callback: key, body, status and cookie. -/
structure response_t where
  cookie : Nat
  key : String
  body : String
  status : protocol_binary_response_status
  deriving DecidableEq

/-- The one and only instance of the bucket engine together with the host state it
acts on. `disable_auth` stands for `getenv("BUCKET_ENGINE_DIABLE_AUTH_PHASE") != NULL`;
`calls`, `responses` and `io_complete` are ghost logs of the calls made into proxied
engines, of the responses sent and of `notify_io_complete`. -/
structure bucket_engine where
  auto_create : Bool
  admin_user : Option String
  default_bucket_name : Option String
  disable_auth : Bool
  heap : List proxied_engine_handle_t
  engines : List (String × Nat)
  conns : List conn_t
  calls : List (Nat × engine_op)
  responses : List response_t
  io_complete : List Nat
  deriving DecidableEq

/-- A cookie the host has never stored anything for. -/
def no_conn : conn_t := { es := none, auth_user := none, inside := none, callback := none }

/-- The connection record of a cookie. -/
def get_conn (s : bucket_engine) (cookie : Nat) : conn_t :=
  s.conns.getD cookie no_conn

/-- Replace the connection record of a cookie. -/
def set_conn (s : bucket_engine) (cookie : Nat) (v : conn_t) : bucket_engine :=
  { s with conns :=
      (s.conns ++ List.replicate (cookie + 1 - s.conns.length) no_conn).set cookie v }

/-- The upstream `store_engine_specific(cookie, es)`. -/
def store_es (s : bucket_engine) (cookie : Nat) (es : Option engine_specific_t) :
    bucket_engine :=
  set_conn s cookie { get_conn s cookie with es := es }

/-- Dereference a handle pointer; released memory and wild pointers are errors. -/
def deref (s : bucket_engine) (p : Nat) : Except String proxied_engine_handle_t :=
  match s.heap[p]? with
  | some h => if h.freed then .error "use of a released engine handle" else .ok h
  | none => .error "wild engine handle pointer"

/-- Write a handle back to the memory it lives in. -/
def store_handle (s : bucket_engine) (p : Nat) (h : proxied_engine_handle_t) :
    bucket_engine :=
  { s with heap := s.heap.set p h }

/-- Record (ghost) that an operation of the engine behind the handle `p` is invoked. -/
def log_call (s : bucket_engine) (p : Nat) (op : engine_op) : bucket_engine :=
  { s with calls := s.calls ++ [(p, op)] }

/-- Grab the engine handle mutex and release the proxied engine handle; a NULL pointer
is allowed. -/
def release_handle (s : bucket_engine) (peh : Option Nat) : Except String bucket_engine :=
  match peh with
  | none => .ok s
  | some p => do
    let h ← deref s p
    let h' ← release_handle_locked h
    pure (store_handle s p h')

/-- If the bucket is in a runnable state, increment its reference counter and return
its handle. Otherwise a NULL pointer is returned. -/
def retain_handle (s : bucket_engine) (peh : Option Nat) :
    Except String (bucket_engine × Option Nat) :=
  match peh with
  | none => .ok (s, none)
  | some p => do
    let h ← deref s p
    let r ← retain_handle_locked h
    pure (store_handle s p r.1, if r.2 then some p else none)

/-- Modelled from the spec: `genhash_find` of the memcached genhash library, which is
not among the sources; the registry is the name to handle map of the Bucket Registry,
kept as an association list in insertion order. -/
def genhash_find (engines : List (String × Nat)) (name : String) : Option Nat :=
  engines.lookup name

/-- Helper function to search for a named bucket in the list of engines. -/
def find_bucket_inner (s : bucket_engine) (name : String) : Option Nat :=
  genhash_find s.engines name

/-- Search the list of buckets for a named bucket. If the bucket exists and is in a
runnable state, its reference count is incremented and it is returned. -/
def find_bucket (s : bucket_engine) (name : String) :
    Except String (bucket_engine × Option Nat) :=
  retain_handle s (find_bucket_inner s name)

/-- Function used by genhash to create a copy of the value: the reference count of the
handle is increased. -/
def refcount_dup (s : bucket_engine) (ob : Nat) : Except String bucket_engine := do
  let h ← deref s ob
  pure (store_handle s ob { h with refcount := h.refcount + 1 })

/-- Function used by genhash to release an object. -/
def engine_hash_free (s : bucket_engine) (ob : Nat) : Except String bucket_engine := do
  let h ← deref s ob
  pure (store_handle s ob (set_state h STATE_NULL))

/-- Apply `engine_hash_free` to every value of a list of removed entries. -/
def free_values (s : bucket_engine) : List (String × Nat) → Except String bucket_engine
  | [] => .ok s
  | kv :: rest => do
    let s' ← engine_hash_free s kv.2
    free_values s' rest

/-- Modelled from the spec: `genhash_update` of the memcached genhash library (absent
from the sources) with the `hash_ops` of `bucket_initialize`: an existing value is
released with `engine_hash_free` and replaced, a new key is stored; the stored value is
duplicated with `refcount_dup`. -/
def genhash_update (s : bucket_engine) (name : String) (peh : Nat) :
    Except String bucket_engine :=
  match genhash_find s.engines name with
  | none => refcount_dup { s with engines := s.engines ++ [(name, peh)] } peh
  | some old => do
    let s1 ← engine_hash_free s old
    refcount_dup
      { s1 with engines := s1.engines.map (fun kv => if kv.1 = name then (name, peh) else kv) }
      peh

/-- Modelled from the spec: `genhash_delete_all` of the memcached genhash library
(absent from the sources) with the `hash_ops` of `bucket_initialize`: every entry stored
under the key is unlinked and its value released with `engine_hash_free`; the result is
the number of entries removed. -/
def genhash_delete_all (s : bucket_engine) (name : String) :
    Except String (bucket_engine × Nat) := do
  let gone := s.engines.filter (fun kv => kv.1 = name)
  let s' ← free_values { s with engines := s.engines.filter (fun kv => ¬ kv.1 = name) } gone
  pure (s', gone.length)

/-- The outcomes of the allocator, loader and engine calls made by one `create_bucket`:
`calloc`, `init_engine_handle`, `load_engine` and the engine's `initialize`. -/
structure create_env where
  calloc_ok : Bool
  init : init_outcome
  load_ok : Bool
  initialize_ok : Bool
  deriving DecidableEq

/-- The text `snprintf(msg, msglen, ...)` leaves in `msg`; nothing is written when `msg`
is NULL (`none`) or `msglen` is 0. -/
def snprintf (msg : Option Nat) (text : String) : Option String :=
  match msg with
  | none => none
  | some msglen => if msglen = 0 then none else some (String.mk (text.data.take (msglen - 1)))

/-- What `create_bucket` hands back: the return value, `*e_out` and the message. -/
structure create_result where
  rv : ENGINE_ERROR_CODE
  e_out : Option Nat
  msg : Option String
  deriving DecidableEq

/-- The memory of a handle is overwritten with a pattern and given back to the
allocator. -/
def release_memory (s : bucket_engine) (p : Nat) : Except String bucket_engine := do
  let h ← deref s p
  pure (store_handle s p { h with freed := true })

/-- Release all resources used by a proxied engine handle and invalidate the handle
itself. -/
def free_engine_handle (s : bucket_engine) (p : Nat) : Except String bucket_engine :=
  release_memory s p

/-- Creates a bucket and places its handle into `*e_out` (when `want_out`); the caller
is then responsible for calling `release_handle` on that handle. `msg` is the size of
the message buffer, `none` for a NULL buffer. -/
def create_bucket (s : bucket_engine) (bucket_name : String) (env : create_env)
    (want_out : Bool) (msg : Option Nat) : Except String (bucket_engine × create_result) :=
  if ¬ has_valid_bucket_name bucket_name.data = true then
    .ok (s, { rv := ENGINE_EINVAL, e_out := none, msg := none })
  else if ¬ env.calloc_ok = true then
    .ok (s, { rv := ENGINE_ENOMEM, e_out := none, msg := none })
  else
    let peh := s.heap.length
    let h0 := init_engine_handle calloc_handle bucket_name env.init
    if h0.2 ≠ ENGINE_SUCCESS then do
      let s1 ← release_memory { s with heap := s.heap ++ [h0.1] } peh
      pure (s1, { rv := h0.2, e_out := none, msg := none })
    else if ¬ env.load_ok = true then do
      let s1 ← free_engine_handle { s with heap := s.heap ++ [h0.1] } peh
      pure (s1, { rv := ENGINE_FAILED, e_out := none,
                  msg := snprintf msg "Failed to load engine." })
    else
      let s1 := { s with heap := s.heap ++ [{ h0.1 with pe := true }] }
      match find_bucket_inner s1 bucket_name with
      | none => do
        let s2 ← genhash_update s1 bucket_name peh
        let s3 := log_call s2 peh engine_op.initialize_call
        if env.initialize_ok = true then
          if want_out = true then
            pure (s3, { rv := ENGINE_SUCCESS, e_out := some peh, msg := none })
          else do
            let s4 ← release_handle s3 (some peh)
            pure (s4, { rv := ENGINE_SUCCESS, e_out := none, msg := none })
        else do
          let s4 := log_call s3 peh (engine_op.destroy false)
          let r ← genhash_delete_all s4 bucket_name
          let s5 ← free_engine_handle r.1 peh
          pure (s5, { rv := ENGINE_FAILED, e_out := none,
                      msg := snprintf msg "Failed to initialize instance. Error code: 0\n" })
      | some tmppeh => do
        let t ← deref s1 tmppeh
        let s2 := log_call s1 peh (engine_op.destroy true)
        let s3 ← free_engine_handle s2 peh
        pure (s3, { rv := ENGINE_KEY_EEXISTS, e_out := none,
                    msg := snprintf msg ("Bucket exists: " ++ bucket_state_name t.state) })

/-- The handle a connection resolves to: the one it is attached to, else the default
engine if that is loaded (`peh = es->peh`, falling back to `&e->default_engine`). -/
def resolve_handle (s : bucket_engine) (es : engine_specific_t) : Option Nat :=
  match es.peh with
  | some p => some p
  | none => if (s.heap.getD 0 calloc_handle).pe = true then some 0 else none

/-- Returns the engine handle for this connection and counts the caller in `clients`;
a handle that is not running is released and NULL is returned. -/
def get_engine_handle (s : bucket_engine) (cookie : Nat) :
    Except String (bucket_engine × Option Nat) :=
  match (get_conn s cookie).es with
  | none => .error "get_engine_handle: assert(es)"
  | some es =>
    match resolve_handle s es with
    | none => .ok (s, none)
    | some p => do
      let peh ← deref s p
      if peh.state ≠ STATE_RUNNING then do
        let s1 := if es.reserved = 0 then store_es s cookie none else s
        let s2 ← release_handle s1 (some p)
        pure (s2, none)
      else
        pure (store_handle s p { peh with clients := peh.clients + 1 }, some p)

/-- The variant of `get_engine_handle` used by the wrappers that cannot fail the
connection: no default engine fallback, nothing is released. -/
def try_get_engine_handle (s : bucket_engine) (cookie : Nat) :
    Except String (bucket_engine × Option Nat) :=
  match (get_conn s cookie).es with
  | none => .ok (s, none)
  | some es =>
    match es.peh with
    | none => .ok (s, none)
    | some p => do
      let peh ← deref s p
      if peh.state = STATE_RUNNING then
        pure (store_handle s p { peh with clients := peh.clients + 1 }, some p)
      else
        pure (s, none)

/-- The client returned from the call inside the engine. -/
def release_engine_handle (s : bucket_engine) (engine : Nat) : Except String bucket_engine := do
  let h ← deref s engine
  let h' ← release_engine_handle_locked h
  pure (store_handle s engine h')

/-- Create an engine specific section for the cookie. -/
def create_engine_specific (s : bucket_engine) (cookie : Nat) : Except String bucket_engine :=
  match (get_conn s cookie).es with
  | some _ => .error "create_engine_specific: assert(es == NULL)"
  | none =>
    .ok (store_es s cookie
      (some { peh := none, engine_specific := none, reserved := 0, notified := false }))

/-- Set the engine handle for a cookie: in with the new, out with the old. -/
def set_engine_handle (s : bucket_engine) (cookie : Nat) (peh : Option Nat) :
    Except String (bucket_engine × Option Nat) :=
  match (get_conn s cookie).es with
  | none => .error "set_engine_handle: assert(es)"
  | some es => do
    let old := es.peh
    let r ← retain_handle s peh
    let s1 := store_es r.1 cookie (some { es with peh := r.2 })
    let s2 ← release_handle s1 old
    pure (s2, r.2)

/-- Handle the situation when a connection is disconnected from the upstream: the
disconnect is propagated to a running engine that asked for it, and the resources of the
connection are released unless it is reserved. This is the whole function run without
another thread in between; `step` runs it so only when no callback is made, and cuts it
into `handle_disconnect_callback`, the callback and `handle_disconnect_release`
otherwise. -/
def handle_disconnect (s : bucket_engine) (cookie : Nat) : Except String bucket_engine :=
  match (get_conn s cookie).es with
  | none => .ok s
  | some es =>
    match es.peh with
    | none => .ok (store_es s cookie none)
    | some p => do
      let peh ← deref s p
      let do_callback := peh.wants_disconnects && decide (peh.state = STATE_RUNNING)
      let s1 := if do_callback = true
        then log_call s p engine_op.on_disconnect else s
      if es.reserved = 0 then do
        let peh' ← release_handle_locked peh
        pure (store_es (store_handle s1 p peh') cookie none)
      else
        pure (store_es s1 cookie (some { es with notified := true }))

/-- The first section of `handle_disconnect`, up to `must_unlock(&peh->lock)`: the handle
whose ON_DISCONNECT callback has to be called, `none` when the connection has no holder,
is attached to no bucket, or its bucket did not ask for disconnects or is not RUNNING. -/
def handle_disconnect_callback (s : bucket_engine) (cookie : Nat) :
    Except String (Option Nat) :=
  match (get_conn s cookie).es with
  | none => .ok none
  | some es =>
    match es.peh with
    | none => .ok none
    | some p => do
      let peh ← deref s p
      let do_callback := peh.wants_disconnects && decide (peh.state = STATE_RUNNING)
      pure (if do_callback = true then some p else none)

/-- The last section of `handle_disconnect`, from `// Free up the engine we were using.`
on, run after the callback into the engine of `p` has returned: `p` is the local `peh`
read before the callback, the holder is the one still stored for the cookie. -/
def handle_disconnect_release (s : bucket_engine) (cookie : Nat) (p : Nat) :
    Except String bucket_engine :=
  match (get_conn s cookie).es with
  | none => .error "handle_disconnect: use of a released engine_specific"
  | some es => do
    let peh ← deref s p
    if es.reserved = 0 then do
      let peh' ← release_handle_locked peh
      pure (store_es (store_handle s p peh') cookie none)
    else
      pure (store_es s cookie (some { es with notified := true }))

/-- The function `find_bucket_by_engine` run by `genhash_iter` over the engine table:
the handle of the table whose engine (`pe.v0`) is `needle`, if there is one. The engine
of a handle is identified with the address of the handle. -/
def find_bucket_by_engine (s : bucket_engine) (needle : Nat) : Option Nat :=
  ((s.engines.filter (fun kv =>
    decide (kv.2 = needle) && (s.heap.getD kv.2 calloc_handle).pe)).map Prod.snd).getLast?

/-- The function `bucket_register_callback(eh, ON_DISCONNECT, cb, cb_data)`, which the
bucket engine hands to the proxied engines in place of the host's `register_callback`:
the handle of the engine `eh` is looked up in the engine table, else `eh` is compared
with the default engine; the handle found has `wants_disconnects` set (the function
pointer `cb` and `cb_data` are not modelled). -/
def bucket_register_callback (s : bucket_engine) (eh : Nat) : Except String bucket_engine :=
  match find_bucket_by_engine s eh with
  | some p => do
    let peh ← deref s p
    pure (store_handle s p { peh with wants_disconnects := true })
  | none =>
    if (s.heap.getD 0 calloc_handle).pe = true ∧ eh = 0 then do
      let peh ← deref s 0
      pure (store_handle s 0 { peh with wants_disconnects := true })
    else pure s

/-- Callback from the memcached core for a new connection: associate it with the
default bucket (if it exists) and create an engine specific structure. -/
def handle_connect (s : bucket_engine) (cookie : Nat) (env : create_env) :
    Except String bucket_engine := do
  let r ←
    match s.default_bucket_name with
    | some name => do
      let f ← find_bucket s name
      if f.2 = none ∧ s.auto_create = true then do
        let c ← create_bucket f.1 name env true none
        pure (c.1, c.2.e_out)
      else pure f
    | none =>
      if (s.heap.getD 0 calloc_handle).pe = true then do
        let t ← retain_handle s (some 0)
        if t.2 = some 0 then pure t else .error "handle_connect: assert(t == peh)"
      else pure (s, none)
  let s1 ← create_engine_specific r.1 cookie
  let s2 ← set_engine_handle s1 cookie r.2
  release_handle s2.1 r.2

/-- Callback from the memcached core that a cookie successfully authenticated itself:
associate the cookie with the bucket it is authenticated to. -/
def handle_auth (s : bucket_engine) (cookie : Nat) (username : String) (env : create_env) :
    Except String bucket_engine := do
  let f ← find_bucket s username
  let r ←
    if f.2 = none ∧ s.auto_create = true then do
      let c ← create_bucket f.1 username env true none
      pure (c.1, c.2.e_out)
    else pure f
  let s2 ← set_engine_handle r.1 cookie r.2
  release_handle s2.1 r.2

/-- Notify bucket_engine that the proxied engine wants to reserve this cookie. -/
def bucket_engine_reserve_cookie (s : bucket_engine) (cookie : Nat) :
    Except String (bucket_engine × ENGINE_ERROR_CODE) :=
  match (get_conn s cookie).es with
  | none => .ok (s, ENGINE_FAILED)
  | some es =>
    match resolve_handle s es with
    | none => .ok (s, ENGINE_FAILED)
    | some p => do
      let peh ← deref s p
      if peh.state = STATE_RUNNING then
        pure (store_es (store_handle s p { peh with refcount := peh.refcount + 1 }) cookie
                (some { es with reserved := es.reserved + 1 }), ENGINE_SUCCESS)
      else pure (s, ENGINE_FAILED)

/-- Release the cookie from the underlying system. The cookie must already be reserved
by a call to `bucket_engine_reserve_cookie`. -/
def bucket_engine_release_cookie (s : bucket_engine) (cookie : Nat) :
    Except String (bucket_engine × ENGINE_ERROR_CODE) :=
  match (get_conn s cookie).es with
  | none => .error "bucket_engine_release_cookie: assert(es != NULL)"
  | some es =>
    if ¬ 0 < es.reserved then .error "bucket_engine_release_cookie: assert(es->reserved > 0)"
    else
      match es.peh with
      | none => .error "bucket_engine_release_cookie: assert(es->peh != NULL)"
      | some p => do
        let peh ← deref s p
        let reserved := es.reserved - 1
        let last := es.notified && decide (reserved = 0)
        let s1 := if last = true then store_es s cookie none
          else store_es s cookie (some { es with reserved := reserved })
        let rc := if last = true then peh.refcount - 1 else peh.refcount
        if ¬ 0 < rc then .error "bucket_engine_release_cookie: assert(peh->refcount > 0)"
        else
          let peh1 := { peh with refcount := rc - 1 }
          let peh2 := if rc - 1 = 0 then maybe_start_engine_shutdown_LOCKED peh1 else peh1
          pure (store_handle s1 p peh2, ENGINE_SUCCESS)

/-- The command opcodes of a binary request as far as the bucket engine tells them
apart: its four commands, their aliases from the reserved range, and everything else. -/
inductive opcode_t where
  | CREATE_BUCKET
  | CREATE_BUCKET_DEPRECATED
  | DELETE_BUCKET
  | DELETE_BUCKET_DEPRECATED
  | LIST_BUCKETS
  | LIST_BUCKETS_DEPRECATED
  | SELECT_BUCKET
  | SELECT_BUCKET_DEPRECATED
  | OTHER (code : Nat)
  deriving DecidableEq

/-- A binary request: the header fields in host byte order and the bytes that follow
the header. `parse_force` is the outcome of the host's `parse_config` on the body of a
delete request: `none` when it reports an error, otherwise the value left in `force`. -/
structure protocol_binary_request_header where
  opcode : opcode_t
  keylen : Nat
  bodylen : Nat
  bytes : List Char
  parse_force : Option Bool
  deriving DecidableEq

/-- The macro `EXTRACT_KEY`: a zero-terminated copy of the key, read as a C string. -/
def EXTRACT_KEY (req : protocol_binary_request_header) : String :=
  String.mk (cstr (req.bytes.take (req.keylen % 2 ^ 16)))

/-- The `size_t` value `ntohl(bodylen) - ntohs(keylen)`. -/
def request_bodylen (req : protocol_binary_request_header) : Nat :=
  (req.bodylen % 2 ^ 32 + 2 ^ 64 - req.keylen % 2 ^ 16) % 2 ^ 64

/-- The zero-terminated copy of the bytes after the key, read as a C string. -/
def request_body (req : protocol_binary_request_header) : List Char :=
  cstr ((req.bytes.drop (req.keylen % 2 ^ 16)).take (request_bodylen req))

/-- Send a response through the `ADD_RESPONSE` callback. -/
def response (s : bucket_engine) (cookie : Nat) (key body : String)
    (status : protocol_binary_response_status) : bucket_engine :=
  { s with responses := s.responses ++
      [{ cookie := cookie, key := key, body := body, status := status }] }

/-- Store data of the proxied engine in the engine-specific section of the holder. -/
def bucket_store_engine_specific (s : bucket_engine) (cookie : Nat) (engine_data : Option Nat) :
    Except String bucket_engine :=
  match (get_conn s cookie).es with
  | none => .error "bucket_store_engine_specific: assert(es)"
  | some es => .ok (store_es s cookie (some { es with engine_specific := engine_data }))

/-- Get the data of the proxied engine from the engine-specific section of the holder. -/
def bucket_get_engine_specific (s : bucket_engine) (cookie : Nat) : Except String (Option Nat) :=
  match (get_conn s cookie).es with
  | none => .error "bucket_get_engine_specific: assert(es)"
  | some es => .ok es.engine_specific

/-- The status `handle_create_bucket` reports for a result of `create_bucket`. -/
def create_status (ret : ENGINE_ERROR_CODE) : protocol_binary_response_status :=
  match ret with
  | ENGINE_SUCCESS => PROTOCOL_BINARY_RESPONSE_SUCCESS
  | ENGINE_KEY_EEXISTS => PROTOCOL_BINARY_RESPONSE_KEY_EEXISTS
  | _ => PROTOCOL_BINARY_RESPONSE_NOT_STORED

/-- Implementation of the "CREATE" command. -/
def handle_create_bucket (s : bucket_engine) (cookie : Nat)
    (request : protocol_binary_request_header) (env : create_env) :
    Except String (bucket_engine × ENGINE_ERROR_CODE) :=
  let keyz := EXTRACT_KEY request
  if 2 ^ 16 ≤ request_bodylen request then .ok (s, ENGINE_DISCONNECT)
  else if request_body request = [] then
    .ok (response s cookie "Invalid request." "" PROTOCOL_BINARY_RESPONSE_EINVAL,
         ENGINE_SUCCESS)
  else do
    let r ← create_bucket s keyz env false (some 1024)
    pure (response r.1 cookie "" (r.2.msg.getD "") (create_status r.2.rv), ENGINE_SUCCESS)

/-- Implementation of the "DELETE" command. The first call (empty engine-specific
slot) requests the shutdown and returns ENGINE_EWOULDBLOCK, the call after the
notification sends the response. -/
def handle_delete_bucket (s : bucket_engine) (cookie : Nat)
    (request : protocol_binary_request_header) :
    Except String (bucket_engine × ENGINE_ERROR_CODE) := do
  let userdata ← bucket_get_engine_specific s cookie
  match userdata with
  | some _ => do
    let s1 ← bucket_store_engine_specific s cookie none
    pure (response s1 cookie "" "" PROTOCOL_BINARY_RESPONSE_SUCCESS, ENGINE_SUCCESS)
  | none =>
    let keyz := EXTRACT_KEY request
    if 2 ^ 16 ≤ request_bodylen request then .ok (s, ENGINE_DISCONNECT)
    else
      let parsed : Option Bool :=
        if request_body request = [] then some false else request.parse_force
      match parsed with
      | none =>
        .ok (response s cookie "Invalid config parameters" "" PROTOCOL_BINARY_RESPONSE_EINVAL,
             ENGINE_SUCCESS)
      | some force => do
        let f ← find_bucket s keyz
        match f.2 with
        | none =>
          pure (response f.1 cookie "" "Not found." PROTOCOL_BINARY_RESPONSE_KEY_ENOENT,
                ENGINE_SUCCESS)
        | some p => do
          let peh ← deref f.1 p
          let found := decide (peh.state = STATE_RUNNING)
          let peh1 ←
            if found = true then
              release_handle_locked
                { set_state { peh with cookie := some cookie } STATE_STOP_REQUESTED with
                  force_shutdown := force }
            else pure peh
          match (get_conn f.1 cookie).es with
          | none => .error "handle_delete_bucket: assert(es)"
          | some es => do
            let s1 := if es.peh = some p then store_es f.1 cookie (some { es with peh := none })
              else f.1
            let peh2 ← release_handle_locked peh1
            let s2 := store_handle s1 p peh2
            if found = true then do
              let s3 ← bucket_store_engine_specific s2 cookie (some 1)
              pure (s3, ENGINE_EWOULDBLOCK)
            else
              pure (response s2 cookie "" "Not found." PROTOCOL_BINARY_RESPONSE_KEY_ENOENT,
                    ENGINE_SUCCESS)

/-- The callback `add_engine` of `list_buckets`: a bucket that can be retained is put in
front of the list. -/
def add_engine (acc : bucket_engine × List (String × Nat)) (kv : String × Nat) :
    Except String (bucket_engine × List (String × Nat)) := do
  let r ← retain_handle acc.1 (some kv.2)
  match r.2 with
  | none => pure (r.1, acc.2)
  | some _ => pure (r.1, kv :: acc.2)

/-- Modelled from the spec: `genhash_iter` of the memcached genhash library (absent
from the sources), visiting the entries of the registry in the order they are kept. -/
def genhash_iter (s : bucket_engine) :
    List (String × Nat) → List (String × Nat) →
      Except String (bucket_engine × List (String × Nat))
  | [], blist => .ok (s, blist)
  | kv :: rest, blist => do
    let r ← add_engine (s, blist) kv
    genhash_iter r.1 rest r.2

/-- Accumulate the current bucket list. -/
def list_buckets (s : bucket_engine) : Except String (bucket_engine × List (String × Nat)) :=
  genhash_iter s s.engines []

/-- Release the handles of a bucket list. -/
def bucket_list_free (s : bucket_engine) : List (String × Nat) → Except String bucket_engine
  | [] => .ok s
  | kv :: rest => do
    let s' ← release_handle s (some kv.2)
    bucket_list_free s' rest

/-- The space-separated text built by `handle_list_buckets`. -/
def blist_txt : List (String × Nat) → String
  | [] => ""
  | [kv] => kv.1
  | kv :: rest => kv.1 ++ " " ++ blist_txt rest

/-- The counting loop of `handle_list_buckets`: the sum `len` of the name lengths and the
number `n` of entries of the bucket list. -/
def blist_len : List (String × Nat) → Nat × Nat
  | [] => (0, 0)
  | kv :: rest => (kv.1.length + (blist_len rest).1, (blist_len rest).2 + 1)

/-- Implementation of the "LIST" command: a single packet with the names of all the
buckets separated by the space character. The body handed to the response callback is
the first `n == 0 ? 0 : n + len - 1` characters of the text (`calloc` of the text is
taken to succeed, also for zero bytes). -/
def handle_list_buckets (s : bucket_engine) (cookie : Nat) :
    Except String (bucket_engine × ENGINE_ERROR_CODE) := do
  let l ← list_buckets s
  let len := (blist_len l.2).1
  let n := (blist_len l.2).2
  let txt := blist_txt l.2
  let s1 ← bucket_list_free l.1 l.2
  let bodylen := if n = 0 then 0 else (n + len) - 1
  pure (response s1 cookie "" (String.mk (txt.data.take bodylen))
    PROTOCOL_BINARY_RESPONSE_SUCCESS, ENGINE_SUCCESS)

/-- Implementation of the "SELECT" command: associate the cookie with the named
bucket. -/
def handle_select_bucket (s : bucket_engine) (cookie : Nat)
    (request : protocol_binary_request_header) :
    Except String (bucket_engine × ENGINE_ERROR_CODE) := do
  let keyz := EXTRACT_KEY request
  let f ← find_bucket s keyz
  let s1 ← set_engine_handle f.1 cookie f.2
  let s2 ← release_handle s1.1 f.2
  match f.2 with
  | some _ => pure (response s2 cookie "" "" PROTOCOL_BINARY_RESPONSE_SUCCESS, ENGINE_SUCCESS)
  | none =>
    pure (response s2 cookie "" "Engine not found" PROTOCOL_BINARY_RESPONSE_KEY_ENOENT,
          ENGINE_SUCCESS)

/-- Check if a command opcode is one of the commands bucket_engine implements. -/
def is_admin_command : opcode_t → Bool
  | opcode_t.OTHER _ => false
  | _ => true

/-- Check to see if this cookie is authorized as the admin user. -/
def is_authorized (s : bucket_engine) (cookie : Nat) : Bool :=
  if s.disable_auth = true then true
  else
    match s.admin_user with
    | none => false
    | some admin =>
      match (get_conn s cookie).auth_user with
      | none => false
      | some username => decide (username = admin)

/-- The shape shared by the wrappers that go through `get_engine_handle`: look up the
engine, call into it if it is running and leave again, otherwise disconnect the caller.
`ret` is the value the proxied engine returns. -/
def proxied_call (s : bucket_engine) (cookie : Nat) (op : engine_op) (ret : ENGINE_ERROR_CODE) :
    Except String (bucket_engine × ENGINE_ERROR_CODE) := do
  let g ← get_engine_handle s cookie
  match g.2 with
  | some p => do
    let s1 := log_call g.1 p op
    let s2 ← release_engine_handle s1 p
    pure (s2, ret)
  | none => pure (g.1, ENGINE_DISCONNECT)

/-- Implementation of the "item_allocate" function of the engine interface. -/
def bucket_item_allocate (s : bucket_engine) (cookie : Nat) (ret : ENGINE_ERROR_CODE) :
    Except String (bucket_engine × ENGINE_ERROR_CODE) :=
  proxied_call s cookie engine_op.allocate ret

/-- Implementation of the "item_delete" function of the engine interface. -/
def bucket_item_delete (s : bucket_engine) (cookie : Nat) (ret : ENGINE_ERROR_CODE) :
    Except String (bucket_engine × ENGINE_ERROR_CODE) :=
  proxied_call s cookie engine_op.remove ret

/-- Implementation of the "get" function of the engine interface. -/
def bucket_get (s : bucket_engine) (cookie : Nat) (ret : ENGINE_ERROR_CODE) :
    Except String (bucket_engine × ENGINE_ERROR_CODE) :=
  proxied_call s cookie engine_op.get ret

/-- Implementation of the "store" function of the engine interface. -/
def bucket_store (s : bucket_engine) (cookie : Nat) (ret : ENGINE_ERROR_CODE) :
    Except String (bucket_engine × ENGINE_ERROR_CODE) :=
  proxied_call s cookie engine_op.store ret

/-- Implementation of the "arithmetic" function of the engine interface. -/
def bucket_arithmetic (s : bucket_engine) (cookie : Nat) (ret : ENGINE_ERROR_CODE) :
    Except String (bucket_engine × ENGINE_ERROR_CODE) :=
  proxied_call s cookie engine_op.arithmetic ret

/-- Implementation of the "flush" function of the engine interface. -/
def bucket_flush (s : bucket_engine) (cookie : Nat) (ret : ENGINE_ERROR_CODE) :
    Except String (bucket_engine × ENGINE_ERROR_CODE) :=
  proxied_call s cookie engine_op.flush ret

/-- Implementation of the tap notify in the bucket engine. -/
def bucket_tap_notify (s : bucket_engine) (cookie : Nat) (ret : ENGINE_ERROR_CODE) :
    Except String (bucket_engine × ENGINE_ERROR_CODE) :=
  proxied_call s cookie engine_op.tap_notify ret

/-- Get bucket-engine specific statistics: the state name of every bucket, for an
authorized cookie. -/
def get_bucket_stats (s : bucket_engine) (cookie : Nat) : ENGINE_ERROR_CODE :=
  if is_authorized s cookie = true then ENGINE_SUCCESS else ENGINE_FAILED

/-- Implementation of the "get_stats" function of the engine interface; the stat key
"bucket" is intercepted. -/
def bucket_get_stats (s : bucket_engine) (cookie : Nat) (stat_key : String)
    (ret : ENGINE_ERROR_CODE) : Except String (bucket_engine × ENGINE_ERROR_CODE) :=
  if stat_key = "bucket" then .ok (s, get_bucket_stats s cookie)
  else proxied_call s cookie engine_op.get_stats ret

/-- The outcomes of the host and engine calls a command may make. -/
structure command_env where
  create : create_env
  ret : ENGINE_ERROR_CODE
  deriving DecidableEq

/-- Handle one of the "engine-specific" commands. Bucket-engine itself implements a
small subset of commands, for which the user needs to be authorized; all the other
commands are proxied to the underlying engine. -/
def bucket_unknown_command (s : bucket_engine) (cookie : Nat)
    (request : protocol_binary_request_header) (env : command_env) :
    Except String (bucket_engine × ENGINE_ERROR_CODE) :=
  if is_admin_command request.opcode = true then
    if is_authorized s cookie = true then
      match request.opcode with
      | opcode_t.CREATE_BUCKET => handle_create_bucket s cookie request env.create
      | opcode_t.CREATE_BUCKET_DEPRECATED => handle_create_bucket s cookie request env.create
      | opcode_t.DELETE_BUCKET => handle_delete_bucket s cookie request
      | opcode_t.DELETE_BUCKET_DEPRECATED => handle_delete_bucket s cookie request
      | opcode_t.LIST_BUCKETS => handle_list_buckets s cookie
      | opcode_t.LIST_BUCKETS_DEPRECATED => handle_list_buckets s cookie
      | opcode_t.SELECT_BUCKET => handle_select_bucket s cookie request
      | opcode_t.SELECT_BUCKET_DEPRECATED => handle_select_bucket s cookie request
      | opcode_t.OTHER _ => .error "bucket_unknown_command: assert(false)"
    else .ok (s, ENGINE_ENOTSUP)
  else proxied_call s cookie engine_op.unknown_command env.ret

/-- One section of `engine_shutdown_thread` for the thread with index `i` among those
started for the handle `p`. Program counter 0: the sanity checks, the `destroy` of the
engine and `pe.v1 = NULL`; 1: the unlink from the engine table; 2: the state becomes
STOPPED and the deleting cookie is notified; 3: once no reference is left the handle
is freed (the thread waits otherwise, which is reported as an error). -/
def engine_shutdown_thread (s : bucket_engine) (p i : Nat) : Except String bucket_engine := do
  let peh ← deref s p
  match peh.shutdown_threads[i]? with
  | none => .error "engine_shutdown_thread: no such thread"
  | some 0 =>
    if peh.state ≠ STATE_STOPPING then
      .error "engine_shutdown_thread: assert(peh->state == STATE_STOPPING)"
    else if peh.clients ≠ 0 then .error "engine_shutdown_thread: assert(peh->clients == 0)"
    else
      pure (store_handle
        (log_call s p (engine_op.destroy peh.force_shutdown)) p
        { peh with pe := false, shutdown_threads := peh.shutdown_threads.set i 1 })
  | some 1 => do
    let r ← genhash_delete_all s peh.name
    if r.2 ≠ 1 then .error "engine_shutdown_thread: assert(upd == 1)"
    else do
      let peh1 ← deref r.1 p
      pure (store_handle r.1 p
        { peh1 with shutdown_threads := peh1.shutdown_threads.set i 2 })
  | some 2 =>
    let s1 := match peh.cookie with
      | some c => { s with io_complete := s.io_complete ++ [c] }
      | none => s
    pure (store_handle s1 p
      { set_state peh STATE_STOPPED with shutdown_threads := peh.shutdown_threads.set i 3 })
  | some 3 =>
    if 0 < peh.refcount then .error "engine_shutdown_thread: waiting for the references"
    else
      pure (store_handle s p
        { peh with freed := true, shutdown_threads := peh.shutdown_threads.set i 4 })
  | some _ => .error "engine_shutdown_thread: the thread has ended"

/-- The events the host, the proxied engines and the scheduler can raise. -/
inductive label where
  | connect (cookie : Nat) (env : create_env)
  | auth (cookie : Nat) (username : String) (env : create_env)
  | disconnect (cookie : Nat)
  | disconnect_return (cookie : Nat)
  | register_callback (eh : Nat)
  | command (cookie : Nat) (request : protocol_binary_request_header) (env : command_env)
  | enter (cookie : Nat) (op : engine_op)
  | try_enter (cookie : Nat) (op : engine_op)
  | leave (cookie : Nat)
  | reserve (cookie : Nat)
  | release (cookie : Nat)
  | shutdown (p i : Nat)
  deriving DecidableEq

/-- The worker thread of the connection is neither inside an engine call nor in the
ON_DISCONNECT callback of an engine. -/
def idle (s : bucket_engine) (cookie : Nat) : Except String Unit :=
  match (get_conn s cookie).inside with
  | none =>
    match (get_conn s cookie).callback with
    | none => .ok ()
    | some _ => .error "the connection is in a disconnect callback"
  | some _ => .error "the connection is inside an engine call"

/-- Record whose ON_DISCONNECT callback the worker thread of the connection is
running. -/
def set_callback (s : bucket_engine) (cookie : Nat) (p : Option Nat) : bucket_engine :=
  set_conn s cookie { get_conn s cookie with callback := p }

/-- Record which engine the worker thread of the connection is calling into. -/
def set_inside (s : bucket_engine) (cookie : Nat) (p : Option Nat) : bucket_engine :=
  set_conn s cookie { get_conn s cookie with inside := p }

/-- One step of the system. The callbacks and commands of a connection run while its
worker thread is idle; `disconnect` runs `handle_disconnect` up to the call of the
engine's ON_DISCONNECT callback, which is made with no lock held and without counting
the caller in `clients`, or to its end when there is no callback to make, and
`disconnect_return` runs the rest once the callback has returned; `enter` is the first
half of a wrapper (the handle is acquired and the engine called), `leave` the second half
(`release_engine_handle`); `reserve`, `release` and `register_callback` are raised by a
proxied engine (the engines register their callback from their `initialize` handler,
which `create_bucket` calls: the step stands for that call when it follows the creation
of the bucket); `shutdown` runs a section of a teardown thread. -/
def step (s : bucket_engine) : label → Except String bucket_engine
  | label.connect cookie env => do
    idle s cookie
    handle_connect s cookie env
  | label.auth cookie username env => do
    idle s cookie
    handle_auth (set_conn s cookie { get_conn s cookie with auth_user := some username })
      cookie username env
  | label.disconnect cookie => do
    idle s cookie
    let cb ← handle_disconnect_callback s cookie
    match cb with
    | some p => pure (set_callback (log_call s p engine_op.on_disconnect) cookie (some p))
    | none => handle_disconnect s cookie
  | label.disconnect_return cookie =>
    match (get_conn s cookie).callback with
    | none => .error "the connection is not in a disconnect callback"
    | some p =>
      match (get_conn s cookie).inside with
      | none => handle_disconnect_release (set_callback s cookie none) cookie p
      | some _ => .error "the connection is inside an engine call"
  | label.register_callback eh => bucket_register_callback s eh
  | label.command cookie request env => do
    idle s cookie
    let r ← bucket_unknown_command s cookie request env
    pure r.1
  | label.enter cookie op => do
    idle s cookie
    let g ← get_engine_handle s cookie
    match g.2 with
    | some p => pure (set_inside (log_call g.1 p op) cookie (some p))
    | none => pure g.1
  | label.try_enter cookie op => do
    idle s cookie
    let g ← try_get_engine_handle s cookie
    match g.2 with
    | some p => pure (set_inside (log_call g.1 p op) cookie (some p))
    | none => pure g.1
  | label.leave cookie =>
    match (get_conn s cookie).inside with
    | none => .error "the connection is not inside an engine call"
    | some p => do
      let s1 ← release_engine_handle s p
      pure (set_inside s1 cookie none)
  | label.reserve cookie => do
    let r ← bucket_engine_reserve_cookie s cookie
    pure r.1
  | label.release cookie => do
    let r ← bucket_engine_release_cookie s cookie
    pure r.1
  | label.shutdown p i => engine_shutdown_thread s p i

/-- Run a sequence of steps. -/
def run (s : bucket_engine) : List label → Except String bucket_engine
  | [] => .ok s
  | l :: ls => do
    let s' ← step s l
    run s' ls

/-- The configuration `initialize_configuration` reads, with the bypass variable of the
environment. -/
structure config where
  has_default : Bool
  auto_create : Bool
  admin_user : Option String
  default_bucket_name : Option String
  disable_auth : Bool
  deriving DecidableEq

/-- The state after a successful `bucket_initialize`: an empty engine table and, if a
default engine is configured, an initialized and loaded `default_engine`. -/
def bucket_initialized (cfg : config) : bucket_engine :=
  { auto_create := cfg.auto_create, admin_user := cfg.admin_user,
    default_bucket_name := cfg.default_bucket_name, disable_auth := cfg.disable_auth,
    heap := [if cfg.has_default = true
      then { (init_engine_handle calloc_handle "" init_outcome.ok).1 with pe := true }
      else calloc_handle],
    engines := [], conns := [], calls := [], responses := [], io_complete := [] }

/-- The states the system can be in after `bucket_initialize`. -/
inductive Reachable (cfg : config) : bucket_engine → Prop where
  | init : Reachable cfg (bucket_initialized cfg)
  | step (s s' : bucket_engine) (l : label) :
      Reachable cfg s → step s l = .ok s' → Reachable cfg s'

/-- The characters a bucket name may consist of: ASCII letters, ASCII digits and the
four punctuation characters. -/
def legal_char (c : Char) : Prop :=
  ('a' ≤ c ∧ c ≤ 'z') ∨ ('A' ≤ c ∧ c ≤ 'Z') ∨ ('0' ≤ c ∧ c ≤ '9') ∨
    c = '.' ∨ c = '_' ∨ c = '%' ∨ c = '-'

/-- A configuration without default engine in which the authorization phase is
bypassed. -/
def sample_config : config :=
  { has_default := false, auto_create := false, admin_user := none,
    default_bucket_name := none, disable_auth := true }

/-- The allocator, the loader and the engine all succeed. -/
def env_ok : create_env :=
  { calloc_ok := true, init := init_outcome.ok, load_ok := true, initialize_ok := true }

/-- The engine module cannot be loaded. -/
def env_load_fails : create_env :=
  { calloc_ok := true, init := init_outcome.ok, load_ok := false, initialize_ok := true }

/-- A command whose host and engine calls all succeed. -/
def cmd_ok : command_env := { create := env_ok, ret := ENGINE_SUCCESS }

/-- A well-formed request with the given key and body. -/
def mk_request (op : opcode_t) (key body : String) : protocol_binary_request_header :=
  { opcode := op, keylen := key.length, bodylen := key.length + body.length,
    bytes := key.data ++ body.data, parse_force := some false }

/-- A loaded handle named "b" with the given state and counters. -/
def sample_handle (st : bucket_state_t) (refcount clients : Int) : proxied_engine_handle_t :=
  { name := "b", pe := true, wants_disconnects := false, force_shutdown := false,
    refcount := refcount, clients := clients, cookie := none, state := st,
    freed := false, trace := [], shutdown_threads := [] }

/-- A state with the handle `h` at address 1, registered as "b", and two connections:
cookie 0 attached to no bucket, cookie 1 attached to `h`. -/
def sample_state (h : proxied_engine_handle_t) : bucket_engine :=
  { bucket_initialized sample_config with
    heap := [calloc_handle, h]
    engines := [("b", 1)]
    conns := [{ es := some { peh := none, engine_specific := none, reserved := 0,
                              notified := false },
                auth_user := none, inside := none, callback := none },
              { es := some { peh := some 1, engine_specific := none, reserved := 0,
                              notified := false },
                auth_user := none, inside := none, callback := none }] }

/-- A run in which a connection holding a cookie reservation outlives its bucket:
cookies 0 and 1 connect, 0 creates "b", 1 selects "b", the engine reserves cookie 1,
0 deletes "b", 1 issues a get (and is told to disconnect) and is disconnected. -/
def reserved_cookie_scenario : List label :=
  [label.connect 0 env_ok, label.connect 1 env_ok,
   label.command 0 (mk_request opcode_t.CREATE_BUCKET "b" "kv") cmd_ok,
   label.command 1 (mk_request opcode_t.SELECT_BUCKET "b" "") cmd_ok,
   label.reserve 1,
   label.command 0 (mk_request opcode_t.DELETE_BUCKET "b" "") cmd_ok,
   label.enter 1 engine_op.get,
   label.disconnect 1]

/-- A run that leaves a bucket in teardown: cookie 0 connects, creates "b" and deletes
it again. -/
def delete_scenario : List label :=
  [label.connect 0 env_ok,
   label.command 0 (mk_request opcode_t.CREATE_BUCKET "b" "kv") cmd_ok,
   label.command 0 (mk_request opcode_t.DELETE_BUCKET "b" "") cmd_ok]

/-- The engine is loaded but its `initialize` fails. -/
def env_initialize_fails : create_env :=
  { calloc_ok := true, init := init_outcome.ok, load_ok := true, initialize_ok := false }

/-- The run `delete_scenario` followed by the first two sections of the teardown thread
of "b": the `destroy` of the engine and the unlink from the engine table. -/
def unlink_scenario : List label :=
  delete_scenario ++ [label.shutdown 1 0, label.shutdown 1 0]

/-- A run in which the engine of a new bucket fails to initialize. -/
def failed_initialize_scenario : List label :=
  [label.connect 0 env_ok,
   label.command 0 (mk_request opcode_t.CREATE_BUCKET "b" "kv")
     { create := env_initialize_fails, ret := ENGINE_SUCCESS }]

/-- A configuration with a default engine. -/
def default_config : config :=
  { has_default := true, auto_create := false, admin_user := none,
    default_bucket_name := none, disable_auth := false }

/-- A run in which two connections authenticate as a user that has no bucket, which
detaches them from the default engine, and then both call into the default engine. -/
def unattached_scenario : List label :=
  [label.connect 0 env_ok, label.connect 1 env_ok,
   label.auth 0 "nobody" env_ok, label.auth 1 "nobody" env_ok,
   label.enter 0 engine_op.get, label.enter 1 engine_op.get]

/-- A run that leaves a connection inside the engine of a named bucket: cookie 0
connects, creates "b", selects it and issues a get. -/
def call_scenario : List label :=
  [label.connect 0 env_ok,
   label.command 0 (mk_request opcode_t.CREATE_BUCKET "b" "kv") cmd_ok,
   label.command 0 (mk_request opcode_t.SELECT_BUCKET "b" "") cmd_ok,
   label.enter 0 engine_op.get]

/-- A run that leaves a bucket in teardown while a connection is still attached to it:
cookies 0 and 1 connect, 0 creates "b", 1 selects it, 0 deletes it and the teardown
thread destroys the engine (its unlink section has not run yet). -/
def held_delete_scenario : List label :=
  [label.connect 0 env_ok, label.connect 1 env_ok,
   label.command 0 (mk_request opcode_t.CREATE_BUCKET "b" "kv") cmd_ok,
   label.command 1 (mk_request opcode_t.SELECT_BUCKET "b" "") cmd_ok,
   label.command 0 (mk_request opcode_t.DELETE_BUCKET "b" "") cmd_ok,
   label.shutdown 1 0]

/-- A run in which a connection deletes the bucket it is attached to: cookie 0 connects,
creates "b", selects it and deletes it. -/
def own_delete_scenario : List label :=
  [label.connect 0 env_ok,
   label.command 0 (mk_request opcode_t.CREATE_BUCKET "b" "kv") cmd_ok,
   label.command 0 (mk_request opcode_t.SELECT_BUCKET "b" "") cmd_ok,
   label.command 0 (mk_request opcode_t.DELETE_BUCKET "b" "") cmd_ok]

/-- What follows a delete by cookie 0 until the handle at address 1 can be released: the
teardown thread destroys the engine, unlinks the bucket and notifies the deleting
connection, which completes its command and disconnects; then the thread looks at the
reference count. -/
def teardown_steps : List label :=
  [label.shutdown 1 0, label.shutdown 1 0, label.shutdown 1 0,
   label.command 0 (mk_request opcode_t.DELETE_BUCKET "b" "") cmd_ok,
   label.disconnect 0, label.shutdown 1 0]

/-- A run that leaves cookie 0 attached to the bucket "b" it created. -/
def select_scenario : List label :=
  [label.connect 0 env_ok,
   label.command 0 (mk_request opcode_t.CREATE_BUCKET "b" "kv") cmd_ok,
   label.command 0 (mk_request opcode_t.SELECT_BUCKET "b" "") cmd_ok]

/-- A run that leaves a connection in the ON_DISCONNECT callback of a bucket: cookies 0
and 1 connect, 0 creates "b", whose engine registers for disconnects, 1 selects "b" and is
disconnected; `handle_disconnect` finds the bucket RUNNING, drops the lock and calls the
engine. -/
def callback_scenario : List label :=
  [label.connect 0 env_ok, label.connect 1 env_ok,
   label.command 0 (mk_request opcode_t.CREATE_BUCKET "b" "kv") cmd_ok,
   label.register_callback 1,
   label.command 1 (mk_request opcode_t.SELECT_BUCKET "b" "") cmd_ok,
   label.disconnect 1]

/-- While the callback of `callback_scenario` runs, cookie 0 deletes "b" and the teardown
thread of "b" passes its sanity checks and destroys the engine. -/
def destroy_steps : List label :=
  [label.command 0 (mk_request opcode_t.DELETE_BUCKET "b" "") cmd_ok,
   label.shutdown 1 0]

/-- The values the state of a handle has held, oldest first. -/
def history (h : proxied_engine_handle_t) : List bucket_state_t :=
  (h.state :: h.trace).reverse

/-- The edges of the chain RUNNING, STOP_REQUESTED, STOPPING, STOPPED. -/
def chain_edge (a b : bucket_state_t) : Prop :=
  (a = STATE_RUNNING ∧ b = STATE_STOP_REQUESTED) ∨
  (a = STATE_STOP_REQUESTED ∧ b = STATE_STOPPING) ∨
  (a = STATE_STOPPING ∧ b = STATE_STOPPED)

/-- Every change of the state of the handle followed an edge of the chain. -/
def follows_chain (h : proxied_engine_handle_t) : Prop :=
  List.Chain' chain_edge (history h)

/-- The stages of the life of a handle: its state, the states it has been through and
the teardown threads started for it. In order: running; stop requested; stopping with
the teardown thread before its `destroy` or before its unlink; unlinked (STATE_NULL
left by `engine_hash_free`); stopped, waiting for the references or freed; a handle
whose engine failed to initialize; the zeroed `default_engine`. Outside RUNNING and
STOP_REQUESTED no client is inside the engine. -/
def lifecycle_ok (h : proxied_engine_handle_t) : Prop :=
  (h.state, h.trace, h.shutdown_threads) ∈
    [(STATE_RUNNING, [], []),
     (STATE_STOP_REQUESTED, [STATE_RUNNING], []),
     (STATE_STOPPING, [STATE_STOP_REQUESTED, STATE_RUNNING], [0]),
     (STATE_STOPPING, [STATE_STOP_REQUESTED, STATE_RUNNING], [1]),
     (STATE_NULL, [STATE_STOPPING, STATE_STOP_REQUESTED, STATE_RUNNING], [2]),
     (STATE_STOPPED, [STATE_NULL, STATE_STOPPING, STATE_STOP_REQUESTED, STATE_RUNNING], [3]),
     (STATE_STOPPED, [STATE_NULL, STATE_STOPPING, STATE_STOP_REQUESTED, STATE_RUNNING], [4]),
     (STATE_NULL, [STATE_RUNNING], []),
     (STATE_NULL, [], [])] ∧
  (h.state ≠ STATE_RUNNING → h.state ≠ STATE_STOP_REQUESTED → h.clients = 0)

/-- The stages in which a handle that was deleted is still linked in the engine
table. -/
def registered_phase (h : proxied_engine_handle_t) : Prop :=
  h.state = STATE_STOP_REQUESTED ∨ h.state = STATE_STOPPING

/-- The number of connections whose worker thread is inside the engine of `p`. -/
def inside_count (s : bucket_engine) (p : Nat) : Nat :=
  s.conns.countP (fun c => decide (c.inside = some p))

/-- The field `clients` of the handle at `p` (0 where there is no handle). -/
def clients_of (s : bucket_engine) (p : Nat) : Int :=
  match s.heap[p]? with
  | some h => h.clients
  | none => 0

/-- The invariant of the reachable states: every handle is at a stage of its life; the
engine table maps a name to a handle of that name, has no key twice and links every
handle that is being deleted and not yet unlinked; `clients` counts the connections
inside the engine. -/
structure Inv (s : bucket_engine) : Prop where
  life : ∀ (p : Nat) (h : proxied_engine_handle_t), s.heap[p]? = some h → lifecycle_ok h
  named : ∀ (n : String) (q : Nat), (n, q) ∈ s.engines →
    ∃ h, s.heap[q]? = some h ∧ h.name = n
  registered : ∀ (q : Nat) (h : proxied_engine_handle_t), s.heap[q]? = some h →
    registered_phase h → (h.name, q) ∈ s.engines
  nodup : (s.engines.map Prod.fst).Nodup
  clients : ∀ p : Nat, clients_of s p = inside_count s p

/-- What an operation that neither creates nor unlinks a bucket and neither enters nor
leaves an engine may do to a handle. -/
def hstep (h h' : proxied_engine_handle_t) : Prop :=
  h'.name = h.name ∧ h'.clients = h.clients ∧ (lifecycle_ok h → lifecycle_ok h') ∧
  (registered_phase h' → registered_phase h)

/-- What an operation that neither creates nor unlinks a bucket and neither enters nor
leaves an engine may do to the state. -/
def gstep (s s' : bucket_engine) : Prop :=
  s'.engines = s.engines ∧ (∀ p, inside_count s' p = inside_count s p) ∧
  s'.heap.length = s.heap.length ∧
  ∀ (p : Nat) (h : proxied_engine_handle_t), s.heap[p]? = some h →
    ∃ h', s'.heap[p]? = some h' ∧ hstep h h'

/-- The histories a handle can have: the states of a teardown in the order
RUNNING, STOP_REQUESTED, STOPPING, NULL, STOPPED up to any point, the handle whose engine
failed to initialize (unlinked while RUNNING), and the zeroed handle. -/
def lifecycle_histories : List (List bucket_state_t) :=
  [[STATE_RUNNING],
   [STATE_RUNNING, STATE_STOP_REQUESTED],
   [STATE_RUNNING, STATE_STOP_REQUESTED, STATE_STOPPING],
   [STATE_RUNNING, STATE_STOP_REQUESTED, STATE_STOPPING, STATE_NULL],
   [STATE_RUNNING, STATE_STOP_REQUESTED, STATE_STOPPING, STATE_NULL, STATE_STOPPED],
   [STATE_RUNNING, STATE_NULL],
   [STATE_NULL]]


/-- The connection is attached to the handle `p` (`es->peh == p`). -/
def points_at (p : Nat) (c : conn_t) : Bool :=
  match c.es with
  | some es => decide (es.peh = some p)
  | none => false

/-- The number of connections attached to the handle `p`. -/
def attached (s : bucket_engine) (p : Nat) : Nat :=
  s.conns.countP (points_at p)

/-- The references to a handle besides the one the engine table holds on a running
bucket. -/
def due (h : proxied_engine_handle_t) : Int :=
  h.refcount - (if h.state = STATE_RUNNING then 1 else 0)

/-- The value of `due` for the handle at `p` (0 where there is no handle). -/
def due_of (s : bucket_engine) (p : Nat) : Int :=
  match s.heap[p]? with
  | some h => due h
  | none => 0

/-- The references to the handle at `p` that are held by neither the engine table nor
an attached connection. -/
def slack (s : bucket_engine) (p : Nat) : Int :=
  due_of s p - attached s p

/-- A connection holds no cookie reservation, while its worker thread is inside the
engine of a named bucket the connection is attached to that bucket, and while the thread
is in the ON_DISCONNECT callback of a bucket the connection is attached to that
bucket. -/
def conn_ok (v : conn_t) : Prop :=
  (∀ es : engine_specific_t, v.es = some es → es.reserved = 0) ∧
  (∀ p : Nat, v.inside = some p → p ≠ 0 → points_at p v = true) ∧
  (∀ p : Nat, v.callback = some p → points_at p v = true)

/-- The worker thread of the connection is neither inside an engine call nor in a
disconnect callback. -/
def quiet (v : conn_t) : Prop :=
  v.inside = none ∧ v.callback = none

/-- What an operation run for the idle connection `c` does to the accounting of
references: the connection stays idle, the connections stay well-formed and the slack of
every named handle grows at least by `d`. -/
def acct_step (c : Nat) (d : Nat → Int) (s s' : bucket_engine) : Prop :=
  quiet (get_conn s c) → (∀ c' : Nat, conn_ok (get_conn s c')) →
    quiet (get_conn s' c) ∧ (∀ c' : Nat, conn_ok (get_conn s' c')) ∧
    ∀ q : Nat, q ≠ 0 → slack s q + d q ≤ slack s' q

/-- The accounting invariant of the states reached without cookie reservations: every
connection is well-formed and the reference count of a named handle covers the
connections attached to it and, while the bucket is RUNNING, the engine table. -/
structure Acct (s : bucket_engine) : Prop where
  conns : ∀ c : Nat, conn_ok (get_conn s c)
  refs : ∀ q : Nat, q ≠ 0 → 0 ≤ slack s q

/-- The events of the cookie reservation interface. -/
def is_reservation : label → Bool
  | label.reserve _ => true
  | label.release _ => true
  | _ => false

/-- The states the system can be in after `bucket_initialize` when no proxied engine
reserves a cookie. -/
inductive ReachableUnreserved (cfg : config) : bucket_engine → Prop where
  | init : ReachableUnreserved cfg (bucket_initialized cfg)
  | step (s s' : bucket_engine) (l : label) :
      ReachableUnreserved cfg s → is_reservation l = false → step s l = .ok s' →
      ReachableUnreserved cfg s'

/-- The handle behind an entry of the engine table is RUNNING. -/
def is_running (s : bucket_engine) (kv : String × Nat) : Bool :=
  match s.heap[kv.2]? with
  | some h => decide (h.state = STATE_RUNNING)
  | none => false

/-- The handle at `p` is allocated, not released, and its reference count is not
negative. -/
def live (s : bucket_engine) (p : Nat) : Prop :=
  ∃ h, s.heap[p]? = some h ∧ h.freed = false ∧ 0 ≤ h.refcount

/-- One more reference on the handle at `p`. -/
def inc (s : bucket_engine) (p : Nat) : bucket_engine :=
  match s.heap[p]? with
  | some h => store_handle s p { h with refcount := h.refcount + 1 }
  | none => s

/-- One more reference on each handle of the list, in order. -/
def bump (s : bucket_engine) : List Nat → bucket_engine
  | [] => s
  | p :: ps => bump (inc s p) ps

/-- The names `handle_list_buckets` reports: the keys of the RUNNING entries of the
engine table, the entry visited last first. -/
def running_names (s : bucket_engine) : List String :=
  ((s.engines.filter (is_running s)).map Prod.fst).reverse

end BucketEngine

/-!
# The proxy (`moxi`): reconfiguration, multiget de-duplication, not-my-vbucket retry

A shallow embedding of `agent_config.c`, `cproxy_multiget.c`, `cproxy_protocol_a.c` and
`cproxy_protocol_b2b.c`.

Conventions of the embedding

* a `char *` that may be `NULL` is an `Option String`, an array that may be `NULL` an
  `Option (List _)`; a character of a `String` stands for a byte;
* `malloc`, `calloc` and `strdup` of the C library and `add_conn_item`, `add_conn_suffix`
  and `add_iov` of the host are taken to succeed, except where the embedding names an
  oracle for them (`calloc_ok`, `add_conn_item_ok`, `add_iov_ok`);
* `uint32_t` and `uint64_t` arithmetic is written with an explicit `% 2 ^ 32`, `% 2 ^ 64`;
  C `int` values that only hold sizes and ports are `Int`;
* `assert` failures are `Except.error`; assertions about connection fields that the
  embedding does not carry (protocol flags, reference counts) are left out;
* the proxy list is a `List proxy` whose head is `proxy_head`; the locks are left out, every
  function running on the listener thread is atomic;
* log output and the verbosity setting are left out.
-/

namespace Moxi

/-- The modulus of `uint32_t`. -/
def UINT32 : Nat := 2 ^ 32

/-- The modulus of `uint64_t`. -/
def UINT64 : Nat := 2 ^ 64

/-- The name of the bucket that clients start in when no default bucket exists
(`cproxy.h`). -/
def NULL_BUCKET : String := "[ <NULL_BUCKET> ]"

/-- The value of the cas field of an item that carries no cas (`cproxy.h`,
`UINT64_MAX`). -/
def CPROXY_NOT_CAS : Nat := 2 ^ 64 - 1

/-- The fields of `struct proxy_behavior` that the embedded code reads or writes; the
timeouts, limits and protocol choice, which it only copies along, are left out. -/
structure proxy_behavior where
  downstream_weight : Nat
  downstream_retry : Nat
  front_cache_max : Nat
  front_cache_lifespan : Nat
  front_cache_spec : String
  front_cache_unspec : String
  key_stats_max : Nat
  key_stats_lifespan : Nat
  key_stats_spec : String
  key_stats_unspec : String
  optimize_set : String
  usr : String
  pwd : String
  host : String
  port : Int
  nodeLocator : String
  port_listen : Int
  deriving DecidableEq

/-- The `struct proxy_behavior_pool`: pool-level behavior and the array of server-level
behaviors. -/
structure proxy_behavior_pool where
  base : proxy_behavior
  num : Int
  arr : Option (List proxy_behavior)
  deriving DecidableEq

/-- An `item` as far as the proxy looks at it: key, size of the data block, whether the
data block ends in `"\r\n"`, and the cas value. -/
structure item where
  key : String
  nbytes : Nat
  crlf : Bool
  cas : Nat
  deriving DecidableEq

/-- Modelled from the spec: the front cache `mcache` is a map that exists only between
`start(max)` and `stop()`; `map` lists the cached items, newest first. -/
structure mcache where
  map : Option (List item)
  max : Nat
  deriving DecidableEq

/-- Modelled from the spec: `mcache_start` allocates the map; a started cache is left as
it is. -/
def mcache_start (m : mcache) (max : Nat) : mcache :=
  match m.map with
  | some _ => m
  | none => { map := some [], max := max }

/-- Modelled from the spec: `mcache_stop` frees the map with everything in it. -/
def mcache_stop (_m : mcache) : mcache :=
  { map := none, max := 0 }

/-- Modelled from the spec: a `matcher` holds the comma-separated prefix spec it was
started with, and nothing while stopped. -/
structure matcher where
  spec : Option String
  deriving DecidableEq

/-- Modelled from the spec: `matcher_start` installs the spec. -/
def matcher_start (_m : matcher) (spec : String) : matcher :=
  { spec := some spec }

/-- Modelled from the spec: `matcher_stop` drops the spec. -/
def matcher_stop (_m : matcher) : matcher :=
  { spec := none }

/-- The configuration part of `struct proxy_td`, the per-worker copy of a pool. -/
structure proxy_td where
  config_ver : Nat
  config : Option String
  behavior_pool : proxy_behavior_pool
  key_stats : mcache
  key_stats_matcher : matcher
  key_stats_unmatcher : matcher
  deriving DecidableEq

/-- The `struct proxy`, one pool. `queued` is a ghost field: the indices of the worker
threads to which an `update_ptd_config` work item has been sent and not yet run. -/
structure proxy where
  port : Int
  name : Option String
  config : Option String
  config_ver : Nat
  behavior_pool : proxy_behavior_pool
  front_cache : mcache
  front_cache_matcher : matcher
  front_cache_unmatcher : matcher
  optimize_set_matcher : matcher
  thread_data : List proxy_td
  queued : List Nat
  deriving DecidableEq

/-- The `struct proxy_main`: the default behavior, the list of pools and the counters of
the listener thread. -/
structure proxy_main where
  behavior : proxy_behavior
  proxy_head : List proxy
  nthreads : Nat
  stat_configs : Nat
  stat_config_fails : Nat
  stat_proxy_starts : Nat
  stat_proxy_start_fails : Nat
  stat_proxy_existings : Nat
  stat_proxy_shutdowns : Nat
  deriving DecidableEq

/-- The C library's `isspace` in the "C" locale. -/
def isspace (c : Char) : Bool :=
  c == ' ' || (9 ≤ c.toNat && c.toNat ≤ 13)

/-- Modelled from the spec: `trimstrdup` returns a copy of its argument without the
leading and trailing whitespace. -/
def trimstrdup (s : String) : String :=
  String.mk (((s.data.dropWhile isspace).reverse.dropWhile isspace).reverse)

/-- The function `update_str_config`: the stored string is released when it differs from
`next` (or `next` is `NULL`), and a trimmed copy of `next` is stored when nothing is
stored. Returns the stored string and whether a stored string was released. -/
def update_str_config (curr next : Option String) : Option String × Bool :=
  let r : Option String × Bool :=
    if curr ≠ none ∧ (next = none ∨ curr ≠ next) then (none, true) else (curr, false)
  let c : Option String :=
    if r.1 = none ∧ next ≠ none then next.map trimstrdup else r.1
  (c, r.2)

/-- Modelled from the spec: `cproxy_equal_behaviors` compares two behavior arrays, equal
when they have the same size and the same entries. -/
def cproxy_equal_behaviors (x_size : Int) (x : List proxy_behavior) (y_size : Int)
    (y : List proxy_behavior) : Bool :=
  decide (x_size = y_size) && decide (x.take x_size.toNat = y.take y_size.toNat)

/-- Modelled from the spec: `cproxy_equal_behavior` compares two behaviors field by
field. -/
def cproxy_equal_behavior (x y : proxy_behavior) : Bool :=
  decide (x = y)

/-- Modelled from the spec: `cproxy_copy_behaviors` returns a fresh array holding the
first `size` entries of `arr`. -/
def cproxy_copy_behaviors (size : Int) (arr : List proxy_behavior) : List proxy_behavior :=
  arr.take size.toNat

/-- The function `update_behaviors_config`: as `update_str_config`, for the array of
server behaviors and its size. Returns the stored array, its size, and whether a stored
array was released. -/
def update_behaviors_config (curr : Option (List proxy_behavior)) (curr_num : Int)
    (next : Option (List proxy_behavior)) (next_num : Int) :
    Option (List proxy_behavior) × Int × Bool :=
  let released : Bool :=
    match curr with
    | none => false
    | some c =>
      match next with
      | none => true
      | some n => !cproxy_equal_behaviors curr_num c next_num n
  let r : Option (List proxy_behavior) × Int :=
    if released then (none, 0) else (curr, curr_num)
  if r.1 = none then
    match next with
    | some n => (some (cproxy_copy_behaviors next_num n), next_num, released)
    | none => (r.1, r.2, released)
  else (r.1, r.2, released)

/-- The restart of the front cache and of the three pool matchers at the end of
`cproxy_on_config_pool`, from the pool-level behavior `base`. -/
def restart_front_cache (p : proxy) (base : proxy_behavior) : proxy :=
  let p1 : proxy :=
    if base.front_cache_max > 0 ∧ base.front_cache_lifespan > 0 then
      let q : proxy := { p with front_cache := mcache_start p.front_cache base.front_cache_max }
      let q1 : proxy :=
        if base.front_cache_spec.length > 0 then
          { q with front_cache_matcher :=
              matcher_start q.front_cache_matcher base.front_cache_spec }
        else q
      if base.front_cache_unspec.length > 0 then
        { q1 with front_cache_unmatcher :=
            matcher_start q1.front_cache_unmatcher base.front_cache_unspec }
      else q1
    else p
  if base.optimize_set.length > 0 then
    { p1 with optimize_set_matcher := matcher_start p1.optimize_set_matcher base.optimize_set }
  else p1

/-- The restart of the key-stats cache and its matchers in `update_ptd_config`. -/
def restart_key_stats (ptd : proxy_td) : proxy_td :=
  let t : proxy_td :=
    { ptd with
      key_stats := mcache_stop ptd.key_stats
      key_stats_matcher := matcher_stop ptd.key_stats_matcher
      key_stats_unmatcher := matcher_stop ptd.key_stats_unmatcher }
  if t.config ≠ none ∧ t.behavior_pool.base.key_stats_max > 0 ∧
      t.behavior_pool.base.key_stats_lifespan > 0 then
    let t1 : proxy_td :=
      { t with key_stats := mcache_start t.key_stats t.behavior_pool.base.key_stats_max }
    let t2 : proxy_td :=
      if t1.behavior_pool.base.key_stats_spec.length > 0 then
        { t1 with key_stats_matcher :=
            matcher_start t1.key_stats_matcher t1.behavior_pool.base.key_stats_spec }
      else t1
    if t2.behavior_pool.base.key_stats_unspec.length > 0 then
      { t2 with key_stats_unmatcher :=
          matcher_start t2.key_stats_unmatcher t2.behavior_pool.base.key_stats_unspec }
    else t2
  else t

/-- The work item `update_ptd_config` run by a worker for its `ptd` of pool `p`: when the
versions differ the pool's configuration is copied, and the key-stats cache is restarted
when a stored string or array was released. Returns the new `ptd` and whether the
key stats were restarted. -/
def update_ptd_config (p : proxy) (ptd : proxy_td) : proxy_td × Bool :=
  if ptd.config_ver ≠ p.config_ver then
    let c := update_str_config ptd.config p.config
    let b := update_behaviors_config ptd.behavior_pool.arr ptd.behavior_pool.num
      p.behavior_pool.arr p.behavior_pool.num
    let changed : Bool := c.2 || b.2.2
    let t : proxy_td :=
      { ptd with
        config_ver := p.config_ver
        config := c.1
        behavior_pool := { base := p.behavior_pool.base, num := b.2.1, arr := b.1 } }
    if changed then (restart_key_stats t, true) else (t, false)
  else (ptd, false)

/-- Modelled from the spec: the JSON values of the cJSON library, by their type tag. -/
inductive cJSON where
  | cJSON_False
  | cJSON_True
  | cJSON_NULL
  | cJSON_Number (valueint : Int)
  | cJSON_String (valuestring : String)
  | cJSON_Array (items : List cJSON)
  | cJSON_Object (items : List (String × cJSON))

/-- The functions of the libraries and of the host that the reconfiguration code calls and
that lie outside the embedded sources. Every theorem holds for each choice of them.

* `cJSON_Parse`, `cJSON_Print`, `cJSON_GetObjectItem`: the cJSON library;
* `vbucket_config_parse_string`: libvbucket; the result, when the text is accepted, is the
  server list that `vbucket_config_get_num_servers` and `vbucket_config_get_server` read;
* `cproxy_create_ok name port`: whether `cproxy_create` can allocate a pool of that name on
  that port;
* `cproxy_listen name port`: the number of listening connections `cproxy_listen` opens. -/
structure host_env where
  cJSON_Parse : String → Option cJSON
  cJSON_Print : cJSON → Option String
  cJSON_GetObjectItem : cJSON → String → Option cJSON
  vbucket_config_parse_string : String → Option (List String)
  cproxy_create_ok : String → Int → Bool
  cproxy_listen : String → Int → Int

/-- Modelled from the spec: a fresh `proxy_td` of a pool being created holds the pool's
configuration, with the key-stats cache started when the behavior asks for it. -/
def cproxy_create_td (config : Option String) (config_ver : Nat)
    (bp : proxy_behavior_pool) : proxy_td :=
  let t : proxy_td :=
    { config_ver := config_ver
      config := config.map trimstrdup
      behavior_pool :=
        { base := bp.base, num := bp.num, arr := bp.arr.map (cproxy_copy_behaviors bp.num) }
      key_stats := { map := none, max := 0 }
      key_stats_matcher := { spec := none }
      key_stats_unmatcher := { spec := none } }
  if t.behavior_pool.base.key_stats_max > 0 ∧ t.behavior_pool.base.key_stats_lifespan > 0 then
    let t1 : proxy_td :=
      { t with key_stats := mcache_start t.key_stats t.behavior_pool.base.key_stats_max }
    let t2 : proxy_td :=
      if t1.behavior_pool.base.key_stats_spec.length > 0 then
        { t1 with key_stats_matcher :=
            matcher_start t1.key_stats_matcher t1.behavior_pool.base.key_stats_spec }
      else t1
    if t2.behavior_pool.base.key_stats_unspec.length > 0 then
      { t2 with key_stats_unmatcher :=
          matcher_start t2.key_stats_unmatcher t2.behavior_pool.base.key_stats_unspec }
    else t2
  else t

/-- Modelled from the spec: `cproxy_create` builds a pool with the given name, port and
version, a trimmed copy of the config string, a copy of the behaviors, the front cache and
matchers started as the behavior asks, and one `proxy_td` per thread. -/
def cproxy_create (name : String) (port : Int) (config : Option String) (config_ver : Nat)
    (bp : proxy_behavior_pool) (nthreads : Nat) : proxy :=
  restart_front_cache
    { port := port
      name := some name
      config := config.map trimstrdup
      config_ver := config_ver
      behavior_pool :=
        { base := bp.base, num := bp.num, arr := bp.arr.map (cproxy_copy_behaviors bp.num) }
      front_cache := { map := none, max := 0 }
      front_cache_matcher := { spec := none }
      front_cache_unmatcher := { spec := none }
      optimize_set_matcher := { spec := none }
      thread_data := List.replicate nthreads (cproxy_create_td config config_ver bp)
      queued := [] }
    bp.base

/-- The search loop of `cproxy_on_config_pool`: the position of the first pool with the
given port and name. Every pool visited must pass `assert(p->port > 0)` and
`assert(p->name != NULL)`. -/
def find_proxy (name : String) (port : Int) : List proxy → Except String (Option Nat)
  | [] => pure none
  | p :: rest =>
    if p.port > 0 ∧ p.name ≠ none then
      if p.port = port ∧ p.name = some name then pure (some 0)
      else do
        let r ← find_proxy name port rest
        pure (r.map (fun i => i + 1))
    else throw "assert(p->port > 0); assert(p->name != NULL)"

/-- The branch of `cproxy_on_config_pool` for a pool `p` that exists: the front cache and
the matchers are stopped, config string and behaviors are updated, the version is set
(it must differ from the pool's), the front cache and matchers are restarted unless the
pool is shut down, and an `update_ptd_config` item is sent to every worker thread
`1 .. nthreads - 1`. Returns the pool and whether it counts as shut down. -/
def on_config_pool_existing (p : proxy) (config : Option String) (config_ver : Nat)
    (bp : proxy_behavior_pool) (nthreads : Nat) : Except String (proxy × Bool) :=
  let p1 : proxy :=
    { p with
      front_cache := mcache_stop p.front_cache
      front_cache_matcher := matcher_stop p.front_cache_matcher
      front_cache_unmatcher := matcher_stop p.front_cache_unmatcher
      optimize_set_matcher := matcher_stop p.optimize_set_matcher }
  let c := update_str_config p1.config config
  let b := update_behaviors_config p1.behavior_pool.arr p1.behavior_pool.num bp.arr bp.num
  let p2 : proxy :=
    { p1 with
      config := c.1
      behavior_pool := { base := bp.base, num := b.2.1, arr := b.1 } }
  let shutdown_flag : Bool := !(p2.config ≠ none ∧ p2.behavior_pool.arr ≠ none)
  if config_ver ≠ p2.config_ver then
    let p3 : proxy := { p2 with config_ver := config_ver }
    let p4 : proxy := if shutdown_flag then p3 else restart_front_cache p3 bp.base
    pure ({ p4 with queued := p4.queued ++ List.range' 1 (nthreads - 1) }, shutdown_flag)
  else throw "assert(config_ver != p->config_ver)"

/-- The function `cproxy_on_config_pool(m, name, port, config, config_ver, behavior_pool)`:
a pool of that name and port is created and put at the head of the list when there is
none, and updated in place otherwise. -/
def cproxy_on_config_pool (env : host_env) (m : proxy_main) (name : String) (port : Int)
    (config : Option String) (config_ver : Nat) (bp : proxy_behavior_pool) :
    Except String proxy_main := do
  if ¬ port ≥ 0 then throw "assert(port >= 0)"
  let found ← find_proxy name port m.proxy_head
  match found with
  | none =>
    if env.cproxy_create_ok name port then
      let p := cproxy_create name port config config_ver bp m.nthreads
      let m1 : proxy_main := { m with proxy_head := p :: m.proxy_head }
      if env.cproxy_listen name port > 0 then
        pure { m1 with stat_proxy_starts := (m1.stat_proxy_starts + 1) % UINT64 }
      else
        pure { m1 with stat_proxy_start_fails := (m1.stat_proxy_start_fails + 1) % UINT64 }
    else pure m
  | some i =>
    match m.proxy_head.get? i with
    | none => throw "unreachable"
    | some p =>
      let r ← on_config_pool_existing p config config_ver bp m.nthreads
      let m1 : proxy_main := { m with proxy_head := m.proxy_head.set i r.1 }
      if r.2 then
        pure { m1 with stat_proxy_shutdowns := (m1.stat_proxy_shutdowns + 1) % UINT64 }
      else
        pure { m1 with stat_proxy_existings := (m1.stat_proxy_existings + 1) % UINT64 }

/-- The digits read by the C library's `atoi`. -/
def atoi_digits : List Char → Nat → Nat
  | [], acc => acc
  | c :: cs, acc => if c.isDigit then atoi_digits cs (acc * 10 + (c.toNat - 48)) else acc

/-- The C library's `atoi`: leading whitespace, an optional sign, then digits (values
outside the range of `int` are not modelled). -/
def atoi (s : List Char) : Int :=
  match s.dropWhile isspace with
  | '-' :: r => - (atoi_digits r 0 : Int)
  | '+' :: r => (atoi_digits r 0 : Int)
  | t => (atoi_digits t 0 : Int)

/-- The function `cproxy_parse_json_auth`: the user of the pool behavior is the pool name
(cut to the size of the field), the password the `saslPassword` string of the config when
there is one. -/
def cproxy_parse_json_auth (env : host_env) (config name : String)
    (base : proxy_behavior) : proxy_behavior :=
  let b : proxy_behavior := { base with usr := String.mk (name.data.take 249) }
  match env.cJSON_Parse config with
  | some jConfig =>
    match env.cJSON_GetObjectItem jConfig "saslPassword" with
    | some (cJSON.cJSON_String v) => { b with pwd := String.mk (v.data.take 899) }
    | _ => b
  | none => b

/-- One round of the server loops of the JSON parsers for a `"host:port"` string: the
server behavior inherits `base`, the host is the text before the first colon and the port
the number after it; `none` stands for the `break` of a malformed entry. -/
def parse_hostport (base : proxy_behavior) (hostport : String) : Option proxy_behavior :=
  if hostport.length > 0 ∧ hostport.length < 249 then
    match hostport.data.dropWhile (fun c => c ≠ ':') with
    | [] => none
    | _ :: rest =>
      if atoi rest > 0 then
        some { base with
          host := String.mk (hostport.data.takeWhile (fun c => c ≠ ':'))
          port := atoi rest }
      else none
  else none

/-- The behavior pool that `cproxy_on_config_json_one_vbucket` builds from a config, the
default behavior and the pool name: the config is handed to libvbucket; the listen port
must be positive, the server list not empty and every server a well-formed `host:port`.
`none` when the function gives up. -/
def vbucket_behavior_pool (env : host_env) (behavior : proxy_behavior) (config name : String) :
    Option proxy_behavior_pool :=
  match env.vbucket_config_parse_string config with
  | some servers =>
    let proxyb : proxy_behavior := { behavior with nodeLocator := "vbucket" }
    let pool_port : Int := proxyb.port_listen
    let nodes_num : Int := servers.length
    if pool_port > 0 ∧ nodes_num > 0 then
      let base := cproxy_parse_json_auth env config name proxyb
      match servers.mapM (parse_hostport base) with
      | some arr => some { base := base, num := nodes_num, arr := some arr }
      | none => none
    else none
  | none => none

/-- The function `cproxy_on_config_json_one_vbucket`: when the behavior pool can be built,
`cproxy_on_config_pool` is called with it, the listen port and the whole config text.
Returns the state and the function's result. -/
def cproxy_on_config_json_one_vbucket (env : host_env) (m : proxy_main)
    (new_config_ver : Nat) (config name : String) : Except String (proxy_main × Bool) :=
  match vbucket_behavior_pool env m.behavior config name with
  | some bp => do
    let m1 ← cproxy_on_config_pool env m name m.behavior.port_listen (some config)
      new_config_ver bp
    pure (m1, true)
  | none => pure (m, false)

/-- The outcome of one round of the node loop of `cproxy_on_config_json_one_ketama`. -/
inductive node_result where
  | broken
  | skipped
  | added (b : proxy_behavior)

/-- One round of the node loop of `cproxy_on_config_json_one_ketama`: a string node is a
`"host:port"`; an object node is skipped when it has a `status` string other than
`"healthy"`, and otherwise needs a `hostname` string shorter than 249 and a positive number
`ports.direct`; the host is the hostname cut at the first colon. -/
def ketama_node (env : host_env) (base : proxy_behavior) (jNode : cJSON) : node_result :=
  match jNode with
  | cJSON.cJSON_String hostport =>
    match parse_hostport base hostport with
    | some b => node_result.added b
    | none => node_result.broken
  | cJSON.cJSON_Object items =>
    let unhealthy : Bool :=
      match env.cJSON_GetObjectItem (cJSON.cJSON_Object items) "status" with
      | some (cJSON.cJSON_String s) => s ≠ "healthy"
      | _ => false
    if unhealthy then node_result.skipped
    else
      match env.cJSON_GetObjectItem (cJSON.cJSON_Object items) "hostname" with
      | some (cJSON.cJSON_String hostname) =>
        if hostname.length < 249 then
          match env.cJSON_GetObjectItem (cJSON.cJSON_Object items) "ports" with
          | some (cJSON.cJSON_Object ports) =>
            match env.cJSON_GetObjectItem (cJSON.cJSON_Object ports) "direct" with
            | some (cJSON.cJSON_Number valueint) =>
              if valueint > 0 then
                node_result.added { base with
                  host := String.mk (hostname.data.takeWhile (fun c => c ≠ ':'))
                  port := valueint }
              else node_result.broken
            | _ => node_result.broken
          | _ => node_result.broken
        else node_result.broken
      | _ => node_result.broken
  | _ => node_result.broken

/-- The node loop of `cproxy_on_config_json_one_ketama`: the behaviors of the nodes that
were added, in order, or `none` when the loop left by `break`. -/
def ketama_nodes (env : host_env) (base : proxy_behavior) :
    List cJSON → Option (List proxy_behavior)
  | [] => some []
  | jNode :: rest =>
    match ketama_node env base jNode with
    | node_result.broken => none
    | node_result.skipped => ketama_nodes env base rest
    | node_result.added b => (ketama_nodes env base rest).map (fun l => b :: l)

/-- The text that one server adds to the config string built by
`cproxy_on_config_json_one_ketama`: `host:port` when both are set, then `:weight` when the
weight is positive. -/
def ketama_entry (b : proxy_behavior) : String :=
  (if b.host.length > 0 ∧ b.port > 0 then b.host ++ ":" ++ toString b.port.toNat else "") ++
    (if b.downstream_weight > 0 then ":" ++ toString b.downstream_weight else "")

/-- The config string built by `cproxy_on_config_json_one_ketama`: a comma goes in front
of an entry whenever the string built so far is not empty. -/
def ketama_config_str (arr : List proxy_behavior) : String :=
  arr.foldl (fun acc b => (if acc.length > 0 then acc ++ "," else acc) ++ ketama_entry b) ""

/-- The config string and behavior pool that `cproxy_on_config_json_one_ketama` builds:
the node array is `vBucketServerMap.serverList` when that is an array and `nodes`
otherwise; the node loop must end without `break` and add at least one node. `none` when
the function gives up. -/
def ketama_behavior_pool (env : host_env) (behavior : proxy_behavior) (config name : String) :
    Option (String × proxy_behavior_pool) :=
  match env.cJSON_Parse config with
  | none => none
  | some jConfig =>
    let jArr0 : Option cJSON :=
      match env.cJSON_GetObjectItem jConfig "vBucketServerMap" with
      | some jVBSM => env.cJSON_GetObjectItem jVBSM "serverList"
      | none => none
    let jArr : Option cJSON :=
      match jArr0 with
      | some (cJSON.cJSON_Array xs) => some (cJSON.cJSON_Array xs)
      | _ => env.cJSON_GetObjectItem jConfig "nodes"
    match jArr with
    | some (cJSON.cJSON_Array nodes) =>
      if nodes.length > 0 then
        let proxyb : proxy_behavior := { behavior with nodeLocator := "ketama" }
        let base := cproxy_parse_json_auth env config name proxyb
        match ketama_nodes env base nodes with
        | some arr =>
          if arr.length > 0 then
            some (ketama_config_str arr, { base := base, num := arr.length, arr := some arr })
          else none
        | none => none
      else none
    | _ => none

/-- The function `cproxy_on_config_json_one_ketama` (built with libmemcached): when config
string and behavior pool can be built, `cproxy_on_config_pool` is called with them and the
listen port of the default behavior. -/
def cproxy_on_config_json_one_ketama (env : host_env) (m : proxy_main)
    (new_config_ver : Nat) (config name : String) : Except String (proxy_main × Bool) :=
  match ketama_behavior_pool env m.behavior config name with
  | some cb => do
    let m1 ← cproxy_on_config_pool env m name m.behavior.port_listen (some cb.1)
      new_config_ver cb.2
    pure (m1, true)
  | none => pure (m, false)

/-- The function `cproxy_on_config_json_one`: the name is the `name` string of the config
when it has one; a `nodeLocator` string equal to `"ketama"` sends the config to
`cproxy_on_config_json_one_ketama`, everything else to
`cproxy_on_config_json_one_vbucket`. -/
def cproxy_on_config_json_one (env : host_env) (m : proxy_main) (new_config_ver : Nat)
    (config name : String) : Except String (proxy_main × Bool) :=
  if config.length > 0 then
    match env.cJSON_Parse config with
    | some jConfig =>
      let name1 : String :=
        match env.cJSON_GetObjectItem jConfig "name" with
        | some (cJSON.cJSON_String v) => v
        | _ => name
      match env.cJSON_GetObjectItem jConfig "nodeLocator" with
      | some (cJSON.cJSON_String v) =>
        if v = "ketama" then
          cproxy_on_config_json_one_ketama env m new_config_ver config name1
        else cproxy_on_config_json_one_vbucket env m new_config_ver config name1
      | _ => cproxy_on_config_json_one_vbucket env m new_config_ver config name1
    | none => pure (m, false)
  else pure (m, false)

/-- The name under which `cproxy_on_config_json_buckets` files an element of the
`buckets` array: its `name` string, or `"default"`. -/
def bucket_name (env : host_env) (jBucket : cJSON) : String :=
  match env.cJSON_GetObjectItem jBucket "name" with
  | some (cJSON.cJSON_String v) => v
  | _ => "default"

/-- The function `cproxy_on_config_json_buckets`, one pass over the `buckets` array: the
objects whose name is `"default"` when `want_default` holds, the other objects when it
does not; each is printed and handed to `cproxy_on_config_json_one`. -/
def cproxy_on_config_json_buckets (env : host_env) (new_config_ver : Nat)
    (want_default : Bool) : List cJSON → proxy_main → Bool → Except String (proxy_main × Bool)
  | [], m, rv => pure (m, rv)
  | jBucket :: rest, m, rv =>
    match jBucket with
    | cJSON.cJSON_Object items =>
      let name := bucket_name env (cJSON.cJSON_Object items)
      let is_default : Bool := name = "default"
      if !(xor is_default want_default) then
        match env.cJSON_Print (cJSON.cJSON_Object items) with
        | some jBucketStr => do
          let r ← cproxy_on_config_json_one env m new_config_ver jBucketStr name
          cproxy_on_config_json_buckets env new_config_ver want_default rest r.1 (r.2 || rv)
        | none => cproxy_on_config_json_buckets env new_config_ver want_default rest m rv
      else cproxy_on_config_json_buckets env new_config_ver want_default rest m rv
    | _ => cproxy_on_config_json_buckets env new_config_ver want_default rest m rv

/-- The function `cproxy_on_config_json`: a document with a `buckets` array is processed
in two passes, the default bucket first; any other document is a single config named
`"default"`. -/
def cproxy_on_config_json (env : host_env) (m : proxy_main) (new_config_ver : Nat)
    (config : String) : Except String (proxy_main × Bool) :=
  match env.cJSON_Parse config with
  | some c =>
    match env.cJSON_GetObjectItem c "buckets" with
    | some (cJSON.cJSON_Array jBuckets) => do
      let r1 ← cproxy_on_config_json_buckets env new_config_ver true jBuckets m false
      let r2 ← cproxy_on_config_json_buckets env new_config_ver false jBuckets r1.1 false
      pure (r2.1, r1.2 || r2.2)
    | _ => cproxy_on_config_json_one env m new_config_ver config "default"
  | none => pure (m, false)

/-- The loop of `close_outdated_proxies` with `k` pools of the list still to visit: a pool
whose version differs from `new_config_ver` must pass `assert(p->port > 0)` and
`assert(p->name != NULL)` and, unless it is the NULL bucket, is handed to
`cproxy_on_config_pool` by name and port with a `NULL` config and the empty behavior
pool. The pool visited is counted from the end of the list, which only grows at its head. -/
def close_loop (env : host_env) (new_config_ver : Nat) :
    Nat → proxy_main → Except String proxy_main
  | 0, m => pure m
  | k + 1, m =>
    match m.proxy_head.get? (m.proxy_head.length - (k + 1)) with
    | none => throw "unreachable"
    | some p =>
      if p.config_ver ≠ new_config_ver then
        match p.name with
        | some name =>
          if p.port > 0 then
            if name ≠ NULL_BUCKET then
              (cproxy_on_config_pool env m name p.port none new_config_ver
                { base := m.behavior, num := 0, arr := none }).bind
                (close_loop env new_config_ver k)
            else close_loop env new_config_ver k m
          else throw "assert(p->port > 0)"
        | none => throw "assert(p->name != NULL)"
      else close_loop env new_config_ver k m

/-- The function `close_outdated_proxies(m, new_config_ver)`. -/
def close_outdated_proxies (env : host_env) (m : proxy_main) (new_config_ver : Nat) :
    Except String proxy_main :=
  close_loop env new_config_ver m.proxy_head.length m

/-- The first loop of `cproxy_on_config`: the greatest `config_ver` of the list, `0` for
the empty list. -/
def max_config_ver (l : List proxy) : Nat :=
  l.foldl (fun mx p => if mx < p.config_ver then p.config_ver else mx) 0

/-- The version that `cproxy_on_config` gives to a reconfiguration:
`uint32_t new_config_ver = max_config_ver + 1`. -/
def new_config_ver (m : proxy_main) : Nat :=
  (max_config_ver m.proxy_head + 1) % UINT32

/-- Modelled from the spec: the key-multivalue list `kvpair_t` of libconflate and its
`find_kvpair`, which returns the first pair stored under the key. -/
def find_kvpair (kvs : List (String × List String)) (key : String) :
    Option (String × List String) :=
  kvs.find? (fun kv => kv.1 = key)

/-- The function `get_key_values(kvs, key)`: the values of the pair that `find_kvpair`
returns, `NULL` when there is none. -/
def get_key_values (kvs : List (String × List String)) (key : String) :
    Option (List String) :=
  match find_kvpair kvs key with
  | some x => some x.2
  | none => none

/-- The function `cproxy_on_config(m, kvs)` (built with libvbucket): a new version is
computed, the first `contents` value is trimmed and, when not empty, handed to
`cproxy_on_config_json`; then the pools that were not updated are closed. An empty
document counts as a failed configuration and closes nothing. -/
def cproxy_on_config (env : host_env) (m : proxy_main) (kvs : List (String × List String)) :
    Except String proxy_main :=
  let m0 : proxy_main := { m with stat_configs := (m.stat_configs + 1) % UINT64 }
  let v := new_config_ver m0
  match get_key_values kvs "contents" with
  | some (c0 :: _) =>
    let config := trimstrdup c0
    if config.length > 0 then do
      let r ← cproxy_on_config_json env m0 v config
      close_outdated_proxies env r.1 v
    else pure { m0 with stat_config_fails := (m0.stat_config_fails + 1) % UINT64 }
  | _ => close_outdated_proxies env m0 v

/-- The node array that `cproxy_on_config_json_one_ketama` iterates over:
`vBucketServerMap.serverList` when that is an array, otherwise `nodes` when that is an
array. -/
def ketama_node_array (env : host_env) (jConfig : cJSON) : Option (List cJSON) :=
  let jArr0 : Option cJSON :=
    match env.cJSON_GetObjectItem jConfig "vBucketServerMap" with
    | some jVBSM => env.cJSON_GetObjectItem jVBSM "serverList"
    | none => none
  let jArr : Option cJSON :=
    match jArr0 with
    | some (cJSON.cJSON_Array xs) => some (cJSON.cJSON_Array xs)
    | _ => env.cJSON_GetObjectItem jConfig "nodes"
  match jArr with
  | some (cJSON.cJSON_Array nodes) => some nodes
  | _ => none

/-- The node has a `status` string other than `"healthy"`: the test under which the node
loop skips a node. -/
def node_unhealthy (env : host_env) (n : cJSON) : Bool :=
  match env.cJSON_GetObjectItem n "status" with
  | some (cJSON.cJSON_String s) => s ≠ "healthy"
  | _ => false

/-- The node has no `status` member, or one that is the string `"healthy"`. -/
def node_status_ok (env : host_env) (n : cJSON) : Bool :=
  match env.cJSON_GetObjectItem n "status" with
  | none => true
  | some (cJSON.cJSON_String s) => s = "healthy"
  | some _ => false

/-- The `hostname` string of a node. -/
def node_hostname (env : host_env) (n : cJSON) : Option String :=
  match env.cJSON_GetObjectItem n "hostname" with
  | some (cJSON.cJSON_String h) => some h
  | _ => none

/-- The number `ports.direct` of a node. -/
def node_direct (env : host_env) (n : cJSON) : Option Int :=
  match env.cJSON_GetObjectItem n "ports" with
  | some (cJSON.cJSON_Object ports) =>
    match env.cJSON_GetObjectItem (cJSON.cJSON_Object ports) "direct" with
    | some (cJSON.cJSON_Number v) => some v
    | _ => none
  | _ => none

/-- A node object with a hostname shorter than 249 characters and a positive
`ports.direct`. -/
def plain_node (env : host_env) (n : cJSON) : Prop :=
  (∃ items, n = cJSON.cJSON_Object items) ∧
  ∃ h v, node_hostname env n = some h ∧ h.length < 249 ∧ node_direct env n = some v ∧ v > 0

/-- The server behavior described by a node: the base behavior with the hostname cut at
the first colon as host and `ports.direct` as port. -/
def node_behavior (env : host_env) (base : proxy_behavior) (n : cJSON) : proxy_behavior :=
  { base with
    host := String.mk (((node_hostname env n).getD "").data.takeWhile (fun c => c ≠ ':'))
    port := (node_direct env n).getD 0 }

/-- A server rendered as `host:port`, followed by `:weight` when the weight is
positive. -/
def render_entry (b : proxy_behavior) : String :=
  b.host ++ ":" ++ toString b.port.toNat ++
    (if b.downstream_weight > 0 then ":" ++ toString b.downstream_weight else "")

/-- The pool-level behavior of a ketama pool: the default behavior with the node locator
`"ketama"` and the credentials read by `cproxy_parse_json_auth`. -/
def ketama_base (env : host_env) (behavior : proxy_behavior) (config name : String) :
    proxy_behavior :=
  cproxy_parse_json_auth env config name { behavior with nodeLocator := "ketama" }

/-- The server behaviors of the nodes that are not skipped, in document order. -/
def kept_nodes (env : host_env) (base : proxy_behavior) (nodes : List cJSON) :
    List proxy_behavior :=
  (nodes.filter (fun n => !node_unhealthy env n)).map (node_behavior env base)

/-- The pool list `l'` comes from `l` by putting new pools in front of it and replacing
each pool of `l` by one that is `R`-related to it. -/
def grows (R : proxy → proxy → Prop) (l l' : List proxy) : Prop :=
  ∃ added rest, l' = added ++ rest ∧ List.Forall₂ R l rest

/-- A relation between a pool before and after a stretch of reconfiguration at version
`v`: it is reflexive and transitive and holds across every update of an existing pool by
`cproxy_on_config_pool` at that version. -/
structure step_rel (v : Nat) (R : proxy → proxy → Prop) : Prop where
  refl : ∀ p, R p p
  trans : ∀ p q r, R p q → R q r → R p r
  upd : ∀ p config bp n r, on_config_pool_existing p config v bp n = Except.ok r → R p r.1

/-- The state `m'` comes from `m` by a stretch of reconfiguration: default behavior and
thread count are the same and the pool list has grown. -/
def frame (R : proxy → proxy → Prop) (m m' : proxy_main) : Prop :=
  m'.behavior = m.behavior ∧ m'.nthreads = m.nthreads ∧ grows R m.proxy_head m'.proxy_head

/-- A pool is as before, or carries version `v` now and did not before. -/
def versioned (v : Nat) (p q : proxy) : Prop :=
  q = p ∨ (q.config_ver = v ∧ p.config_ver ≠ v)

/-- The pair that identifies a pool: "A name and port uniquely identify a proxy". -/
def pool_key (p : proxy) : Option String × Int :=
  (p.name, p.port)

/-- The invariant of the pool list: no two pools share name and port, every pool has a
name and a positive port (the assertions of the search loop), and a pool without a
behavior array has size zero. -/
def pools_ok (l : List proxy) : Prop :=
  (l.map pool_key).Nodup ∧
  ∀ p ∈ l, 0 < p.port ∧ p.name ≠ none ∧ (p.behavior_pool.arr = none → p.behavior_pool.num = 0)

/-- What `close_outdated_proxies` at version `v` with default behavior `b` does to a pool:
a pool of another version, unless it is the NULL bucket, loses its config string and its
server behaviors, takes the default behavior as its base and takes version `v`; every
other pool stays as it is. -/
def retired (v : Nat) (b : proxy_behavior) (p q : proxy) : Prop :=
  if p.config_ver ≠ v ∧ p.name ≠ some NULL_BUCKET then
    q.config = none ∧ q.behavior_pool.arr = none ∧ q.behavior_pool.num = 0 ∧
      q.config_ver = v ∧ q.name = p.name ∧ q.port = p.port ∧ q.behavior_pool.base = b ∧
      q.thread_data = p.thread_data
  else q = p

/-- The arguments of one call of `cproxy_on_config_pool`. -/
structure pool_call where
  name : String
  port : Int
  config : Option String
  bp : proxy_behavior_pool

/-- The name and port a call addresses. -/
def call_key (c : pool_call) : Option String × Int :=
  (some c.name, c.port)

/-- A sequence of calls of `cproxy_on_config_pool` at version `v`, one after the other. -/
def run_calls (env : host_env) (v : Nat) : List pool_call → proxy_main → Except String proxy_main
  | [], m => Except.ok m
  | c :: cs, m =>
    (cproxy_on_config_pool env m c.name c.port c.config v c.bp).bind (run_calls env v cs)

/-- The call of `cproxy_on_config_pool` that `cproxy_on_config_json_one` makes for a
config under the default behavior `b`, if it makes one. -/
def json_one_calls (env : host_env) (b : proxy_behavior) (config name : String) :
    List pool_call :=
  if config.length > 0 then
    match env.cJSON_Parse config with
    | some jConfig =>
      let name1 : String :=
        match env.cJSON_GetObjectItem jConfig "name" with
        | some (cJSON.cJSON_String v) => v
        | _ => name
      let vb : List pool_call :=
        match vbucket_behavior_pool env b config name1 with
        | some bp => [{ name := name1, port := b.port_listen, config := some config, bp := bp }]
        | none => []
      match env.cJSON_GetObjectItem jConfig "nodeLocator" with
      | some (cJSON.cJSON_String v) =>
        if v = "ketama" then
          match ketama_behavior_pool env b config name1 with
          | some cb => [{ name := name1, port := b.port_listen, config := some cb.1, bp := cb.2 }]
          | none => []
        else vb
      | _ => vb
    | none => []
  else []

/-- The calls of `cproxy_on_config_pool` made by one pass of
`cproxy_on_config_json_buckets`. -/
def json_buckets_calls (env : host_env) (b : proxy_behavior) (want_default : Bool) :
    List cJSON → List pool_call
  | [] => []
  | jBucket :: rest =>
    match jBucket with
    | cJSON.cJSON_Object items =>
      let name := bucket_name env (cJSON.cJSON_Object items)
      let is_default : Bool := name = "default"
      if !(xor is_default want_default) then
        match env.cJSON_Print (cJSON.cJSON_Object items) with
        | some jBucketStr =>
          json_one_calls env b jBucketStr name ++ json_buckets_calls env b want_default rest
        | none => json_buckets_calls env b want_default rest
      else json_buckets_calls env b want_default rest
    | _ => json_buckets_calls env b want_default rest

/-- The calls of `cproxy_on_config_pool` made by `cproxy_on_config_json`. -/
def json_calls (env : host_env) (b : proxy_behavior) (config : String) : List pool_call :=
  match env.cJSON_Parse config with
  | some c =>
    match env.cJSON_GetObjectItem c "buckets" with
    | some (cJSON.cJSON_Array jBuckets) =>
      json_buckets_calls env b true jBuckets ++ json_buckets_calls env b false jBuckets
    | _ => json_one_calls env b config "default"
  | none => []

/-- The update of pool `p` by call `c` would leave its config string and its behaviors as
they are. -/
def stable (c : pool_call) (p : proxy) : Prop :=
  (update_str_config p.config c.config).1 = p.config ∧
  p.behavior_pool.base = c.bp.base ∧
  (update_behaviors_config p.behavior_pool.arr p.behavior_pool.num c.bp.arr c.bp.num).1 =
    p.behavior_pool.arr ∧
  (update_behaviors_config p.behavior_pool.arr p.behavior_pool.num c.bp.arr c.bp.num).2.1 =
    p.behavior_pool.num

/-- Two pools agree in name, port, config string, behaviors and worker copies. -/
def same_pool (p q : proxy) : Prop :=
  q.name = p.name ∧ q.port = p.port ∧ q.config = p.config ∧
  q.behavior_pool = p.behavior_pool ∧ q.thread_data = p.thread_data

/-- The calls of `cproxy_on_config_pool` that `cproxy_on_config` makes for a document
before it closes the outdated pools; `none` for an empty document, which fails the
configuration. -/
def doc_calls (env : host_env) (b : proxy_behavior) (kvs : List (String × List String)) :
    Option (List pool_call) :=
  match get_key_values kvs "contents" with
  | some (c0 :: _) =>
    if (trimstrdup c0).length > 0 then some (json_calls env b (trimstrdup c0)) else none
  | _ => some []

/-- Call `c` has been carried out on the pool list `l` at version `v`: either no pool of
that name and port exists and none can be created, or the pool of that name and port
carries version `v` and is stable under the call. -/
def carried (env : host_env) (v : Nat) (c : pool_call) (l : List proxy) : Prop :=
  ((∀ p ∈ l, pool_key p ≠ call_key c) ∧ env.cproxy_create_ok c.name c.port = false) ∨
  (∃ p ∈ l, pool_key p = call_key c ∧ stable c p ∧ p.config_ver = v)

/-- A pool that `close_outdated_proxies` under default behavior `b` would leave as it is,
apart from its version. -/
def retire_stable (b : proxy_behavior) (p : proxy) : Prop :=
  p.config = none ∧ p.behavior_pool.arr = none ∧ p.behavior_pool.base = b

/-- A pool is as before, or carries version `v` now, did not before, and has an empty or
stopped front cache. -/
def reversioned (v : Nat) (p q : proxy) : Prop :=
  q = p ∨ (q.config_ver = v ∧ p.config_ver ≠ v ∧
    (q.front_cache.map = none ∨ q.front_cache.map = some []))

/-- The `struct multiget_entry` without its `next` pointer: the list of entries of a key
is a `List`, newest entry first. The field `opaque` of the source is `opaque_id` here. -/
structure multiget_entry where
  upstream_conn : Option Nat
  opaque_id : Nat
  hits : Nat
  deriving DecidableEq

/-- An upstream connection as far as the multiget code looks at it: its descriptor, the
command line it sent and its `noreply` flag. A chain of upstream connections (linked by
`next`) is a `List uconn`. -/
structure uconn where
  sfd : Nat
  cmd_start : String
  noreply : Bool
  deriving DecidableEq

/-- A downstream connection: `prep_ok` and `event_ok` are what `cproxy_prep_conn_for_write`
and `update_event` of the host return for it; `msgused` and `msgbytes` describe the
messages queued for writing; `mwrite` says that the connection has been put into
`conn_mwrite`, `closed` that `cproxy_close_conn` was called on it. -/
structure dconn where
  sfd : Nat
  prep_ok : Bool
  event_ok : Bool
  msgused : Nat
  msgbytes : Nat
  mwrite : Bool
  closed : Bool
  deriving DecidableEq

/-- An element of `d->downstream_conns`: `NULL`, `NULL_CONN` or a connection. -/
inductive slot where
  | null
  | null_conn
  | live (c : dconn)
  deriving DecidableEq

/-- A call of one of the three emit functions handed to `multiget_ascii_downstream`, with
the index of the downstream connection it was called on. -/
inductive emit_call where
  | emit_start (i : Nat) (cmd : String)
  | emit_skey (i : Nat) (skey : String) (vbucket : Int) (key_index : Nat)
  | emit_end (i : Nat)
  deriving DecidableEq

/-- A piece of output queued on an upstream connection by `add_iov`. -/
inductive iov where
  | text (s : String)
  | item_key (it : item)
  | item_suffix_data (it : item)
  | item_suffix (it : item)
  | cas_suffix (cas : Nat)
  | item_data (it : item)
  deriving DecidableEq

/-- The counters of a `proxy_stats_cmd`. -/
structure proxy_stats_cmd where
  seen : Nat
  hits : Nat
  misses : Nat
  read_bytes : Nat
  write_bytes : Nat
  cas : Nat
  deriving DecidableEq

/-- The `struct downstream` together with what the multiget code reaches through it: the
front cache of the pool, the counters of the worker (`ptd->stats`), and three ghost
fields: `allocs` counts the entries requested from `calloc`, `emitted` lists the calls of
the emit functions and `sent` the output queued on upstream connections (descriptor and
piece), both oldest first. -/
structure downstream where
  downstream_conns : List slot
  upstream_conn : List uconn
  multiget : Option (List (String × List multiget_entry))
  front_cache : mcache
  upstream_suffix : Option String
  upstream_suffix_len : Nat
  upstream_status : Nat
  upstream_retry : Nat
  target_host_ident : Option String
  downstream_used_start : Nat
  downstream_used : Nat
  tot_multiget_keys : Nat
  tot_multiget_keys_dedupe : Nat
  tot_multiget_bytes_dedupe : Nat
  err_downstream_write_prep : Nat
  err_oom : Nat
  psc_get : proxy_stats_cmd
  psc_get_key : proxy_stats_cmd
  allocs : Nat
  emitted : List emit_call
  sent : List (Nat × iov)

/-- The functions outside the embedded sources that the multiget code calls:

* `front_cache_key key`: the result of `cproxy_front_cache_key`;
* `mcache_get cache key`: the item the front cache returns for the key, if any;
* `find_downstream_conn key`: the index of the downstream connection that
  `cproxy_find_downstream_conn_ex` selects for the key, and the vbucket;
* `calloc_ok n`: whether the `n`-th request for a `multiget_entry` is granted. -/
structure mg_env where
  front_cache_key : String → Bool
  mcache_get : mcache → String → Option item
  find_downstream_conn : String → Option (Nat × Int)
  calloc_ok : Nat → Bool

/-- The three emit functions handed to `multiget_ascii_downstream`, as functions on the
downstream connection they write to. -/
structure emit_ops where
  emit_start : dconn → String → dconn
  emit_skey : dconn → String → Int → Nat → dconn
  emit_end : dconn → dconn

/-- Modelled from the spec: `genhash_find` on a table keyed by key text. -/
def genhash_find (m : List (String × List multiget_entry)) (key : String) :
    Option (List multiget_entry) :=
  (m.find? (fun kv => kv.1 = key)).map Prod.snd

/-- Modelled from the spec: `genhash_update` replaces the value stored under the key, or
adds the key. -/
def genhash_update (m : List (String × List multiget_entry)) (key : String)
    (v : List multiget_entry) : List (String × List multiget_entry) :=
  match m with
  | [] => [(key, v)]
  | kv :: rest => if kv.1 = key then (key, v) :: rest else kv :: genhash_update rest key v

/-- Modelled from the spec: `mcache_set` with `add_only` stores the item unless the cache
is stopped or holds the key already, and drops the oldest item beyond `max`. -/
def mcache_set (c : mcache) (it : item) : mcache :=
  match c.map with
  | none => c
  | some l =>
    if l.any (fun x => x.key = it.key) then c
    else { c with map := some ((it :: l).take c.max) }

/-- The function `cproxy_upstream_ascii_item_response(it, uc, cas_emit)`: when the data
block of the item ends in `"\r\n"`, a `VALUE` reply for the item is queued on the upstream
connection, with the cas value when `cas_emit` is positive or the item carries one.
(`add_conn_item`, `add_conn_suffix` and `add_iov` are taken to succeed.) -/
def cproxy_upstream_ascii_item_response (d : downstream) (it : item) (uc : Nat)
    (cas_emit : Int) : downstream :=
  if it.crlf then
    if cas_emit = 0 ∨ (cas_emit < 0 ∧ it.cas = CPROXY_NOT_CAS) then
      { d with sent := d.sent ++
          [(uc, iov.text "VALUE "), (uc, iov.item_key it), (uc, iov.item_suffix_data it)] }
    else
      { d with sent := d.sent ++
          [(uc, iov.text "VALUE "), (uc, iov.item_key it), (uc, iov.item_suffix it),
            (uc, iov.cas_suffix it.cas), (uc, iov.item_data it)] }
  else d

/-- The keys of the `VALUE` replies queued on the upstream connection `uc`, oldest
first. -/
def values_sent (sent : List (Nat × iov)) (uc : Nat) : List String :=
  sent.filterMap (fun x =>
    match x.2 with
    | iov.item_key it => if x.1 = uc then some it.key else none
    | _ => none)

/-- The key loop of `multiget_ascii_downstream` as a scan of the text after the first
space of the command: one element per round of `while (space != NULL)`, giving the key
(empty between consecutive spaces), `key_last` and the offset `key - command`. `off` is the
offset of the key being read and `acc` its characters so far, last first. -/
def scan_keys : List Char → Nat → List Char → List (String × Bool × Nat)
  | [], off, acc => [(String.mk acc.reverse, true, off)]
  | c :: cs, off, acc =>
    if c = ' ' then (String.mk acc.reverse, false, off) :: scan_keys cs (off + acc.length + 1) []
    else scan_keys cs off (c :: acc)

/-- The connection in slot `i` of `d->downstream_conns`, if there is one. -/
def live_conn (d : downstream) (i : Nat) : Option dconn :=
  match d.downstream_conns.get? i with
  | some (slot.live c) => some c
  | _ => none

/-- The counters that a round of the key loop raises before it looks at the key: the
bytes read for the last key of a command, and for a non-empty key the number of keys. -/
def count_key (d : downstream) (k : String × Bool × Nat) : downstream :=
  let d1 : downstream :=
    if k.2.1 then
      { d with psc_get := { d.psc_get with
          read_bytes := (d.psc_get.read_bytes + (k.2.2 + k.1.length)) % UINT64 } }
    else d
  if k.1.length > 0 then
    { d1 with
      tot_multiget_keys := (d1.tot_multiget_keys + 1) % UINT64
      psc_get_key := { d1.psc_get_key with
        seen := (d1.psc_get_key.seen + 1) % UINT64
        read_bytes := (d1.psc_get_key.read_bytes + k.1.length) % UINT64 } }
  else d1

/-- The item with which the front cache answers a key in `multiget_ascii_downstream`:
only for `get`, only when a front cache was handed in and admits the key. -/
def front_cache_hit (env : mg_env) (use_front_cache : Bool) (cas_emit : Bool)
    (d : downstream) (key : String) : Option item :=
  if !cas_emit && use_front_cache && env.front_cache_key key then
    env.mcache_get d.front_cache key
  else none

/-- The de-duplication step of a round of the key loop: the map is created when the key
is not the last of its command and there is no map; when there is a map and an entry can
be allocated, the entry is put in front of the entries of the key. Returns the state and
`first_request`, which is `false` only when the map held the key already. -/
def dedupe_key (env : mg_env) (uc_cur : uconn) (d : downstream) (key : String)
    (key_last : Bool) : downstream × Bool :=
  let d3 : downstream :=
    if key_last = false ∧ d.multiget = none then { d with multiget := some [] } else d
  match d3.multiget with
  | some m =>
    if env.calloc_ok d3.allocs then
      ({ d3 with
          multiget := some (genhash_update m key
            ({ upstream_conn := some uc_cur.sfd, opaque_id := 0, hits := 0 } ::
              (genhash_find m key).getD []))
          allocs := d3.allocs + 1 },
        (genhash_find m key).isNone)
    else ({ d3 with allocs := d3.allocs + 1 }, true)
  | none => (d3, true)

/-- The emission of a key that is requested for the first time: the command word goes
first when nothing is queued on the connection yet, then the key with the space in front
of it. -/
def emit_key (ops : emit_ops) (d : downstream) (i : Nat) (c : dconn) (cmd key : String)
    (vbucket : Int) (key_index : Nat) : downstream :=
  let started : List emit_call :=
    if c.msgused ≤ 1 ∧ c.msgbytes ≤ 0 then [emit_call.emit_start i cmd] else []
  let c1 : dconn := if c.msgused ≤ 1 ∧ c.msgbytes ≤ 0 then ops.emit_start c cmd else c
  let c2 : dconn := ops.emit_skey c1 (" " ++ key) vbucket key_index
  { d with
    downstream_conns := d.downstream_conns.set i (slot.live c2)
    emitted := d.emitted ++ started ++ [emit_call.emit_skey i (" " ++ key) vbucket key_index] }

/-- One round of the key loop of `multiget_ascii_downstream` for the upstream connection
`uc_cur`, whose command word is `cmd` (`get` or `gets`): the counters are raised; a `get`
key found in the front cache is answered at once; otherwise, when a downstream connection
is found for the key, the key goes through the de-duplication step and is emitted when
it is requested for the first time, and counts as a dedupe when it is not. -/
def multiget_key (env : mg_env) (ops : emit_ops) (use_front_cache : Bool) (uc_cur : uconn)
    (cas_emit : Bool) (cmd : String) (d : downstream) (k : String × Bool × Nat) :
    Except String downstream :=
  if k.1.length > 0 then
    match front_cache_hit env use_front_cache cas_emit (count_key d k) k.1 with
    | some it =>
      if it.key = k.1 then
        let d3 := cproxy_upstream_ascii_item_response (count_key d k) it uc_cur.sfd 0
        pure { d3 with psc_get_key := { d3.psc_get_key with
          hits := (d3.psc_get_key.hits + 1) % UINT64
          write_bytes := (d3.psc_get_key.write_bytes + it.nbytes) % UINT64 } }
      else throw "assert(strncmp(ITEM_key(it), key, it->nkey) == 0)"
    | none =>
      match env.find_downstream_conn k.1 with
      | some (i, vbucket) =>
        match live_conn (count_key d k) i with
        | some c =>
          let r := dedupe_key env uc_cur (count_key d k) k.1 k.2.1
          if r.2 then pure (emit_key ops r.1 i c cmd k.1 vbucket k.2.2)
          else
            pure { r.1 with
              tot_multiget_keys_dedupe := (r.1.tot_multiget_keys_dedupe + 1) % UINT64 }
        | none => pure (count_key d k)
      | none => pure (count_key d k)
  else pure (count_key d k)

/-- The key loop of `multiget_ascii_downstream` over the rounds of one command. -/
def multiget_keys (env : mg_env) (ops : emit_ops) (use_front_cache : Bool) (uc_cur : uconn)
    (cas_emit : Bool) (cmd : String) :
    List (String × Bool × Nat) → downstream → Except String downstream
  | [], d => Except.ok d
  | k :: rest, d =>
    (multiget_key env ops use_front_cache uc_cur cas_emit cmd d k).bind
      (multiget_keys env ops use_front_cache uc_cur cas_emit cmd rest)

/-- The command of an upstream connection as `multiget_ascii_downstream` reads it: the
text without leading spaces is cut at its first space into the command word and the key
text; `none` when there is no space (`assert(space > command)`). -/
def split_command (uc_cur : uconn) : Option (List Char × List Char) :=
  match (uc_cur.cmd_start.data.dropWhile (fun c => c = ' ')).dropWhile (fun c => c ≠ ' ') with
  | [] => none
  | _ :: rest =>
    some ((uc_cur.cmd_start.data.dropWhile (fun c => c = ' ')).takeWhile (fun c => c ≠ ' '),
      rest)

/-- The body of the upstream loop of `multiget_ascii_downstream` for one connection of the
chain: the command word must have three or four characters, `cas_emit` tells `gets` from
`get`, and the key loop runs over the rest of the line. -/
def multiget_upstream (env : mg_env) (ops : emit_ops) (use_front_cache : Bool)
    (d : downstream) (uc_cur : uconn) : Except String downstream :=
  match split_command uc_cur with
  | none => throw "assert(space > command)"
  | some (cmd, rest) =>
    if cmd.length = 3 ∨ cmd.length = 4 then
      multiget_keys env ops use_front_cache uc_cur (decide (cmd.get? 3 = some 's'))
        (String.mk cmd) (scan_keys rest (cmd.length + 1) []) d
    else throw "assert(cmd_len == 3 || cmd_len == 4)"

/-- The upstream loop of `multiget_ascii_downstream` over the chain. -/
def multiget_chain (env : mg_env) (ops : emit_ops) (use_front_cache : Bool) :
    List uconn → downstream → Except String downstream
  | [], d => Except.ok d
  | uc_cur :: rest, d =>
    (multiget_upstream env ops use_front_cache d uc_cur).bind
      (multiget_chain env ops use_front_cache rest)

/-- The first loop of `multiget_ascii_downstream`: the first connection for which
`cproxy_prep_conn_for_write` fails, with its index. -/
def prep_failure : List slot → Nat → Option (Nat × dconn)
  | [], _ => none
  | slot.live c :: rest, i => if c.prep_ok = false then some (i, c) else prep_failure rest (i + 1)
  | _ :: rest, i => prep_failure rest (i + 1)

/-- Modelled from the spec: `cproxy_close_conn` closes the connection. -/
def cproxy_close_conn (c : dconn) : dconn :=
  { c with closed := true }

/-- The last loop of `multiget_ascii_downstream` from slot `i` on: every connection with
something queued gets the end of the command and is put into `conn_mwrite`; it counts as
written when `update_event` succeeds and is closed otherwise. Returns the slots, the calls
of `emit_end`, the number written and the number of failures. -/
def finish_conns (ops : emit_ops) : List slot → Nat → List slot × List emit_call × Nat × Nat
  | [], _ => ([], [], 0, 0)
  | slot.live c :: rest, i =>
    let r := finish_conns ops rest (i + 1)
    if c.msgused > 1 ∨ c.msgbytes > 0 then
      let c1 : dconn := { ops.emit_end c with mwrite := true }
      if c1.event_ok then
        (slot.live c1 :: r.1, emit_call.emit_end i :: r.2.1, r.2.2.1 + 1, r.2.2.2)
      else
        (slot.live (cproxy_close_conn c1) :: r.1, emit_call.emit_end i :: r.2.1, r.2.2.1,
          r.2.2.2 + 1)
    else (slot.live c :: r.1, r.2.1, r.2.2.1, r.2.2.2)
  | s :: rest, i =>
    let r := finish_conns ops rest (i + 1)
    (s :: r.1, r.2.1, r.2.2.1, r.2.2.2)

/-- The function `multiget_ascii_downstream(d, uc, emit_start, emit_skey, emit_end,
front_cache)` for the chain `uc` of upstream connections; `use_front_cache` says that
`front_cache` is not `NULL`. Returns the state and the function's result. -/
def multiget_ascii_downstream (env : mg_env) (ops : emit_ops) (use_front_cache : Bool)
    (d : downstream) (uc : List uconn) : Except String (downstream × Bool) :=
  match uc with
  | [] => throw "assert(uc != NULL)"
  | uc0 :: _ =>
    if uc0.noreply then throw "assert(uc->noreply == false)"
    else
      match prep_failure d.downstream_conns 0 with
      | some ic =>
        pure ({ d with
          err_downstream_write_prep := (d.err_downstream_write_prep + 1) % UINT64
          downstream_conns :=
            d.downstream_conns.set ic.1 (slot.live (cproxy_close_conn ic.2)) }, false)
      | none =>
        (multiget_chain env ops use_front_cache uc d).bind (fun d1 =>
          let r := finish_conns ops d1.downstream_conns 0
          pure ({ d1 with
            downstream_conns := r.1
            emitted := d1.emitted ++ r.2.1
            err_oom := (d1.err_oom + r.2.2.2) % UINT64
            downstream_used_start := r.2.2.1
            downstream_used := r.2.2.1
            upstream_suffix := some "END\r\n"
            upstream_suffix_len := 0
            upstream_status := 0
            upstream_retry := 0
            target_host_ident := none }, decide (r.2.2.1 > 0)))

/-- The body of the entry loop of `multiget_ascii_downstream_response` for an entry whose
upstream connection `uc` is still set: a `VALUE` reply is queued, the hit counters are
raised, and the bytes count as de-duplicated unless the entry is `entry_first`. -/
def respond_entry (it : item) (uc : Nat) (first : Bool) (d : downstream) : downstream :=
  let d1 := cproxy_upstream_ascii_item_response d it uc (-1)
  let d2 : downstream :=
    { d1 with psc_get_key := { d1.psc_get_key with
        hits := (d1.psc_get_key.hits + 1) % UINT64
        write_bytes := (d1.psc_get_key.write_bytes + it.nbytes) % UINT64 } }
  if first then d2
  else { d2 with
    tot_multiget_bytes_dedupe := (d2.tot_multiget_bytes_dedupe + it.nbytes) % UINT64 }

/-- The entry loop of `multiget_ascii_downstream_response` over the list of a key:
every entry whose upstream connection is still set is answered. `first` tells whether the
entry at hand is `entry_first`. -/
def respond_entries (it : item) : List multiget_entry → Bool → downstream → downstream
  | [], _, d => d
  | entry :: rest, first, d =>
    match entry.upstream_conn with
    | some uc => respond_entries it rest false (respond_entry it uc first d)
    | none => respond_entries it rest false d

/-- The loop of `multiget_ascii_downstream_response` for a reservation without map: every
upstream connection of the chain gets a `VALUE` reply. -/
def respond_chain (it : item) : List uconn → downstream → downstream
  | [], d => d
  | uc :: rest, d =>
    let d1 := cproxy_upstream_ascii_item_response d it uc.sfd (-1)
    respond_chain it rest
      { d1 with psc_get_key := { d1.psc_get_key with
          hits := (d1.psc_get_key.hits + 1) % UINT64
          write_bytes := (d1.psc_get_key.write_bytes + it.nbytes) % UINT64 } }

/-- The function `multiget_ascii_downstream_response(d, it)`: the item is offered to the
front cache when its key is admitted; with a de-duplication map, the entries recorded for
the key of the item are answered, after `hits` of the first of them (`entry_first`) has
been raised; without one, every upstream connection of the reservation is. -/
def multiget_ascii_downstream_response (env : mg_env) (d : downstream) (it : item) :
    Except String downstream :=
  if it.key.length > 0 then
    let d1 : downstream :=
      if env.front_cache_key it.key then { d with front_cache := mcache_set d.front_cache it }
      else d
    match d1.multiget with
    | some m =>
      match genhash_find m it.key with
      | some (entry_first :: rest) =>
        pure (respond_entries it (entry_first :: rest) true
          { d1 with multiget := some (genhash_update m it.key
              ({ entry_first with hits := (entry_first.hits + 1) % UINT64 } :: rest)) })
      | _ => pure d1
    | none => pure (respond_chain it d1.upstream_conn d1)
  else throw "assert(it->nkey > 0)"

/-- The responses of the downstream to a multiget, handled one item after the other. -/
def multiget_responses (env : mg_env) : List item → downstream → Except String downstream
  | [], d => Except.ok d
  | it :: rest, d =>
    (multiget_ascii_downstream_response env d it).bind (multiget_responses env rest)

/-- The function `multiget_foreach_free(key, value, d)`, the callback that releases the
entries recorded for one key: every entry whose `hits` is zero raises the `misses` of
`GET_KEY`. -/
def multiget_foreach_free : List multiget_entry → downstream → downstream
  | [], d => d
  | entry :: rest, d =>
    multiget_foreach_free rest
      (if entry.hits = 0 then
        { d with psc_get_key := { d.psc_get_key with
            misses := (d.psc_get_key.misses + 1) % UINT64 } }
      else d)

/-- Modelled from the spec: when the reservation finishes, the map is walked once with
`multiget_foreach_free` and released. -/
def multiget_free (d : downstream) : downstream :=
  match d.multiget with
  | some m =>
    let d1 : downstream := m.foldl (fun acc kv => multiget_foreach_free kv.2 acc) d
    { d1 with multiget := none }
  | none => d

/-- The non-empty keys of the command of an upstream connection, in order. -/
def keys_of (uc : uconn) : List String :=
  match split_command uc with
  | none => []
  | some (cmd, rest) =>
    ((scan_keys rest (cmd.length + 1) []).map (fun k => k.1)).filter (fun key => key.length > 0)

/-- The non-empty keys of the chain with the connection that asked for each, in order. -/
def chain_keys (chain : List uconn) : List (Nat × String) :=
  chain.flatMap (fun uc => (keys_of uc).map (fun key => (uc.sfd, key)))

/-- The number of times the upstream connection `u` asked for `key` in the chain. -/
def requested (chain : List uconn) (u : Nat) (key : String) : Nat :=
  (chain_keys chain).count (u, key)

/-- The upstream connections recorded in the de-duplication map for a key, newest first. -/
def entry_conns (m : List (String × List multiget_entry)) (key : String) : List (Option Nat) :=
  ((genhash_find m key).getD []).map (fun e => e.upstream_conn)

/-- The upstream connections that asked for `key` among the requests `P` (connection and
key, in order of arrival), newest first. -/
def recorded (P : List (Nat × String)) (key : String) : List (Option Nat) :=
  (P.reverse.filter (fun x => x.2 = key)).map (fun x => some x.1)

/-- The non-empty keys among the rounds of a key loop, in order. -/
def rounds_keys (rounds : List (String × Bool × Nat)) : List String :=
  (rounds.map (fun k => k.1)).filter (fun key => key.length > 0)

/-- The first non-empty key among the rounds of a key loop, if there is one, is not the
last key of its command. -/
def first_round_ok (rounds : List (String × Bool × Nat)) : Bool :=
  match rounds.find? (fun k => k.1.length > 0) with
  | some k => !k.2.1
  | none => true

/-- The rounds of the key loop for the command of an upstream connection. -/
def rounds_of (uc : uconn) : List (String × Bool × Nat) :=
  match split_command uc with
  | none => []
  | some (cmd, rest) => scan_keys rest (cmd.length + 1) []

/-- The chain has a non-empty key, and the first one is not the last key of its command:
the de-duplication map is created when that key is met. -/
def map_from_first_key : List uconn → Bool
  | [] => false
  | uc :: rest =>
    match (rounds_of uc).find? (fun k => k.1.length > 0) with
    | some k => !k.2.1
    | none => map_from_first_key rest

/-- Every key resolves to a downstream connection that is there. -/
def resolves (env : mg_env) (d : downstream) : Prop :=
  ∀ key, ∃ i v, env.find_downstream_conn key = some (i, v) ∧ (live_conn d i).isSome = true

/-- No key is answered by the front cache. -/
def no_front_cache_hit (env : mg_env) (use_front_cache : Bool) : Prop :=
  ∀ c key, use_front_cache = true → env.front_cache_key key = true → env.mcache_get c key = none

/-- The command of the upstream connection passes the assertions of the upstream loop: it
has a space after a command word of three or four characters. -/
def well_formed (uc : uconn) : Prop :=
  ∃ cmd rest, split_command uc = some (cmd, rest) ∧ (cmd.length = 3 ∨ cmd.length = 4)

/-- The state of a reservation while `multiget_ascii_downstream` works through a chain, as
far as the replies depend on it: nothing has been queued upstream, the chain is in place,
every key resolves, and the map, once it exists, records the requests `P` met so far. -/
def mg_inv (env : mg_env) (d0 d : downstream) (P : List (Nat × String)) : Prop :=
  d.sent = d0.sent ∧ d.upstream_conn = d0.upstream_conn ∧ resolves env d ∧
  ((d.multiget = none ∧ P = []) ∨
    ∃ m, d.multiget = some m ∧ ∀ key, entry_conns m key = recorded P key)

/-- The pieces of a `VALUE` reply for an item queued on the upstream connection `uc` by
`cproxy_upstream_ascii_item_response` with `cas_emit = -1`. -/
def reply_of (it : item) (uc : Nat) : List (Nat × iov) :=
  if it.cas = CPROXY_NOT_CAS then
    [(uc, iov.text "VALUE "), (uc, iov.item_key it), (uc, iov.item_suffix_data it)]
  else
    [(uc, iov.text "VALUE "), (uc, iov.item_key it), (uc, iov.item_suffix it),
      (uc, iov.cas_suffix it.cas), (uc, iov.item_data it)]

/-- The keys handed to `emit_skey`, without the space in front, in the order of the
calls. -/
def emitted_keys (l : List emit_call) : List String :=
  l.filterMap (fun e =>
    match e with
    | emit_call.emit_skey _ skey _ _ => some (String.mk (skey.data.drop 1))
    | _ => none)

/-- The requests of one command: descriptor, key and `key_last` for every non-empty key,
in order. -/
def uc_rounds (uc : uconn) : List (Nat × String × Bool) :=
  ((rounds_of uc).filter (fun k => decide (k.1.length > 0))).map
    (fun k => (uc.sfd, k.1, k.2.1))

/-- The requests of the chain, in the order in which the key loop meets them. -/
def chain_rounds (chain : List uconn) : List (Nat × String × Bool) :=
  chain.flatMap uc_rounds

/-- The requests that get an entry in the de-duplication map of a reservation that starts
without map: the map is created at the first key that is not the last key of its command,
and every request from that one on is recorded. -/
def recorded_from : List (Nat × String × Bool) → List (Nat × String)
  | [] => []
  | r :: rest =>
    if r.2.2 = true then recorded_from rest else (r :: rest).map (fun x => (x.1, x.2.1))

/-- The requests recorded after the requests `R`, when `P` was recorded before them: with
a map, every request is recorded. -/
def extend_recorded (P : List (Nat × String)) (R : List (Nat × String × Bool)) :
    List (Nat × String) :=
  if P = [] then recorded_from R else P ++ R.map (fun x => (x.1, x.2.1))

/-- The number of `VALUE` replies the upstream connection `u` is sent for one item with
key `key` that the downstream returns: with a map, one for every recorded request of `u`
for the key; without one, one for every connection `u` of the chain `upstream` of the
reservation, whatever the key. -/
def replies_for (upstream chain : List uconn) (u : Nat) (key : String) : Nat :=
  if recorded_from (chain_rounds chain) = [] then
    upstream.countP (fun uc => decide (uc.sfd = u))
  else (recorded_from (chain_rounds chain)).count (u, key)

/-- The opcode `PROTOCOL_BINARY_CMD_FLUSH`. -/
def PROTOCOL_BINARY_CMD_FLUSH : Nat := 0x08

/-- The opcode `PROTOCOL_BINARY_CMD_NOOP`. -/
def PROTOCOL_BINARY_CMD_NOOP : Nat := 0x0a

/-- The opcode `PROTOCOL_BINARY_CMD_STAT`. -/
def PROTOCOL_BINARY_CMD_STAT : Nat := 0x10

/-- The status `PROTOCOL_BINARY_RESPONSE_SUCCESS`. -/
def PROTOCOL_BINARY_RESPONSE_SUCCESS : Nat := 0x00

/-- The status `PROTOCOL_BINARY_RESPONSE_NOT_MY_VBUCKET`. -/
def PROTOCOL_BINARY_RESPONSE_NOT_MY_VBUCKET : Nat := 0x07

/-- The status `PROTOCOL_BINARY_RESPONSE_ETMPFAIL`, the temporary failure. -/
def PROTOCOL_BINARY_RESPONSE_ETMPFAIL : Nat := 0x86

/-- The header of a binary response as `cproxy_process_b2b_downstream_nread` reads it,
numbers in host order. -/
structure response_header where
  opcode : Nat
  status : Nat
  keylen : Nat
  extlen : Nat
  bodylen : Nat
  deriving DecidableEq

/-- A binary message held in an item: the response of a downstream (its header), or the
request of an upstream, of which only the `reserved` field of the header matters, in host
order (`htons` and `ntohs` cancel). -/
structure message where
  header : response_header
  reserved : Nat
  deriving DecidableEq

/-- The state of a connection that the function sets. -/
inductive conn_state where
  | conn_pause
  | conn_new_cmd
  | conn_mwrite
  | conn_other
  deriving DecidableEq

/-- The upstream connection of a binary reservation: the request item it holds, the number
of retries of its command, the items queued for writing, its state and whether it has been
closed. -/
structure uconn_b where
  item : Option message
  cmd_retries : Int
  sent : List message
  state : conn_state
  closed : Bool
  deriving DecidableEq

/-- The downstream connection `c` that read a response, its reservation `d` and the
counters of the worker: `invalid` lists the pairs of server index and vbucket that
`mcs_server_invalid_vbucket` has excluded in the routing table `d->mst`, newest first;
`merged` lists the responses handed to the stats merger. -/
structure b2b_state where
  c_noreply : Bool
  c_state : conn_state
  c_item : Option message
  upstream_conn : Option uconn_b
  upstream_retry : Int
  merger : Bool
  merged : List message
  invalid : List (Int × Nat)
  tot_retry_vbucket : Nat
  err_oom : Nat
  deriving DecidableEq

/-- The functions outside the embedded sources that the function calls:

* `ignore_reply`: the result of `cproxy_binary_ignore_reply` for the response;
* `downstream_conn_index`: the index of `c` among the downstream connections;
* `max_retries`: the result of `cproxy_max_retries`;
* `add_conn_item_ok`, `add_iov_ok`: whether the host can queue the item. -/
structure b2b_env where
  ignore_reply : Bool
  downstream_conn_index : Int
  max_retries : Int
  add_conn_item_ok : Bool
  add_iov_ok : Bool

/-- The tail of `cproxy_process_b2b_downstream_nread`, "Write the response to the upstream
connection": the item is queued on the upstream connection, which goes to `conn_mwrite`
unless the response was quiet; when the item cannot be queued, `err_oom` is raised and the
upstream connection closed. -/
def write_upstream (env : b2b_env) (s : b2b_state) (it : message) : b2b_state :=
  match s.upstream_conn with
  | some uc =>
    if env.add_conn_item_ok ∧ env.add_iov_ok then
      let uc1 : uconn_b :=
        { uc with
          sent := uc.sent ++ [it]
          state := if s.c_noreply = false then conn_state.conn_mwrite else uc.state }
      { s with upstream_conn := some uc1 }
    else
      { s with
        err_oom := (s.err_oom + 1) % UINT64
        upstream_conn := some { uc with closed := true } }
  | none => s

/-- The function `cproxy_process_b2b_downstream_nread(c)`: a response that is not ignored
and not quiet is dropped when it answers NOOP or FLUSH and merged when it answers STAT; a
not-my-vbucket response, while the upstream is attached, invalidates server and vbucket
in the routing table and is dropped for a retry while retries are left; every other
response is written to the upstream. -/
def cproxy_process_b2b_downstream_nread (env : b2b_env) (s : b2b_state) :
    Except String b2b_state :=
  match s.c_item with
  | none => throw "assert(it != NULL)"
  | some it =>
    let s0 : b2b_state := { s with c_item := none }
    if env.ignore_reply then pure s0
    else if s0.c_noreply then
      pure (write_upstream env { s0 with c_state := conn_state.conn_new_cmd } it)
    else
      let s1 : b2b_state := { s0 with c_state := conn_state.conn_pause }
      if it.header.opcode = PROTOCOL_BINARY_CMD_NOOP ∨
          it.header.opcode = PROTOCOL_BINARY_CMD_FLUSH then pure s1
      else if it.header.opcode = PROTOCOL_BINARY_CMD_STAT then
        if it.header.status = PROTOCOL_BINARY_RESPONSE_SUCCESS ∧ it.header.keylen > 0 then
          pure { s1 with
            merged := if s1.merger then s1.merged ++ [it] else s1.merged
            c_state := conn_state.conn_new_cmd }
        else pure s1
      else
        match s1.upstream_conn with
        | some uc =>
          if it.header.status = PROTOCOL_BINARY_RESPONSE_NOT_MY_VBUCKET then
            match uc.item with
            | none => throw "assert(uc->item != NULL)"
            | some req =>
              let s2 : b2b_state :=
                { s1 with invalid := (env.downstream_conn_index, req.reserved) :: s1.invalid }
              if uc.cmd_retries < env.max_retries then
                pure { s2 with
                  upstream_conn := some { uc with cmd_retries := uc.cmd_retries + 1 }
                  upstream_retry := s2.upstream_retry + 1
                  tot_retry_vbucket := (s2.tot_retry_vbucket + 1) % UINT64 }
              else pure (write_upstream env s2 it)
          else pure (write_upstream env s1 it)
        | none => pure (write_upstream env s1 it)

/-- The header of a response to a GET (opcode 0) with the given status. -/
def get_header (status : Nat) : response_header :=
  { opcode := 0, status := status, keylen := 0, extlen := 0, bodylen := 0 }

/-- A not-my-vbucket response to a GET. -/
def nmv_reply : message :=
  { header := get_header PROTOCOL_BINARY_RESPONSE_NOT_MY_VBUCKET, reserved := 0 }

/-- A GET request stamped with vbucket 37. -/
def get_request : message :=
  { header := get_header 0, reserved := 37 }

/-- A host in which the replying downstream has index 2, one retry is allowed and items can
always be queued. -/
def sample_b2b_env : b2b_env :=
  { ignore_reply := false, downstream_conn_index := 2, max_retries := 1,
    add_conn_item_ok := true, add_iov_ok := true }

/-- An upstream connection holding `get_request` whose command has been retried `retries`
times. -/
def sample_uconn_b (retries : Int) : uconn_b :=
  { item := some get_request, cmd_retries := retries, sent := [],
    state := conn_state.conn_pause, closed := false }

/-- The state in which a downstream has read `reply`, for an upstream whose command has
been retried `retries` times. -/
def sample_b2b_state (reply : message) (retries : Int) : b2b_state :=
  { c_noreply := false
    c_state := conn_state.conn_other
    c_item := some reply
    upstream_conn := some (sample_uconn_b retries)
    upstream_retry := 0
    merger := false
    merged := []
    invalid := []
    tot_retry_vbucket := 0
    err_oom := 0 }

/-- The storage commands that come with item data (`NREAD_ADD` .. `NREAD_CAS` of the
host). -/
inductive nread_cmd where
  | NREAD_ADD
  | NREAD_SET
  | NREAD_REPLACE
  | NREAD_APPEND
  | NREAD_PREPEND
  | NREAD_CAS
  deriving DecidableEq

/-- Modelled from the spec: `nread_text` gives the verb of a storage command, with the
space that follows it. -/
def nread_text : nread_cmd → String
  | nread_cmd.NREAD_ADD => "add "
  | nread_cmd.NREAD_SET => "set "
  | nread_cmd.NREAD_REPLACE => "replace "
  | nread_cmd.NREAD_APPEND => "append "
  | nread_cmd.NREAD_PREPEND => "prepend "
  | nread_cmd.NREAD_CAS => "cas "

/-- The item of a storage command: its key, whether flags and length can be read from its
suffix (`str_flags`, `str_length`, `len_flags > 1`, `len_length > 1`), expiry and cas. -/
structure store_item where
  key : String
  suffix_ok : Bool
  exptime : Nat
  cas : Nat
  deriving DecidableEq

/-- A piece of a storage command queued on a downstream connection by `add_iov`. -/
inductive piece where
  | verb (s : String)
  | key (s : String)
  | flags
  | exptime (n : Nat)
  | length
  | cas (n : Nat)
  | noreply
  | data
  deriving DecidableEq

/-- The downstream connection of a storage command: what is queued on it, its state, the
state it goes to after writing, and whether it has been closed. -/
structure item_conn where
  iov : List piece
  state : conn_state
  write_and_go : conn_state
  closed : Bool
  deriving DecidableEq

/-- The upstream connection of a storage command: its `noreply` flag, the lines made its
reply by `out_string`, and whether it has been reset or closed. -/
structure item_upstream where
  sfd : Nat
  noreply : Bool
  out : List String
  reset : Bool
  closed : Bool
  deriving DecidableEq

/-- The reservation `d` of a storage command with what the code reaches through it: the
downstream connection chosen for the key, the upstream connection, the `optimize_set` spec
of the worker's behavior and the `optimize_set_matcher` of the pool, and the counters of
the worker. Ghost fields: `timeout_started` records `cproxy_start_downstream_timeout`,
`front_cache_deleted` the keys handed to `cproxy_front_cache_delete`, and `optimize_calls`
the keys with which `cproxy_optimize_set_ascii` was invoked. -/
structure a2a_state where
  c : item_conn
  uc : item_upstream
  upstream_conn : Option Nat
  upstream_suffix : Option String
  upstream_suffix_len : Nat
  upstream_status : Nat
  upstream_retry : Nat
  target_host_ident : Option String
  downstream_used_start : Nat
  downstream_used : Nat
  optimize_set : String
  optimize_set_matcher : matcher
  tot_optimize_sets : Nat
  err_oom : Nat
  err_downstream_write_prep : Nat
  timeout_started : Bool
  front_cache_deleted : List String
  optimize_calls : List String
  deriving DecidableEq

/-- The functions outside the embedded sources that the forwarding of a storage command
calls:

* `find_downstream_conn key`: whether `cproxy_find_downstream_conn` finds a connection;
* `prep_ok`: the result of `cproxy_prep_conn_for_write`;
* `add_conn_suffix_ok n`: whether the `n`-th call of `add_conn_suffix` returns a buffer;
* `add_iov_ok n`: whether the `n`-th call of `add_iov` succeeds;
* `update_event_c`, `update_event_uc`: the result of `update_event` on the downstream and
  on the upstream connection;
* `matcher_check m key`: the result of `matcher_check` for the key. -/
structure a2a_env where
  find_downstream_conn : String → Bool
  prep_ok : Bool
  add_conn_suffix_ok : Nat → Bool
  add_iov_ok : Nat → Bool
  update_event_c : Bool
  update_event_uc : Bool
  matcher_check : matcher → String → Bool

/-- Modelled from the spec: `out_string` of the host makes the line the reply of the
connection; a connection in `noreply` mode gets no reply and leaves that mode. -/
def out_string (uc : item_upstream) (str : String) : item_upstream :=
  if uc.noreply then { uc with noreply := false } else { uc with out := uc.out ++ [str] }

/-- Modelled from the spec: `cproxy_dettach_if_noreply` detaches a `noreply` upstream from
the reservation, resets it and returns true; it leaves everything as it is and returns
false for an upstream that waits for a reply. -/
def cproxy_dettach_if_noreply (s : a2a_state) : a2a_state × Bool :=
  if s.uc.noreply then
    ({ s with
        uc := { s.uc with noreply := false, reset := true }
        upstream_conn := none
        upstream_suffix := none
        upstream_suffix_len := 0
        upstream_status := PROTOCOL_BINARY_RESPONSE_SUCCESS
        upstream_retry := 0
        target_host_ident := none }, true)
  else (s, false)

/-- The function `cproxy_optimize_set_ascii(d, uc, key, key_len)`: when the `optimize_set`
spec is not empty and the pool's matcher matches the key, the reservation is detached from
the upstream, `STORED` is made the reply of the upstream and the function returns true;
when the write event of the upstream cannot be set, `err_oom` is raised and the upstream
closed. -/
def cproxy_optimize_set_ascii (env : a2a_env) (s : a2a_state) (key : String) :
    a2a_state × Bool :=
  if s.optimize_set.length = 0 then (s, false)
  else if env.matcher_check s.optimize_set_matcher key then
    let s1 : a2a_state :=
      { s with
        upstream_conn := none
        upstream_suffix := none
        upstream_suffix_len := 0
        upstream_status := PROTOCOL_BINARY_RESPONSE_SUCCESS
        upstream_retry := 0
        target_host_ident := none
        uc := out_string s.uc "STORED" }
    if env.update_event_uc then (s1, true)
    else
      ({ s1 with
          err_oom := (s1.err_oom + 1) % UINT64
          uc := { s1.uc with closed := true } }, true)
  else (s, false)

/-- The chain of `add_iov` calls of `cproxy_forward_a2a_item_downstream`: the pieces are
queued in order until a call fails; `n` is the number of the next call. -/
def add_iovs (env : a2a_env) : List piece → Nat → item_conn → item_conn × Bool
  | [], _, c => (c, true)
  | p :: rest, n, c =>
    if env.add_iov_ok n then add_iovs env rest (n + 1) { c with iov := c.iov ++ [p] }
    else (c, false)

/-- The pieces of a storage command as `cproxy_forward_a2a_item_downstream` queues them:
verb, key, flags, expiry, length, the cas value when there is a buffer for it, `noreply`
for an upstream that waits for no reply, and the data block. -/
def item_pieces (cmd : nread_cmd) (it : store_item) (str_cas : Bool) (noreply : Bool) :
    List piece :=
  [piece.verb (nread_text cmd), piece.key it.key, piece.flags, piece.exptime it.exptime,
    piece.length] ++
    (if str_cas then [piece.cas it.cas] else []) ++
    (if noreply then [piece.noreply] else []) ++ [piece.data]

/-- The function `cproxy_forward_a2a_item_downstream(d, cmd, it, uc)`: the command is
queued on the downstream connection found for the key; once the write event is set, a
`noreply` upstream is detached and the key dropped from the front cache, and for an
upstream that waits for a reply the timeout is started and, for `NREAD_SET` only,
`cproxy_optimize_set_ascii` is tried, raising `tot_optimize_sets` when it returns true.
Returns the state and the function's result. -/
def cproxy_forward_a2a_item_downstream (env : a2a_env) (s : a2a_state) (cmd : nread_cmd)
    (it : store_item) : a2a_state × Bool :=
  if env.find_downstream_conn it.key then
    if env.prep_ok then
      let str_exptime : Bool := env.add_conn_suffix_ok 0
      let str_cas : Bool := decide (cmd = nread_cmd.NREAD_CAS) && env.add_conn_suffix_ok 1
      if it.suffix_ok ∧ str_exptime ∧ (cmd ≠ nread_cmd.NREAD_CAS ∨ str_cas) then
        let r := add_iovs env (item_pieces cmd it str_cas s.uc.noreply) 0 s.c
        if r.2 then
          let c1 : item_conn :=
            { r.1 with state := conn_state.conn_mwrite, write_and_go := conn_state.conn_new_cmd }
          if env.update_event_c then
            let s1 : a2a_state :=
              { s with c := c1, downstream_used_start := 1, downstream_used := 1 }
            let r2 := cproxy_dettach_if_noreply s1
            if r2.2 = false then
              let s2 : a2a_state := { r2.1 with timeout_started := true }
              if cmd = nread_cmd.NREAD_SET then
                let r3 := cproxy_optimize_set_ascii env
                  { s2 with optimize_calls := s2.optimize_calls ++ [it.key] } it.key
                if r3.2 then
                  ({ r3.1 with tot_optimize_sets := (r3.1.tot_optimize_sets + 1) % UINT64 },
                    true)
                else (r3.1, true)
              else (s2, true)
            else
              ({ r2.1 with
                  c := { r2.1.c with write_and_go := conn_state.conn_pause }
                  front_cache_deleted := r2.1.front_cache_deleted ++ [it.key] }, true)
          else
            ({ s with c := { c1 with closed := true }, err_oom := (s.err_oom + 1) % UINT64 },
              false)
        else
          ({ s with c := { r.1 with closed := true }, err_oom := (s.err_oom + 1) % UINT64 },
            false)
      else (s, false)
    else
      ({ s with
          c := { s.c with closed := true }
          err_downstream_write_prep := (s.err_downstream_write_prep + 1) % UINT64 }, false)
  else (s, false)

/-- Modelled from the spec: `genhash_find` on a table with `strhash_ops`, kept as an
association list in insertion order. -/
def strhash_find {V : Type} (m : List (String × V)) (key : String) : Option V :=
  (m.find? (fun kv => kv.1 = key)).map Prod.snd

/-- Modelled from the spec: `genhash_update` on a table with `strhash_ops` replaces the
value stored under the key, or adds the key. -/
def strhash_update {V : Type} (m : List (String × V)) (key : String) (v : V) :
    List (String × V) :=
  match m with
  | [] => [(key, v)]
  | kv :: rest => if kv.1 = key then (key, v) :: rest else kv :: strhash_update rest key v

/-- The `struct key_stats` of a cache key: the key, the time it was added and the table
`stats_cmd`, row after row. -/
structure key_stats where
  key : String
  added_at : Nat
  stats_cmd : List proxy_stats_cmd
  deriving DecidableEq

/-- The table `stats_cmd` of a `proxy_stats_td`, row after row; the counters of its
`proxy_stats`, which `add_proxy_stats` adds up or maximises one by one, are left out. -/
structure proxy_stats_td where
  stats_cmd : List proxy_stats_cmd
  deriving DecidableEq

/-- The maps that one worker fills for `on_conflate_get_stats`: `map_pstd` from pool key
(`port:name`) to `proxy_stats_td`, and `map_key_stats` from pool key to the key-stats map
of the pool. -/
structure stats_gathering_pair where
  map_pstd : List (String × proxy_stats_td)
  map_key_stats : List (String × List (String × key_stats))
  deriving DecidableEq

/-- The arithmetic outside the embedding: `rescale dest src` is the record that
`add_key_stats_inner` leaves in `dest` when the key is in both maps, the sums rescaled in
`float` by the ages of the two records. -/
structure stats_env where
  rescale : key_stats → key_stats → key_stats

/-- The function `add_stats_cmd(agg, x)`. -/
def add_stats_cmd (agg x : proxy_stats_cmd) : proxy_stats_cmd :=
  { seen := (agg.seen + x.seen) % UINT64
    hits := (agg.hits + x.hits) % UINT64
    misses := (agg.misses + x.misses) % UINT64
    read_bytes := (agg.read_bytes + x.read_bytes) % UINT64
    write_bytes := (agg.write_bytes + x.write_bytes) % UINT64
    cas := (agg.cas + x.cas) % UINT64 }

/-- The function `add_proxy_stats_td(agg, x)` on the table `stats_cmd`: every entry of
`x` is added to the entry of `agg` at the same place. -/
def add_proxy_stats_td (agg x : proxy_stats_td) : proxy_stats_td :=
  { stats_cmd := List.zipWith add_stats_cmd agg.stats_cmd x.stats_cmd }

/-- The function `map_pstd_foreach_merge(key, value, user_data)`: the worker's
`proxy_stats_td` is added to the one the aggregate map holds under the same pool key.
Returns the aggregate map. -/
def map_pstd_foreach_merge (key : String) (cur_pstd : proxy_stats_td)
    (map_end_pstd : List (String × proxy_stats_td)) : List (String × proxy_stats_td) :=
  match strhash_find map_end_pstd key with
  | some end_pstd => strhash_update map_end_pstd key (add_proxy_stats_td end_pstd cur_pstd)
  | none => map_end_pstd

/-- The function `add_key_stats_inner(data, userdata)`: a record whose key the map
`userdata` does not hold is copied into it; otherwise the record of the map takes up the
rescaled sums. -/
def add_key_stats_inner (env : stats_env) (key_stats_map : List (String × key_stats))
    (kstats : key_stats) : List (String × key_stats) :=
  match strhash_find key_stats_map kstats.key with
  | none => strhash_update key_stats_map kstats.key kstats
  | some dest_stats => strhash_update key_stats_map kstats.key (env.rescale dest_stats kstats)

/-- The function `add_processed_key_stats(dest_map, src_map)`: `add_key_stats_inner` runs
for every record of `src_map`, with `dest_map` as the map it writes to. -/
def add_processed_key_stats (env : stats_env) (dest_map src_map : List (String × key_stats)) :
    List (String × key_stats) :=
  src_map.foldl (fun dest kv => add_key_stats_inner env dest kv.2) dest_map

/-- The function `map_key_stats_foreach_merge(key, value, user_data)`: `value` is the
key-stats map of a worker for the pool `key`, `user_data` the aggregate map. When the
aggregate holds a key-stats map `end_key_stats` for the pool, the code calls
`add_processed_key_stats(key_stats_hash, end_key_stats)`. Returns the worker's map and the
aggregate map. -/
def map_key_stats_foreach_merge (env : stats_env) (key : String)
    (key_stats_hash : List (String × key_stats))
    (end_map_key_stats : List (String × List (String × key_stats))) :
    List (String × key_stats) × List (String × List (String × key_stats)) :=
  match strhash_find end_map_key_stats key with
  | some end_key_stats =>
    (add_processed_key_stats env key_stats_hash end_key_stats, end_map_key_stats)
  | none => (key_stats_hash, end_map_key_stats)

/-- The body of the merge loop of `on_conflate_get_stats` for one worker `i >= 2`: its
`map_pstd` is iterated with `map_pstd_foreach_merge` and its `map_key_stats` with
`map_key_stats_foreach_merge`, both with the maps of the first worker as `user_data`.
Returns the maps of the first worker and those of worker `i`. -/
def merge_pair (env : stats_env) (end_pair pair : stats_gathering_pair) :
    stats_gathering_pair × stats_gathering_pair :=
  let end_pstd := pair.map_pstd.foldl (fun e kv => map_pstd_foreach_merge kv.1 kv.2 e)
    end_pair.map_pstd
  let r := pair.map_key_stats.foldl
    (fun acc kv =>
      let m := map_key_stats_foreach_merge env kv.1 kv.2 acc.2
      (acc.1 ++ [(kv.1, m.1)], m.2))
    (([] : List (String × List (String × key_stats))), end_pair.map_key_stats)
  ({ map_pstd := end_pstd, map_key_stats := r.2 }, { pair with map_key_stats := r.1 })

/-- An event in the life of the pool list: a configuration is delivered to
`cproxy_on_config` on the listener thread, or worker thread `j` runs the
`update_ptd_config` item of its copy of pool `k`, the pools counted from the end of the
list (pool 0 is the one created first). -/
inductive pool_event where
  | config (kvs : List (String × List String))
  | update (k j : Nat)

/-- Pool `k` of the list, counted from its end. -/
def pool_at (m : proxy_main) (k : Nat) : Option proxy :=
  m.proxy_head.reverse.get? k

/-- The copy that worker thread `j` holds of pool `k`. -/
def ptd_at (m : proxy_main) (k j : Nat) : Option proxy_td :=
  (pool_at m k).bind (fun p => p.thread_data.get? j)

/-- A worker thread takes an `update_ptd_config` item off its queue and runs it: the item
must have been sent for thread `j` of pool `k`. -/
def run_update_ptd_config (m : proxy_main) (k j : Nat) : Except String proxy_main :=
  match pool_at m k with
  | some p =>
    match p.thread_data.get? j with
    | some ptd =>
      if j ∈ p.queued then
        pure { m with
          proxy_head := (m.proxy_head.reverse.set k
            { p with
              thread_data := p.thread_data.set j (update_ptd_config p ptd).1
              queued := p.queued.erase j }).reverse }
      else throw "no update_ptd_config item is queued for the thread"
    | none => throw "no such thread"
  | none => throw "no such pool"

/-- One event. -/
def pool_step (env : host_env) (m : proxy_main) : pool_event → Except String proxy_main
  | pool_event.config kvs => cproxy_on_config env m kvs
  | pool_event.update k j => run_update_ptd_config m k j

/-- A sequence of events, one after the other. -/
def pool_run (env : host_env) : proxy_main → List pool_event → Except String proxy_main
  | m, [] => Except.ok m
  | m, e :: rest => (pool_step env m e).bind (fun m1 => pool_run env m1 rest)

/-- Every configuration of the sequence is delivered while the greatest version of the
list is below `2^32 - 1`, so that `new_config_ver` does not wrap around. -/
def below_wrap (env : host_env) : proxy_main → List pool_event → Bool
  | _, [] => true
  | m, e :: rest =>
    (match e with
      | pool_event.config _ => decide (max_config_ver m.proxy_head < UINT32 - 1)
      | pool_event.update _ _ => true) &&
    (match pool_step env m e with
      | Except.ok m1 => below_wrap env m1 rest
      | Except.error _ => true)

/-- A behavior pool holds no more server behaviors than its size says, and has size zero
when it has no array. -/
def sized (bp : proxy_behavior_pool) : Prop :=
  match bp.arr with
  | none => bp.num = 0
  | some l => l.length ≤ bp.num.toNat

/-- The worker copies of a pool follow the pool: the config string of the pool is trimmed,
the behavior pools are `sized`, no copy has a version above the pool's, and a copy that
has the pool's version has its config string and behaviors. -/
def ptd_ok (p : proxy) : Prop :=
  p.config.map trimstrdup = p.config ∧ sized p.behavior_pool ∧
  ∀ t ∈ p.thread_data, sized t.behavior_pool ∧ t.config_ver ≤ p.config_ver ∧
    (t.config_ver = p.config_ver → t.config = p.config ∧ t.behavior_pool = p.behavior_pool)

/-- The invariant of the pool list that the worker copies rely on. -/
def pools_synced (m : proxy_main) : Prop :=
  ∀ p ∈ m.proxy_head, ptd_ok p

/-- A behavior with a front cache of 200 items and the listen port 11211. -/
def sample_behavior : proxy_behavior :=
  { downstream_weight := 0
    downstream_retry := 1
    front_cache_max := 200
    front_cache_lifespan := 15000
    front_cache_spec := ""
    front_cache_unspec := ""
    key_stats_max := 4000
    key_stats_lifespan := 0
    key_stats_spec := ""
    key_stats_unspec := ""
    optimize_set := ""
    usr := ""
    pwd := ""
    host := ""
    port := 0
    nodeLocator := ""
    port_listen := 11211 }

/-- The text of a single pool description, standing for a JSON document. -/
def sample_doc : String := "name=default servers=10.0.0.1:11210,10.0.0.2:11210"

/-- The text of a pool description that names the node locator `"spread"`. -/
def spread_doc : String := "name=other nodeLocator=spread servers=10.0.0.3:11210"

/-- The lookup of a member of a JSON object by its exact name. -/
def object_item (j : cJSON) (key : String) : Option cJSON :=
  match j with
  | cJSON.cJSON_Object items => (items.find? (fun kv => kv.1 = key)).map Prod.snd
  | _ => none

/-- A host in which the two sample documents parse, libvbucket reads the server list of a
document whatever its node locator, and pools can always be created. -/
def sample_env : host_env :=
  { cJSON_Parse := fun s =>
      if s = sample_doc then
        some (cJSON.cJSON_Object [("name", cJSON.cJSON_String "default")])
      else if s = spread_doc then
        some (cJSON.cJSON_Object
          [("name", cJSON.cJSON_String "other"), ("nodeLocator", cJSON.cJSON_String "spread")])
      else none
    cJSON_Print := fun _ => none
    cJSON_GetObjectItem := object_item
    vbucket_config_parse_string := fun s =>
      if s = sample_doc then some ["10.0.0.1:11210", "10.0.0.2:11210"]
      else if s = spread_doc then some ["10.0.0.3:11210"]
      else none
    cproxy_create_ok := fun _ _ => true
    cproxy_listen := fun _ _ => 1 }

/-- The key-value list that delivers `sample_doc`. -/
def sample_kvs : List (String × List String) :=
  [("url", ["http://10.0.0.1:8091/pools/default"]), ("contents", [sample_doc])]

/-- A proxy with no pool yet, four threads. -/
def empty_main : proxy_main :=
  { behavior := sample_behavior
    proxy_head := []
    nthreads := 4
    stat_configs := 0
    stat_config_fails := 0
    stat_proxy_starts := 0
    stat_proxy_start_fails := 0
    stat_proxy_existings := 0
    stat_proxy_shutdowns := 0 }

/-- A proxy with three pools: `default` at version 1, `old` at version 3 and the NULL
bucket at version 0. -/
def sample_main : proxy_main :=
  { empty_main with
    proxy_head :=
      [cproxy_create "default" 11211 (some "name=default servers=10.0.0.9:11210") 1
          { base := sample_behavior, num := 1,
            arr := some [{ sample_behavior with host := "10.0.0.9", port := 11210 }] } 4,
        cproxy_create "old" 11211 (some "name=old servers=10.0.0.8:11210") 3
          { base := sample_behavior, num := 1,
            arr := some [{ sample_behavior with host := "10.0.0.8", port := 11210 }] } 4,
        cproxy_create NULL_BUCKET 11211 (some "") 0
          { base := sample_behavior, num := 0, arr := some [] } 4] }

/-- An item with key `a`. -/
def sample_item : item :=
  { key := "a", nbytes := 3, crlf := true, cas := CPROXY_NOT_CAS }

/-- The state in which a worker has put `sample_item` into the running front cache of
every pool (as `multiget_ascii_downstream_response` does through `mcache_set`). -/
def cache_item (m : proxy_main) : proxy_main :=
  { m with
    proxy_head := m.proxy_head.map (fun p =>
      match p.front_cache.map with
      | some l => { p with front_cache := { p.front_cache with map := some (sample_item :: l) } }
      | none => p) }

/-- The emit functions of the ascii-to-ascii proxy (`a2a_multiget_start`,
`a2a_multiget_skey`, `a2a_multiget_end`): each queues its text with `add_iov`. -/
def a2a_ops : emit_ops :=
  { emit_start := fun c cmd => { c with msgbytes := c.msgbytes + cmd.length }
    emit_skey := fun c skey _ _ => { c with msgbytes := c.msgbytes + skey.length }
    emit_end := fun c => { c with msgbytes := c.msgbytes + 2 } }

/-- A host without front cache in which every key is served by downstream connection 0
and every entry can be allocated. -/
def sample_mg_env : mg_env :=
  { front_cache_key := fun _ => false
    mcache_get := fun _ _ => none
    find_downstream_conn := fun _ => some (0, -1)
    calloc_ok := fun _ => true }

/-- A downstream connection with nothing queued. -/
def idle_conn : dconn :=
  { sfd := 30, prep_ok := true, event_ok := true, msgused := 0, msgbytes := 0,
    mwrite := false, closed := false }

/-- A reservation with one idle downstream connection, no map and all counters zero, for
the chain `chain`. -/
def sample_downstream (chain : List uconn) : downstream :=
  { downstream_conns := [slot.live idle_conn]
    upstream_conn := chain
    multiget := none
    front_cache := { map := none, max := 0 }
    upstream_suffix := none
    upstream_suffix_len := 0
    upstream_status := 0
    upstream_retry := 0
    target_host_ident := none
    downstream_used_start := 0
    downstream_used := 0
    tot_multiget_keys := 0
    tot_multiget_keys_dedupe := 0
    tot_multiget_bytes_dedupe := 0
    err_downstream_write_prep := 0
    err_oom := 0
    psc_get :=
      { seen := 0, hits := 0, misses := 0, read_bytes := 0, write_bytes := 0, cas := 0 }
    psc_get_key :=
      { seen := 0, hits := 0, misses := 0, read_bytes := 0, write_bytes := 0, cas := 0 }
    allocs := 0
    emitted := []
    sent := [] }

/-- The upstream connection 7 asking `get A B A C A`. -/
def dup_request : uconn :=
  { sfd := 7, cmd_start := "get A B A C A", noreply := false }

/-- Two upstream connections, 7 and 8, each asking `get A`. -/
def single_key_chain : List uconn :=
  [{ sfd := 7, cmd_start := "get A", noreply := false },
    { sfd := 8, cmd_start := "get A", noreply := false }]

/-- The item that a downstream returns for `key`. -/
def value_of (key : String) : item :=
  { key := key, nbytes := 7, crlf := true, cas := CPROXY_NOT_CAS }

/-- Two upstream connections, 7 and 8, each asking `get A B`. -/
def shared_chain : List uconn :=
  [{ sfd := 7, cmd_start := "get A B", noreply := false },
    { sfd := 8, cmd_start := "get A B", noreply := false }]

/-- A host whose front cache admits every key and returns the newest item it holds for
the key. -/
def cached_mg_env : mg_env :=
  { front_cache_key := fun _ => true
    mcache_get := fun c key => (c.map.getD []).find? (fun x => x.key = key)
    find_downstream_conn := fun _ => some (0, -1)
    calloc_ok := fun _ => true }

/-- The reservation `sample_downstream chain` of a pool whose front cache holds a value
for `A`. -/
def cached_downstream (chain : List uconn) : downstream :=
  { sample_downstream chain with front_cache := { map := some [value_of "A"], max := 4 } }

/-- The upstream connection 7 asking `get A B`. -/
def get_request_ab : uconn :=
  { sfd := 7, cmd_start := "get A B", noreply := false }

/-- A bucket description with the given name, as a JSON value. -/
def bucket_json (name : String) : cJSON :=
  cJSON.cJSON_Object [("name", cJSON.cJSON_String name)]

/-- The text standing for a document whose `buckets` array holds two descriptions of a
bucket named `a`. -/
def twin_doc : String := "buckets=a,a"

/-- The text standing for a document whose `buckets` array describes the buckets `a` and
`b`. -/
def pair_doc : String := "buckets=a,b"

/-- A node object with the given hostname and `ports.direct`, and the given `status`
member if any. -/
def node_json (hostname : String) (direct : Int) (status : Option cJSON) : cJSON :=
  cJSON.cJSON_Object
    ([("hostname", cJSON.cJSON_String hostname),
      ("ports", cJSON.cJSON_Object [("direct", cJSON.cJSON_Number direct)])] ++
      match status with
      | some j => [("status", j)]
      | none => [])

/-- The text standing for a ketama pool description with three nodes: a healthy one, one
whose hostname has nothing in front of the colon, and one whose `status` is a number. -/
def ketama_doc : String := "ketama nodes=10.0.0.1:8091,:8091,10.0.0.3"

/-- The text standing for a ketama pool description with three nodes: a healthy one, one
that is warming up, and one without `status`. -/
def healthy_doc : String := "ketama nodes=10.0.0.1:8091,10.0.0.4,10.0.0.5"

/-- The JSON value of a ketama pool description named `default` with the given nodes. -/
def ketama_json (nodes : List cJSON) : cJSON :=
  cJSON.cJSON_Object
    [("name", cJSON.cJSON_String "default"), ("nodeLocator", cJSON.cJSON_String "ketama"),
      ("nodes", cJSON.cJSON_Array nodes)]

/-- The nodes of `ketama_doc`. -/
def ketama_doc_nodes : List cJSON :=
  [node_json "10.0.0.1:8091" 11210 (some (cJSON.cJSON_String "healthy")),
    node_json ":8091" 11210 none,
    node_json "10.0.0.3" 11210 (some (cJSON.cJSON_Number 0))]

/-- The nodes of `healthy_doc`. -/
def healthy_doc_nodes : List cJSON :=
  [node_json "10.0.0.1:8091" 11210 (some (cJSON.cJSON_String "healthy")),
    node_json "10.0.0.4" 11210 (some (cJSON.cJSON_String "warmup")),
    node_json "10.0.0.5" 11210 none]

/-- A host in which the sample documents with a `buckets` array and the ketama pool
descriptions parse, a bucket description is printed as `name=` followed by its name,
libvbucket finds one server in every bucket description, and pools can always be
created. -/
def json_env : host_env :=
  { cJSON_Parse := fun s =>
      if s = twin_doc then
        some (cJSON.cJSON_Object
          [("buckets", cJSON.cJSON_Array [bucket_json "a", bucket_json "a"])])
      else if s = pair_doc then
        some (cJSON.cJSON_Object
          [("buckets", cJSON.cJSON_Array [bucket_json "a", bucket_json "b"])])
      else if s = "name=a" then some (bucket_json "a")
      else if s = "name=b" then some (bucket_json "b")
      else if s = ketama_doc then some (ketama_json ketama_doc_nodes)
      else if s = healthy_doc then some (ketama_json healthy_doc_nodes)
      else none
    cJSON_Print := fun j =>
      match object_item j "name" with
      | some (cJSON.cJSON_String n) => some ("name=" ++ n)
      | _ => none
    cJSON_GetObjectItem := object_item
    vbucket_config_parse_string := fun s =>
      if s = "name=a" ∨ s = "name=b" then some ["10.0.0.1:11210"] else none
    cproxy_create_ok := fun _ _ => true
    cproxy_listen := fun _ _ => 1 }

/-- A proxy with no pool yet whose default behavior gives every server the weight 3. -/
def weighted_main : proxy_main :=
  { empty_main with behavior := { sample_behavior with downstream_weight := 3 } }

/-- A host of the storage commands in which every call succeeds and a matcher matches the
keys that start with its spec, a single prefix. -/
def sample_a2a_env : a2a_env :=
  { find_downstream_conn := fun _ => true
    prep_ok := true
    add_conn_suffix_ok := fun _ => true
    add_iov_ok := fun _ => true
    update_event_c := true
    update_event_uc := true
    matcher_check := fun m key =>
      match m.spec with
      | some spec => spec.length > 0 && spec.data.isPrefixOf key.data
      | none => false }

/-- A reservation of the pool with `optimize_set=tmp:` whose upstream connection 7 waits
for the reply to a storage command; nothing is queued yet. -/
def sample_a2a_state : a2a_state :=
  { c := { iov := [], state := conn_state.conn_pause, write_and_go := conn_state.conn_other,
           closed := false }
    uc := { sfd := 7, noreply := false, out := [], reset := false, closed := false }
    upstream_conn := some 7
    upstream_suffix := none
    upstream_suffix_len := 0
    upstream_status := 0
    upstream_retry := 0
    target_host_ident := none
    downstream_used_start := 0
    downstream_used := 0
    optimize_set := "tmp:"
    optimize_set_matcher := { spec := some "tmp:" }
    tot_optimize_sets := 0
    err_oom := 0
    err_downstream_write_prep := 0
    timeout_started := false
    front_cache_deleted := []
    optimize_calls := [] }

/-- The item of `set tmp:k 0 0 3`. -/
def tmp_item : store_item :=
  { key := "tmp:k", suffix_ok := true, exptime := 0, cas := 0 }

/-- A counter record with the given number of commands seen and nothing else. -/
def seen_cmd (n : Nat) : proxy_stats_cmd :=
  { seen := n, hits := 0, misses := 0, read_bytes := 0, write_bytes := 0, cas := 0 }

/-- The statistics of the cache key `key`, seen `n` times. -/
def sample_key_stats (key : String) (n : Nat) : key_stats :=
  { key := key, added_at := 100, stats_cmd := [seen_cmd n] }

/-- A host whose rescaled sum keeps the older of the two records. -/
def sample_stats_env : stats_env :=
  { rescale := fun dest _ => dest }

/-- What the first worker collected for the pool `11211:default`: five commands, and key
statistics for the cache key `a`. -/
def first_worker_pair : stats_gathering_pair :=
  { map_pstd := [("11211:default", { stats_cmd := [seen_cmd 5] })]
    map_key_stats := [("11211:default", [("a", sample_key_stats "a" 5)])] }

/-- What the second worker collected for the same pool: two commands, and key statistics
for the cache key `b`. -/
def second_worker_pair : stats_gathering_pair :=
  { map_pstd := [("11211:default", { stats_cmd := [seen_cmd 2] })]
    map_key_stats := [("11211:default", [("b", sample_key_stats "b" 2)])] }

/-- The behaviors that the sample document gives the pool `default`. -/
def lap_bp : proxy_behavior_pool :=
  { base := { sample_behavior with usr := "default", nodeLocator := "vbucket" }
    num := 2
    arr := some
      [{ sample_behavior with
          usr := "default", nodeLocator := "vbucket", host := "10.0.0.1", port := 11210 },
        { sample_behavior with
          usr := "default", nodeLocator := "vbucket", host := "10.0.0.2", port := 11210 }] }

/-- The pool `default` of the sample document at version `v`, the copies of its worker
threads at the versions `ws`, with the work items `q` queued. -/
def lap_pool (v : Nat) (ws q : List Nat) : proxy :=
  { cproxy_create "default" 11211 (some sample_doc) v lap_bp 4 with
    thread_data := ws.map (fun w => cproxy_create_td (some sample_doc) w lap_bp)
    queued := q }

/-- A proxy whose only pool is `lap_pool v ws q`, after `s` configurations of which `e`
found the pool existing. -/
def lap_main (v : Nat) (ws q : List Nat) (s e : Nat) : proxy_main :=
  { empty_main with
    proxy_head := [lap_pool v ws q]
    stat_configs := s
    stat_proxy_starts := 1
    stat_proxy_existings := e }

/-- The proxy after `n` deliveries of the sample document, the `update_ptd_config` items
of each delivery run by the three worker threads before the next delivery. The copy of
thread 0 is never sent an item and stays at version 1. -/
def lap (n : Nat) : proxy_main :=
  lap_main n [1, n, n, n] [] n (n - 1)

/-- One delivery of the sample document followed by the three worker threads running
their `update_ptd_config` items. -/
def lap_events : List pool_event :=
  [pool_event.config sample_kvs, pool_event.update 0 1, pool_event.update 0 2,
    pool_event.update 0 3]

/-- The first delivery of the sample document followed by `k` rounds of `lap_events`. -/
def lap_run (k : Nat) : List pool_event :=
  pool_event.config sample_kvs :: (List.replicate k lap_events).flatten

/-- The upstream connection 7 asking `get A`. -/
def single_request : uconn :=
  { sfd := 7, cmd_start := "get A", noreply := false }

/-- The upstream connection 7 asking `get A`, followed by the upstream connection 8 asking
`get B C`. -/
def mixed_chain : List uconn :=
  [{ sfd := 7, cmd_start := "get A", noreply := false },
    { sfd := 8, cmd_start := "get B C", noreply := false }]

/-- The upstream connection 7 asking `get A`, followed by the upstream connection 8 asking
`get B`. -/
def separate_chain : List uconn :=
  [{ sfd := 7, cmd_start := "get A", noreply := false },
    { sfd := 8, cmd_start := "get B", noreply := false }]

end Moxi

/-! # Properties of the bucket engine -/

namespace BucketEngine

open bucket_state_t ENGINE_ERROR_CODE protocol_binary_response_status

theorem bind_eq_ok {ε α β : Type} (x : Except ε α) (f : α → Except ε β) (b : β) :
    (x >>= f) = .ok b ↔ ∃ a, x = .ok a ∧ f a = .ok b := by
  cases x <;> simp [bind, Except.bind]

theorem pure_eq_ok {ε α : Type} (a b : α) :
    (pure a : Except ε α) = .ok b ↔ a = b := by
  simp [pure, Except.pure]

theorem deref_eq_ok (s : bucket_engine) (p : Nat) (h : proxied_engine_handle_t) :
    deref s p = .ok h ↔ s.heap[p]? = some h ∧ h.freed = false := by
  unfold deref
  cases hp : s.heap[p]? with
  | none => simp
  | some h' =>
    cases hf : h'.freed with
    | true =>
      simp only [hf, if_true, Option.some.injEq]
      constructor
      · intro h0; cases h0
      · rintro ⟨rfl, h2⟩; simp [hf] at h2
    | false =>
      simp only [hf, Bool.false_eq_true, if_false, Except.ok.injEq, Option.some.injEq]
      constructor
      · rintro rfl; exact ⟨rfl, hf⟩
      · rintro ⟨rfl, _⟩; rfl

theorem store_handle_self (s : bucket_engine) (p : Nat) (h : proxied_engine_handle_t)
    (hp : s.heap[p]? = some h) : store_handle s p h = s := by
  unfold store_handle
  have : s.heap.set p h = s.heap := by
    apply List.ext_getElem?
    intro i
    by_cases hi : p = i
    · subst hi
      rw [List.getElem?_set_self (by
        cases hlt : decide (p < s.heap.length) with
        | true => simpa using hlt
        | false =>
          have : s.heap.length ≤ p := by simpa using hlt
          rw [List.getElem?_eq_none this] at hp
          cases hp), hp]
    · rw [List.getElem?_set_ne hi]
  rw [this]

theorem store_handle_get (s : bucket_engine) (p : Nat) (h h' : proxied_engine_handle_t)
    (hp : s.heap[p]? = some h) : (store_handle s p h').heap[p]? = some h' := by
  unfold store_handle
  have hlt : p < s.heap.length := by
    by_contra hc
    rw [List.getElem?_eq_none (by omega)] at hp
    cases hp
  simp [List.getElem?_set_self hlt]

theorem store_handle_get_ne (s : bucket_engine) (p q : Nat) (h' : proxied_engine_handle_t)
    (hq : p ≠ q) : (store_handle s p h').heap[q]? = s.heap[q]? := by
  unfold store_handle
  simp [List.getElem?_set_ne hq]

@[simp]
theorem store_handle_heap (s : bucket_engine) (p : Nat) (h : proxied_engine_handle_t) :
    (store_handle s p h).heap = s.heap.set p h := rfl
@[simp]
theorem store_handle_engines (s : bucket_engine) (p : Nat) (h : proxied_engine_handle_t) :
    (store_handle s p h).engines = s.engines := rfl
@[simp]
theorem store_handle_conns (s : bucket_engine) (p : Nat) (h : proxied_engine_handle_t) :
    (store_handle s p h).conns = s.conns := rfl
@[simp]
theorem store_handle_calls (s : bucket_engine) (p : Nat) (h : proxied_engine_handle_t) :
    (store_handle s p h).calls = s.calls := rfl
@[simp]
theorem store_handle_responses (s : bucket_engine) (p : Nat) (h : proxied_engine_handle_t) :
    (store_handle s p h).responses = s.responses := rfl
@[simp]
theorem get_conn_store_handle (s : bucket_engine) (p : Nat) (h : proxied_engine_handle_t)
    (c : Nat) : get_conn (store_handle s p h) c = get_conn s c := rfl

@[simp]
theorem set_conn_heap (s : bucket_engine) (c : Nat) (v : conn_t) :
    (set_conn s c v).heap = s.heap := rfl
@[simp]
theorem set_conn_engines (s : bucket_engine) (c : Nat) (v : conn_t) :
    (set_conn s c v).engines = s.engines := rfl
@[simp]
theorem set_conn_calls (s : bucket_engine) (c : Nat) (v : conn_t) :
    (set_conn s c v).calls = s.calls := rfl
@[simp]
theorem set_conn_responses (s : bucket_engine) (c : Nat) (v : conn_t) :
    (set_conn s c v).responses = s.responses := rfl
@[simp]
theorem store_es_heap (s : bucket_engine) (c : Nat) (e : Option engine_specific_t) :
    (store_es s c e).heap = s.heap := rfl
@[simp]
theorem store_es_engines (s : bucket_engine) (c : Nat) (e : Option engine_specific_t) :
    (store_es s c e).engines = s.engines := rfl
@[simp]
theorem store_es_calls (s : bucket_engine) (c : Nat) (e : Option engine_specific_t) :
    (store_es s c e).calls = s.calls := rfl
@[simp]
theorem store_es_responses (s : bucket_engine) (c : Nat) (e : Option engine_specific_t) :
    (store_es s c e).responses = s.responses := rfl
@[simp]
theorem deref_store_es (s : bucket_engine) (c : Nat) (e : Option engine_specific_t)
    (p : Nat) : deref (store_es s c e) p = deref s p := rfl
@[simp]
theorem deref_set_conn (s : bucket_engine) (c : Nat) (v : conn_t)
    (p : Nat) : deref (set_conn s c v) p = deref s p := rfl

theorem padded_getD (l : List conn_t) (n i : Nat) :
    (l ++ List.replicate n no_conn).getD i no_conn = l.getD i no_conn := by
  simp only [List.getD_eq_getElem?_getD]
  by_cases hi : i < l.length
  · rw [List.getElem?_append_left hi]
  · rw [List.getElem?_append_right (by omega), List.getElem?_eq_none (l := l) (by omega)]
    by_cases h2 : i - l.length < n
    · simp [List.getElem?_replicate, h2]
    · simp [List.getElem?_replicate, h2]

theorem get_conn_set_conn (s : bucket_engine) (c c' : Nat) (v : conn_t) :
    get_conn (set_conn s c v) c' = if c' = c then v else get_conn s c' := by
  unfold get_conn set_conn
  simp only
  by_cases h : c' = c
  · subst h
    simp only [List.getD_eq_getElem?_getD, if_true]
    rw [List.getElem?_set_self]
    · rfl
    · simp only [List.length_append, List.length_replicate]
      omega
  · simp only [h, if_false]
    rw [List.getD_eq_getElem?_getD, List.getElem?_set_ne (Ne.symm h),
      ← List.getD_eq_getElem?_getD,
      padded_getD]

theorem get_conn_store_es (s : bucket_engine) (c c' : Nat) (e : Option engine_specific_t) :
    get_conn (store_es s c e) c' =
      if c' = c then { get_conn s c with es := e } else get_conn s c' := by
  unfold store_es
  rw [get_conn_set_conn]

theorem set_conn_set_conn (s : bucket_engine) (c : Nat) (v1 v2 : conn_t) :
    set_conn (set_conn s c v1) c v2 = set_conn s c v2 := by
  unfold set_conn
  simp only
  congr 1
  have hlen : ((s.conns ++ List.replicate (c + 1 - s.conns.length) no_conn).set c v1).length
      = s.conns.length + (c + 1 - s.conns.length) := by simp
  have h0 : c + 1 - ((s.conns ++ List.replicate (c + 1 - s.conns.length) no_conn).set c v1).length
      = 0 := by rw [hlen]; omega
  rw [h0]
  simp [List.set_set]

theorem store_es_store_es (s : bucket_engine) (c : Nat) (e1 e2 : Option engine_specific_t) :
    store_es (store_es s c e1) c e2 = store_es s c e2 := by
  unfold store_es
  rw [get_conn_set_conn, if_pos rfl, set_conn_set_conn]

theorem store_handle_store_handle (s : bucket_engine) (p : Nat) (h1 h2 : proxied_engine_handle_t) :
    store_handle (store_handle s p h1) p h2 = store_handle s p h2 := by
  unfold store_handle
  simp [List.set_set]

theorem store_es_store_handle (s : bucket_engine) (c : Nat) (e : Option engine_specific_t)
    (p : Nat) (h : proxied_engine_handle_t) :
    store_es (store_handle s p h) c e = store_handle (store_es s c e) p h := rfl

theorem deref_store_handle (s : bucket_engine) (p : Nat) (h h' : proxied_engine_handle_t)
    (hp : s.heap[p]? = some h) (hf : h'.freed = false) :
    deref (store_handle s p h') p = .ok h' := by
  rw [deref_eq_ok]
  exact ⟨store_handle_get s p h h' hp, hf⟩

theorem deref_store_handle_ne (s : bucket_engine) (p q : Nat) (h' : proxied_engine_handle_t)
    (hq : p ≠ q) : deref (store_handle s p h') q = deref s q := by
  unfold deref
  rw [store_handle_get_ne s p q h' hq]

@[simp]
theorem maybe_start_refcount (e : proxied_engine_handle_t) :
    (maybe_start_engine_shutdown_LOCKED e).refcount = e.refcount := by
  unfold maybe_start_engine_shutdown_LOCKED; split <;> rfl

@[simp]
theorem maybe_start_clients (e : proxied_engine_handle_t) :
    (maybe_start_engine_shutdown_LOCKED e).clients = e.clients := by
  unfold maybe_start_engine_shutdown_LOCKED; split <;> rfl

@[simp]
theorem maybe_start_cookie (e : proxied_engine_handle_t) :
    (maybe_start_engine_shutdown_LOCKED e).cookie = e.cookie := by
  unfold maybe_start_engine_shutdown_LOCKED; split <;> rfl

@[simp]
theorem maybe_start_force_shutdown (e : proxied_engine_handle_t) :
    (maybe_start_engine_shutdown_LOCKED e).force_shutdown = e.force_shutdown := by
  unfold maybe_start_engine_shutdown_LOCKED; split <;> rfl

@[simp]
theorem maybe_start_freed (e : proxied_engine_handle_t) :
    (maybe_start_engine_shutdown_LOCKED e).freed = e.freed := by
  unfold maybe_start_engine_shutdown_LOCKED; split <;> rfl

@[simp]
theorem maybe_start_name (e : proxied_engine_handle_t) :
    (maybe_start_engine_shutdown_LOCKED e).name = e.name := by
  unfold maybe_start_engine_shutdown_LOCKED; split <;> rfl

@[simp]
theorem maybe_start_pe (e : proxied_engine_handle_t) :
    (maybe_start_engine_shutdown_LOCKED e).pe = e.pe := by
  unfold maybe_start_engine_shutdown_LOCKED; split <;> rfl

theorem maybe_start_state (e : proxied_engine_handle_t) :
    (maybe_start_engine_shutdown_LOCKED e).state =
      if e.clients = 0 ∧ e.state = STATE_STOP_REQUESTED then STATE_STOPPING else e.state := by
  unfold maybe_start_engine_shutdown_LOCKED; split <;> rfl

theorem maybe_start_shutdown_threads (e : proxied_engine_handle_t) :
    (maybe_start_engine_shutdown_LOCKED e).shutdown_threads =
      if e.clients = 0 ∧ e.state = STATE_STOP_REQUESTED then e.shutdown_threads ++ [0]
      else e.shutdown_threads := by
  unfold maybe_start_engine_shutdown_LOCKED; split <;> rfl

theorem maybe_start_trace (e : proxied_engine_handle_t) :
    (maybe_start_engine_shutdown_LOCKED e).trace =
      if e.clients = 0 ∧ e.state = STATE_STOP_REQUESTED then e.state :: e.trace
      else e.trace := by
  unfold maybe_start_engine_shutdown_LOCKED; split <;> rfl

theorem release_handle_locked_ok (peh : proxied_engine_handle_t) (hc : 0 < peh.refcount) :
    release_handle_locked peh =
      .ok (maybe_start_engine_shutdown_LOCKED { peh with refcount := peh.refcount - 1 }) := by
  unfold release_handle_locked
  rw [if_pos hc]

theorem release_handle_locked_eq_ok (peh r : proxied_engine_handle_t)
    (h : release_handle_locked peh = .ok r) :
    0 < peh.refcount ∧
      r = maybe_start_engine_shutdown_LOCKED { peh with refcount := peh.refcount - 1 } := by
  unfold release_handle_locked at h
  split at h
  · cases h; exact ⟨by assumption, rfl⟩
  · cases h

@[simp]
theorem log_call_heap (s : bucket_engine) (p : Nat) (op : engine_op) :
    (log_call s p op).heap = s.heap := rfl

@[simp]
theorem log_call_engines (s : bucket_engine) (p : Nat) (op : engine_op) :
    (log_call s p op).engines = s.engines := rfl

@[simp]
theorem log_call_conns (s : bucket_engine) (p : Nat) (op : engine_op) :
    (log_call s p op).conns = s.conns := rfl

@[simp]
theorem log_call_calls (s : bucket_engine) (p : Nat) (op : engine_op) :
    (log_call s p op).calls = s.calls ++ [(p, op)] := rfl

@[simp]
theorem log_call_responses (s : bucket_engine) (p : Nat) (op : engine_op) :
    (log_call s p op).responses = s.responses := rfl

@[simp]
theorem deref_log_call (s : bucket_engine) (p : Nat) (op : engine_op) (q : Nat) :
    deref (log_call s p op) q = deref s q := rfl

@[simp]
theorem get_conn_log_call (s : bucket_engine) (p : Nat) (op : engine_op) (c : Nat) :
    get_conn (log_call s p op) c = get_conn s c := rfl

theorem store_handle_log_call (s : bucket_engine) (p : Nat) (op : engine_op) (q : Nat)
    (h : proxied_engine_handle_t) :
    store_handle (log_call s p op) q h = log_call (store_handle s q h) p op := rfl

theorem legal_char_iff (c : Char) :
    (isalpha c || isdigit c || c == '.' || c == '%' || c == '_' || c == '-') = true ↔
      legal_char c := by
  unfold legal_char isalpha isdigit
  simp only [Bool.or_eq_true, Bool.and_eq_true, decide_eq_true_eq, beq_iff_eq]
  tauto

theorem has_valid_bucket_name_loop_false (n : List Char) :
    has_valid_bucket_name_loop n false = false := by
  induction n with
  | nil => rfl
  | cons c cs ih =>
    unfold has_valid_bucket_name_loop
    split
    · rfl
    · simpa using ih

theorem has_valid_bucket_name_loop_true (n : List Char) :
    has_valid_bucket_name_loop n true = true ↔ ∀ c ∈ cstr n, legal_char c := by
  induction n with
  | nil => simp [has_valid_bucket_name_loop, cstr]
  | cons c cs ih =>
    unfold has_valid_bucket_name_loop cstr
    by_cases hc : c = '\x00'
    · simp [hc]
    · simp only [hc, if_false, Bool.true_and, List.mem_cons, forall_eq_or_imp]
      by_cases hl :
          (isalpha c || isdigit c || c == '.' || c == '%' || c == '_' || c == '-') = true
      · rw [hl, ih]
        simp [(legal_char_iff c).1 hl]
      · have hl' :
            (isalpha c || isdigit c || c == '.' || c == '%' || c == '_' || c == '-') = false := by
          simpa using hl
        rw [hl', has_valid_bucket_name_loop_false]
        have : ¬ legal_char c := fun h => hl ((legal_char_iff c).2 h)
        simp [this]

theorem has_valid_bucket_name_iff (n : List Char) :
    has_valid_bucket_name n = true ↔ (cstr n ≠ [] ∧ ∀ c ∈ cstr n, legal_char c) := by
  unfold has_valid_bucket_name
  cases n with
  | nil => simp [has_valid_bucket_name_loop, cstr]
  | cons c cs =>
    by_cases hc : c = '\x00'
    · subst hc
      simp [has_valid_bucket_name_loop, cstr]
    · have h1 : ((c :: cs).headD '\x00' != '\x00') = true := by simpa using hc
      rw [h1, has_valid_bucket_name_loop_true]
      simp [cstr, hc]

theorem init_engine_handle_rv_ne_einval (name : String) (o : init_outcome) :
    (init_engine_handle calloc_handle name o).2 ≠ ENGINE_EINVAL := by
  cases o <;> simp [init_engine_handle]

theorem create_bucket_valid_rv (s : bucket_engine) (name : String) (env : create_env)
    (want_out : Bool) (msg : Option Nat) (s' : bucket_engine) (r : create_result)
    (hv : has_valid_bucket_name name.data = true)
    (h : create_bucket s name env want_out msg = .ok (s', r)) : r.rv ≠ ENGINE_EINVAL := by
  unfold create_bucket at h
  simp only [hv, not_true_eq_false, if_false] at h
  split at h
  · cases h; simp
  · split at h
    · simp only [bind_eq_ok, pure_eq_ok] at h
      obtain ⟨a, _, h⟩ := h
      cases h
      exact init_engine_handle_rv_ne_einval _ _
    · split at h
      · simp only [bind_eq_ok, pure_eq_ok] at h
        obtain ⟨a, _, h⟩ := h
        cases h; simp
      · split at h
        · simp only [bind_eq_ok] at h
          obtain ⟨a, _, h⟩ := h
          split at h
          · split at h
            · simp only [pure_eq_ok] at h; cases h; simp
            · simp only [bind_eq_ok, pure_eq_ok] at h
              obtain ⟨_, _, h⟩ := h
              cases h; simp
          · simp only [bind_eq_ok, pure_eq_ok] at h
            obtain ⟨_, _, _, _, h⟩ := h
            cases h; simp
        · simp only [bind_eq_ok, pure_eq_ok] at h
          obtain ⟨_, _, _, _, h⟩ := h
          cases h; simp

/-- C10: `has_valid_bucket_name` accepts exactly the non-empty C strings made of ASCII
letters, ASCII digits and the characters `.`, `_`, `%`, `-`; `create_bucket` returns
ENGINE_EINVAL exactly when the name is rejected, and then the state (heap of handles
and engine table included) is the one it was called with. -/
theorem create_bucket_einval_iff_invalid_name :
    (∀ n : List Char,
      has_valid_bucket_name n = true ↔ (cstr n ≠ [] ∧ ∀ c ∈ cstr n, legal_char c)) ∧
    (∀ (s : bucket_engine) (name : String) (env : create_env) (want_out : Bool)
        (msg : Option Nat),
      (has_valid_bucket_name name.data = false →
        create_bucket s name env want_out msg =
          .ok (s, { rv := ENGINE_EINVAL, e_out := none, msg := none })) ∧
      (∀ s' r, create_bucket s name env want_out msg = .ok (s', r) →
        r.rv = ENGINE_EINVAL → has_valid_bucket_name name.data = false ∧ s' = s)) := by
  refine ⟨has_valid_bucket_name_iff, ?_⟩
  intro s name env want_out msg
  have key : has_valid_bucket_name name.data = false →
      create_bucket s name env want_out msg =
        .ok (s, { rv := ENGINE_EINVAL, e_out := none, msg := none }) := by
    intro hv
    unfold create_bucket
    simp [hv]
  refine ⟨key, ?_⟩
  intro s' r h hrv
  by_cases hv : has_valid_bucket_name name.data = true
  · exact absurd hrv (create_bucket_valid_rv s name env want_out msg s' r hv h)
  · have hv' : has_valid_bucket_name name.data = false := by simpa using hv
    rw [key hv'] at h
    cases h
    exact ⟨hv', rfl⟩

theorem create_bucket_einval_iff_invalid_name_witness :
    has_valid_bucket_name "a/b".data = false ∧
    create_bucket (bucket_initialized sample_config) "a/b" env_ok false none =
      .ok (bucket_initialized sample_config,
        { rv := ENGINE_EINVAL, e_out := none, msg := none }) :=
  ⟨by decide,
   ((create_bucket_einval_iff_invalid_name).2 (bucket_initialized sample_config) "a/b" env_ok
      false none).1 (by decide)⟩

theorem retain_handle_running (s : bucket_engine) (p : Nat) (h : proxied_engine_handle_t)
    (hp : s.heap[p]? = some h) (hf : h.freed = false) (hr : h.state = STATE_RUNNING)
    (hc : 0 ≤ h.refcount) :
    retain_handle s (some p) =
      .ok (store_handle s p { h with refcount := h.refcount + 1 }, some p) := by
  have hd : deref s p = .ok h := (deref_eq_ok s p h).2 ⟨hp, hf⟩
  have hc' : 0 < h.refcount + 1 := by omega
  simp [retain_handle, hd, retain_handle_locked, hr, hc', bind, Except.bind, pure, Except.pure]

theorem retain_handle_not_running (s : bucket_engine) (p : Nat) (h : proxied_engine_handle_t)
    (hp : s.heap[p]? = some h) (hf : h.freed = false) (hr : h.state ≠ STATE_RUNNING) :
    retain_handle s (some p) = .ok (s, none) := by
  have hd : deref s p = .ok h := (deref_eq_ok s p h).2 ⟨hp, hf⟩
  simp [retain_handle, hd, retain_handle_locked, hr, bind, Except.bind, pure, Except.pure,
    store_handle_self s p h hp]

theorem retain_handle_some (s s' : bucket_engine) (peh : Option Nat) (q : Nat)
    (h : retain_handle s peh = .ok (s', some q)) :
    peh = some q ∧ ∃ e, s.heap[q]? = some e ∧ e.freed = false ∧ e.state = STATE_RUNNING ∧
      s' = store_handle s q { e with refcount := e.refcount + 1 } := by
  cases peh with
  | none => simp [retain_handle] at h
  | some p =>
    simp only [retain_handle, bind_eq_ok, pure_eq_ok] at h
    obtain ⟨e, hd, r, hr, hres⟩ := h
    rw [deref_eq_ok] at hd
    unfold retain_handle_locked at hr
    split at hr
    · split at hr
      · cases hr
        simp only [if_true, Prod.mk.injEq, Option.some.injEq] at hres
        obtain ⟨rfl, rfl⟩ := hres
        exact ⟨rfl, e, hd.1, hd.2, by assumption, rfl⟩
      · cases hr
    · cases hr
      simp at hres

/-- C5: `retain_handle` returns the handle and adds exactly one to its reference count
if and only if the pointer is non-NULL and the handle is RUNNING (the assertion after
the increment holds for every count that is not negative); in every other case it
returns NULL and leaves the whole state, hence refcount, clients and state of every
handle, unchanged. Consequently `find_bucket` returns a handle only for a bucket of the
engine table that is RUNNING. -/
theorem retain_handle_increments_iff_running (s : bucket_engine) :
    retain_handle s none = .ok (s, none) ∧
    (∀ p h, s.heap[p]? = some h → h.freed = false →
      (h.state = STATE_RUNNING → 0 ≤ h.refcount →
        retain_handle s (some p) =
          .ok (store_handle s p { h with refcount := h.refcount + 1 }, some p)) ∧
      (h.state ≠ STATE_RUNNING → retain_handle s (some p) = .ok (s, none))) ∧
    (∀ peh s' q, retain_handle s peh = .ok (s', some q) →
      peh = some q ∧ ∃ e, s.heap[q]? = some e ∧ e.state = STATE_RUNNING ∧
        s' = store_handle s q { e with refcount := e.refcount + 1 }) ∧
    (∀ name s' q, find_bucket s name = .ok (s', some q) →
      genhash_find s.engines name = some q ∧
        ∃ e, s.heap[q]? = some e ∧ e.state = STATE_RUNNING) := by
  refine ⟨rfl, ?_, ?_, ?_⟩
  · intro p h hp hf
    exact ⟨fun hr hc => retain_handle_running s p h hp hf hr hc,
      fun hr => retain_handle_not_running s p h hp hf hr⟩
  · intro peh s' q h
    obtain ⟨h1, e, h2, _, h3, h4⟩ := retain_handle_some s s' peh q h
    exact ⟨h1, e, h2, h3, h4⟩
  · intro name s' q h
    obtain ⟨h1, e, h2, _, h3, _⟩ := retain_handle_some s s' _ q h
    exact ⟨h1, e, h2, h3⟩

theorem retain_handle_increments_iff_running_witness :
    retain_handle (sample_state (sample_handle STATE_RUNNING 2 0)) (some 1) =
      .ok (sample_state (sample_handle STATE_RUNNING 3 0), some 1) ∧
    retain_handle (sample_state (sample_handle STATE_STOPPING 2 0)) (some 1) =
      .ok (sample_state (sample_handle STATE_STOPPING 2 0), none) :=
  ⟨(((retain_handle_increments_iff_running
        (sample_state (sample_handle STATE_RUNNING 2 0))).2.1 1
        (sample_handle STATE_RUNNING 2 0) rfl rfl).1 rfl (by decide)),
   (((retain_handle_increments_iff_running
        (sample_state (sample_handle STATE_STOPPING 2 0))).2.1 1
        (sample_handle STATE_STOPPING 2 0) rfl rfl).2 (by decide))⟩

/-- C6: `release_engine_handle`, called on a live handle with `clients > 0`, returns
with `clients` decremented by exactly one and `refcount` unchanged; the state becomes
STOPPING and one teardown thread is started if and only if the resulting `clients` is 0
and the state was STOP_REQUESTED, and in all other cases state and threads are
unchanged. -/
theorem release_engine_handle_spec (s : bucket_engine) (p : Nat)
    (h : proxied_engine_handle_t) (hp : s.heap[p]? = some h) (hf : h.freed = false)
    (hc : 0 < h.clients) :
    ∃ h', release_engine_handle s p = .ok (store_handle s p h') ∧
      h'.clients = h.clients - 1 ∧ h'.refcount = h.refcount ∧
      ((h.clients - 1 = 0 ∧ h.state = STATE_STOP_REQUESTED) →
        h'.state = STATE_STOPPING ∧ h'.shutdown_threads = h.shutdown_threads ++ [0]) ∧
      (¬ (h.clients - 1 = 0 ∧ h.state = STATE_STOP_REQUESTED) →
        h'.state = h.state ∧ h'.shutdown_threads = h.shutdown_threads) := by
  have hd : deref s p = .ok h := (deref_eq_ok s p h).2 ⟨hp, hf⟩
  refine ⟨maybe_start_engine_shutdown_LOCKED { h with clients := h.clients - 1 }, ?_, ?_⟩
  · simp [release_engine_handle, hd, release_engine_handle_locked, hc, bind, Except.bind,
      pure, Except.pure]
  · unfold maybe_start_engine_shutdown_LOCKED
    by_cases hcond : h.clients - 1 = 0 ∧ h.state = STATE_STOP_REQUESTED
    · simp [hcond, set_state]
    · rw [if_neg hcond]
      exact ⟨rfl, rfl, fun h1 => absurd h1 hcond, fun _ => ⟨rfl, rfl⟩⟩

theorem release_engine_handle_spec_witness :
    ∃ h', release_engine_handle (sample_state (sample_handle STATE_STOP_REQUESTED 2 1)) 1 =
        .ok (store_handle (sample_state (sample_handle STATE_STOP_REQUESTED 2 1)) 1 h') ∧
      h'.clients = 0 ∧ h'.refcount = 2 ∧ h'.state = STATE_STOPPING ∧
      h'.shutdown_threads = [0] := by
  obtain ⟨h', h1, h2, h3, h4, _⟩ :=
    release_engine_handle_spec (sample_state (sample_handle STATE_STOP_REQUESTED 2 1)) 1
      (sample_handle STATE_STOP_REQUESTED 2 1) rfl rfl (by decide)
  exact ⟨h', h1, h2, h3, (h4 ⟨by decide, rfl⟩).1, (h4 ⟨by decide, rfl⟩).2⟩

theorem snprintf_fits (msglen : Nat) (text : String) (h : text.length < msglen) :
    snprintf (some msglen) text = some text := by
  unfold snprintf
  have h0 : msglen ≠ 0 := by omega
  have : text.data.length ≤ msglen - 1 := by
    have : text.length = text.data.length := rfl
    omega
  simp [h0, List.take_of_length_le this]

theorem getElem?_lt_of_eq_some {α : Type} (l : List α) (i : Nat) (a : α)
    (h : l[i]? = some a) : i < l.length := by
  by_contra hc
  rw [List.getElem?_eq_none (by omega)] at h
  cases h

theorem create_bucket_exists (s : bucket_engine) (name : String) (env : create_env)
    (want_out : Bool) (msg : Option Nat) (tmppeh : Nat) (t : proxied_engine_handle_t)
    (hv : has_valid_bucket_name name.data = true) (hca : env.calloc_ok = true)
    (hi : env.init = init_outcome.ok) (hl : env.load_ok = true)
    (hreg : genhash_find s.engines name = some tmppeh)
    (ht : s.heap[tmppeh]? = some t) (hf : t.freed = false) :
    create_bucket s name env want_out msg =
      .ok (log_call { s with
              heap := s.heap ++
                [{ (init_engine_handle calloc_handle name init_outcome.ok).1 with
                   pe := true, freed := true }] } s.heap.length (engine_op.destroy true),
           { rv := ENGINE_KEY_EEXISTS, e_out := none,
             msg := snprintf msg ("Bucket exists: " ++ bucket_state_name t.state) }) := by
  have hlt := getElem?_lt_of_eq_some _ _ _ ht
  unfold create_bucket
  simp only [hv, hca, hi, hl, not_true_eq_false, if_false]
  have h1 : (init_engine_handle calloc_handle name init_outcome.ok).2 = ENGINE_SUCCESS := rfl
  simp only [h1, ne_eq, not_true_eq_false, if_false, find_bucket_inner, hreg]
  have hd : deref { s with heap := s.heap ++
      [{ (init_engine_handle calloc_handle name init_outcome.ok).1 with pe := true }] }
      tmppeh = .ok t := by
    rw [deref_eq_ok]
    exact ⟨by simp [List.getElem?_append_left hlt, ht], hf⟩
  simp only [hd, bind, Except.bind, free_engine_handle, release_memory]
  simp only [deref_log_call]
  have hd2 : deref { s with heap := s.heap ++
      [{ (init_engine_handle calloc_handle name init_outcome.ok).1 with pe := true }] }
      s.heap.length =
      .ok { (init_engine_handle calloc_handle name init_outcome.ok).1 with pe := true } := by
    rw [deref_eq_ok]
    exact ⟨by simp, rfl⟩
  simp only [hd2, pure, Except.pure, store_handle, log_call]
  simp

/-- C9 (as amended): when the name is valid and already a key of the engine table, and
the allocation, `init_engine_handle` and `load_engine` of the new handle succeed,
`create_bucket` returns ENGINE_KEY_EEXISTS whatever the state of the existing handle,
leaves in a supplied buffer the text "Bucket exists: " followed by `bucket_state_name`
of that state (in full when the buffer is longer than the text) and leaves the engine
table and every existing handle unchanged; `handle_create_bucket` reports
ENGINE_SUCCESS as SUCCESS, ENGINE_KEY_EEXISTS as KEY_EEXISTS and every other result of
`create_bucket` as NOT_STORED. -/
theorem create_bucket_existing_name_eexists :
    (∀ (s : bucket_engine) (name : String) (env : create_env) (want_out : Bool)
        (msg : Option Nat) (tmppeh : Nat) (t : proxied_engine_handle_t),
      has_valid_bucket_name name.data = true → env.calloc_ok = true →
      env.init = init_outcome.ok → env.load_ok = true →
      genhash_find s.engines name = some tmppeh → s.heap[tmppeh]? = some t →
      t.freed = false →
      ∃ s', create_bucket s name env want_out msg =
          .ok (s', { rv := ENGINE_KEY_EEXISTS, e_out := none,
                     msg := snprintf msg ("Bucket exists: " ++ bucket_state_name t.state) }) ∧
        s'.engines = s.engines ∧
        (∀ (q : Nat) (h : proxied_engine_handle_t),
          s.heap[q]? = some h → s'.heap[q]? = some h) ∧
        (∀ msglen, msg = some msglen →
          ("Bucket exists: " ++ bucket_state_name t.state).length < msglen →
          snprintf msg ("Bucket exists: " ++ bucket_state_name t.state) =
            some ("Bucket exists: " ++ bucket_state_name t.state))) ∧
    (create_status ENGINE_SUCCESS = PROTOCOL_BINARY_RESPONSE_SUCCESS ∧
      create_status ENGINE_KEY_EEXISTS = PROTOCOL_BINARY_RESPONSE_KEY_EEXISTS ∧
      ∀ rv, rv ≠ ENGINE_SUCCESS → rv ≠ ENGINE_KEY_EEXISTS →
        create_status rv = PROTOCOL_BINARY_RESPONSE_NOT_STORED) ∧
    (∀ (s : bucket_engine) (cookie : Nat) (req : protocol_binary_request_header)
        (env : create_env) (s1 : bucket_engine) (r : create_result),
      request_bodylen req < 2 ^ 16 → request_body req ≠ [] →
      create_bucket s (EXTRACT_KEY req) env false (some 1024) = .ok (s1, r) →
      handle_create_bucket s cookie req env =
        .ok (response s1 cookie "" (r.msg.getD "") (create_status r.rv), ENGINE_SUCCESS)) := by
  refine ⟨?_, ⟨rfl, rfl, ?_⟩, ?_⟩
  · intro s name env want_out msg tmppeh t hv hca hi hl hreg ht hf
    refine ⟨_, create_bucket_exists s name env want_out msg tmppeh t hv hca hi hl hreg ht hf,
      rfl, ?_, ?_⟩
    · intro q h hq
      have hlt := getElem?_lt_of_eq_some _ _ _ hq
      simp [List.getElem?_append_left hlt, hq]
    · intro msglen hm hlen
      rw [hm]
      exact snprintf_fits msglen _ hlen
  · intro rv h1 h2
    cases rv <;> simp [create_status] at h1 h2 ⊢
  · intro s cookie req env s1 r hb hne hc
    unfold handle_create_bucket
    have hb' : ¬ 2 ^ 16 ≤ request_bodylen req := by omega
    simp only [hb', if_false, hne, hc, bind, Except.bind, pure, Except.pure]

theorem create_bucket_existing_name_eexists_witness :
    ∃ s', create_bucket (sample_state (sample_handle STATE_STOPPING 1 0)) "b" env_ok false
        (some 1024) =
        .ok (s', { rv := ENGINE_KEY_EEXISTS, e_out := none,
                   msg := snprintf (some 1024)
                     ("Bucket exists: " ++ bucket_state_name STATE_STOPPING) }) ∧
      s'.engines = [("b", 1)] := by
  obtain ⟨s', h1, h2, _⟩ :=
    (create_bucket_existing_name_eexists).1 (sample_state (sample_handle STATE_STOPPING 1 0))
      "b" env_ok false (some 1024) 1 (sample_handle STATE_STOPPING 1 0)
      (by decide) rfl rfl rfl rfl rfl rfl
  exact ⟨s', h1, h2⟩

/-- C9 (counterexample): the name "b" is valid and a key of the engine table, but the
engine module does not load; `create_bucket` returns ENGINE_FAILED with the message
"Failed to load engine.", not ENGINE_KEY_EEXISTS. -/
theorem create_bucket_existing_name_load_failure :
    has_valid_bucket_name "b".data = true ∧
    genhash_find (sample_state (sample_handle STATE_RUNNING 2 0)).engines "b" = some 1 ∧
    ¬ ∃ s' m, create_bucket (sample_state (sample_handle STATE_RUNNING 2 0)) "b"
        env_load_fails false (some 1024) =
        .ok (s', { rv := ENGINE_KEY_EEXISTS, e_out := none, msg := m }) := by
  refine ⟨by decide, rfl, ?_⟩
  rintro ⟨s', m, h⟩
  have h2 : create_bucket (sample_state (sample_handle STATE_RUNNING 2 0)) "b"
      env_load_fails false (some 1024) =
      .ok ({ sample_state (sample_handle STATE_RUNNING 2 0) with
              heap := [calloc_handle, sample_handle STATE_RUNNING 2 0,
                { (init_engine_handle calloc_handle "b" init_outcome.ok).1 with
                  freed := true }] },
        { rv := ENGINE_FAILED, e_out := none, msg := some "Failed to load engine." }) := rfl
  rw [h2] at h
  cases h

theorem handle_delete_bucket_running (s : bucket_engine) (cookie : Nat)
    (req : protocol_binary_request_header) (es : engine_specific_t) (force : Bool)
    (p : Nat) (h : proxied_engine_handle_t)
    (hes : (get_conn s cookie).es = some es) (hslot : es.engine_specific = none)
    (hb : request_bodylen req < 2 ^ 16)
    (hparse : (if request_body req = [] then some false else req.parse_force) = some force)
    (hreg : genhash_find s.engines (EXTRACT_KEY req) = some p)
    (hp : s.heap[p]? = some h) (hf : h.freed = false) (hr : h.state = STATE_RUNNING)
    (hc : 0 < h.refcount) :
    ∃ s' h', handle_delete_bucket s cookie req = .ok (s', ENGINE_EWOULDBLOCK) ∧
      s'.heap = s.heap.set p h' ∧ h'.cookie = some cookie ∧ h'.force_shutdown = force ∧
      h'.refcount = h.refcount - 1 ∧ h'.clients = h.clients ∧
      (h.clients = 0 → h'.state = STATE_STOPPING) ∧
      (h.clients ≠ 0 → h'.state = STATE_STOP_REQUESTED) ∧
      s'.engines = s.engines ∧ s'.responses = s.responses ∧
      (get_conn s' cookie).es =
        some { es with peh := if es.peh = some p then none else es.peh,
                       engine_specific := some 1 } := by
  have hb' : ¬ 2 ^ 16 ≤ request_bodylen req := by omega
  unfold handle_delete_bucket
  simp only [bucket_get_engine_specific, hes, hslot, bind, Except.bind, hb', if_false, hparse,
    find_bucket, find_bucket_inner, hreg]
  rw [retain_handle_running s p h hp hf hr (by omega)]
  simp only []
  rw [deref_store_handle s p h _ hp
    (show ({ h with refcount := h.refcount + 1 } : proxied_engine_handle_t).freed = false
      from hf)]
  simp only [hr, decide_True, if_true, get_conn_store_handle, hes]
  rw [release_handle_locked_ok _ (by simp [set_state]; omega)]
  simp only []
  rw [release_handle_locked_ok _ (by simp [set_state]; omega)]
  simp only [store_handle_store_handle, bucket_store_engine_specific, pure, Except.pure]
  by_cases hpe : es.peh = some p
  · simp only [hpe, if_true, store_es_store_handle, store_handle_store_handle,
      get_conn_store_handle, get_conn_store_es, store_es_store_es]
    refine ⟨_, _, rfl, rfl, ?_⟩
    simp [set_state, maybe_start_state, get_conn_store_es, hr]
  · simp only [hpe, if_false, store_es_store_handle, store_handle_store_handle,
      get_conn_store_handle, get_conn_store_es, store_es_store_es, hes]
    refine ⟨_, _, rfl, rfl, ?_⟩
    simp [set_state, maybe_start_state, get_conn_store_es, hr, hes]

theorem handle_delete_bucket_absent (s : bucket_engine) (cookie : Nat)
    (req : protocol_binary_request_header) (es : engine_specific_t) (force : Bool)
    (hes : (get_conn s cookie).es = some es) (hslot : es.engine_specific = none)
    (hb : request_bodylen req < 2 ^ 16)
    (hparse : (if request_body req = [] then some false else req.parse_force) = some force)
    (hreg : genhash_find s.engines (EXTRACT_KEY req) = none ∨
      ∃ p h, genhash_find s.engines (EXTRACT_KEY req) = some p ∧ s.heap[p]? = some h ∧
        h.freed = false ∧ h.state ≠ STATE_RUNNING) :
    handle_delete_bucket s cookie req =
      .ok (response s cookie "" "Not found." PROTOCOL_BINARY_RESPONSE_KEY_ENOENT,
           ENGINE_SUCCESS) := by
  have hb' : ¬ 2 ^ 16 ≤ request_bodylen req := by omega
  have hfind : find_bucket s (EXTRACT_KEY req) = .ok (s, none) := by
    unfold find_bucket find_bucket_inner
    rcases hreg with h0 | ⟨p, h, h0, hp, hf, hr⟩
    · rw [h0]; rfl
    · rw [h0]; exact retain_handle_not_running s p h hp hf hr
  unfold handle_delete_bucket
  simp only [bucket_get_engine_specific, hes, hslot, bind, Except.bind, hb', if_false, hparse,
    hfind, pure, Except.pure]

theorem handle_delete_bucket_ewouldblock (s s' : bucket_engine) (cookie : Nat)
    (req : protocol_binary_request_header) (es : engine_specific_t) (force : Bool)
    (hes : (get_conn s cookie).es = some es) (hslot : es.engine_specific = none)
    (hb : request_bodylen req < 2 ^ 16)
    (hparse : (if request_body req = [] then some false else req.parse_force) = some force)
    (h : handle_delete_bucket s cookie req = .ok (s', ENGINE_EWOULDBLOCK)) :
    ∃ p e, genhash_find s.engines (EXTRACT_KEY req) = some p ∧ s.heap[p]? = some e ∧
      e.state = STATE_RUNNING := by
  have hb' : ¬ 2 ^ 16 ≤ request_bodylen req := by omega
  unfold handle_delete_bucket at h
  simp only [bucket_get_engine_specific, hes, hslot, bind_eq_ok, Except.ok.injEq, exists_eq_left',
    hb', if_false, hparse] at h
  obtain ⟨f, hfind, h⟩ := h
  cases hf2 : f.2 with
  | none =>
    rw [hf2] at h
    simp [pure, Except.pure] at h
  | some p =>
    have hfind' : find_bucket s (EXTRACT_KEY req) = .ok (f.1, some p) := by
      rw [hfind, ← hf2]
    obtain ⟨h1, e, h2, _, h3, _⟩ := retain_handle_some s f.1 _ p hfind'
    exact ⟨p, e, h1, h2, h3⟩

/-- C8: for a first-phase DELETE_BUCKET request (the cookie has a holder whose
engine-specific slot is empty) with a well-formed body (body length below 64k, accepted
by `parse_config`), `handle_delete_bucket` returns ENGINE_EWOULDBLOCK if and only if the
engine table holds a bucket of that name in state RUNNING. In that case (the handle
being live with the reference of the table counted) the handle records the cookie and
the force flag, its state is STOPPING when `clients` is 0 and STOP_REQUESTED otherwise,
its reference count is one less, and the cookie is detached from it if it was attached;
no response is sent. If there is no such bucket, a KEY_ENOENT response "Not found." is
sent, ENGINE_SUCCESS is returned and nothing else changes. -/
theorem handle_delete_bucket_first_phase (s : bucket_engine) (cookie : Nat)
    (req : protocol_binary_request_header) (es : engine_specific_t) (force : Bool)
    (hes : (get_conn s cookie).es = some es) (hslot : es.engine_specific = none)
    (hb : request_bodylen req < 2 ^ 16)
    (hparse : (if request_body req = [] then some false else req.parse_force) = some force) :
    (∀ (p : Nat) (h : proxied_engine_handle_t),
      genhash_find s.engines (EXTRACT_KEY req) = some p → s.heap[p]? = some h →
      h.freed = false → h.state = STATE_RUNNING → 0 < h.refcount →
      ∃ s' h', handle_delete_bucket s cookie req = .ok (s', ENGINE_EWOULDBLOCK) ∧
        s'.heap = s.heap.set p h' ∧ h'.cookie = some cookie ∧ h'.force_shutdown = force ∧
        h'.refcount = h.refcount - 1 ∧ h'.clients = h.clients ∧
        (h.clients = 0 → h'.state = STATE_STOPPING) ∧
        (h.clients ≠ 0 → h'.state = STATE_STOP_REQUESTED) ∧
        s'.engines = s.engines ∧ s'.responses = s.responses ∧
        (get_conn s' cookie).es =
          some { es with peh := if es.peh = some p then none else es.peh,
                         engine_specific := some 1 }) ∧
    ((genhash_find s.engines (EXTRACT_KEY req) = none ∨
        ∃ p h, genhash_find s.engines (EXTRACT_KEY req) = some p ∧ s.heap[p]? = some h ∧
          h.freed = false ∧ h.state ≠ STATE_RUNNING) →
      handle_delete_bucket s cookie req =
        .ok (response s cookie "" "Not found." PROTOCOL_BINARY_RESPONSE_KEY_ENOENT,
             ENGINE_SUCCESS)) ∧
    (∀ s', handle_delete_bucket s cookie req = .ok (s', ENGINE_EWOULDBLOCK) →
      ∃ p e, genhash_find s.engines (EXTRACT_KEY req) = some p ∧ s.heap[p]? = some e ∧
        e.state = STATE_RUNNING) :=
  ⟨fun p h hreg hp hf hr hc =>
      handle_delete_bucket_running s cookie req es force p h hes hslot hb hparse hreg hp hf hr hc,
   fun hreg => handle_delete_bucket_absent s cookie req es force hes hslot hb hparse hreg,
   fun s' h => handle_delete_bucket_ewouldblock s s' cookie req es force hes hslot hb hparse h⟩

theorem handle_delete_bucket_first_phase_witness :
    ∃ s' h', handle_delete_bucket (sample_state (sample_handle STATE_RUNNING 2 0)) 0
        (mk_request opcode_t.DELETE_BUCKET "b" "") = .ok (s', ENGINE_EWOULDBLOCK) ∧
      s'.heap = [calloc_handle, h'] ∧ h'.state = STATE_STOPPING ∧ h'.refcount = 1 := by
  obtain ⟨s', h', h1, h2, _, _, h5, _, h7, _⟩ :=
    (handle_delete_bucket_first_phase (sample_state (sample_handle STATE_RUNNING 2 0)) 0
      (mk_request opcode_t.DELETE_BUCKET "b" "")
      { peh := none, engine_specific := none, reserved := 0, notified := false } false
      rfl rfl (by decide) rfl).1 1 (sample_handle STATE_RUNNING 2 0) rfl rfl rfl rfl
      (by decide)
  exact ⟨s', h', h1, h2, h7 rfl, h5⟩

theorem release_engine_handle_locked_ok (e : proxied_engine_handle_t) (hc : 0 < e.clients) :
    release_engine_handle_locked e =
      .ok (maybe_start_engine_shutdown_LOCKED { e with clients := e.clients - 1 }) := by
  unfold release_engine_handle_locked
  rw [if_pos hc]

theorem maybe_start_running (e : proxied_engine_handle_t) (h : e.state = STATE_RUNNING) :
    maybe_start_engine_shutdown_LOCKED e = e := by
  unfold maybe_start_engine_shutdown_LOCKED
  rw [if_neg]
  rw [h]
  simp

theorem get_engine_handle_running (s : bucket_engine) (cookie : Nat) (es : engine_specific_t)
    (p : Nat) (h : proxied_engine_handle_t)
    (hes : (get_conn s cookie).es = some es) (hres : resolve_handle s es = some p)
    (hp : s.heap[p]? = some h) (hf : h.freed = false) (hr : h.state = STATE_RUNNING) :
    get_engine_handle s cookie =
      .ok (store_handle s p { h with clients := h.clients + 1 }, some p) := by
  have hd : deref s p = .ok h := (deref_eq_ok s p h).2 ⟨hp, hf⟩
  unfold get_engine_handle
  simp only [hes, hres, hd, bind, Except.bind, hr, ne_eq, not_true_eq_false, if_false, pure,
    Except.pure]

theorem proxied_call_running (s : bucket_engine) (cookie : Nat) (op : engine_op)
    (ret : ENGINE_ERROR_CODE) (es : engine_specific_t) (p : Nat) (h : proxied_engine_handle_t)
    (hes : (get_conn s cookie).es = some es) (hres : resolve_handle s es = some p)
    (hp : s.heap[p]? = some h) (hf : h.freed = false) (hr : h.state = STATE_RUNNING)
    (hc : 0 ≤ h.clients) :
    proxied_call s cookie op ret = .ok (log_call s p op, ret) := by
  unfold proxied_call
  rw [get_engine_handle_running s cookie es p h hes hres hp hf hr]
  simp only [bind, Except.bind, release_engine_handle, deref_log_call]
  rw [deref_store_handle s p h _ hp
    (show ({ h with clients := h.clients + 1 } : proxied_engine_handle_t).freed = false
      from hf)]
  simp only []
  rw [release_engine_handle_locked_ok _ (by simp; omega)]
  simp only [pure, Except.pure]
  have h2 : maybe_start_engine_shutdown_LOCKED
      ({ h with clients := h.clients + 1 - 1 } : proxied_engine_handle_t) = h := by
    rw [maybe_start_running _
      (show ({ h with clients := h.clients + 1 - 1 } : proxied_engine_handle_t).state =
        STATE_RUNNING from hr)]
    cases h; simp
  simp only [] at h2
  rw [h2]
  simp only [store_handle_log_call, store_handle_store_handle]
  rw [store_handle_self s p h hp]

theorem proxied_call_no_handle (s : bucket_engine) (cookie : Nat) (op : engine_op)
    (ret : ENGINE_ERROR_CODE) (es : engine_specific_t)
    (hes : (get_conn s cookie).es = some es) (hres : resolve_handle s es = none) :
    proxied_call s cookie op ret = .ok (s, ENGINE_DISCONNECT) := by
  unfold proxied_call get_engine_handle
  simp only [hes, hres, bind, Except.bind, pure, Except.pure]

theorem proxied_call_not_running (s : bucket_engine) (cookie : Nat) (op : engine_op)
    (ret : ENGINE_ERROR_CODE) (es : engine_specific_t) (p : Nat) (h : proxied_engine_handle_t)
    (hes : (get_conn s cookie).es = some es) (hres : resolve_handle s es = some p)
    (hp : s.heap[p]? = some h) (hf : h.freed = false) (hr : h.state ≠ STATE_RUNNING)
    (hc : 0 < h.refcount) :
    proxied_call s cookie op ret =
      .ok (store_handle (if es.reserved = 0 then store_es s cookie none else s) p
            (maybe_start_engine_shutdown_LOCKED { h with refcount := h.refcount - 1 }),
           ENGINE_DISCONNECT) := by
  have hd : deref s p = .ok h := (deref_eq_ok s p h).2 ⟨hp, hf⟩
  have hd' : deref (if es.reserved = 0 then store_es s cookie none else s) p = .ok h := by
    split
    · rw [deref_store_es]; exact hd
    · exact hd
  unfold proxied_call get_engine_handle
  simp only [hes, hres, hd, bind, Except.bind, hr, ne_eq, not_false_eq_true, if_true,
    release_handle, hd', release_handle_locked_ok h hc, pure, Except.pure]

/-- C4: every wrapper that goes through `get_engine_handle` (allocate, remove, get,
store, arithmetic, flush, get_stats for a key other than "bucket", tap_notify and a
non-admin unknown command) is `proxied_call`. For a connection with a holder, the
engine is invoked if and only if the handle the connection resolves to is RUNNING at
entry: then `get_engine_handle` adds exactly one to `clients`, the engine of that handle
is called once, `release_engine_handle` takes the one off again, and the wrapper
returns what the engine returned in a state that differs only by the logged call. If
the connection resolves to no handle, or to a live handle that is not RUNNING (whose
reference is counted), the wrapper returns ENGINE_DISCONNECT, no engine is called and
`clients` is unchanged on every handle. -/
theorem proxied_call_invokes_engine_iff_running (s : bucket_engine) (cookie : Nat)
    (ret : ENGINE_ERROR_CODE) (es : engine_specific_t)
    (hes : (get_conn s cookie).es = some es) :
    (bucket_item_allocate s cookie ret = proxied_call s cookie engine_op.allocate ret ∧
      bucket_item_delete s cookie ret = proxied_call s cookie engine_op.remove ret ∧
      bucket_get s cookie ret = proxied_call s cookie engine_op.get ret ∧
      bucket_store s cookie ret = proxied_call s cookie engine_op.store ret ∧
      bucket_arithmetic s cookie ret = proxied_call s cookie engine_op.arithmetic ret ∧
      bucket_flush s cookie ret = proxied_call s cookie engine_op.flush ret ∧
      bucket_tap_notify s cookie ret = proxied_call s cookie engine_op.tap_notify ret ∧
      (∀ stat_key, stat_key ≠ "bucket" →
        bucket_get_stats s cookie stat_key ret =
          proxied_call s cookie engine_op.get_stats ret) ∧
      (∀ req env, is_admin_command req.opcode = false →
        bucket_unknown_command s cookie req env =
          proxied_call s cookie engine_op.unknown_command env.ret)) ∧
    (∀ (op : engine_op) (p : Nat) (h : proxied_engine_handle_t),
      resolve_handle s es = some p → s.heap[p]? = some h → h.freed = false →
      h.state = STATE_RUNNING → 0 ≤ h.clients →
      get_engine_handle s cookie =
        .ok (store_handle s p { h with clients := h.clients + 1 }, some p) ∧
      proxied_call s cookie op ret = .ok (log_call s p op, ret)) ∧
    (∀ op : engine_op, resolve_handle s es = none →
      proxied_call s cookie op ret = .ok (s, ENGINE_DISCONNECT)) ∧
    (∀ (op : engine_op) (p : Nat) (h : proxied_engine_handle_t),
      resolve_handle s es = some p → s.heap[p]? = some h → h.freed = false →
      h.state ≠ STATE_RUNNING → 0 < h.refcount →
      ∃ s' h', proxied_call s cookie op ret = .ok (s', ENGINE_DISCONNECT) ∧
        s'.calls = s.calls ∧ s'.heap = s.heap.set p h' ∧ h'.clients = h.clients) := by
  refine ⟨⟨rfl, rfl, rfl, rfl, rfl, rfl, rfl, ?_, ?_⟩, ?_, ?_, ?_⟩
  · intro stat_key hk
    unfold bucket_get_stats
    rw [if_neg hk]
  · intro req env hadm
    unfold bucket_unknown_command
    simp [hadm]
  · intro op p h hres hp hf hr hc
    exact ⟨get_engine_handle_running s cookie es p h hes hres hp hf hr,
      proxied_call_running s cookie op ret es p h hes hres hp hf hr hc⟩
  · intro op hres
    exact proxied_call_no_handle s cookie op ret es hes hres
  · intro op p h hres hp hf hr hc
    refine ⟨_, maybe_start_engine_shutdown_LOCKED { h with refcount := h.refcount - 1 },
      proxied_call_not_running s cookie op ret es p h hes hres hp hf hr hc, ?_, ?_, ?_⟩
    · split <;> rfl
    · split <;> rfl
    · simp

theorem proxied_call_invokes_engine_iff_running_witness :
    get_engine_handle (sample_state (sample_handle STATE_RUNNING 2 0)) 1 =
      .ok (sample_state (sample_handle STATE_RUNNING 2 1), some 1) ∧
    bucket_get (sample_state (sample_handle STATE_RUNNING 2 0)) 1 ENGINE_KEY_ENOENT =
      .ok (log_call (sample_state (sample_handle STATE_RUNNING 2 0)) 1 engine_op.get,
           ENGINE_KEY_ENOENT) :=
  (proxied_call_invokes_engine_iff_running (sample_state (sample_handle STATE_RUNNING 2 0)) 1
    ENGINE_KEY_ENOENT { peh := some 1, engine_specific := none, reserved := 0, notified := false }
    rfl).2.1 engine_op.get 1 (sample_handle STATE_RUNNING 2 0) rfl rfl rfl rfl (by decide)

/-- C2 (code bug, evaluated at the failing input): after `reserved_cookie_scenario` the
handle of "b" has reference count 1 although cookie 1 still points at it and still
holds one reservation, because `get_engine_handle` released the reference of the
connection without clearing `es->peh`; when the engine then releases its reservation,
`bucket_engine_release_cookie` decrements the count to 0 for the disconnected
connection and its assertion `peh->refcount > 0` fails. -/
theorem release_cookie_assertion_fails :
    (∃ s, run (bucket_initialized sample_config) reserved_cookie_scenario = .ok s ∧
      s.heap.map (fun h => (h.refcount, h.state)) =
        [(0, STATE_NULL), (1, STATE_STOPPING)] ∧
      (get_conn s 1).es =
        some { peh := some 1, engine_specific := none, reserved := 1, notified := true }) ∧
    run (bucket_initialized sample_config) (reserved_cookie_scenario ++ [label.release 1]) =
      .error "bucket_engine_release_cookie: assert(peh->refcount > 0)" :=
  ⟨⟨_, rfl, rfl, rfl⟩, rfl⟩

theorem hstep_refl (h : proxied_engine_handle_t) : hstep h h :=
  ⟨rfl, rfl, id, id⟩

theorem hstep_trans {a b c : proxied_engine_handle_t} (h1 : hstep a b) (h2 : hstep b c) :
    hstep a c :=
  ⟨h2.1.trans h1.1, h2.2.1.trans h1.2.1, fun h => h2.2.2.1 (h1.2.2.1 h),
    fun h => h1.2.2.2 (h2.2.2.2 h)⟩

/-- A change of fields the lifecycle does not depend on. -/
theorem hstep_of_same (h h' : proxied_engine_handle_t) (h1 : h'.name = h.name)
    (h2 : h'.clients = h.clients) (h3 : h'.state = h.state) (h4 : h'.trace = h.trace)
    (h5 : h'.shutdown_threads = h.shutdown_threads) : hstep h h' := by
  refine ⟨h1, h2, ?_, ?_⟩
  · unfold lifecycle_ok
    rw [h2, h3, h4, h5]
    exact id
  · unfold registered_phase
    rw [h3]
    exact id

theorem hstep_maybe_start (e : proxied_engine_handle_t) :
    hstep e (maybe_start_engine_shutdown_LOCKED e) := by
  unfold maybe_start_engine_shutdown_LOCKED
  split
  · rename_i hc
    refine ⟨rfl, rfl, ?_, ?_⟩
    · intro hl
      unfold lifecycle_ok at hl ⊢
      simp only [set_state, hc.2, hc.1] at hl ⊢
      simp at hl ⊢
      simp [hl]
    · intro _
      exact Or.inl hc.2
  · exact hstep_refl e

theorem hstep_release_handle_locked (e r : proxied_engine_handle_t)
    (h : release_handle_locked e = .ok r) : hstep e r := by
  obtain ⟨_, rfl⟩ := release_handle_locked_eq_ok e r h
  exact hstep_trans (hstep_of_same e _ rfl rfl rfl rfl rfl) (hstep_maybe_start _)

theorem hstep_retain_handle_locked (e : proxied_engine_handle_t)
    (r : proxied_engine_handle_t × Bool)
    (h : retain_handle_locked e = .ok r) : hstep e r.1 := by
  unfold retain_handle_locked at h
  split at h
  · split at h
    · cases h; exact hstep_of_same e _ rfl rfl rfl rfl rfl
    · cases h
  · cases h; exact hstep_refl e

theorem countP_set_add {α : Type} (q : α → Bool) (l : List α) (i : Nat) (v d : α)
    (hi : i < l.length) :
    List.countP q (l.set i v) + (if q (l.getD i d) = true then 1 else 0) =
      List.countP q l + (if q v = true then 1 else 0) := by
  induction l generalizing i with
  | nil => simp at hi
  | cons a t ih =>
    cases i with
    | zero =>
      simp only [List.set_cons_zero, List.countP_cons, List.getD_cons_zero]
      omega
    | succ j =>
      simp only [List.set_cons_succ, List.countP_cons, List.getD_cons_succ]
      have := ih j (by simpa using hi)
      omega

theorem countP_padded {α : Type} (q : α → Bool) (l : List α) (n : Nat) (d : α)
    (hd : q d = false) : List.countP q (l ++ List.replicate n d) = List.countP q l := by
  rw [List.countP_append]
  have : List.countP q (List.replicate n d) = 0 := by
    rw [List.countP_eq_zero]
    intro a ha
    rw [List.eq_of_mem_replicate ha, hd]
    simp
  omega

theorem inside_count_set_conn (s : bucket_engine) (c : Nat) (v : conn_t) (p : Nat) :
    inside_count (set_conn s c v) p + (if (get_conn s c).inside = some p then 1 else 0) =
      inside_count s p + (if v.inside = some p then 1 else 0) := by
  unfold inside_count set_conn get_conn
  simp only
  have h1 := countP_set_add (fun c : conn_t => decide (c.inside = some p))
    (s.conns ++ List.replicate (c + 1 - s.conns.length) no_conn) c v no_conn
    (by simp only [List.length_append, List.length_replicate]; omega)
  rw [padded_getD, countP_padded _ _ _ _ (by simp [no_conn])] at h1
  simpa using h1

theorem inside_count_store_es (s : bucket_engine) (c : Nat) (e : Option engine_specific_t)
    (p : Nat) : inside_count (store_es s c e) p = inside_count s p := by
  have := inside_count_set_conn s c { get_conn s c with es := e } p
  unfold store_es
  dsimp only at this ⊢
  split at this <;> omega

theorem gstep_refl (s : bucket_engine) : gstep s s :=
  ⟨rfl, fun _ => rfl, rfl, fun _ h hp => ⟨h, hp, hstep_refl h⟩⟩

theorem gstep_trans {a b c : bucket_engine} (h1 : gstep a b) (h2 : gstep b c) : gstep a c := by
  refine ⟨h2.1.trans h1.1, fun p => (h2.2.1 p).trans (h1.2.1 p), h2.2.2.1.trans h1.2.2.1, ?_⟩
  intro p h hp
  obtain ⟨h', hp', hs⟩ := h1.2.2.2 p h hp
  obtain ⟨h'', hp'', hs'⟩ := h2.2.2.2 p h' hp'
  exact ⟨h'', hp'', hstep_trans hs hs'⟩

theorem gstep_store_es (s : bucket_engine) (c : Nat) (e : Option engine_specific_t) :
    gstep s (store_es s c e) :=
  ⟨rfl, fun p => inside_count_store_es s c e p, rfl, fun _ h hp => ⟨h, hp, hstep_refl h⟩⟩

theorem gstep_log_call (s : bucket_engine) (p : Nat) (op : engine_op) :
    gstep s (log_call s p op) :=
  ⟨rfl, fun _ => rfl, rfl, fun _ h hp => ⟨h, hp, hstep_refl h⟩⟩

theorem gstep_response (s : bucket_engine) (c : Nat) (k b : String)
    (st : protocol_binary_response_status) : gstep s (response s c k b st) :=
  ⟨rfl, fun _ => rfl, rfl, fun _ h hp => ⟨h, hp, hstep_refl h⟩⟩

theorem gstep_store_handle (s : bucket_engine) (p : Nat) (h h' : proxied_engine_handle_t)
    (hp : s.heap[p]? = some h) (hs : hstep h h') : gstep s (store_handle s p h') := by
  refine ⟨rfl, fun _ => rfl, by simp, ?_⟩
  intro q e hq
  by_cases hqp : p = q
  · subst hqp
    rw [hp] at hq
    cases hq
    exact ⟨h', store_handle_get s p h h' hp, hs⟩
  · exact ⟨e, by rw [store_handle_get_ne s p q h' hqp]; exact hq, hstep_refl e⟩

theorem clients_of_gstep {s s' : bucket_engine} (hg : gstep s s') (p : Nat) :
    clients_of s' p = clients_of s p := by
  unfold clients_of
  cases hp : s.heap[p]? with
  | none =>
    have : s'.heap[p]? = none := by
      rw [List.getElem?_eq_none_iff] at hp ⊢
      rw [hg.2.2.1]; exact hp
    rw [this]
  | some h =>
    obtain ⟨h', hp', hs⟩ := hg.2.2.2 p h hp
    rw [hp']
    exact hs.2.1

theorem Inv_gstep {s s' : bucket_engine} (hi : Inv s) (hg : gstep s s') : Inv s' := by
  have back : ∀ (p : Nat) (h' : proxied_engine_handle_t), s'.heap[p]? = some h' →
      ∃ h, s.heap[p]? = some h ∧ hstep h h' := by
    intro p h' hp'
    have hlt : p < s.heap.length := by
      rw [← hg.2.2.1]; exact getElem?_lt_of_eq_some _ _ _ hp'
    obtain ⟨h, hp⟩ : ∃ h, s.heap[p]? = some h := ⟨s.heap[p], by simp [hlt]⟩
    obtain ⟨h'', hp'', hs⟩ := hg.2.2.2 p h hp
    rw [hp'] at hp''
    cases hp''
    exact ⟨h, hp, hs⟩
  constructor
  · intro p h' hp'
    obtain ⟨h, hp, hs⟩ := back p h' hp'
    exact hs.2.2.1 (hi.life p h hp)
  · intro n q hm
    rw [hg.1] at hm
    obtain ⟨h, hq, hn⟩ := hi.named n q hm
    obtain ⟨h', hq', hs⟩ := hg.2.2.2 q h hq
    exact ⟨h', hq', hs.1.trans hn⟩
  · intro q h' hq' hph
    obtain ⟨h, hq, hs⟩ := back q h' hq'
    rw [hg.1, hs.1]
    exact hi.registered q h hq (hs.2.2.2 hph)
  · rw [hg.1]; exact hi.nodup
  · intro p
    rw [clients_of_gstep hg, hg.2.1, hi.clients]

theorem gstep_release_handle (s s' : bucket_engine) (peh : Option Nat)
    (h : release_handle s peh = .ok s') : gstep s s' := by
  cases peh with
  | none => cases h; exact gstep_refl s
  | some p =>
    simp only [release_handle, bind_eq_ok, pure_eq_ok] at h
    obtain ⟨e, hd, r, hr, rfl⟩ := h
    rw [deref_eq_ok] at hd
    exact gstep_store_handle s p e r hd.1 (hstep_release_handle_locked e r hr)

theorem gstep_retain_handle (s s' : bucket_engine) (peh r : Option Nat)
    (h : retain_handle s peh = .ok (s', r)) : gstep s s' := by
  cases peh with
  | none => cases h; exact gstep_refl s
  | some p =>
    simp only [retain_handle, bind_eq_ok, pure_eq_ok] at h
    obtain ⟨e, hd, x, hx, hres⟩ := h
    cases hres
    rw [deref_eq_ok] at hd
    exact gstep_store_handle s p e x.1 hd.1 (hstep_retain_handle_locked e x hx)

theorem gstep_find_bucket (s s' : bucket_engine) (name : String) (r : Option Nat)
    (h : find_bucket s name = .ok (s', r)) : gstep s s' :=
  gstep_retain_handle s s' _ r h

theorem gstep_set_engine_handle (s s' : bucket_engine) (cookie : Nat) (peh r : Option Nat)
    (h : set_engine_handle s cookie peh = .ok (s', r)) : gstep s s' := by
  unfold set_engine_handle at h
  split at h
  · cases h
  · simp only [bind_eq_ok, pure_eq_ok] at h
    obtain ⟨x, hx, s2, hs2, hres⟩ := h
    cases hres
    exact gstep_trans (gstep_trans (gstep_retain_handle s x.1 peh x.2 hx) (gstep_store_es _ _ _))
      (gstep_release_handle _ _ _ hs2)

theorem gstep_create_engine_specific (s s' : bucket_engine) (cookie : Nat)
    (h : create_engine_specific s cookie = .ok s') : gstep s s' := by
  unfold create_engine_specific at h
  split at h
  · cases h
  · cases h; exact gstep_store_es _ _ _

theorem gstep_handle_disconnect (s s' : bucket_engine) (cookie : Nat)
    (h : handle_disconnect s cookie = .ok s') : gstep s s' := by
  unfold handle_disconnect at h
  split at h
  · cases h; exact gstep_refl s
  · split at h
    · cases h; exact gstep_store_es _ _ _
    · rename_i es _ p _
      simp only [bind_eq_ok] at h
      obtain ⟨e, hd, h⟩ := h
      rw [deref_eq_ok] at hd
      have g1 : gstep s (if (e.wants_disconnects && decide (e.state = STATE_RUNNING)) = true
          then log_call s p engine_op.on_disconnect else s) := by
        split
        · exact gstep_log_call _ _ _
        · exact gstep_refl s
      split at h
      · simp only [bind_eq_ok, pure_eq_ok] at h
        obtain ⟨r, hr, rfl⟩ := h
        refine gstep_trans g1 (gstep_trans (gstep_store_handle _ _ e r ?_
          (hstep_release_handle_locked e r hr)) (gstep_store_es _ _ _))
        split
        · exact hd.1
        · exact hd.1
      · simp only [pure_eq_ok] at h
        cases h
        exact gstep_trans g1 (gstep_store_es _ _ _)

theorem gstep_bucket_store_engine_specific (s s' : bucket_engine) (cookie : Nat)
    (d : Option Nat) (h : bucket_store_engine_specific s cookie d = .ok s') : gstep s s' := by
  unfold bucket_store_engine_specific at h
  split at h
  · cases h
  · cases h; exact gstep_store_es _ _ _

theorem gstep_reserve_cookie (s s' : bucket_engine) (cookie : Nat) (rv : ENGINE_ERROR_CODE)
    (h : bucket_engine_reserve_cookie s cookie = .ok (s', rv)) : gstep s s' := by
  unfold bucket_engine_reserve_cookie at h
  split at h
  · cases h; exact gstep_refl s
  · split at h
    · cases h; exact gstep_refl s
    · simp only [bind_eq_ok] at h
      obtain ⟨e, hd, h⟩ := h
      rw [deref_eq_ok] at hd
      split at h
      · simp only [pure_eq_ok] at h
        cases h
        exact gstep_trans (gstep_store_handle s _ e { e with refcount := e.refcount + 1 } hd.1
          (hstep_of_same e _ rfl rfl rfl rfl rfl)) (gstep_store_es _ _ _)
      · simp only [pure_eq_ok] at h
        cases h; exact gstep_refl s

theorem gstep_release_cookie (s s' : bucket_engine) (cookie : Nat) (rv : ENGINE_ERROR_CODE)
    (h : bucket_engine_release_cookie s cookie = .ok (s', rv)) : gstep s s' := by
  unfold bucket_engine_release_cookie at h
  split at h
  · cases h
  · rename_i es _
    split at h
    · cases h
    · split at h
      · cases h
      · rename_i p _
        simp only [bind_eq_ok] at h
        obtain ⟨e, hd, h⟩ := h
        rw [deref_eq_ok] at hd
        cases hl : (es.notified && decide (es.reserved - 1 = 0))
        · simp only [hl, Bool.false_eq_true, if_false] at h
          by_cases hrc : 0 < e.refcount
          · simp only [hrc, not_true_eq_false, if_false, pure_eq_ok] at h
            cases h
            refine gstep_trans (gstep_store_es s cookie _)
              (gstep_store_handle _ _ e _ hd.1 ?_)
            split
            · exact hstep_trans (hstep_of_same e
                { e with refcount := e.refcount - 1 } rfl rfl rfl rfl rfl)
                (hstep_maybe_start _)
            · exact hstep_of_same e _ rfl rfl rfl rfl rfl
          · rw [if_pos hrc] at h
            cases h
        · simp only [hl, if_true] at h
          by_cases hrc : 0 < e.refcount - 1
          · simp only [hrc, not_true_eq_false, if_false, pure_eq_ok] at h
            cases h
            refine gstep_trans (gstep_store_es s cookie none)
              (gstep_store_handle _ _ e _ hd.1 ?_)
            split
            · exact hstep_trans (hstep_of_same e
                { e with refcount := e.refcount - 1 - 1 } rfl rfl rfl rfl rfl)
                (hstep_maybe_start _)
            · exact hstep_of_same e _ rfl rfl rfl rfl rfl
          · rw [if_pos hrc] at h
            cases h

theorem gstep_handle_select_bucket (s s' : bucket_engine) (cookie : Nat)
    (req : protocol_binary_request_header) (rv : ENGINE_ERROR_CODE)
    (h : handle_select_bucket s cookie req = .ok (s', rv)) : gstep s s' := by
  unfold handle_select_bucket at h
  simp only [bind_eq_ok] at h
  obtain ⟨f, hf, s1, hs1, s2, hs2, h⟩ := h
  have g := gstep_trans (gstep_trans (gstep_find_bucket s f.1 _ f.2 hf)
    (gstep_set_engine_handle f.1 s1.1 cookie f.2 s1.2 hs1)) (gstep_release_handle _ _ _ hs2)
  split at h
  · simp only [pure_eq_ok] at h
    cases h
    exact gstep_trans g (gstep_response _ _ _ _ _)
  · simp only [pure_eq_ok] at h
    cases h
    exact gstep_trans g (gstep_response _ _ _ _ _)

theorem gstep_genhash_iter (l : List (String × Nat)) :
    ∀ (s s' : bucket_engine) (acc acc' : List (String × Nat)),
      genhash_iter s l acc = .ok (s', acc') → gstep s s' := by
  induction l with
  | nil =>
    intro s s' acc acc' h
    simp only [genhash_iter] at h
    cases h
    exact gstep_refl s
  | cons kv rest ih =>
    intro s s' acc acc' h
    simp only [genhash_iter, add_engine, bind_eq_ok] at h
    obtain ⟨r, ⟨x, hx, hr⟩, h⟩ := h
    have g1 := gstep_retain_handle s x.1 _ x.2 hx
    have hr1 : r.1 = x.1 := by
      split at hr <;> (simp only [pure_eq_ok] at hr; rw [← hr])
    rw [hr1] at h
    exact gstep_trans g1 (ih _ _ _ _ h)

theorem gstep_bucket_list_free (l : List (String × Nat)) :
    ∀ (s s' : bucket_engine), bucket_list_free s l = .ok s' → gstep s s' := by
  induction l with
  | nil =>
    intro s s' h
    simp only [bucket_list_free] at h
    cases h
    exact gstep_refl s
  | cons kv rest ih =>
    intro s s' h
    simp only [bucket_list_free, bind_eq_ok] at h
    obtain ⟨s1, hs1, h⟩ := h
    exact gstep_trans (gstep_release_handle _ _ _ hs1) (ih _ _ h)

theorem gstep_handle_list_buckets (s s' : bucket_engine) (cookie : Nat)
    (rv : ENGINE_ERROR_CODE)
    (h : handle_list_buckets s cookie = .ok (s', rv)) : gstep s s' := by
  unfold handle_list_buckets list_buckets at h
  simp only [bind_eq_ok, pure_eq_ok] at h
  obtain ⟨l, hl, s1, hs1, h⟩ := h
  cases h
  exact gstep_trans (gstep_trans (gstep_genhash_iter _ _ _ _ _ hl)
    (gstep_bucket_list_free _ _ _ hs1)) (gstep_response _ _ _ _ _)

theorem get_engine_handle_some (s s' : bucket_engine) (cookie p : Nat)
    (h : get_engine_handle s cookie = .ok (s', some p)) :
    ∃ e, s.heap[p]? = some e ∧ e.state = STATE_RUNNING ∧
      s' = store_handle s p { e with clients := e.clients + 1 } := by
  unfold get_engine_handle at h
  split at h
  · cases h
  · split at h
    · cases h
    · rename_i q _
      simp only [bind_eq_ok] at h
      obtain ⟨e, hd, h⟩ := h
      rw [deref_eq_ok] at hd
      split at h
      · simp only [bind_eq_ok, pure_eq_ok] at h
        obtain ⟨_, _, h⟩ := h
        cases h
      · rename_i hr
        simp only [pure_eq_ok] at h
        cases h
        exact ⟨e, hd.1, by simpa using hr, rfl⟩

theorem gstep_get_engine_handle_none (s s' : bucket_engine) (cookie : Nat)
    (h : get_engine_handle s cookie = .ok (s', none)) : gstep s s' := by
  unfold get_engine_handle at h
  split at h
  · cases h
  · split at h
    · cases h; exact gstep_refl s
    · simp only [bind_eq_ok] at h
      obtain ⟨e, hd, h⟩ := h
      split at h
      · simp only [bind_eq_ok, pure_eq_ok] at h
        obtain ⟨s2, hs2, h⟩ := h
        cases h
        refine gstep_trans ?_ (gstep_release_handle _ _ _ hs2)
        split
        · exact gstep_store_es _ _ _
        · exact gstep_refl s
      · simp only [pure_eq_ok] at h
        cases h

theorem try_get_engine_handle_some (s s' : bucket_engine) (cookie p : Nat)
    (h : try_get_engine_handle s cookie = .ok (s', some p)) :
    ∃ e, s.heap[p]? = some e ∧ e.state = STATE_RUNNING ∧
      s' = store_handle s p { e with clients := e.clients + 1 } := by
  unfold try_get_engine_handle at h
  split at h
  · cases h
  · split at h
    · cases h
    · simp only [bind_eq_ok] at h
      obtain ⟨e, hd, h⟩ := h
      rw [deref_eq_ok] at hd
      split at h
      · rename_i hr
        simp only [pure_eq_ok] at h
        cases h
        exact ⟨e, hd.1, hr, rfl⟩
      · simp only [pure_eq_ok] at h
        cases h

theorem try_get_engine_handle_none (s s' : bucket_engine) (cookie : Nat)
    (h : try_get_engine_handle s cookie = .ok (s', none)) : s' = s := by
  unfold try_get_engine_handle at h
  split at h
  · cases h; rfl
  · split at h
    · cases h; rfl
    · simp only [bind_eq_ok] at h
      obtain ⟨e, hd, h⟩ := h
      split at h
      · simp only [pure_eq_ok] at h
        cases h
      · simp only [pure_eq_ok] at h
        cases h; rfl

theorem clients_of_store_handle (s : bucket_engine) (p q : Nat) (h h' : proxied_engine_handle_t)
    (hp : s.heap[p]? = some h) :
    clients_of (store_handle s p h') q = if q = p then h'.clients else clients_of s q := by
  unfold clients_of
  by_cases hq : q = p
  · subst hq
    rw [store_handle_get s q h h' hp]
    simp
  · rw [store_handle_get_ne s p q h' (Ne.symm hq)]
    simp [hq]

theorem Inv_inside_change (s : bucket_engine) (p : Nat) (h h' : proxied_engine_handle_t)
    (c : Nat) (v : conn_t) (hi : Inv s) (hp : s.heap[p]? = some h)
    (hname : h'.name = h.name) (hl : lifecycle_ok h')
    (hph : registered_phase h' → registered_phase h)
    (hacc : ∀ q : Nat, (if q = p then h'.clients else clients_of s q) +
        (if (get_conn s c).inside = some q then 1 else 0) =
      clients_of s q + (if v.inside = some q then 1 else 0)) :
    Inv (set_conn (store_handle s p h') c v) := by
  have hget : ∀ (q : Nat) (e : proxied_engine_handle_t),
      (set_conn (store_handle s p h') c v).heap[q]? = some e →
      (q = p ∧ e = h') ∨ (q ≠ p ∧ s.heap[q]? = some e) := by
    intro q e hq
    rw [set_conn_heap] at hq
    by_cases hqp : q = p
    · subst hqp
      rw [store_handle_get s q h h' hp] at hq
      cases hq
      exact Or.inl ⟨rfl, rfl⟩
    · rw [store_handle_get_ne s p q h' (Ne.symm hqp)] at hq
      exact Or.inr ⟨hqp, hq⟩
  constructor
  · intro q e hq
    rcases hget q e hq with ⟨_, rfl⟩ | ⟨_, hq'⟩
    · exact hl
    · exact hi.life q e hq'
  · intro n q hm
    rw [set_conn_engines, store_handle_engines] at hm
    obtain ⟨e, hq, hn⟩ := hi.named n q hm
    by_cases hqp : q = p
    · rw [hqp] at hq ⊢
      rw [hp] at hq
      cases hq
      exact ⟨h', by rw [set_conn_heap]; exact store_handle_get s p h h' hp, hname.trans hn⟩
    · exact ⟨e, by
        rw [set_conn_heap, store_handle_get_ne s p q h' (Ne.symm hqp)]; exact hq, hn⟩
  · intro q e hq hph'
    rw [set_conn_engines, store_handle_engines]
    rcases hget q e hq with ⟨rfl, rfl⟩ | ⟨_, hq'⟩
    · rw [hname]
      exact hi.registered q h hp (hph hph')
    · exact hi.registered q e hq' hph'
  · rw [set_conn_engines, store_handle_engines]; exact hi.nodup
  · intro q
    have h1 := inside_count_set_conn (store_handle s p h') c v q
    have h2 : inside_count (store_handle s p h') q = inside_count s q := rfl
    have h3 : clients_of (set_conn (store_handle s p h') c v) q =
        clients_of (store_handle s p h') q := rfl
    have h4 := hacc q
    have h5 := hi.clients q
    rw [h3, clients_of_store_handle s p q h h' hp]
    rw [get_conn_store_handle, h2] at h1
    by_cases hqp : q = p
    · subst hqp
      by_cases ha : (get_conn s c).inside = some q <;> by_cases hb : v.inside = some q <;>
        simp only [ha, hb, if_true, if_false] at h1 h4 ⊢ <;> omega
    · by_cases ha : (get_conn s c).inside = some q <;> by_cases hb : v.inside = some q <;>
        simp only [ha, hb, hqp, if_true, if_false] at h1 h4 ⊢ <;> omega

theorem lifecycle_ok_enter (e : proxied_engine_handle_t) (hl : lifecycle_ok e)
    (hr : e.state = STATE_RUNNING) : lifecycle_ok { e with clients := e.clients + 1 } := by
  unfold lifecycle_ok at hl ⊢
  refine ⟨hl.1, ?_⟩
  intro h1
  exact absurd hr h1

theorem release_engine_handle_locked_inv (e r : proxied_engine_handle_t)
    (h : release_engine_handle_locked e = .ok r) (hl : lifecycle_ok e) :
    r.name = e.name ∧ r.clients = e.clients - 1 ∧ lifecycle_ok r ∧
      (registered_phase r → registered_phase e) := by
  unfold release_engine_handle_locked at h
  split at h
  · rename_i hc
    cases h
    have hs := hstep_maybe_start { e with clients := e.clients - 1 }
    refine ⟨hs.1, hs.2.1, hs.2.2.1 ?_, hs.2.2.2⟩
    unfold lifecycle_ok at hl ⊢
    refine ⟨hl.1, ?_⟩
    intro h1 h2
    have := hl.2 h1 h2
    omega
  · cases h

theorem Inv_enter (s : bucket_engine) (cookie p : Nat) (op : engine_op)
    (e : proxied_engine_handle_t) (hi : Inv s) (hp : s.heap[p]? = some e)
    (hr : e.state = STATE_RUNNING) (hidle : (get_conn s cookie).inside = none) :
    Inv (set_inside (log_call (store_handle s p { e with clients := e.clients + 1 }) p op)
      cookie (some p)) := by
  have h1 : Inv (set_conn (store_handle s p { e with clients := e.clients + 1 }) cookie
      { get_conn s cookie with inside := some p }) := by
    refine Inv_inside_change s p e _ cookie _ hi hp rfl (lifecycle_ok_enter e (hi.life p e hp) hr)
      ?_ ?_
    · intro hph
      exact hph
    · intro q
      have hc : clients_of s p = e.clients := by
        unfold clients_of; rw [hp]
      by_cases hq : q = p
      · subst hq
        simp [hidle, hc]
      · have : ¬ p = q := fun h => hq h.symm
        simp [hidle, hq, this]
  exact Inv_gstep h1 (gstep_log_call _ p op)

theorem Inv_leave (s s1 : bucket_engine) (cookie p : Nat) (hi : Inv s)
    (hin : (get_conn s cookie).inside = some p)
    (h : release_engine_handle s p = .ok s1) : Inv (set_inside s1 cookie none) := by
  simp only [release_engine_handle, bind_eq_ok, pure_eq_ok] at h
  obtain ⟨e, hd, r, hr, rfl⟩ := h
  rw [deref_eq_ok] at hd
  obtain ⟨h1, h2, h3, h4⟩ := release_engine_handle_locked_inv e r hr (hi.life p e hd.1)
  refine Inv_inside_change s p e r cookie _ hi hd.1 h1 h3 h4 ?_
  intro q
  have hc : clients_of s p = e.clients := by
    unfold clients_of; rw [hd.1]
  by_cases hq : q = p
  · subst hq
    simp [hin, hc, h2]
  · have : ¬ p = q := fun h => hq h.symm
    simp [hin, hq, this]

theorem gstep_proxied_call (s s' : bucket_engine) (cookie : Nat) (op : engine_op)
    (ret rv : ENGINE_ERROR_CODE) (h : proxied_call s cookie op ret = .ok (s', rv)) :
    gstep s s' := by
  unfold proxied_call at h
  simp only [bind_eq_ok] at h
  obtain ⟨g, hg, h⟩ := h
  split at h
  · rename_i p hp
    simp only [bind_eq_ok, pure_eq_ok] at h
    obtain ⟨s2, hs2, h⟩ := h
    cases h
    have hg' : get_engine_handle s cookie = .ok (g.1, some p) := by rw [hg, ← hp]
    obtain ⟨e, he, hr, hg1⟩ := get_engine_handle_some s g.1 cookie p hg'
    simp only [release_engine_handle, bind_eq_ok, pure_eq_ok, deref_log_call] at hs2
    obtain ⟨e1, hd, r, hrel, rfl⟩ := hs2
    rw [hg1, deref_eq_ok, store_handle_get s p e _ he] at hd
    obtain ⟨he1, _⟩ := hd
    cases he1
    unfold release_engine_handle_locked at hrel
    split at hrel
    · cases hrel
      rw [hg1, store_handle_log_call, store_handle_store_handle]
      refine gstep_trans (gstep_store_handle s p e _ he ?_) (gstep_log_call _ _ _)
      refine hstep_trans (hstep_of_same e { e with clients := e.clients + 1 - 1 } rfl ?_ rfl rfl
        rfl) (hstep_maybe_start _)
      simp
    · cases hrel
  · rename_i hp
    simp only [pure_eq_ok] at h
    cases h
    have hg' : get_engine_handle s cookie = .ok (g.1, none) := by rw [hg, ← hp]
    exact gstep_get_engine_handle_none s g.1 cookie hg'

theorem lookup_none_not_mem (l : List (String × Nat)) (k : String)
    (h : l.lookup k = none) : k ∉ l.map Prod.fst := by
  induction l with
  | nil => simp
  | cons kv rest ih =>
    obtain ⟨a, b⟩ := kv
    simp only [List.lookup_cons] at h
    by_cases hk : k = a
    · subst hk
      simp at h
    · have hk' : (k == a) = false := by simpa using hk
      rw [hk'] at h
      simp only [List.map_cons, List.mem_cons, not_or]
      exact ⟨hk, ih h⟩

theorem lookup_some_mem (l : List (String × Nat)) (k : String) (v : Nat)
    (h : l.lookup k = some v) : (k, v) ∈ l := by
  induction l with
  | nil => simp at h
  | cons kv rest ih =>
    obtain ⟨a, b⟩ := kv
    simp only [List.lookup_cons] at h
    by_cases hk : k = a
    · subst hk
      simp at h
      subst h
      simp
    · have hk' : (k == a) = false := by simpa using hk
      rw [hk'] at h
      exact List.mem_cons_of_mem _ (ih h)

theorem filter_key_unique (l : List (String × Nat)) (name : String) (q : Nat)
    (hnd : (l.map Prod.fst).Nodup) (hm : (name, q) ∈ l) :
    l.filter (fun kv => decide (kv.1 = name)) = [(name, q)] := by
  induction l with
  | nil => simp at hm
  | cons kv rest ih =>
    obtain ⟨a, b⟩ := kv
    simp only [List.map_cons, List.nodup_cons] at hnd
    simp only [List.mem_cons, Prod.mk.injEq] at hm
    rcases hm with ⟨h1, h2⟩ | hm
    · subst h1; subst h2
      have : rest.filter (fun kv => decide (kv.1 = name)) = [] := by
        rw [List.filter_eq_nil_iff]
        intro kv hkv
        simp only [decide_eq_true_eq]
        intro hk
        exact hnd.1 (by rw [← hk]; exact List.mem_map_of_mem _ hkv)
      simp [List.filter_cons, this]
    · have hne : a ≠ name := by
        intro hk
        exact hnd.1 (by rw [hk]; exact List.mem_map_of_mem Prod.fst hm)
      simp [List.filter_cons, hne, ih hnd.2 hm]

theorem getElem?_append_singleton {α : Type} (l : List α) (x e : α) (q : Nat)
    (h : (l ++ [x])[q]? = some e) : l[q]? = some e ∨ (q = l.length ∧ e = x) := by
  by_cases hq : q < l.length
  · rw [List.getElem?_append_left hq] at h
    exact Or.inl h
  · rw [List.getElem?_append_right (by omega)] at h
    by_cases hq2 : q = l.length
    · subst hq2
      simp at h
      exact Or.inr ⟨rfl, h.symm⟩
    · have : q - l.length ≠ 0 := by omega
      cases hk : q - l.length with
      | zero => omega
      | succ k => rw [hk] at h; simp at h

theorem Inv_append (s : bucket_engine) (x : proxied_engine_handle_t) (hi : Inv s)
    (hl : lifecycle_ok x) (hph : ¬ registered_phase x) (hc : x.clients = 0) :
    Inv { s with heap := s.heap ++ [x] } := by
  constructor
  · intro q e hq
    rcases getElem?_append_singleton _ _ _ _ hq with h1 | ⟨_, rfl⟩
    · exact hi.life q e h1
    · exact hl
  · intro n q hm
    obtain ⟨e, hq, hn⟩ := hi.named n q hm
    exact ⟨e, by
      show (s.heap ++ [x])[q]? = some e
      rw [List.getElem?_append_left (getElem?_lt_of_eq_some _ _ _ hq)]; exact hq, hn⟩
  · intro q e hq hph'
    rcases getElem?_append_singleton _ _ _ _ hq with h1 | ⟨_, rfl⟩
    · exact hi.registered q e h1 hph'
    · exact absurd hph' hph
  · exact hi.nodup
  · intro q
    have h0 := hi.clients q
    show clients_of { s with heap := s.heap ++ [x] } q = inside_count s q
    rw [← h0]
    unfold clients_of
    show (match (s.heap ++ [x])[q]? with | some h => h.clients | none => 0) = _
    by_cases hq : q < s.heap.length
    · rw [List.getElem?_append_left hq]
    · rw [List.getElem?_eq_none (l := s.heap) (by omega)]
      cases hx : (s.heap ++ [x])[q]? with
      | none => rfl
      | some e =>
        rcases getElem?_append_singleton _ _ _ _ hx with h1 | ⟨_, rfl⟩
        · rw [List.getElem?_eq_none (l := s.heap) (by omega)] at h1
          cases h1
        · exact hc

theorem Inv_register (s : bucket_engine) (name : String) (q : Nat)
    (h : proxied_engine_handle_t) (hi : Inv s) (hf : genhash_find s.engines name = none)
    (hq : s.heap[q]? = some h) (hn : h.name = name) :
    Inv { s with engines := s.engines ++ [(name, q)] } := by
  constructor
  · exact hi.life
  · intro n p hm
    simp only [List.mem_append, List.mem_singleton, Prod.mk.injEq] at hm
    rcases hm with hm | ⟨rfl, rfl⟩
    · exact hi.named n p hm
    · exact ⟨h, hq, hn⟩
  · intro p e hp hph
    exact List.mem_append_left _ (hi.registered p e hp hph)
  · show ((s.engines ++ [(name, q)]).map Prod.fst).Nodup
    rw [List.map_append, List.nodup_append]
    refine ⟨hi.nodup, by simp, ?_⟩
    intro a ha hb
    simp only [List.map_cons, List.map_nil, List.mem_singleton] at hb
    subst hb
    exact lookup_none_not_mem _ _ hf ha
  · exact hi.clients

theorem Inv_unlink (s : bucket_engine) (name : String) (q : Nat)
    (h h' : proxied_engine_handle_t) (hi : Inv s) (hm : (name, q) ∈ s.engines)
    (hq : s.heap[q]? = some h) (hn : h'.name = h.name) (hc : h'.clients = h.clients)
    (hl : lifecycle_ok h') (hph : ¬ registered_phase h') :
    Inv (store_handle { s with engines := s.engines.filter (fun kv => ¬ kv.1 = name) } q h') := by
  have hname : h.name = name := by
    obtain ⟨e, he, hen⟩ := hi.named name q hm
    rw [hq] at he
    cases he
    exact hen
  have hget : ∀ (p : Nat) (e : proxied_engine_handle_t),
      (s.heap.set q h')[p]? = some e →
        (p = q ∧ e = h') ∨ (p ≠ q ∧ s.heap[p]? = some e) := by
    intro p e hp
    by_cases hpq : p = q
    · subst hpq
      rw [List.getElem?_set_self (getElem?_lt_of_eq_some _ _ _ hq)] at hp
      cases hp
      exact Or.inl ⟨rfl, rfl⟩
    · rw [List.getElem?_set_ne (Ne.symm hpq)] at hp
      exact Or.inr ⟨hpq, hp⟩
  constructor
  · intro p e hp
    rcases hget p e hp with ⟨_, rfl⟩ | ⟨_, hp'⟩
    · exact hl
    · exact hi.life p e hp'
  · intro n p hmem
    have hmem' : (n, p) ∈ s.engines := (List.mem_filter.1 hmem).1
    obtain ⟨e, he, hen⟩ := hi.named n p hmem'
    by_cases hpq : p = q
    · subst hpq
      rw [hq] at he
      cases he
      exact ⟨h', by simp [List.getElem?_set_self (getElem?_lt_of_eq_some _ _ _ hq)],
        hn.trans hen⟩
    · exact ⟨e, by
        show (s.heap.set q h')[p]? = some e
        rw [List.getElem?_set_ne (Ne.symm hpq)]; exact he, hen⟩
  · intro p e hp hph'
    rcases hget p e hp with ⟨_, rfl⟩ | ⟨hpq, hp'⟩
    · exact absurd hph' hph
    · have hreg := hi.registered p e hp' hph'
      show (e.name, p) ∈ s.engines.filter (fun kv => ¬ kv.1 = name)
      rw [List.mem_filter]
      refine ⟨hreg, ?_⟩
      simp only [decide_not, Bool.not_eq_true', decide_eq_false_iff_not]
      intro hen
      rw [hen] at hreg
      have h1 := filter_key_unique s.engines name q hi.nodup hm
      have h2 := filter_key_unique s.engines name p hi.nodup hreg
      rw [h1] at h2
      simp at h2
      exact hpq h2.symm
  · show ((s.engines.filter (fun kv => ¬ kv.1 = name)).map Prod.fst).Nodup
    exact (List.Nodup.sublist ((List.filter_sublist _).map Prod.fst) hi.nodup)
  · intro p
    have h0 := hi.clients p
    show clients_of (store_handle { s with engines := _ } q h') p = inside_count s p
    rw [← h0, clients_of_store_handle
      { s with engines := s.engines.filter (fun kv => ¬ kv.1 = name) } q p h h' hq]
    split
    · rename_i hpq
      subst hpq
      unfold clients_of
      rw [hq]
      exact hc
    · rfl

theorem genhash_delete_all_unique (s s' : bucket_engine) (name : String) (q n : Nat)
    (hnd : (s.engines.map Prod.fst).Nodup) (hm : (name, q) ∈ s.engines)
    (h : genhash_delete_all s name = .ok (s', n)) :
    ∃ e, s.heap[q]? = some e ∧ n = 1 ∧
      s' = store_handle { s with engines := s.engines.filter (fun kv => ¬ kv.1 = name) } q
        (set_state e STATE_NULL) := by
  unfold genhash_delete_all at h
  simp only [filter_key_unique s.engines name q hnd hm, bind_eq_ok, pure_eq_ok] at h
  obtain ⟨s1, hs1, h⟩ := h
  cases h
  simp only [free_values, engine_hash_free, bind_eq_ok, pure_eq_ok] at hs1
  obtain ⟨s2, ⟨e, hd, rfl⟩, hs2⟩ := hs1
  cases hs2
  rw [deref_eq_ok] at hd
  exact ⟨e, hd.1, rfl, rfl⟩

theorem lifecycle_ok_thread (e : proxied_engine_handle_t) (i pc : Nat)
    (hl : lifecycle_ok e) (hpc : e.shutdown_threads[i]? = some pc) :
    e.shutdown_threads = [pc] ∧ i = 0 := by
  unfold lifecycle_ok at hl
  obtain ⟨hl, _⟩ := hl
  simp only [List.mem_cons, Prod.mk.injEq, List.mem_singleton, List.not_mem_nil, or_false] at hl
  rcases hl with h | h | h | h | h | h | h | h | h <;> obtain ⟨_, _, h3⟩ := h <;>
    rw [h3] at hpc ⊢ <;> cases i <;> simp_all

theorem Inv_engine_shutdown_thread (s s' : bucket_engine) (p i : Nat) (hi : Inv s)
    (h : engine_shutdown_thread s p i = .ok s') : Inv s' := by
  unfold engine_shutdown_thread at h
  simp only [bind_eq_ok] at h
  obtain ⟨e, hd, h⟩ := h
  rw [deref_eq_ok] at hd
  have hl := hi.life p e hd.1
  split at h
  · cases h
  · rename_i hpc
    obtain ⟨hth, rfl⟩ := lifecycle_ok_thread e i 0 hl hpc
    split at h
    · cases h
    · split at h
      · cases h
      · simp only [pure_eq_ok] at h
        cases h
        refine Inv_gstep hi (gstep_trans (gstep_log_call s p _)
          (gstep_store_handle _ p e _ hd.1 ?_))
        refine ⟨rfl, rfl, ?_, fun hph => hph⟩
        intro _
        unfold lifecycle_ok at hl ⊢
        rw [hth] at hl ⊢
        simp at hl ⊢
        exact hl
  · rename_i hpc
    obtain ⟨hth, rfl⟩ := lifecycle_ok_thread e i 1 hl hpc
    have hst : e.state = STATE_STOPPING := by
      unfold lifecycle_ok at hl
      rw [hth] at hl
      simp at hl
      exact hl.1.1
    have hreg := hi.registered p e hd.1 (Or.inr hst)
    simp only [bind_eq_ok] at h
    obtain ⟨r, hr, h⟩ := h
    obtain ⟨e', he', hn, hs1⟩ := genhash_delete_all_unique s r.1 e.name p r.2 hi.nodup hreg hr
    rw [hd.1] at he'
    cases he'
    split at h
    · cases h
    · simp only [bind_eq_ok, pure_eq_ok] at h
      obtain ⟨e1, hd1, rfl⟩ := h
      rw [hs1, deref_eq_ok, store_handle_get
        { s with engines := s.engines.filter (fun kv => ¬ kv.1 = e.name) } p e _ hd.1] at hd1
      obtain ⟨he1, _⟩ := hd1
      cases he1
      rw [hs1, store_handle_store_handle]
      refine Inv_unlink s e.name p e _ hi hreg hd.1 rfl rfl ?_ ?_
      · unfold lifecycle_ok at hl ⊢
        simp only [set_state]
        rw [hth] at hl ⊢
        simp at hl ⊢
        simp [hl]
      · unfold registered_phase
        simp [set_state]
  · rename_i hpc
    obtain ⟨hth, rfl⟩ := lifecycle_ok_thread e i 2 hl hpc
    simp only [pure_eq_ok] at h
    cases h
    have g1 : gstep s (match e.cookie with
        | some c => { s with io_complete := s.io_complete ++ [c] }
        | none => s) := by
      split
      · exact ⟨rfl, fun _ => rfl, rfl, fun _ h hp => ⟨h, hp, hstep_refl h⟩⟩
      · exact gstep_refl s
    refine Inv_gstep hi (gstep_trans g1 (gstep_store_handle _ p e _ ?_ ?_))
    · split <;> exact hd.1
    · refine ⟨rfl, rfl, ?_, ?_⟩
      · intro _
        unfold lifecycle_ok at hl ⊢
        simp only [set_state]
        rw [hth] at hl ⊢
        simp at hl ⊢
        simp [hl]
      · unfold registered_phase
        simp [set_state]
  · rename_i hpc
    obtain ⟨hth, rfl⟩ := lifecycle_ok_thread e i 3 hl hpc
    split at h
    · cases h
    · simp only [pure_eq_ok] at h
      cases h
      refine Inv_gstep hi (gstep_store_handle _ p e _ hd.1 ?_)
      refine ⟨rfl, rfl, ?_, fun hph => hph⟩
      intro _
      unfold lifecycle_ok at hl ⊢
      rw [hth] at hl ⊢
      simp at hl ⊢
      exact hl
  · cases h

theorem gstep_release_memory (s s' : bucket_engine) (p : Nat)
    (h : release_memory s p = .ok s') : gstep s s' := by
  simp only [release_memory, bind_eq_ok, pure_eq_ok] at h
  obtain ⟨e, hd, rfl⟩ := h
  rw [deref_eq_ok] at hd
  exact gstep_store_handle s p e _ hd.1 (hstep_of_same e _ rfl rfl rfl rfl rfl)

theorem gstep_refcount_dup (s s' : bucket_engine) (p : Nat)
    (h : refcount_dup s p = .ok s') : gstep s s' := by
  simp only [refcount_dup, bind_eq_ok, pure_eq_ok] at h
  obtain ⟨e, hd, rfl⟩ := h
  rw [deref_eq_ok] at hd
  exact gstep_store_handle s p e _ hd.1 (hstep_of_same e _ rfl rfl rfl rfl rfl)

theorem init_engine_handle_lifecycle (name : String) (o : init_outcome) (pe : Bool) :
    lifecycle_ok { (init_engine_handle calloc_handle name o).1 with pe := pe } ∧
    ¬ registered_phase { (init_engine_handle calloc_handle name o).1 with pe := pe } ∧
    ({ (init_engine_handle calloc_handle name o).1 with pe := pe } :
      proxied_engine_handle_t).clients = 0 := by
  cases o <;> simp [init_engine_handle, calloc_handle, lifecycle_ok, registered_phase]

theorem init_engine_handle_lifecycle_raw (name : String) (o : init_outcome) :
    lifecycle_ok (init_engine_handle calloc_handle name o).1 ∧
    ¬ registered_phase (init_engine_handle calloc_handle name o).1 ∧
    (init_engine_handle calloc_handle name o).1.clients = 0 := by
  cases o <;> simp [init_engine_handle, calloc_handle, lifecycle_ok, registered_phase]

theorem Inv_create_bucket (s s' : bucket_engine) (name : String) (env : create_env)
    (want_out : Bool) (msg : Option Nat) (r : create_result) (hi : Inv s)
    (h : create_bucket s name env want_out msg = .ok (s', r)) : Inv s' := by
  unfold create_bucket at h
  by_cases hv : ¬ has_valid_bucket_name name.data = true
  · rw [if_pos hv] at h
    cases h; exact hi
  rw [if_neg hv] at h
  by_cases hca : ¬ env.calloc_ok = true
  · rw [if_pos hca] at h
    cases h; exact hi
  rw [if_neg hca] at h
  obtain ⟨hl0, hp0, hc0⟩ := init_engine_handle_lifecycle_raw name env.init
  obtain ⟨hl1, hp1, hc1⟩ := init_engine_handle_lifecycle name env.init true
  have hia0 := Inv_append s _ hi hl0 hp0 hc0
  have hia1 := Inv_append s _ hi hl1 hp1 hc1
  simp only [] at h
  by_cases hinit : (init_engine_handle calloc_handle name env.init).2 ≠ ENGINE_SUCCESS
  · rw [if_pos hinit] at h
    simp only [bind_eq_ok, pure_eq_ok] at h
    obtain ⟨s1, hs1, h⟩ := h
    cases h
    exact Inv_gstep hia0 (gstep_release_memory _ _ _ hs1)
  rw [if_neg hinit] at h
  have hok : env.init = init_outcome.ok := by
    cases ho : env.init <;> simp [ho, init_engine_handle] at hinit ⊢
  have hname : ({ (init_engine_handle calloc_handle name env.init).1 with pe := true } :
      proxied_engine_handle_t).name = name := by
    rw [hok]
    rfl
  by_cases hload : ¬ env.load_ok = true
  · rw [if_pos hload] at h
    simp only [bind_eq_ok, pure_eq_ok, free_engine_handle] at h
    obtain ⟨s1, hs1, h⟩ := h
    cases h
    exact Inv_gstep hia0 (gstep_release_memory _ _ _ hs1)
  rw [if_neg hload] at h
  simp only [find_bucket_inner] at h
  cases hfind : genhash_find s.engines name with
  | some tmppeh =>
    simp only [hfind, bind_eq_ok, pure_eq_ok, free_engine_handle] at h
    obtain ⟨t, _, s3, hs3, h⟩ := h
    cases h
    exact Inv_gstep (Inv_gstep hia1 (gstep_log_call _ _ _)) (gstep_release_memory _ _ _ hs3)
  | none =>
    simp only [hfind, bind_eq_ok] at h
    obtain ⟨s2, hs2, h⟩ := h
    unfold genhash_update at hs2
    simp only [hfind] at hs2
    have hreg := Inv_register _ name s.heap.length
      { (init_engine_handle calloc_handle name env.init).1 with pe := true } hia1 hfind
      (by simp) hname
    have hi2 : Inv s2 := Inv_gstep hreg (gstep_refcount_dup _ _ _ hs2)
    have hi3 : Inv (log_call s2 s.heap.length engine_op.initialize_call) :=
      Inv_gstep hi2 (gstep_log_call _ _ _)
    by_cases hini : env.initialize_ok = true
    · rw [if_pos hini] at h
      by_cases hw : want_out = true
      · rw [if_pos hw] at h
        simp only [pure_eq_ok] at h
        cases h; exact hi3
      · rw [if_neg hw] at h
        simp only [bind_eq_ok, pure_eq_ok] at h
        obtain ⟨s4, hs4, h⟩ := h
        cases h
        exact Inv_gstep hi3 (gstep_release_handle _ _ _ hs4)
    · rw [if_neg hini] at h
      simp only [bind_eq_ok, pure_eq_ok, free_engine_handle] at h
      obtain ⟨r4, hr4, s5, hs5, h⟩ := h
      cases h
      have hi4 : Inv (log_call (log_call s2 s.heap.length engine_op.initialize_call)
          s.heap.length (engine_op.destroy false)) := Inv_gstep hi3 (gstep_log_call _ _ _)
      have hge : s2.engines = s.engines ++ [(name, s.heap.length)] :=
        (gstep_refcount_dup _ _ _ hs2).1
      have hmem : (name, s.heap.length) ∈
          (log_call (log_call s2 s.heap.length engine_op.initialize_call)
            s.heap.length (engine_op.destroy false)).engines := by
        simp [hge]
      obtain ⟨e, he, _, hs1⟩ := genhash_delete_all_unique _ r4.1 name s.heap.length r4.2
        hi4.nodup hmem hr4
      have hle := hi4.life _ e he
      have hee : e.state = STATE_RUNNING ∧ e.clients = 0 := by
        simp only [refcount_dup, bind_eq_ok, pure_eq_ok] at hs2
        obtain ⟨e2, hd2, hs2'⟩ := hs2
        rw [deref_eq_ok] at hd2
        have : e2 = { (init_engine_handle calloc_handle name env.init).1 with
            pe := true } := by
          have h3 := hd2.1
          simp at h3
          exact h3.symm
        rw [← hs2'] at he
        simp only [log_call_heap, store_handle_heap] at he
        rw [List.getElem?_set_self (by simp)] at he
        cases he
        rw [this, hok]
        exact ⟨rfl, rfl⟩
      have hi5 : Inv r4.1 := by
        rw [hs1]
        refine Inv_unlink _ name s.heap.length e _ hi4 hmem he rfl rfl ?_ ?_
        · unfold lifecycle_ok at hle ⊢
          simp only [set_state, hee.1, hee.2] at hle ⊢
          simp at hle ⊢
          simp [hle]
        · unfold registered_phase
          simp [set_state]
      exact Inv_gstep hi5 (gstep_release_memory _ _ _ hs5)

theorem gstep_set_conn (s : bucket_engine) (c : Nat) (v : conn_t)
    (hv : v.inside = (get_conn s c).inside) : gstep s (set_conn s c v) := by
  refine ⟨rfl, ?_, rfl, fun _ h hp => ⟨h, hp, hstep_refl h⟩⟩
  intro p
  have := inside_count_set_conn s c v p
  rw [hv] at this
  omega

theorem gstep_set_callback (s : bucket_engine) (cookie : Nat) (p : Option Nat) :
    gstep s (set_callback s cookie p) :=
  gstep_set_conn s cookie { get_conn s cookie with callback := p } rfl

theorem gstep_handle_disconnect_release (s s' : bucket_engine) (cookie p : Nat)
    (h : handle_disconnect_release s cookie p = .ok s') : gstep s s' := by
  unfold handle_disconnect_release at h
  split at h
  · cases h
  · simp only [bind_eq_ok] at h
    obtain ⟨e, hd, h⟩ := h
    rw [deref_eq_ok] at hd
    split at h
    · simp only [bind_eq_ok, pure_eq_ok] at h
      obtain ⟨r, hr, rfl⟩ := h
      exact gstep_trans (gstep_store_handle _ _ e r hd.1
        (hstep_release_handle_locked e r hr)) (gstep_store_es _ _ _)
    · simp only [pure_eq_ok] at h
      cases h
      exact gstep_store_es _ _ _

theorem gstep_bucket_register_callback (s s' : bucket_engine) (eh : Nat)
    (h : bucket_register_callback s eh = .ok s') : gstep s s' := by
  unfold bucket_register_callback at h
  split at h
  · simp only [bind_eq_ok, pure_eq_ok] at h
    obtain ⟨e, hd, rfl⟩ := h
    rw [deref_eq_ok] at hd
    exact gstep_store_handle _ _ e _ hd.1 (hstep_of_same e _ rfl rfl rfl rfl rfl)
  · split at h
    · simp only [bind_eq_ok, pure_eq_ok] at h
      obtain ⟨e, hd, rfl⟩ := h
      rw [deref_eq_ok] at hd
      exact gstep_store_handle _ _ e _ hd.1 (hstep_of_same e _ rfl rfl rfl rfl rfl)
    · simp only [pure_eq_ok] at h
      cases h
      exact gstep_refl s

/-- The step `disconnect`, after the check that the connection is idle. -/
theorem gstep_disconnect (s s' : bucket_engine) (cookie : Nat)
    (h : ∃ a, handle_disconnect_callback s cookie = .ok a ∧
      (match a with
        | some p => pure (set_callback (log_call s p engine_op.on_disconnect) cookie (some p))
        | none => handle_disconnect s cookie) = Except.ok s') : gstep s s' := by
  obtain ⟨a, _, h⟩ := h
  cases a with
  | none => exact gstep_handle_disconnect _ _ _ h
  | some p =>
    simp only [pure_eq_ok] at h
    subst h
    exact gstep_trans (gstep_log_call _ _ _) (gstep_set_callback _ _ _)

/-- The step `disconnect_return`. -/
theorem gstep_disconnect_return (s s' : bucket_engine) (cookie : Nat)
    (h : step s (label.disconnect_return cookie) = .ok s') : gstep s s' := by
  simp only [step] at h
  split at h
  · cases h
  · split at h
    · exact gstep_trans (gstep_set_callback _ _ _) (gstep_handle_disconnect_release _ _ _ _ h)
    · cases h

theorem Inv_store_handle_registered (s : bucket_engine) (p : Nat)
    (h h' : proxied_engine_handle_t) (hi : Inv s) (hp : s.heap[p]? = some h)
    (hreg : (h.name, p) ∈ s.engines) (hn : h'.name = h.name) (hc : h'.clients = h.clients)
    (hl : lifecycle_ok h') : Inv (store_handle s p h') := by
  have hget : ∀ (q : Nat) (e : proxied_engine_handle_t),
      (store_handle s p h').heap[q]? = some e →
      (q = p ∧ e = h') ∨ (q ≠ p ∧ s.heap[q]? = some e) := by
    intro q e hq
    by_cases hqp : q = p
    · subst hqp
      rw [store_handle_get s q h h' hp] at hq
      cases hq
      exact Or.inl ⟨rfl, rfl⟩
    · rw [store_handle_get_ne s p q h' (Ne.symm hqp)] at hq
      exact Or.inr ⟨hqp, hq⟩
  constructor
  · intro q e hq
    rcases hget q e hq with ⟨_, rfl⟩ | ⟨_, hq'⟩
    · exact hl
    · exact hi.life q e hq'
  · intro n q hm
    obtain ⟨e, hq, hen⟩ := hi.named n q hm
    by_cases hqp : q = p
    · rw [hqp] at hq ⊢
      rw [hp] at hq
      cases hq
      exact ⟨h', store_handle_get s p h h' hp, hn.trans hen⟩
    · exact ⟨e, by rw [store_handle_get_ne s p q h' (Ne.symm hqp)]; exact hq, hen⟩
  · intro q e hq hph
    rcases hget q e hq with ⟨rfl, rfl⟩ | ⟨_, hq'⟩
    · rw [hn]; exact hreg
    · exact hi.registered q e hq' hph
  · exact hi.nodup
  · intro q
    have hic : inside_count (store_handle s p h') q = inside_count s q := rfl
    rw [clients_of_store_handle s p q h h' hp, hic, ← hi.clients q]
    split
    · rename_i hqp
      subst hqp
      unfold clients_of
      rw [hp]
      exact hc
    · rfl

theorem Inv_handle_delete_bucket (s s' : bucket_engine) (cookie : Nat)
    (req : protocol_binary_request_header) (rv : ENGINE_ERROR_CODE) (hi : Inv s)
    (h : handle_delete_bucket s cookie req = .ok (s', rv)) : Inv s' := by
  unfold handle_delete_bucket at h
  simp only [bind_eq_ok] at h
  obtain ⟨userdata, _, h⟩ := h
  cases userdata with
  | some d =>
    simp only [bind_eq_ok, pure_eq_ok] at h
    obtain ⟨s1, hs1, h⟩ := h
    cases h
    exact Inv_gstep hi (gstep_trans (gstep_bucket_store_engine_specific _ _ _ _ hs1)
      (gstep_response _ _ _ _ _))
  | none =>
    simp only [] at h
    by_cases hb : 2 ^ 16 ≤ request_bodylen req
    · rw [if_pos hb] at h
      cases h; exact hi
    rw [if_neg hb] at h
    generalize (if request_body req = [] then some false else req.parse_force) = parsed at h
    cases parsed with
    | none =>
      cases h
      exact Inv_gstep hi (gstep_response _ _ _ _ _)
    | some force =>
      simp only [bind_eq_ok] at h
      obtain ⟨f, hf, h⟩ := h
      have hif : Inv f.1 := Inv_gstep hi (gstep_find_bucket s f.1 _ f.2 hf)
      cases hf2 : f.2 with
      | none =>
        simp only [hf2, pure_eq_ok] at h
        cases h
        exact Inv_gstep hif (gstep_response _ _ _ _ _)
      | some p =>
        simp only [hf2, bind_eq_ok] at h
        obtain ⟨peh, hd, h⟩ := h
        rw [deref_eq_ok] at hd
        have hfind : find_bucket s (EXTRACT_KEY req) = .ok (f.1, some p) := by
          rw [hf, ← hf2]
        obtain ⟨hlook, e0, he0, _, _, hf1⟩ := retain_handle_some s f.1 _ p hfind
        have hmem : (peh.name, p) ∈ f.1.engines := by
          have h1 := lookup_some_mem _ _ _ hlook
          have h2 : f.1.engines = s.engines := (gstep_find_bucket s f.1 _ f.2 hf).1
          rw [h2]
          obtain ⟨e1, he1, hn1⟩ := hif.named _ p (by rw [h2]; exact h1)
          rw [hd.1] at he1
          cases he1
          rw [hn1]
          exact h1
        have hlp := hif.life p peh hd.1
        have key : ∀ (peh1 peh2 : proxied_engine_handle_t) (es : engine_specific_t),
            peh1.name = peh.name → peh1.clients = peh.clients → lifecycle_ok peh1 →
            release_handle_locked peh1 = .ok peh2 →
            Inv (store_handle (if es.peh = some p
              then store_es f.1 cookie (some { es with peh := none }) else f.1) p peh2) := by
          intro peh1 peh2 es hn1 hc1 hl1 hpeh2
          have hs2 := hstep_release_handle_locked _ _ hpeh2
          have g1 : gstep f.1 (if es.peh = some p
              then store_es f.1 cookie (some { es with peh := none }) else f.1) := by
            split
            · exact gstep_store_es _ _ _
            · exact gstep_refl _
          have hi1 := Inv_gstep hif g1
          have hp1 : (if es.peh = some p
              then store_es f.1 cookie (some { es with peh := none }) else f.1).heap[p]? =
              some peh := by
            split <;> exact hd.1
          have hm1 : (peh.name, p) ∈ (if es.peh = some p
              then store_es f.1 cookie (some { es with peh := none }) else f.1).engines := by
            split <;> exact hmem
          exact Inv_store_handle_registered _ p peh peh2 hi1 hp1 hm1
            (hs2.1.trans hn1) (hs2.2.1.trans hc1) (hs2.2.2.1 hl1)
        by_cases hr : peh.state = STATE_RUNNING
        · simp only [hr, decide_True, if_true, bind_eq_ok] at h
          obtain ⟨peh1, hpeh1, h⟩ := h
          have hs := hstep_release_handle_locked _ _ hpeh1
          have hl1 : lifecycle_ok peh1 := by
            apply hs.2.2.1
            unfold lifecycle_ok at hlp ⊢
            simp only [set_state, hr] at hlp ⊢
            simp at hlp ⊢
            simp [hlp]
          cases hes : (get_conn f.1 cookie).es with
          | none =>
            rw [hes] at h
            cases h
          | some es =>
            rw [hes] at h
            simp only [bind_eq_ok, pure_eq_ok] at h
            obtain ⟨peh2, hpeh2, s3, hs3, h⟩ := h
            cases h
            exact Inv_gstep (key peh1 peh2 es hs.1 hs.2.1 hl1 hpeh2)
              (gstep_bucket_store_engine_specific _ _ _ _ hs3)
        · simp only [hr, decide_False, if_false, Bool.false_eq_true] at h
          cases hes : (get_conn f.1 cookie).es with
          | none =>
            rw [hes] at h
            simp only [bind_eq_ok, pure_eq_ok] at h
            obtain ⟨_, _, h⟩ := h
            cases h
          | some es =>
            rw [hes] at h
            simp only [bind_eq_ok, pure_eq_ok] at h
            obtain ⟨peh1, hpeh1, peh2, hpeh2, h⟩ := h
            subst hpeh1
            cases h
            exact Inv_gstep (key peh peh2 es rfl rfl hlp hpeh2) (gstep_response _ _ _ _ _)

theorem Inv_handle_create_bucket (s s' : bucket_engine) (cookie : Nat)
    (req : protocol_binary_request_header) (env : create_env) (rv : ENGINE_ERROR_CODE)
    (hi : Inv s) (h : handle_create_bucket s cookie req env = .ok (s', rv)) : Inv s' := by
  unfold handle_create_bucket at h
  simp only [] at h
  by_cases hb : 2 ^ 16 ≤ request_bodylen req
  · rw [if_pos hb] at h
    cases h; exact hi
  rw [if_neg hb] at h
  by_cases hbody : request_body req = []
  · rw [if_pos hbody] at h
    cases h
    exact Inv_gstep hi (gstep_response _ _ _ _ _)
  rw [if_neg hbody] at h
  simp only [bind_eq_ok, pure_eq_ok] at h
  obtain ⟨r, hr, h⟩ := h
  cases h
  exact Inv_gstep (Inv_create_bucket s r.1 _ env false _ r.2 hi hr) (gstep_response _ _ _ _ _)

theorem Inv_attach_tail (r : bucket_engine × Option Nat) (s1 s' : bucket_engine)
    (s2 : bucket_engine × Option Nat) (cookie : Nat) (hi : Inv s1)
    (hs2 : set_engine_handle s1 cookie r.2 = .ok s2)
    (h : release_handle s2.1 r.2 = .ok s') : Inv s' :=
  Inv_gstep (Inv_gstep hi (gstep_set_engine_handle _ _ _ _ _ hs2)) (gstep_release_handle _ _ _ h)

theorem Inv_handle_auth (s s' : bucket_engine) (cookie : Nat) (username : String)
    (env : create_env) (hi : Inv s) (h : handle_auth s cookie username env = .ok s') :
    Inv s' := by
  unfold handle_auth at h
  simp only [bind_eq_ok] at h
  obtain ⟨f, hf, h⟩ := h
  have hif : Inv f.1 := Inv_gstep hi (gstep_find_bucket s f.1 _ f.2 hf)
  by_cases hc : f.2 = none ∧ s.auto_create = true
  · rw [if_pos hc] at h
    simp only [bind_eq_ok, pure_eq_ok] at h
    obtain ⟨c, hcr, r, hr, s2, hs2, h⟩ := h
    subst hr
    exact Inv_attach_tail _ _ _ _ cookie (Inv_create_bucket f.1 c.1 _ env true none c.2 hif hcr)
      hs2 h
  · rw [if_neg hc] at h
    simp only [bind_eq_ok, pure_eq_ok] at h
    obtain ⟨r, hr, s2, hs2, h⟩ := h
    subst hr
    exact Inv_attach_tail _ _ _ _ cookie hif hs2 h

theorem Inv_handle_connect (s s' : bucket_engine) (cookie : Nat) (env : create_env)
    (hi : Inv s) (h : handle_connect s cookie env = .ok s') : Inv s' := by
  unfold handle_connect at h
  cases hd : s.default_bucket_name with
  | some name =>
    simp only [hd, bind_eq_ok] at h
    obtain ⟨f, hf, h⟩ := h
    have hif : Inv f.1 := Inv_gstep hi (gstep_find_bucket s f.1 _ f.2 hf)
    by_cases hc : f.2 = none ∧ s.auto_create = true
    · rw [if_pos hc] at h
      simp only [bind_eq_ok, pure_eq_ok] at h
      obtain ⟨c, hcr, r, hr, s1, hs1, s2, hs2, h⟩ := h
      subst hr
      exact Inv_attach_tail _ _ _ _ cookie
        (Inv_gstep (Inv_create_bucket f.1 c.1 _ env true none c.2 hif hcr)
          (gstep_create_engine_specific _ _ _ hs1)) hs2 h
    · rw [if_neg hc] at h
      simp only [bind_eq_ok, pure_eq_ok] at h
      obtain ⟨r, hr, s1, hs1, s2, hs2, h⟩ := h
      subst hr
      exact Inv_attach_tail _ _ _ _ cookie
        (Inv_gstep hif (gstep_create_engine_specific _ _ _ hs1)) hs2 h
  | none =>
    simp only [hd] at h
    by_cases hpe : (s.heap.getD 0 calloc_handle).pe = true
    · rw [if_pos hpe] at h
      simp only [bind_eq_ok] at h
      obtain ⟨t, ht, h⟩ := h
      have hit : Inv t.1 := Inv_gstep hi (gstep_retain_handle s t.1 _ t.2 ht)
      by_cases hc : t.2 = some 0
      · rw [if_pos hc] at h
        simp only [bind_eq_ok, pure_eq_ok] at h
        obtain ⟨r, hr, s1, hs1, s2, hs2, h⟩ := h
        subst hr
        exact Inv_attach_tail _ _ _ _ cookie
          (Inv_gstep hit (gstep_create_engine_specific _ _ _ hs1)) hs2 h
      · rw [if_neg hc] at h
        simp only [bind_eq_ok] at h
        obtain ⟨_, hr, _⟩ := h
        cases hr
    · rw [if_neg hpe] at h
      simp only [bind_eq_ok, pure_eq_ok] at h
      obtain ⟨r, hr, s1, hs1, s2, hs2, h⟩ := h
      subst hr
      exact Inv_attach_tail _ _ _ _ cookie
        (Inv_gstep hi (gstep_create_engine_specific _ _ _ hs1)) hs2 h

theorem Inv_bucket_unknown_command (s s' : bucket_engine) (cookie : Nat)
    (req : protocol_binary_request_header) (env : command_env) (rv : ENGINE_ERROR_CODE)
    (hi : Inv s) (h : bucket_unknown_command s cookie req env = .ok (s', rv)) : Inv s' := by
  unfold bucket_unknown_command at h
  split at h
  · split at h
    · split at h
      · exact Inv_handle_create_bucket _ _ _ _ _ _ hi h
      · exact Inv_handle_create_bucket _ _ _ _ _ _ hi h
      · exact Inv_handle_delete_bucket _ _ _ _ _ hi h
      · exact Inv_handle_delete_bucket _ _ _ _ _ hi h
      · exact Inv_gstep hi (gstep_handle_list_buckets _ _ _ _ h)
      · exact Inv_gstep hi (gstep_handle_list_buckets _ _ _ _ h)
      · exact Inv_gstep hi (gstep_handle_select_bucket _ _ _ _ _ h)
      · exact Inv_gstep hi (gstep_handle_select_bucket _ _ _ _ _ h)
      · cases h
    · cases h; exact hi
  · exact Inv_gstep hi (gstep_proxied_call _ _ _ _ _ _ h)

theorem idle_eq_ok (s : bucket_engine) (cookie : Nat) (u : Unit) :
    idle s cookie = .ok u ↔
      (get_conn s cookie).inside = none ∧ (get_conn s cookie).callback = none := by
  unfold idle
  cases (get_conn s cookie).inside <;> cases (get_conn s cookie).callback <;> simp

theorem Inv_step (s s' : bucket_engine) (l : label) (hi : Inv s)
    (h : step s l = .ok s') : Inv s' := by
  cases l with
  | connect cookie env =>
    simp only [step, bind_eq_ok] at h
    obtain ⟨_, _, h⟩ := h
    exact Inv_handle_connect _ _ _ _ hi h
  | auth cookie username env =>
    simp only [step, bind_eq_ok] at h
    obtain ⟨_, _, h⟩ := h
    exact Inv_handle_auth _ _ _ _ _ (Inv_gstep hi (gstep_set_conn s cookie
      { get_conn s cookie with auth_user := some username } rfl)) h
  | disconnect cookie =>
    simp only [step, bind_eq_ok] at h
    obtain ⟨_, _, h⟩ := h
    exact Inv_gstep hi (gstep_disconnect _ _ _ h)
  | disconnect_return cookie =>
    exact Inv_gstep hi (gstep_disconnect_return _ _ _ h)
  | register_callback eh =>
    exact Inv_gstep hi (gstep_bucket_register_callback _ _ _ h)
  | command cookie request env =>
    simp only [step, bind_eq_ok, pure_eq_ok] at h
    obtain ⟨_, _, r, hr, h⟩ := h
    subst h
    exact Inv_bucket_unknown_command _ _ _ _ _ r.2 hi hr
  | enter cookie op =>
    simp only [step, bind_eq_ok] at h
    obtain ⟨u, hu, g, hg, h⟩ := h
    rw [idle_eq_ok] at hu
    cases hg2 : g.2 with
    | none =>
      simp only [hg2, pure_eq_ok] at h
      subst h
      exact Inv_gstep hi (gstep_get_engine_handle_none s g.1 cookie (by rw [hg, ← hg2]))
    | some p =>
      simp only [hg2, pure_eq_ok] at h
      subst h
      obtain ⟨e, hp, hr, hs⟩ := get_engine_handle_some s g.1 cookie p (by rw [hg, ← hg2])
      rw [hs]
      exact Inv_enter s cookie p op e hi hp hr hu.1
  | try_enter cookie op =>
    simp only [step, bind_eq_ok] at h
    obtain ⟨u, hu, g, hg, h⟩ := h
    rw [idle_eq_ok] at hu
    cases hg2 : g.2 with
    | none =>
      simp only [hg2, pure_eq_ok] at h
      subst h
      rw [try_get_engine_handle_none s g.1 cookie (by rw [hg, ← hg2])]
      exact hi
    | some p =>
      simp only [hg2, pure_eq_ok] at h
      subst h
      obtain ⟨e, hp, hr, hs⟩ := try_get_engine_handle_some s g.1 cookie p (by rw [hg, ← hg2])
      rw [hs]
      exact Inv_enter s cookie p op e hi hp hr hu.1
  | leave cookie =>
    simp only [step] at h
    cases hin : (get_conn s cookie).inside with
    | none =>
      rw [hin] at h
      cases h
    | some p =>
      rw [hin] at h
      simp only [bind_eq_ok, pure_eq_ok] at h
      obtain ⟨s1, hs1, h⟩ := h
      subst h
      exact Inv_leave s s1 cookie p hi hin hs1
  | reserve cookie =>
    simp only [step, bind_eq_ok, pure_eq_ok] at h
    obtain ⟨r, hr, h⟩ := h
    subst h
    exact Inv_gstep hi (gstep_reserve_cookie s r.1 cookie r.2 hr)
  | release cookie =>
    simp only [step, bind_eq_ok, pure_eq_ok] at h
    obtain ⟨r, hr, h⟩ := h
    subst h
    exact Inv_gstep hi (gstep_release_cookie s r.1 cookie r.2 hr)
  | shutdown p i =>
    exact Inv_engine_shutdown_thread s s' p i hi h

theorem Inv_bucket_initialized (cfg : config) : Inv (bucket_initialized cfg) := by
  constructor
  · intro p h hp
    cases p with
    | zero =>
      simp only [bucket_initialized, List.getElem?_cons_zero, Option.some.injEq] at hp
      subst hp
      split
      · exact (init_engine_handle_lifecycle "" init_outcome.ok true).1
      · unfold lifecycle_ok calloc_handle
        simp
    | succ n =>
      simp [bucket_initialized] at hp
  · intro n q hm
    simp [bucket_initialized] at hm
  · intro q h hp hph
    cases q with
    | zero =>
      simp only [bucket_initialized, List.getElem?_cons_zero, Option.some.injEq] at hp
      subst hp
      exfalso
      revert hph
      split
      · exact (init_engine_handle_lifecycle "" init_outcome.ok true).2.1
      · unfold registered_phase calloc_handle
        simp
    | succ n =>
      simp [bucket_initialized] at hp
  · simp [bucket_initialized]
  · intro p
    unfold clients_of inside_count
    cases p with
    | zero =>
      simp only [bucket_initialized, List.getElem?_cons_zero, List.countP_nil, Nat.cast_zero]
      split
      · exact (init_engine_handle_lifecycle "" init_outcome.ok true).2.2
      · rfl
    | succ n =>
      simp [bucket_initialized]

theorem Inv_reachable (cfg : config) (s : bucket_engine) (h : Reachable cfg s) : Inv s := by
  induction h with
  | init => exact Inv_bucket_initialized cfg
  | step s s' l _ hs ih => exact Inv_step s s' l ih hs

theorem reachable_run (cfg : config) (ls : List label) :
    ∀ s s' : bucket_engine, Reachable cfg s → run s ls = .ok s' → Reachable cfg s' := by
  induction ls with
  | nil =>
    intro s s' hr h
    simp only [run, Except.ok.injEq] at h
    subst h
    exact hr
  | cons l ls ih =>
    intro s s' hr h
    simp only [run, bind_eq_ok] at h
    obtain ⟨s1, h1, h2⟩ := h
    exact ih s1 s' (Reachable.step s s1 l hr h1) h2

theorem inside_count_of_conns (s s' : bucket_engine) (h : s'.conns = s.conns) (q : Nat) :
    inside_count s' q = inside_count s q := by
  unfold inside_count
  rw [h]

theorem release_memory_conns (s s' : bucket_engine) (p : Nat)
    (h : release_memory s p = .ok s') : s'.conns = s.conns := by
  simp only [release_memory, bind_eq_ok, pure_eq_ok] at h
  obtain ⟨_, _, rfl⟩ := h
  rfl

theorem refcount_dup_conns (s s' : bucket_engine) (p : Nat)
    (h : refcount_dup s p = .ok s') : s'.conns = s.conns := by
  simp only [refcount_dup, bind_eq_ok, pure_eq_ok] at h
  obtain ⟨_, _, rfl⟩ := h
  rfl

theorem engine_hash_free_conns (s s' : bucket_engine) (p : Nat)
    (h : engine_hash_free s p = .ok s') : s'.conns = s.conns := by
  simp only [engine_hash_free, bind_eq_ok, pure_eq_ok] at h
  obtain ⟨_, _, rfl⟩ := h
  rfl

theorem free_values_conns (l : List (String × Nat)) :
    ∀ s s' : bucket_engine, free_values s l = .ok s' → s'.conns = s.conns := by
  induction l with
  | nil =>
    intro s s' h
    simp only [free_values, Except.ok.injEq] at h
    rw [h]
  | cons kv rest ih =>
    intro s s' h
    simp only [free_values, bind_eq_ok] at h
    obtain ⟨s1, h1, h2⟩ := h
    rw [ih s1 s' h2, engine_hash_free_conns s s1 kv.2 h1]

theorem genhash_delete_all_conns (s s' : bucket_engine) (name : String) (n : Nat)
    (h : genhash_delete_all s name = .ok (s', n)) : s'.conns = s.conns := by
  simp only [genhash_delete_all, bind_eq_ok, pure_eq_ok] at h
  obtain ⟨s1, h1, h2⟩ := h
  cases h2
  exact free_values_conns _ _ _ h1 |>.trans rfl

theorem genhash_update_conns (s s' : bucket_engine) (name : String) (p : Nat)
    (h : genhash_update s name p = .ok s') : s'.conns = s.conns := by
  unfold genhash_update at h
  cases hf : genhash_find s.engines name with
  | none =>
    simp only [hf] at h
    exact (refcount_dup_conns _ _ _ h).trans rfl
  | some old =>
    simp only [hf, bind_eq_ok] at h
    obtain ⟨s1, h1, h2⟩ := h
    have e1 : s1.conns = s.conns := engine_hash_free_conns s s1 old h1
    have e2 := refcount_dup_conns _ s' p h2
    exact e2.trans e1

theorem inside_create_bucket (s s' : bucket_engine) (name : String) (env : create_env)
    (want_out : Bool) (msg : Option Nat) (r : create_result)
    (h : create_bucket s name env want_out msg = .ok (s', r)) (q : Nat) :
    inside_count s' q = inside_count s q := by
  unfold create_bucket at h
  by_cases hv : ¬ has_valid_bucket_name name.data = true
  · rw [if_pos hv] at h
    cases h; rfl
  rw [if_neg hv] at h
  by_cases hca : ¬ env.calloc_ok = true
  · rw [if_pos hca] at h
    cases h; rfl
  rw [if_neg hca] at h
  simp only [] at h
  by_cases hinit : (init_engine_handle calloc_handle name env.init).2 ≠ ENGINE_SUCCESS
  · rw [if_pos hinit] at h
    simp only [bind_eq_ok, pure_eq_ok] at h
    obtain ⟨s1, hs1, h⟩ := h
    cases h
    exact inside_count_of_conns _ _ ((release_memory_conns _ _ _ hs1).trans rfl) q
  rw [if_neg hinit] at h
  by_cases hload : ¬ env.load_ok = true
  · rw [if_pos hload] at h
    simp only [bind_eq_ok, pure_eq_ok, free_engine_handle] at h
    obtain ⟨s1, hs1, h⟩ := h
    cases h
    exact inside_count_of_conns _ _ ((release_memory_conns _ _ _ hs1).trans rfl) q
  rw [if_neg hload] at h
  simp only [find_bucket_inner] at h
  cases hfind : genhash_find s.engines name with
  | some tmppeh =>
    simp only [hfind, bind_eq_ok, pure_eq_ok, free_engine_handle] at h
    obtain ⟨t, _, s3, hs3, h⟩ := h
    cases h
    exact inside_count_of_conns _ _ ((release_memory_conns _ _ _ hs3).trans rfl) q
  | none =>
    simp only [hfind, bind_eq_ok] at h
    obtain ⟨s2, hs2, h⟩ := h
    have h2 : s2.conns = s.conns := (genhash_update_conns _ _ _ _ hs2).trans rfl
    by_cases hini : env.initialize_ok = true
    · rw [if_pos hini] at h
      by_cases hw : want_out = true
      · rw [if_pos hw] at h
        simp only [pure_eq_ok] at h
        cases h
        exact inside_count_of_conns _ _ h2 q
      · rw [if_neg hw] at h
        simp only [bind_eq_ok, pure_eq_ok] at h
        obtain ⟨s4, hs4, h⟩ := h
        cases h
        rw [(gstep_release_handle _ _ _ hs4).2.1 q]
        exact inside_count_of_conns _ _ h2 q
    · rw [if_neg hini] at h
      simp only [bind_eq_ok, pure_eq_ok, free_engine_handle] at h
      obtain ⟨r4, hr4, s5, hs5, h⟩ := h
      cases h
      refine inside_count_of_conns _ _ ?_ q
      rw [release_memory_conns _ _ _ hs5, genhash_delete_all_conns _ r4.1 _ r4.2 hr4]
      exact h2

theorem inside_handle_delete_bucket (s s' : bucket_engine) (cookie : Nat)
    (req : protocol_binary_request_header) (rv : ENGINE_ERROR_CODE)
    (h : handle_delete_bucket s cookie req = .ok (s', rv)) (q : Nat) :
    inside_count s' q = inside_count s q := by
  unfold handle_delete_bucket at h
  simp only [bind_eq_ok] at h
  obtain ⟨userdata, _, h⟩ := h
  cases userdata with
  | some d =>
    simp only [bind_eq_ok, pure_eq_ok] at h
    obtain ⟨s1, hs1, h⟩ := h
    cases h
    exact (gstep_trans (gstep_bucket_store_engine_specific _ _ _ _ hs1)
      (gstep_response _ _ _ _ _)).2.1 q
  | none =>
    simp only [] at h
    by_cases hb : 2 ^ 16 ≤ request_bodylen req
    · rw [if_pos hb] at h
      cases h; rfl
    rw [if_neg hb] at h
    generalize (if request_body req = [] then some false else req.parse_force) = parsed at h
    cases parsed with
    | none =>
      cases h
      exact (gstep_response _ _ _ _ _).2.1 q
    | some force =>
      simp only [bind_eq_ok] at h
      obtain ⟨f, hf, h⟩ := h
      have hif := (gstep_find_bucket s f.1 _ f.2 hf).2.1
      cases hf2 : f.2 with
      | none =>
        simp only [hf2, pure_eq_ok] at h
        cases h
        rw [(gstep_response _ _ _ _ _).2.1 q]
        exact hif q
      | some p =>
        simp only [hf2, bind_eq_ok] at h
        obtain ⟨peh, hd, h⟩ := h
        have key : ∀ (peh2 : proxied_engine_handle_t) (es : engine_specific_t),
            inside_count (store_handle (if es.peh = some p
              then store_es f.1 cookie (some { es with peh := none }) else f.1) p peh2) q =
            inside_count s q := by
          intro peh2 es
          rw [← hif q]
          split
          · exact (gstep_store_es _ _ _).2.1 q
          · rfl
        by_cases hr : peh.state = STATE_RUNNING
        · simp only [hr, decide_True, if_true, bind_eq_ok] at h
          obtain ⟨peh1, hpeh1, h⟩ := h
          cases hes : (get_conn f.1 cookie).es with
          | none =>
            rw [hes] at h
            cases h
          | some es =>
            rw [hes] at h
            simp only [bind_eq_ok, pure_eq_ok] at h
            obtain ⟨peh2, hpeh2, s3, hs3, h⟩ := h
            cases h
            rw [(gstep_bucket_store_engine_specific _ _ _ _ hs3).2.1 q]
            exact key peh2 es
        · simp only [hr, decide_False, if_false, Bool.false_eq_true] at h
          cases hes : (get_conn f.1 cookie).es with
          | none =>
            rw [hes] at h
            simp only [bind_eq_ok, pure_eq_ok] at h
            obtain ⟨_, _, h⟩ := h
            cases h
          | some es =>
            rw [hes] at h
            simp only [bind_eq_ok, pure_eq_ok] at h
            obtain ⟨peh1, hpeh1, peh2, hpeh2, h⟩ := h
            cases h
            rw [(gstep_response _ _ _ _ _).2.1 q]
            exact key peh2 es

theorem inside_handle_create_bucket (s s' : bucket_engine) (cookie : Nat)
    (req : protocol_binary_request_header) (env : create_env) (rv : ENGINE_ERROR_CODE)
    (h : handle_create_bucket s cookie req env = .ok (s', rv)) (q : Nat) :
    inside_count s' q = inside_count s q := by
  unfold handle_create_bucket at h
  simp only [] at h
  by_cases hb : 2 ^ 16 ≤ request_bodylen req
  · rw [if_pos hb] at h
    cases h; rfl
  rw [if_neg hb] at h
  by_cases hbody : request_body req = []
  · rw [if_pos hbody] at h
    cases h
    exact (gstep_response _ _ _ _ _).2.1 q
  rw [if_neg hbody] at h
  simp only [bind_eq_ok, pure_eq_ok] at h
  obtain ⟨r, hr, h⟩ := h
  cases h
  rw [(gstep_response _ _ _ _ _).2.1 q]
  exact inside_create_bucket s r.1 _ env false _ r.2 hr q

theorem inside_attach_tail (r : bucket_engine × Option Nat) (s1 s' : bucket_engine)
    (s2 : bucket_engine × Option Nat) (cookie : Nat)
    (hs2 : set_engine_handle s1 cookie r.2 = .ok s2)
    (h : release_handle s2.1 r.2 = .ok s') (q : Nat) :
    inside_count s' q = inside_count s1 q :=
  (gstep_trans (gstep_set_engine_handle _ _ _ _ _ hs2) (gstep_release_handle _ _ _ h)).2.1 q

theorem inside_handle_auth (s s' : bucket_engine) (cookie : Nat) (username : String)
    (env : create_env) (h : handle_auth s cookie username env = .ok s') (q : Nat) :
    inside_count s' q = inside_count s q := by
  unfold handle_auth at h
  simp only [bind_eq_ok] at h
  obtain ⟨f, hf, h⟩ := h
  have hif := (gstep_find_bucket s f.1 _ f.2 hf).2.1 q
  by_cases hc : f.2 = none ∧ s.auto_create = true
  · rw [if_pos hc] at h
    simp only [bind_eq_ok, pure_eq_ok] at h
    obtain ⟨c, hcr, r, hr, s2, hs2, h⟩ := h
    subst hr
    rw [inside_attach_tail _ _ _ _ cookie hs2 h q,
      inside_create_bucket f.1 c.1 _ env true none c.2 hcr q]
    exact hif
  · rw [if_neg hc] at h
    simp only [bind_eq_ok, pure_eq_ok] at h
    obtain ⟨r, hr, s2, hs2, h⟩ := h
    subst hr
    rw [inside_attach_tail _ _ _ _ cookie hs2 h q]
    exact hif

theorem inside_handle_connect (s s' : bucket_engine) (cookie : Nat) (env : create_env)
    (h : handle_connect s cookie env = .ok s') (q : Nat) :
    inside_count s' q = inside_count s q := by
  unfold handle_connect at h
  cases hd : s.default_bucket_name with
  | some name =>
    simp only [hd, bind_eq_ok] at h
    obtain ⟨f, hf, h⟩ := h
    have hif := (gstep_find_bucket s f.1 _ f.2 hf).2.1 q
    by_cases hc : f.2 = none ∧ s.auto_create = true
    · rw [if_pos hc] at h
      simp only [bind_eq_ok, pure_eq_ok] at h
      obtain ⟨c, hcr, r, hr, s1, hs1, s2, hs2, h⟩ := h
      subst hr
      rw [inside_attach_tail _ _ _ _ cookie hs2 h q,
        (gstep_create_engine_specific _ _ _ hs1).2.1 q,
        inside_create_bucket f.1 c.1 _ env true none c.2 hcr q]
      exact hif
    · rw [if_neg hc] at h
      simp only [bind_eq_ok, pure_eq_ok] at h
      obtain ⟨r, hr, s1, hs1, s2, hs2, h⟩ := h
      subst hr
      rw [inside_attach_tail _ _ _ _ cookie hs2 h q,
        (gstep_create_engine_specific _ _ _ hs1).2.1 q]
      exact hif
  | none =>
    simp only [hd] at h
    by_cases hpe : (s.heap.getD 0 calloc_handle).pe = true
    · rw [if_pos hpe] at h
      simp only [bind_eq_ok] at h
      obtain ⟨t, ht, h⟩ := h
      have hit := (gstep_retain_handle s t.1 _ t.2 ht).2.1 q
      by_cases hc : t.2 = some 0
      · rw [if_pos hc] at h
        simp only [bind_eq_ok, pure_eq_ok] at h
        obtain ⟨r, hr, s1, hs1, s2, hs2, h⟩ := h
        subst hr
        rw [inside_attach_tail _ _ _ _ cookie hs2 h q,
          (gstep_create_engine_specific _ _ _ hs1).2.1 q]
        exact hit
      · rw [if_neg hc] at h
        simp only [bind_eq_ok] at h
        obtain ⟨_, hr, _⟩ := h
        cases hr
    · rw [if_neg hpe] at h
      simp only [bind_eq_ok, pure_eq_ok] at h
      obtain ⟨r, hr, s1, hs1, s2, hs2, h⟩ := h
      subst hr
      rw [inside_attach_tail _ _ _ _ cookie hs2 h q,
        (gstep_create_engine_specific _ _ _ hs1).2.1 q]

theorem inside_bucket_unknown_command (s s' : bucket_engine) (cookie : Nat)
    (req : protocol_binary_request_header) (env : command_env) (rv : ENGINE_ERROR_CODE)
    (h : bucket_unknown_command s cookie req env = .ok (s', rv)) (q : Nat) :
    inside_count s' q = inside_count s q := by
  unfold bucket_unknown_command at h
  split at h
  · split at h
    · split at h
      · exact inside_handle_create_bucket _ _ _ _ _ _ h q
      · exact inside_handle_create_bucket _ _ _ _ _ _ h q
      · exact inside_handle_delete_bucket _ _ _ _ _ h q
      · exact inside_handle_delete_bucket _ _ _ _ _ h q
      · exact (gstep_handle_list_buckets _ _ _ _ h).2.1 q
      · exact (gstep_handle_list_buckets _ _ _ _ h).2.1 q
      · exact (gstep_handle_select_bucket _ _ _ _ _ h).2.1 q
      · exact (gstep_handle_select_bucket _ _ _ _ _ h).2.1 q
      · cases h
    · cases h; rfl
  · exact (gstep_proxied_call _ _ _ _ _ _ h).2.1 q

theorem engine_shutdown_thread_conns (s s' : bucket_engine) (p i : Nat)
    (h : engine_shutdown_thread s p i = .ok s') : s'.conns = s.conns := by
  unfold engine_shutdown_thread at h
  simp only [bind_eq_ok] at h
  obtain ⟨e, hd, h⟩ := h
  split at h
  · cases h
  · split at h
    · cases h
    · split at h
      · cases h
      · simp only [pure_eq_ok] at h
        subst h
        rfl
  · simp only [bind_eq_ok] at h
    obtain ⟨r, hr, h⟩ := h
    split at h
    · cases h
    · simp only [bind_eq_ok, pure_eq_ok] at h
      obtain ⟨e1, _, h⟩ := h
      subst h
      exact genhash_delete_all_conns s r.1 _ r.2 hr
  · simp only [pure_eq_ok] at h
    subst h
    cases e.cookie <;> rfl
  · split at h
    · cases h
    · simp only [pure_eq_ok] at h
      subst h
      rfl
  · cases h

theorem bind_eq_error {ε α β : Type} (x : Except ε α) (f : α → Except ε β) (m : ε) :
    (x >>= f) = .error m ↔ x = .error m ∨ ∃ a, x = .ok a ∧ f a = .error m := by
  cases x <;> simp [bind, Except.bind]

theorem deref_error (s : bucket_engine) (p : Nat) (m : String) (h : deref s p = .error m) :
    m = "use of a released engine handle" ∨ m = "wild engine handle pointer" := by
  unfold deref at h
  split at h
  · split at h
    · cases h; exact Or.inl rfl
    · cases h
  · cases h; exact Or.inr rfl

theorem free_values_error (l : List (String × Nat)) :
    ∀ (s : bucket_engine) (m : String), free_values s l = .error m →
      m = "use of a released engine handle" ∨ m = "wild engine handle pointer" := by
  induction l with
  | nil =>
    intro s m h
    cases h
  | cons kv rest ih =>
    intro s m h
    simp only [free_values, bind_eq_error] at h
    rcases h with h | ⟨s1, _, h⟩
    · simp only [engine_hash_free, bind_eq_error] at h
      rcases h with h | ⟨_, _, h⟩
      · exact deref_error _ _ _ h
      · cases h
    · exact ih s1 m h

theorem clients_step (s s' : bucket_engine) (l : label) (p : Nat)
    (e e' : proxied_engine_handle_t) (hi : Inv s) (h : step s l = .ok s')
    (hp : s.heap[p]? = some e) (hp' : s'.heap[p]? = some e')
    (hnr : e.state ≠ STATE_RUNNING) : e'.clients ≤ e.clients := by
  have hi' := Inv_step s s' l hi h
  have hc := hi.clients p
  have hc' := hi'.clients p
  unfold clients_of at hc hc'
  rw [hp] at hc
  rw [hp'] at hc'
  simp only [] at hc hc'
  have key : inside_count s' p = inside_count s p → e'.clients ≤ e.clients := by
    intro hq
    rw [hc, hc', hq]
  cases l with
  | connect cookie env =>
    simp only [step, bind_eq_ok] at h
    obtain ⟨_, _, h⟩ := h
    exact key (inside_handle_connect _ _ _ _ h p)
  | auth cookie username env =>
    simp only [step, bind_eq_ok] at h
    obtain ⟨_, _, h⟩ := h
    refine key ?_
    rw [inside_handle_auth _ _ _ _ _ h p]
    exact (gstep_set_conn s cookie { get_conn s cookie with auth_user := some username } rfl).2.1 p
  | disconnect cookie =>
    simp only [step, bind_eq_ok] at h
    obtain ⟨_, _, h⟩ := h
    exact key ((gstep_disconnect _ _ _ h).2.1 p)
  | disconnect_return cookie =>
    exact key ((gstep_disconnect_return _ _ _ h).2.1 p)
  | register_callback eh =>
    exact key ((gstep_bucket_register_callback _ _ _ h).2.1 p)
  | command cookie request env =>
    simp only [step, bind_eq_ok, pure_eq_ok] at h
    obtain ⟨_, _, r, hr, h⟩ := h
    subst h
    exact key (inside_bucket_unknown_command _ _ _ _ _ r.2 hr p)
  | enter cookie op =>
    simp only [step, bind_eq_ok] at h
    obtain ⟨u, hu, g, hg, h⟩ := h
    cases hg2 : g.2 with
    | none =>
      simp only [hg2, pure_eq_ok] at h
      subst h
      exact key ((gstep_get_engine_handle_none s g.1 cookie (by rw [hg, ← hg2])).2.1 p)
    | some p0 =>
      simp only [hg2, pure_eq_ok] at h
      subst h
      obtain ⟨e0, hp0, hr, hs⟩ := get_engine_handle_some s g.1 cookie p0 (by rw [hg, ← hg2])
      rw [hs] at hp'
      simp only [set_inside, set_conn_heap, log_call_heap] at hp'
      by_cases hpp : p = p0
      · subst hpp
        rw [hp] at hp0
        cases hp0
        exact absurd hr hnr
      · rw [store_handle_get_ne s p0 p _ (Ne.symm hpp), hp] at hp'
        cases hp'
        exact le_refl _
  | try_enter cookie op =>
    simp only [step, bind_eq_ok] at h
    obtain ⟨u, hu, g, hg, h⟩ := h
    cases hg2 : g.2 with
    | none =>
      simp only [hg2, pure_eq_ok] at h
      subst h
      rw [try_get_engine_handle_none s g.1 cookie (by rw [hg, ← hg2]), hp] at hp'
      cases hp'
      exact le_refl _
    | some p0 =>
      simp only [hg2, pure_eq_ok] at h
      subst h
      obtain ⟨e0, hp0, hr, hs⟩ :=
        try_get_engine_handle_some s g.1 cookie p0 (by rw [hg, ← hg2])
      rw [hs] at hp'
      simp only [set_inside, set_conn_heap, log_call_heap] at hp'
      by_cases hpp : p = p0
      · subst hpp
        rw [hp] at hp0
        cases hp0
        exact absurd hr hnr
      · rw [store_handle_get_ne s p0 p _ (Ne.symm hpp), hp] at hp'
        cases hp'
        exact le_refl _
  | leave cookie =>
    simp only [step] at h
    cases hin : (get_conn s cookie).inside with
    | none =>
      rw [hin] at h
      cases h
    | some p0 =>
      rw [hin] at h
      simp only [bind_eq_ok, pure_eq_ok, release_engine_handle] at h
      obtain ⟨s1, ⟨e0, hd, r, hr, hs1⟩, h⟩ := h
      subst h
      subst hs1
      rw [deref_eq_ok] at hd
      simp only [set_inside, set_conn_heap] at hp'
      by_cases hpp : p = p0
      · subst hpp
        rw [store_handle_get s p e0 r hd.1] at hp'
        cases hp'
        rw [hp] at hd
        have h1 := hd.1
        cases h1
        have := (release_engine_handle_locked_inv e e' hr (hi.life p e hp)).2.1
        omega
      · rw [store_handle_get_ne s p0 p _ (Ne.symm hpp), hp] at hp'
        cases hp'
        exact le_refl _
  | reserve cookie =>
    simp only [step, bind_eq_ok, pure_eq_ok] at h
    obtain ⟨r, hr, h⟩ := h
    subst h
    exact key ((gstep_reserve_cookie s r.1 cookie r.2 hr).2.1 p)
  | release cookie =>
    simp only [step, bind_eq_ok, pure_eq_ok] at h
    obtain ⟨r, hr, h⟩ := h
    subst h
    exact key ((gstep_release_cookie s r.1 cookie r.2 hr).2.1 p)
  | shutdown p0 i =>
    exact key (inside_count_of_conns _ _ (engine_shutdown_thread_conns s s' p0 i h) p)

theorem lifecycle_ok_pc0 (e : proxied_engine_handle_t) (i : Nat) (hl : lifecycle_ok e)
    (hpc : e.shutdown_threads[i]? = some 0) : e.state = STATE_STOPPING ∧ e.clients = 0 := by
  obtain ⟨ht, _⟩ := lifecycle_ok_thread e i 0 hl hpc
  unfold lifecycle_ok at hl
  obtain ⟨hl, hcl⟩ := hl
  simp only [List.mem_cons, Prod.mk.injEq, List.mem_singleton, List.not_mem_nil, or_false] at hl
  have hs : e.state = STATE_STOPPING := by
    rcases hl with h | h | h | h | h | h | h | h | h <;> obtain ⟨h1, _, h3⟩ := h <;>
      rw [ht] at h3 <;> first | exact h1 | (exact absurd h3 (by decide))
  exact ⟨hs, hcl (by rw [hs]; decide) (by rw [hs]; decide)⟩

theorem shutdown_thread_asserts (s : bucket_engine) (p i : Nat) (m : String) (hi : Inv s)
    (h : engine_shutdown_thread s p i = .error m) :
    m ≠ "engine_shutdown_thread: assert(peh->state == STATE_STOPPING)" ∧
    m ≠ "engine_shutdown_thread: assert(peh->clients == 0)" := by
  unfold engine_shutdown_thread at h
  rw [bind_eq_error] at h
  rcases h with h | ⟨e, hd, h⟩
  · rcases deref_error _ _ _ h with rfl | rfl <;> exact ⟨by decide, by decide⟩
  · rw [deref_eq_ok] at hd
    split at h
    · cases h; exact ⟨by decide, by decide⟩
    · rename_i hpc
      obtain ⟨hs, hc⟩ := lifecycle_ok_pc0 e i (hi.life p e hd.1) hpc
      rw [if_neg (by simp [hs]), if_neg (by simp [hc])] at h
      cases h
    · rw [bind_eq_error] at h
      rcases h with h | ⟨r, hr, h⟩
      · simp only [genhash_delete_all, bind_eq_error] at h
        rcases h with h | ⟨_, _, h⟩
        · rcases free_values_error _ _ _ h with rfl | rfl <;> exact ⟨by decide, by decide⟩
        · cases h
      · split at h
        · cases h; exact ⟨by decide, by decide⟩
        · rw [bind_eq_error] at h
          rcases h with h | ⟨_, _, h⟩
          · rcases deref_error _ _ _ h with rfl | rfl <;> exact ⟨by decide, by decide⟩
          · cases h
    · cases h
    · split at h
      · cases h; exact ⟨by decide, by decide⟩
      · cases h
    · cases h; exact ⟨by decide, by decide⟩

/-- The counter `clients` in the reachable states: a handle whose state is STOPPING or
STOPPED has `clients == 0`, and no connection that entered through `get_engine_handle` is
inside its engine. `maybe_start_engine_shutdown_LOCKED` changes the state only from
STOP_REQUESTED to STOPPING and only when `clients == 0`; no step increments `clients`
of a handle that has left RUNNING; a teardown thread at its sanity checks finds the
state STOPPING and no client, and neither of the two assertions of
`engine_shutdown_thread` ever fails. The callers that `clients` does not count, the
ON_DISCONNECT callbacks, are not covered. -/
theorem stopping_handle_has_no_clients (cfg : config) (s : bucket_engine) (p : Nat)
    (h : proxied_engine_handle_t) (hr : Reachable cfg s) (hp : s.heap[p]? = some h) :
    ((h.state = STATE_STOPPING ∨ h.state = STATE_STOPPED) →
      h.clients = 0 ∧ inside_count s p = 0) ∧
    (∀ e : proxied_engine_handle_t,
      (maybe_start_engine_shutdown_LOCKED e).state ≠ e.state →
        e.state = STATE_STOP_REQUESTED ∧ e.clients = 0 ∧
        (maybe_start_engine_shutdown_LOCKED e).state = STATE_STOPPING) ∧
    (∀ (l : label) (s' : bucket_engine) (h' : proxied_engine_handle_t),
      step s l = .ok s' → s'.heap[p]? = some h' → h.state ≠ STATE_RUNNING →
        h'.clients ≤ h.clients) ∧
    (∀ i : Nat, h.shutdown_threads[i]? = some 0 →
      h.state = STATE_STOPPING ∧ h.clients = 0 ∧ inside_count s p = 0) ∧
    (∀ (i : Nat) (m : String), step s (label.shutdown p i) = .error m →
      m ≠ "engine_shutdown_thread: assert(peh->state == STATE_STOPPING)" ∧
      m ≠ "engine_shutdown_thread: assert(peh->clients == 0)") := by
  have hi := Inv_reachable cfg s hr
  have hl := hi.life p h hp
  have hc : h.clients = inside_count s p := by
    have := hi.clients p
    unfold clients_of at this
    rw [hp] at this
    exact this
  have hzero : h.clients = 0 → inside_count s p = 0 := by
    intro h0
    rw [h0] at hc
    exact_mod_cast hc.symm
  refine ⟨?_, ?_, ?_, ?_, ?_⟩
  · intro hst
    have h0 : h.clients = 0 := by
      rcases hst with hst | hst <;> exact hl.2 (by rw [hst]; decide) (by rw [hst]; decide)
    exact ⟨h0, hzero h0⟩
  · intro e hne
    unfold maybe_start_engine_shutdown_LOCKED at hne ⊢
    by_cases hcond : e.clients = 0 ∧ e.state = STATE_STOP_REQUESTED
    · rw [if_pos hcond]
      exact ⟨hcond.2, hcond.1, rfl⟩
    · rw [if_neg hcond] at hne
      exact absurd rfl hne
  · intro l s' h' hs hp' hnr
    exact clients_step s s' l p h h' hi hs hp hp' hnr
  · intro i hpc
    obtain ⟨h1, h2⟩ := lifecycle_ok_pc0 h i hl hpc
    exact ⟨h1, h2, hzero h2⟩
  · intro i m hm
    exact shutdown_thread_asserts s p i m hi hm

/-- After `delete_scenario` the handle of "b" is STOPPING with its teardown thread at the
sanity checks, and no counted client is inside the engine. -/
theorem stopping_handle_has_no_clients_witness :
    ∃ (s : bucket_engine) (h : proxied_engine_handle_t),
      run (bucket_initialized sample_config) delete_scenario = .ok s ∧
      s.heap[1]? = some h ∧ h.state = STATE_STOPPING ∧ h.shutdown_threads[0]? = some 0 ∧
      (h.clients = 0 ∧ inside_count s 1 = 0) :=
  ⟨_, _, rfl, rfl, rfl, rfl,
    (stopping_handle_has_no_clients sample_config _ 1 _
      (reachable_run sample_config delete_scenario _ _ Reachable.init rfl) rfl).1
      (Or.inl rfl)⟩

/-- C1 (code bug, evaluated at the failing input): the engine of "b" has registered for
disconnects, cookie 1 is attached to "b" and is disconnected. `handle_disconnect` finds
the bucket RUNNING, drops the handle lock and calls the ON_DISCONNECT callback of the
engine without raising `clients`. While the callback runs, cookie 0 deletes "b": with
`clients == 0` the state goes to STOPPING, the teardown thread passes both assertions
and calls `destroy`. The engine is destroyed while the thread of cookie 1 is still inside
its callback; the counter says that nobody is. Afterwards the callback returns and
`handle_disconnect` releases the reference of the connection. -/
theorem disconnect_callback_inside_destroyed_engine :
    ∃ s0 s1 s2,
      run (bucket_initialized sample_config) callback_scenario = .ok s0 ∧
      s0.heap.map (fun h => (h.state, h.wants_disconnects, h.clients, h.refcount)) =
        [(STATE_NULL, false, 0, 0), (STATE_RUNNING, true, 0, 2)] ∧
      s0.conns.map (fun c => (c.inside, c.callback)) = [(none, none), (none, some 1)] ∧
      s0.calls = [(1, engine_op.initialize_call), (1, engine_op.on_disconnect)] ∧
      run s0 destroy_steps = .ok s1 ∧
      s1.calls = [(1, engine_op.initialize_call), (1, engine_op.on_disconnect),
        (1, engine_op.destroy false)] ∧
      s1.conns.map (fun c => (c.inside, c.callback)) = [(none, none), (none, some 1)] ∧
      s1.heap.map (fun h => (h.state, h.pe, h.clients, h.refcount)) =
        [(STATE_NULL, false, 0, 0), (STATE_STOPPING, false, 0, 1)] ∧
      inside_count s1 1 = 0 ∧
      step s1 (label.disconnect_return 1) = .ok s2 ∧
      s2.conns.map (fun c => (c.es, c.callback)) =
        [(some { peh := none, engine_specific := some 1, reserved := 0, notified := false },
          none), (none, none)] ∧
      s2.heap.map (fun h => (h.state, h.refcount)) =
        [(STATE_NULL, 0), (STATE_STOPPING, 0)] :=
  ⟨_, _, _, rfl, rfl, rfl, rfl, rfl, rfl, rfl, rfl, rfl, rfl, rfl, rfl⟩

theorem lifecycle_ok_history (h : proxied_engine_handle_t) (hl : lifecycle_ok h) :
    history h ∈ lifecycle_histories := by
  unfold lifecycle_ok at hl
  obtain ⟨hl, _⟩ := hl
  simp only [List.mem_cons, Prod.mk.injEq, List.mem_singleton, List.not_mem_nil, or_false] at hl
  unfold history lifecycle_histories
  rcases hl with h | h | h | h | h | h | h | h | h <;> obtain ⟨h1, h2, _⟩ := h <;>
    rw [h1, h2] <;> simp

theorem not_follows_chain_of_history (h : proxied_engine_handle_t) (l : List bucket_state_t)
    (hh : history h = l) (hl : ¬ List.Chain' chain_edge l) : ¬ follows_chain h := by
  unfold follows_chain
  rw [hh]
  exact hl

/-- C7 (counterexample): the chain RUNNING, STOP_REQUESTED, STOPPING, STOPPED is left
twice. When the teardown thread of a deleted bucket unlinks the handle from the engine
table, `engine_hash_free` sets its state to STATE_NULL, a value taken between STOPPING
and STOPPED; and when the engine of a new bucket fails to initialize, `create_bucket`
unlinks the handle and its state goes from RUNNING to STATE_NULL. -/
theorem lifecycle_leaves_chain :
    (∃ (s : bucket_engine) (h : proxied_engine_handle_t),
      run (bucket_initialized sample_config) unlink_scenario = .ok s ∧
      s.heap[1]? = some h ∧
      history h = [STATE_RUNNING, STATE_STOP_REQUESTED, STATE_STOPPING, STATE_NULL] ∧
      ¬ follows_chain h) ∧
    (∃ (s : bucket_engine) (h : proxied_engine_handle_t),
      run (bucket_initialized sample_config) (unlink_scenario ++ [label.shutdown 1 0]) =
        .ok s ∧
      s.heap[1]? = some h ∧
      history h = [STATE_RUNNING, STATE_STOP_REQUESTED, STATE_STOPPING, STATE_NULL,
        STATE_STOPPED] ∧
      ¬ follows_chain h) ∧
    (∃ (s : bucket_engine) (h : proxied_engine_handle_t),
      run (bucket_initialized sample_config) failed_initialize_scenario = .ok s ∧
      s.heap[1]? = some h ∧ history h = [STATE_RUNNING, STATE_NULL] ∧
      ¬ follows_chain h) := by
  refine ⟨⟨_, _, rfl, rfl, rfl, not_follows_chain_of_history _
      [STATE_RUNNING, STATE_STOP_REQUESTED, STATE_STOPPING, STATE_NULL] rfl ?_⟩,
    ⟨_, _, rfl, rfl, rfl, not_follows_chain_of_history _
      [STATE_RUNNING, STATE_STOP_REQUESTED, STATE_STOPPING, STATE_NULL, STATE_STOPPED] rfl ?_⟩,
    ⟨_, _, rfl, rfl, rfl, not_follows_chain_of_history _
      [STATE_RUNNING, STATE_NULL] rfl ?_⟩⟩ <;>
    simp [chain_edge]

/-- C7 (amended): in every reachable state the states a handle has held, in order, are
an initial part of RUNNING, STOP_REQUESTED, STOPPING, NULL, STOPPED (STATE_NULL is set
by `engine_hash_free` when the teardown thread unlinks the handle, before the thread
sets STOPPED), or RUNNING, NULL (the engine failed to initialize), or NULL alone (a
zeroed handle that was never initialized). So an initialized handle starts RUNNING, no
state of the sequence is skipped, and RUNNING is never taken again. -/
theorem lifecycle_follows_teardown_sequence (cfg : config) (s : bucket_engine) (p : Nat)
    (h : proxied_engine_handle_t) (hr : Reachable cfg s) (hp : s.heap[p]? = some h) :
    history h ∈ lifecycle_histories ∧
    (∀ i : Nat, 0 < i → (history h)[i]? ≠ some STATE_RUNNING) ∧
    (h.state = STATE_STOPPED →
      ∃ l, history h = l ++ [STATE_STOPPING, STATE_NULL, STATE_STOPPED]) := by
  have hm := lifecycle_ok_history h ((Inv_reachable cfg s hr).life p h hp)
  refine ⟨hm, ?_, ?_⟩
  · intro i hi
    unfold lifecycle_histories at hm
    simp only [List.mem_cons, List.mem_singleton, List.not_mem_nil, or_false] at hm
    obtain ⟨j, rfl⟩ : ∃ j, i = j + 1 := ⟨i - 1, by omega⟩
    rcases hm with hm | hm | hm | hm | hm | hm | hm <;> rw [hm] <;>
      rcases j with _ | _ | _ | _ | _ | j <;> simp
  · intro hst
    have hlast : (history h).getLast? = some STATE_STOPPED := by
      unfold history
      rw [List.getLast?_reverse]
      simp [hst]
    unfold lifecycle_histories at hm
    simp only [List.mem_cons, List.mem_singleton, List.not_mem_nil, or_false] at hm
    rcases hm with hm | hm | hm | hm | hm | hm | hm <;> rw [hm] at hlast ⊢ <;>
      first | exact ⟨[STATE_RUNNING, STATE_STOP_REQUESTED], rfl⟩ | simp at hlast

/-- C7 (amended) at a reachable state: after the whole teardown of "b" its handle went
through RUNNING, STOP_REQUESTED, STOPPING, NULL and STOPPED. -/
theorem lifecycle_follows_teardown_sequence_witness :
    ∃ (s : bucket_engine) (h : proxied_engine_handle_t),
      run (bucket_initialized sample_config) (unlink_scenario ++ [label.shutdown 1 0]) =
        .ok s ∧
      s.heap[1]? = some h ∧ h.state = STATE_STOPPED ∧
      history h ∈ lifecycle_histories :=
  ⟨_, _, rfl, rfl, rfl,
    (lifecycle_follows_teardown_sequence sample_config _ 1 _
      (reachable_run sample_config (unlink_scenario ++ [label.shutdown 1 0]) _ _
        Reachable.init rfl) rfl).1⟩


theorem attached_set_conn (s : bucket_engine) (c : Nat) (v : conn_t) (p : Nat) :
    attached (set_conn s c v) p + (if points_at p (get_conn s c) = true then 1 else 0) =
      attached s p + (if points_at p v = true then 1 else 0) := by
  unfold attached set_conn get_conn
  simp only
  have h1 := countP_set_add (points_at p)
    (s.conns ++ List.replicate (c + 1 - s.conns.length) no_conn) c v no_conn
    (by simp only [List.length_append, List.length_replicate]; omega)
  rw [padded_getD, countP_padded _ _ _ _ (by simp [no_conn, points_at])] at h1
  exact h1

theorem slack_of_eq (s s' : bucket_engine) (hh : s'.heap = s.heap) (hc : s'.conns = s.conns)
    (q : Nat) : slack s' q = slack s q := by
  unfold slack due_of attached
  rw [hh, hc]

theorem slack_set_conn (s : bucket_engine) (c : Nat) (v : conn_t) (q : Nat) :
    slack (set_conn s c v) q =
      slack s q + (if points_at q (get_conn s c) = true then 1 else 0) -
        (if points_at q v = true then 1 else 0) := by
  have h := attached_set_conn s c v q
  unfold slack due_of
  simp only [set_conn_heap]
  split_ifs at h ⊢ <;> omega

theorem slack_store_handle (s : bucket_engine) (p : Nat) (h h' : proxied_engine_handle_t)
    (hp : s.heap[p]? = some h) (q : Nat) :
    slack (store_handle s p h') q = slack s q + (if q = p then due h' - due h else 0) := by
  unfold slack due_of attached
  simp only [store_handle_conns]
  by_cases hq : q = p
  · subst hq
    rw [store_handle_get s q h h' hp, hp, if_pos rfl]
    simp only []
    omega
  · rw [store_handle_get_ne s p q h' (Ne.symm hq), if_neg hq]
    omega

theorem conn_ok_set_conn (s : bucket_engine) (c : Nat) (v : conn_t)
    (hs : ∀ c' : Nat, conn_ok (get_conn s c')) (hv : conn_ok v) (c' : Nat) :
    conn_ok (get_conn (set_conn s c v) c') := by
  rw [get_conn_set_conn]
  split
  · exact hv
  · exact hs c'

theorem conn_ok_of_conns (s s' : bucket_engine) (hc : s'.conns = s.conns)
    (hs : ∀ c' : Nat, conn_ok (get_conn s c')) (c' : Nat) : conn_ok (get_conn s' c') := by
  have : get_conn s' c' = get_conn s c' := by
    unfold get_conn
    rw [hc]
  rw [this]
  exact hs c'

theorem acct_refl (c : Nat) (s : bucket_engine) : acct_step c (fun _ => 0) s s := by
  intro hi hs
  exact ⟨hi, hs, fun q _ => by simp⟩

theorem acct_trans {c : Nat} {d1 d2 : Nat → Int} {s1 s2 s3 : bucket_engine}
    (h1 : acct_step c d1 s1 s2) (h2 : acct_step c d2 s2 s3) :
    acct_step c (fun q => d1 q + d2 q) s1 s3 := by
  intro hi hs
  obtain ⟨hi2, hs2, hq2⟩ := h1 hi hs
  obtain ⟨hi3, hs3, hq3⟩ := h2 hi2 hs2
  refine ⟨hi3, hs3, ?_⟩
  intro q hq
  have a := hq2 q hq
  have b := hq3 q hq
  simp only []
  omega

theorem acct_mono {c : Nat} {d d' : Nat → Int} {s s' : bucket_engine}
    (h : acct_step c d s s') (hd : ∀ q : Nat, q ≠ 0 → d' q ≤ d q) :
    acct_step c d' s s' := by
  intro hi hs
  obtain ⟨hi2, hs2, hq2⟩ := h hi hs
  refine ⟨hi2, hs2, ?_⟩
  intro q hq
  have a := hq2 q hq
  have b := hd q hq
  omega

theorem acct_of_handles (c : Nat) (d : Nat → Int) (s s' : bucket_engine)
    (hc : s'.conns = s.conns) (hq : ∀ q : Nat, q ≠ 0 → slack s q + d q ≤ slack s' q) :
    acct_step c d s s' := by
  intro hi hs
  refine ⟨?_, conn_ok_of_conns s s' hc hs, hq⟩
  have : get_conn s' c = get_conn s c := by
    unfold get_conn
    rw [hc]
  rw [this]
  exact hi

theorem acct_of_same (c : Nat) (s s' : bucket_engine)
    (hh : s'.heap = s.heap) (hc : s'.conns = s.conns) : acct_step c (fun _ => 0) s s' :=
  acct_of_handles c _ s s' hc (fun q _ => by rw [slack_of_eq s s' hh hc q]; simp)

theorem due_maybe_start (e : proxied_engine_handle_t) :
    due (maybe_start_engine_shutdown_LOCKED e) = due e := by
  unfold maybe_start_engine_shutdown_LOCKED due
  split
  · rename_i hc
    simp [set_state, hc.2]
  · rfl

theorem due_release_handle_locked (h h' : proxied_engine_handle_t)
    (hr : release_handle_locked h = .ok h') : due h' = due h - 1 := by
  unfold release_handle_locked at hr
  split at hr
  · cases hr
    rw [due_maybe_start]
    unfold due
    simp only []
    omega
  · cases hr

theorem due_retain_handle_locked (h : proxied_engine_handle_t)
    (r : proxied_engine_handle_t × Bool) (hr : retain_handle_locked h = .ok r) :
    due r.1 = due h + (if r.2 = true then 1 else 0) := by
  unfold retain_handle_locked at hr
  split at hr
  · split at hr
    · cases hr
      unfold due
      simp
      omega
    · cases hr
  · cases hr
    simp

theorem due_release_engine_handle_locked (h h' : proxied_engine_handle_t)
    (hr : release_engine_handle_locked h = .ok h') : due h' = due h := by
  unfold release_engine_handle_locked at hr
  split at hr
  · cases hr
    rw [due_maybe_start]
    rfl
  · cases hr

theorem retain_handle_conns (s : bucket_engine) (peh : Option Nat)
    (r : bucket_engine × Option Nat) (h : retain_handle s peh = .ok r) :
    r.1.conns = s.conns := by
  unfold retain_handle at h
  cases peh with
  | none => cases h; rfl
  | some p =>
    simp only [bind_eq_ok, pure_eq_ok] at h
    obtain ⟨_, _, _, _, h⟩ := h
    subst h
    rfl

theorem release_handle_conns (s s' : bucket_engine) (peh : Option Nat)
    (h : release_handle s peh = .ok s') : s'.conns = s.conns := by
  unfold release_handle at h
  cases peh with
  | none => cases h; rfl
  | some p =>
    simp only [bind_eq_ok, pure_eq_ok] at h
    obtain ⟨_, _, _, _, h⟩ := h
    subst h
    rfl

theorem acct_retain_handle (c : Nat) (s : bucket_engine) (peh : Option Nat)
    (r : bucket_engine × Option Nat) (h : retain_handle s peh = .ok r) :
    acct_step c (fun q => if r.2 = some q then 1 else 0) s r.1 := by
  refine acct_of_handles c _ s r.1 (retain_handle_conns s peh r h) ?_
  intro q _
  unfold retain_handle at h
  cases peh with
  | none =>
    cases h
    simp
  | some p =>
    simp only [bind_eq_ok, pure_eq_ok] at h
    obtain ⟨e, hd, rr, hr, h⟩ := h
    subst h
    rw [deref_eq_ok] at hd
    simp only []
    rw [slack_store_handle s p e rr.1 hd.1 q, due_retain_handle_locked e rr hr]
    cases rr.2
    · simp
    · by_cases hq : q = p
      · subst hq
        simp
      · have : p ≠ q := Ne.symm hq
        simp [hq, this]

theorem acct_release_handle (c : Nat) (s s' : bucket_engine) (peh : Option Nat)
    (h : release_handle s peh = .ok s') :
    acct_step c (fun q => if peh = some q then -1 else 0) s s' := by
  refine acct_of_handles c _ s s' (release_handle_conns s s' peh h) ?_
  intro q _
  unfold release_handle at h
  cases peh with
  | none =>
    cases h
    simp
  | some p =>
    simp only [bind_eq_ok, pure_eq_ok] at h
    obtain ⟨e, hd, e', hr, h⟩ := h
    subst h
    rw [deref_eq_ok] at hd
    rw [slack_store_handle s p e e' hd.1 q, due_release_handle_locked e e' hr]
    by_cases hq : q = p
    · subst hq
      simp
    · have : p ≠ q := Ne.symm hq
      simp [hq, this]

theorem acct_find_bucket (c : Nat) (s : bucket_engine) (name : String)
    (r : bucket_engine × Option Nat) (h : find_bucket s name = .ok r) :
    acct_step c (fun q => if r.2 = some q then 1 else 0) s r.1 :=
  acct_retain_handle c s _ r h

theorem acct_store_es (c : Nat) (s : bucket_engine) (e' : Option engine_specific_t)
    (hres : ∀ es : engine_specific_t, e' = some es → es.reserved = 0) :
    acct_step c
      (fun q => (if points_at q (get_conn s c) = true then 1 else 0) -
        (if points_at q { get_conn s c with es := e' } = true then 1 else 0))
      s (store_es s c e') := by
  intro hi hs
  refine ⟨?_, ?_, ?_⟩
  · rw [get_conn_store_es, if_pos rfl]
    exact hi
  · intro c'
    unfold store_es
    refine conn_ok_set_conn s c _ hs ⟨hres, ?_, ?_⟩ c'
    · intro p hp
      simp only [] at hp
      rw [hi.1] at hp
      cases hp
    · intro p hp
      simp only [] at hp
      rw [hi.2] at hp
      cases hp
  · intro q _
    unfold store_es
    rw [slack_set_conn]
    simp only []
    omega

theorem acct_store_es_some (c : Nat) (s : bucket_engine) (es es' : engine_specific_t)
    (hes : (get_conn s c).es = some es) (hres : es'.reserved = 0) :
    acct_step c
      (fun q => (if es.peh = some q then 1 else 0) - (if es'.peh = some q then 1 else 0))
      s (store_es s c (some es')) := by
  refine acct_mono (acct_store_es c s (some es') ?_) ?_
  · intro x hx
    cases hx
    exact hres
  · intro q _
    simp only [points_at, hes, decide_eq_true_eq]
    exact le_refl _

theorem acct_store_es_none (c : Nat) (s : bucket_engine) (es : engine_specific_t)
    (hes : (get_conn s c).es = some es) :
    acct_step c (fun q => if es.peh = some q then 1 else 0) s (store_es s c none) := by
  refine acct_mono (acct_store_es c s none ?_) ?_
  · intro x hx
    cases hx
  · intro q _
    simp [points_at, hes]

theorem acct_create_engine_specific (c : Nat) (s s' : bucket_engine)
    (h : create_engine_specific s c = .ok s') : acct_step c (fun _ => 0) s s' := by
  unfold create_engine_specific at h
  cases hes : (get_conn s c).es with
  | some es =>
    rw [hes] at h
    cases h
  | none =>
    rw [hes] at h
    simp only [Except.ok.injEq] at h
    subst h
    refine acct_mono (acct_store_es c s _ ?_) ?_
    · intro x hx
      cases hx
      rfl
    · intro q _
      simp [points_at, hes]

theorem acct_bucket_store_engine_specific (c : Nat) (s s' : bucket_engine) (d : Option Nat)
    (h : bucket_store_engine_specific s c d = .ok s') : acct_step c (fun _ => 0) s s' := by
  unfold bucket_store_engine_specific at h
  cases hes : (get_conn s c).es with
  | none =>
    rw [hes] at h
    cases h
  | some es =>
    rw [hes] at h
    simp only [Except.ok.injEq] at h
    subst h
    intro hi hs
    have hr := (hs c).1 es hes
    exact acct_mono (acct_store_es_some c s es { es with engine_specific := d } hes hr)
      (fun q _ => by simp) hi hs

theorem acct_response (c : Nat) (s : bucket_engine) (cookie : Nat) (key body : String)
    (st : protocol_binary_response_status) :
    acct_step c (fun _ => 0) s (response s cookie key body st) :=
  acct_of_same c s _ rfl rfl

theorem acct_log_call (c : Nat) (s : bucket_engine) (p : Nat) (op : engine_op) :
    acct_step c (fun _ => 0) s (log_call s p op) :=
  acct_of_same c s _ rfl rfl

theorem acct_store_handle (c : Nat) (s : bucket_engine) (p : Nat)
    (h h' : proxied_engine_handle_t) (hp : s.heap[p]? = some h) :
    acct_step c (fun q => if q = p then due h' - due h else 0) s (store_handle s p h') :=
  acct_of_handles c _ s _ rfl (fun q _ => by rw [slack_store_handle s p h h' hp q])

theorem acct_set_engine_handle (c : Nat) (s : bucket_engine) (peh : Option Nat)
    (r : bucket_engine × Option Nat) (h : set_engine_handle s c peh = .ok r) :
    acct_step c (fun _ => 0) s r.1 := by
  unfold set_engine_handle at h
  cases hes : (get_conn s c).es with
  | none =>
    rw [hes] at h
    cases h
  | some es =>
    rw [hes] at h
    simp only [bind_eq_ok, pure_eq_ok] at h
    obtain ⟨t, ht, s2, hs2, h⟩ := h
    subst h
    intro hi hs
    have hr := (hs c).1 es hes
    have hes1 : (get_conn t.1 c).es = some es := by
      unfold get_conn
      rw [retain_handle_conns s peh t ht]
      exact hes
    refine acct_mono (acct_trans (acct_trans (acct_retain_handle c s peh t ht)
      (acct_store_es_some c t.1 es { es with peh := t.2 } hes1 hr))
      (acct_release_handle c _ s2 es.peh hs2)) ?_ hi hs
    intro q _
    simp only []
    split_ifs <;> omega

theorem acct_handle_disconnect (c : Nat) (s s' : bucket_engine)
    (h : handle_disconnect s c = .ok s') : acct_step c (fun _ => 0) s s' := by
  unfold handle_disconnect at h
  cases hes : (get_conn s c).es with
  | none =>
    rw [hes] at h
    cases h
    exact acct_refl c s
  | some es =>
    rw [hes] at h
    cases hpeh : es.peh with
    | none =>
      simp only [hpeh, Except.ok.injEq] at h
      subst h
      exact acct_mono (acct_store_es_none c s es hes) (fun q _ => by simp [hpeh])
    | some p =>
      simp only [hpeh, bind_eq_ok] at h
      obtain ⟨e, hd, h⟩ := h
      rw [deref_eq_ok] at hd
      intro hi hs
      have hr := (hs c).1 es hes
      rw [if_pos hr] at h
      simp only [bind_eq_ok, pure_eq_ok] at h
      obtain ⟨e', he', h⟩ := h
      subst h
      have a1 : acct_step c (fun _ => 0) s
          (if (e.wants_disconnects && decide (e.state = STATE_RUNNING)) = true
            then log_call s p engine_op.on_disconnect else s) := by
        split
        · exact acct_log_call c s p _
        · exact acct_refl c s
      have hp1 : (if (e.wants_disconnects && decide (e.state = STATE_RUNNING)) = true
            then log_call s p engine_op.on_disconnect else s).heap[p]? = some e := by
        split <;> exact hd.1
      have hes1 : (get_conn (store_handle (if (e.wants_disconnects &&
            decide (e.state = STATE_RUNNING)) = true
            then log_call s p engine_op.on_disconnect else s) p e') c).es = some es := by
        rw [get_conn_store_handle]
        split
        · rw [get_conn_log_call]; exact hes
        · exact hes
      refine acct_mono (acct_trans (acct_trans a1 (acct_store_handle c _ p e e' hp1))
        (acct_store_es_none c _ es hes1)) ?_ hi hs
      intro q _
      simp only [due_release_handle_locked e e' he', hpeh, Option.some.injEq]
      by_cases hq : q = p
      · subst hq
        simp
      · have : p ≠ q := Ne.symm hq
        simp [hq, this]

theorem acct_handle_disconnect_release (c : Nat) (s s' : bucket_engine) (p : Nat)
    (hpt : points_at p (get_conn s c) = true)
    (h : handle_disconnect_release s c p = .ok s') : acct_step c (fun _ => 0) s s' := by
  unfold handle_disconnect_release at h
  cases hes : (get_conn s c).es with
  | none =>
    rw [hes] at h
    cases h
  | some es =>
    rw [hes] at h
    have hpeh : es.peh = some p := by
      simpa [points_at, hes] using hpt
    simp only [bind_eq_ok] at h
    obtain ⟨e, hd, h⟩ := h
    rw [deref_eq_ok] at hd
    intro hi hs
    have hr := (hs c).1 es hes
    rw [if_pos hr] at h
    simp only [bind_eq_ok, pure_eq_ok] at h
    obtain ⟨e', he', h⟩ := h
    subst h
    have hes1 : (get_conn (store_handle s p e') c).es = some es := by
      rw [get_conn_store_handle]
      exact hes
    refine acct_mono (acct_trans (acct_store_handle c _ p e e' hd.1)
      (acct_store_es_none c _ es hes1)) ?_ hi hs
    intro q _
    simp only [due_release_handle_locked e e' he', hpeh, Option.some.injEq]
    by_cases hq : q = p
    · subst hq
      simp
    · have : p ≠ q := Ne.symm hq
      simp [hq, this]

theorem handle_disconnect_callback_points_at (s : bucket_engine) (c p : Nat)
    (h : handle_disconnect_callback s c = .ok (some p)) :
    points_at p (get_conn s c) = true := by
  unfold handle_disconnect_callback at h
  cases hes : (get_conn s c).es with
  | none =>
    rw [hes] at h
    cases h
  | some es =>
    rw [hes] at h
    cases hpeh : es.peh with
    | none =>
      simp only [hpeh] at h
      cases h
    | some p' =>
      simp only [hpeh, bind_eq_ok, pure_eq_ok] at h
      obtain ⟨e, _, h⟩ := h
      split at h
      · cases h
        simp [points_at, hes, hpeh]
      · cases h

theorem acct_bucket_register_callback (c : Nat) (s s' : bucket_engine) (eh : Nat)
    (h : bucket_register_callback s eh = .ok s') : acct_step c (fun _ => 0) s s' := by
  unfold bucket_register_callback at h
  split at h
  · simp only [bind_eq_ok, pure_eq_ok] at h
    obtain ⟨e, hd, rfl⟩ := h
    rw [deref_eq_ok] at hd
    exact acct_mono (acct_store_handle c _ _ e _ hd.1) (fun q _ => by simp [due])
  · split at h
    · simp only [bind_eq_ok, pure_eq_ok] at h
      obtain ⟨e, hd, rfl⟩ := h
      rw [deref_eq_ok] at hd
      exact acct_mono (acct_store_handle c _ _ e _ hd.1) (fun q _ => by simp [due])
    · simp only [pure_eq_ok] at h
      cases h
      exact acct_refl c s

theorem acct_get_engine_handle (c : Nat) (s : bucket_engine)
    (r : bucket_engine × Option Nat) (h : get_engine_handle s c = .ok r) :
    acct_step c (fun _ => 0) s r.1 := by
  unfold get_engine_handle at h
  cases hes : (get_conn s c).es with
  | none =>
    rw [hes] at h
    cases h
  | some es =>
    rw [hes] at h
    cases hres : resolve_handle s es with
    | none =>
      simp only [hres, Except.ok.injEq] at h
      subst h
      exact acct_refl c s
    | some p =>
      simp only [hres, bind_eq_ok] at h
      obtain ⟨e, hd, h⟩ := h
      rw [deref_eq_ok] at hd
      by_cases hrun : e.state ≠ STATE_RUNNING
      · rw [if_pos hrun] at h
        simp only [bind_eq_ok, pure_eq_ok] at h
        obtain ⟨s2, hs2, h⟩ := h
        subst h
        intro hi hs
        have hr := (hs c).1 es hes
        rw [if_pos hr] at hs2
        refine acct_mono (acct_trans (acct_store_es_none c s es hes)
          (acct_release_handle c _ s2 (some p) hs2)) ?_ hi hs
        intro q hq
        simp only [Option.some.injEq]
        unfold resolve_handle at hres
        cases hpeh : es.peh with
        | none =>
          rw [hpeh] at hres
          simp only [] at hres
          split at hres
          · cases hres
            have : (0 : Nat) ≠ q := Ne.symm hq
            simp [this]
          · cases hres
        | some p' =>
          rw [hpeh] at hres
          cases hres
          simp only [Option.some.injEq]
          split_ifs <;> omega
      · rw [if_neg hrun] at h
        simp only [pure_eq_ok] at h
        subst h
        exact acct_mono (acct_store_handle c s p e _ hd.1) (fun q _ => by simp [due])

theorem acct_try_get_engine_handle (c : Nat) (s : bucket_engine)
    (r : bucket_engine × Option Nat) (h : try_get_engine_handle s c = .ok r) :
    acct_step c (fun _ => 0) s r.1 := by
  unfold try_get_engine_handle at h
  cases hes : (get_conn s c).es with
  | none =>
    rw [hes] at h
    cases h
    exact acct_refl c s
  | some es =>
    rw [hes] at h
    cases hpeh : es.peh with
    | none =>
      simp only [hpeh, Except.ok.injEq] at h
      subst h
      exact acct_refl c s
    | some p =>
      simp only [hpeh, bind_eq_ok] at h
      obtain ⟨e, hd, h⟩ := h
      rw [deref_eq_ok] at hd
      by_cases hrun : e.state = STATE_RUNNING
      · rw [if_pos hrun] at h
        simp only [pure_eq_ok] at h
        subst h
        exact acct_mono (acct_store_handle c s p e _ hd.1) (fun q _ => by simp [due])
      · rw [if_neg hrun] at h
        simp only [pure_eq_ok] at h
        subst h
        exact acct_refl c s

theorem acct_release_engine_handle (c : Nat) (s s' : bucket_engine) (p : Nat)
    (h : release_engine_handle s p = .ok s') : acct_step c (fun _ => 0) s s' := by
  simp only [release_engine_handle, bind_eq_ok, pure_eq_ok] at h
  obtain ⟨e, hd, e', he', h⟩ := h
  subst h
  rw [deref_eq_ok] at hd
  exact acct_mono (acct_store_handle c s p e e' hd.1)
    (fun q _ => by simp [due_release_engine_handle_locked e e' he'])

theorem acct_zero_trans {c : Nat} {s1 s2 s3 : bucket_engine}
    (h1 : acct_step c (fun _ => 0) s1 s2) (h2 : acct_step c (fun _ => 0) s2 s3) :
    acct_step c (fun _ => 0) s1 s3 :=
  acct_mono (acct_trans h1 h2) (fun q _ => by simp)

theorem acct_proxied_call (c : Nat) (s : bucket_engine) (op : engine_op)
    (ret : ENGINE_ERROR_CODE) (r : bucket_engine × ENGINE_ERROR_CODE)
    (h : proxied_call s c op ret = .ok r) : acct_step c (fun _ => 0) s r.1 := by
  unfold proxied_call at h
  simp only [bind_eq_ok] at h
  obtain ⟨g, hg, h⟩ := h
  have a1 := acct_get_engine_handle c s g hg
  cases hg2 : g.2 with
  | none =>
    simp only [hg2, pure_eq_ok] at h
    subst h
    exact a1
  | some p =>
    simp only [hg2, bind_eq_ok, pure_eq_ok] at h
    obtain ⟨s2, hs2, h⟩ := h
    subst h
    exact acct_zero_trans (acct_zero_trans a1 (acct_log_call c g.1 p op))
      (acct_release_engine_handle c _ s2 p hs2)

theorem acct_handle_select_bucket (c : Nat) (s : bucket_engine)
    (req : protocol_binary_request_header) (r : bucket_engine × ENGINE_ERROR_CODE)
    (h : handle_select_bucket s c req = .ok r) : acct_step c (fun _ => 0) s r.1 := by
  unfold handle_select_bucket at h
  simp only [bind_eq_ok] at h
  obtain ⟨f, hf, s1, hs1, s2, hs2, h⟩ := h
  have a := acct_trans (acct_trans (acct_find_bucket c s _ f hf)
    (acct_set_engine_handle c f.1 f.2 s1 hs1)) (acct_release_handle c s1.1 s2 f.2 hs2)
  have a0 : acct_step c (fun _ => 0) s s2 :=
    acct_mono a (fun q _ => by split_ifs <;> omega)
  cases hf2 : f.2 with
  | none =>
    simp only [hf2, pure_eq_ok] at h
    subst h
    exact acct_zero_trans a0 (acct_response c s2 _ _ _ _)
  | some p =>
    simp only [hf2, pure_eq_ok] at h
    subst h
    exact acct_zero_trans a0 (acct_response c s2 _ _ _ _)

theorem retain_handle_result (s : bucket_engine) (p : Nat) (r : bucket_engine × Option Nat)
    (h : retain_handle s (some p) = .ok r) : r.2 = none ∨ r.2 = some p := by
  simp only [retain_handle, bind_eq_ok, pure_eq_ok] at h
  obtain ⟨_, _, rr, _, h⟩ := h
  subst h
  cases rr.2 <;> simp

theorem acct_genhash_iter (c : Nat) (es : List (String × Nat)) :
    ∀ (s : bucket_engine) (bl : List (String × Nat))
      (r : bucket_engine × List (String × Nat)), genhash_iter s es bl = .ok r →
      acct_step c
        (fun q => ((r.2.map Prod.snd).count q : Int) - ((bl.map Prod.snd).count q : Int))
        s r.1 := by
  induction es with
  | nil =>
    intro s bl r h
    simp only [genhash_iter, Except.ok.injEq] at h
    subst h
    exact acct_mono (acct_refl c s) (fun q _ => by simp)
  | cons kv rest ih =>
    intro s bl r h
    simp only [genhash_iter, add_engine, bind_eq_ok] at h
    obtain ⟨a, ⟨t, ht, ha⟩, h⟩ := h
    have a1 := acct_retain_handle c s (some kv.2) t ht
    have a2 := ih a.1 a.2 r h
    rcases retain_handle_result s kv.2 t ht with h2 | h2
    · simp only [h2, pure_eq_ok] at ha
      subst ha
      refine acct_mono (acct_trans a1 a2) ?_
      intro q _
      simp [h2]
    · simp only [h2, pure_eq_ok] at ha
      subst ha
      refine acct_mono (acct_trans a1 a2) ?_
      intro q _
      simp only [h2, Option.some.injEq, List.map_cons, List.count_cons, beq_iff_eq]
      split_ifs <;> push_cast <;> omega

theorem acct_bucket_list_free (c : Nat) (bl : List (String × Nat)) :
    ∀ (s s' : bucket_engine), bucket_list_free s bl = .ok s' →
      acct_step c (fun q => - ((bl.map Prod.snd).count q : Int)) s s' := by
  induction bl with
  | nil =>
    intro s s' h
    simp only [bucket_list_free, Except.ok.injEq] at h
    subst h
    exact acct_mono (acct_refl c s) (fun q _ => by simp)
  | cons kv rest ih =>
    intro s s' h
    simp only [bucket_list_free, bind_eq_ok] at h
    obtain ⟨s1, h1, h2⟩ := h
    refine acct_mono (acct_trans (acct_release_handle c s s1 (some kv.2) h1) (ih s1 s' h2)) ?_
    intro q _
    simp only [Option.some.injEq, List.map_cons, List.count_cons, beq_iff_eq]
    split_ifs <;> push_cast <;> omega

theorem acct_handle_list_buckets (c : Nat) (s : bucket_engine)
    (r : bucket_engine × ENGINE_ERROR_CODE) (h : handle_list_buckets s c = .ok r) :
    acct_step c (fun _ => 0) s r.1 := by
  simp only [handle_list_buckets, list_buckets, bind_eq_ok, pure_eq_ok] at h
  obtain ⟨l, hl, s1, hs1, h⟩ := h
  subst h
  refine acct_zero_trans (acct_mono (acct_trans (acct_genhash_iter c _ s [] l hl)
    (acct_bucket_list_free c l.2 l.1 s1 hs1)) ?_) (acct_response c s1 _ _ _ _)
  intro q _
  simp

theorem acct_append (c : Nat) (s : bucket_engine) (x : proxied_engine_handle_t) :
    acct_step c (fun q => if q = s.heap.length then due x else 0) s
      { s with heap := s.heap ++ [x] } := by
  refine acct_of_handles c _ s _ rfl ?_
  intro q _
  unfold slack due_of attached
  simp only []
  by_cases hq : q = s.heap.length
  · subst hq
    simp
  · rw [if_neg hq]
    by_cases hlt : q < s.heap.length
    · rw [List.getElem?_append_left hlt]
      omega
    · rw [List.getElem?_append_right (by omega), List.getElem?_eq_none (l := s.heap) (by omega)]
      have : q - s.heap.length ≠ 0 := by omega
      obtain ⟨k, hk⟩ : ∃ k, q - s.heap.length = k + 1 := ⟨q - s.heap.length - 1, by omega⟩
      rw [hk]
      simp

theorem acct_engines (c : Nat) (s : bucket_engine) (e : List (String × Nat)) :
    acct_step c (fun _ => 0) s { s with engines := e } :=
  acct_of_same c s _ rfl rfl

theorem acct_release_memory (c : Nat) (s s' : bucket_engine) (p : Nat)
    (h : release_memory s p = .ok s') : acct_step c (fun _ => 0) s s' := by
  simp only [release_memory, bind_eq_ok, pure_eq_ok] at h
  obtain ⟨e, hd, h⟩ := h
  subst h
  rw [deref_eq_ok] at hd
  exact acct_mono (acct_store_handle c s p e _ hd.1) (fun q _ => by simp [due])

theorem acct_refcount_dup (c : Nat) (s s' : bucket_engine) (p : Nat)
    (h : refcount_dup s p = .ok s') : acct_step c (fun q => if q = p then 1 else 0) s s' := by
  simp only [refcount_dup, bind_eq_ok, pure_eq_ok] at h
  obtain ⟨e, hd, h⟩ := h
  subst h
  rw [deref_eq_ok] at hd
  refine acct_mono (acct_store_handle c s p e _ hd.1) ?_
  intro q _
  simp only [due]
  split_ifs <;> omega

theorem acct_engine_hash_free (c : Nat) (s s' : bucket_engine) (p : Nat)
    (h : engine_hash_free s p = .ok s') : acct_step c (fun _ => 0) s s' := by
  simp only [engine_hash_free, bind_eq_ok, pure_eq_ok] at h
  obtain ⟨e, hd, h⟩ := h
  subst h
  rw [deref_eq_ok] at hd
  refine acct_mono (acct_store_handle c s p e _ hd.1) ?_
  intro q _
  simp only [due, set_state]
  split_ifs <;> simp_all

theorem acct_free_values (c : Nat) (l : List (String × Nat)) :
    ∀ s s' : bucket_engine, free_values s l = .ok s' → acct_step c (fun _ => 0) s s' := by
  induction l with
  | nil =>
    intro s s' h
    simp only [free_values, Except.ok.injEq] at h
    subst h
    exact acct_refl c s
  | cons kv rest ih =>
    intro s s' h
    simp only [free_values, bind_eq_ok] at h
    obtain ⟨s1, h1, h2⟩ := h
    exact acct_zero_trans (acct_engine_hash_free c s s1 kv.2 h1) (ih s1 s' h2)

theorem acct_genhash_delete_all (c : Nat) (s : bucket_engine) (name : String)
    (r : bucket_engine × Nat) (h : genhash_delete_all s name = .ok r) :
    acct_step c (fun _ => 0) s r.1 := by
  simp only [genhash_delete_all, bind_eq_ok, pure_eq_ok] at h
  obtain ⟨s1, h1, h2⟩ := h
  subst h2
  exact acct_zero_trans (acct_engines c s _) (acct_free_values c _ _ s1 h1)

theorem acct_genhash_update (c : Nat) (s s' : bucket_engine) (name : String) (p : Nat)
    (h : genhash_update s name p = .ok s') :
    acct_step c (fun q => if q = p then 1 else 0) s s' := by
  unfold genhash_update at h
  cases hf : genhash_find s.engines name with
  | none =>
    simp only [hf] at h
    exact acct_mono (acct_trans (acct_engines c s _) (acct_refcount_dup c _ s' p h))
      (fun q _ => by simp)
  | some old =>
    simp only [hf, bind_eq_ok] at h
    obtain ⟨s1, h1, h2⟩ := h
    exact acct_mono (acct_trans (acct_trans (acct_engine_hash_free c s s1 old h1)
      (acct_engines c s1 _)) (acct_refcount_dup c _ s' p h2)) (fun q _ => by simp)

theorem due_init_engine_handle (name : String) (o : init_outcome) :
    0 ≤ due (init_engine_handle calloc_handle name o).1 ∧
    0 ≤ due { (init_engine_handle calloc_handle name o).1 with pe := true } := by
  cases o <;> simp [init_engine_handle, calloc_handle, due]

theorem acct_create_bucket (c : Nat) (s : bucket_engine) (name : String) (env : create_env)
    (want_out : Bool) (msg : Option Nat) (r : bucket_engine × create_result)
    (h : create_bucket s name env want_out msg = .ok r) :
    acct_step c (fun q => if r.2.e_out = some q then 1 else 0) s r.1 := by
  unfold create_bucket at h
  by_cases hv : ¬ has_valid_bucket_name name.data = true
  · rw [if_pos hv] at h
    cases h
    exact acct_mono (acct_refl c s) (fun q _ => by simp)
  rw [if_neg hv] at h
  by_cases hca : ¬ env.calloc_ok = true
  · rw [if_pos hca] at h
    cases h
    exact acct_mono (acct_refl c s) (fun q _ => by simp)
  rw [if_neg hca] at h
  simp only [] at h
  obtain ⟨hd0, hd1⟩ := due_init_engine_handle name env.init
  dsimp only at hd1
  have a0 := acct_append c s (init_engine_handle calloc_handle name env.init).1
  have a1 := acct_append c s { (init_engine_handle calloc_handle name env.init).1 with pe := true }
  by_cases hinit : (init_engine_handle calloc_handle name env.init).2 ≠ ENGINE_SUCCESS
  · rw [if_pos hinit] at h
    simp only [bind_eq_ok, pure_eq_ok] at h
    obtain ⟨s1, hs1, h⟩ := h
    subst h
    refine acct_mono (acct_trans a0 (acct_release_memory c _ s1 _ hs1)) ?_
    intro q _
    dsimp only
    simp only [reduceCtorEq, if_false]
    split_ifs <;> omega
  rw [if_neg hinit] at h
  by_cases hload : ¬ env.load_ok = true
  · rw [if_pos hload] at h
    simp only [bind_eq_ok, pure_eq_ok, free_engine_handle] at h
    obtain ⟨s1, hs1, h⟩ := h
    subst h
    refine acct_mono (acct_trans a0 (acct_release_memory c _ s1 _ hs1)) ?_
    intro q _
    dsimp only
    simp only [reduceCtorEq, if_false]
    split_ifs <;> omega
  rw [if_neg hload] at h
  simp only [find_bucket_inner] at h
  cases hfind : genhash_find s.engines name with
  | some tmppeh =>
    simp only [hfind, bind_eq_ok, pure_eq_ok, free_engine_handle] at h
    obtain ⟨t, _, s3, hs3, h⟩ := h
    subst h
    refine acct_mono (acct_trans (acct_trans a1 (acct_log_call c _ _ _))
      (acct_release_memory c _ s3 _ hs3)) ?_
    intro q _
    dsimp only
    simp only [reduceCtorEq, if_false]
    split_ifs <;> omega
  | none =>
    simp only [hfind, bind_eq_ok] at h
    obtain ⟨s2, hs2, h⟩ := h
    have a2 := acct_trans (acct_trans a1 (acct_genhash_update c _ s2 name s.heap.length hs2))
      (acct_log_call c s2 s.heap.length engine_op.initialize_call)
    by_cases hini : env.initialize_ok = true
    · rw [if_pos hini] at h
      by_cases hw : want_out = true
      · rw [if_pos hw] at h
        simp only [pure_eq_ok] at h
        subst h
        refine acct_mono a2 ?_
        intro q _
        dsimp only
        simp only [Option.some.injEq, reduceCtorEq, if_false]
        split_ifs <;> omega
      · rw [if_neg hw] at h
        simp only [bind_eq_ok, pure_eq_ok] at h
        obtain ⟨s4, hs4, h⟩ := h
        subst h
        refine acct_mono (acct_trans a2 (acct_release_handle c _ s4 _ hs4)) ?_
        intro q _
        dsimp only
        simp only [Option.some.injEq, reduceCtorEq, if_false]
        split_ifs <;> omega
    · rw [if_neg hini] at h
      simp only [bind_eq_ok, pure_eq_ok, free_engine_handle] at h
      obtain ⟨r4, hr4, s5, hs5, h⟩ := h
      subst h
      refine acct_mono (acct_trans (acct_trans (acct_trans a2 (acct_log_call c _ _ _))
        (acct_genhash_delete_all c _ name r4 hr4)) (acct_release_memory c _ s5 _ hs5)) ?_
      intro q _
      dsimp only
      simp only [reduceCtorEq, if_false]
      split_ifs <;> omega

theorem acct_handle_create_bucket (c : Nat) (s : bucket_engine)
    (req : protocol_binary_request_header) (env : create_env)
    (r : bucket_engine × ENGINE_ERROR_CODE)
    (h : handle_create_bucket s c req env = .ok r) : acct_step c (fun _ => 0) s r.1 := by
  unfold handle_create_bucket at h
  simp only [] at h
  by_cases hb : 2 ^ 16 ≤ request_bodylen req
  · rw [if_pos hb] at h
    cases h
    exact acct_refl c s
  rw [if_neg hb] at h
  by_cases hbody : request_body req = []
  · rw [if_pos hbody] at h
    cases h
    exact acct_response c s _ _ _ _
  rw [if_neg hbody] at h
  simp only [bind_eq_ok, pure_eq_ok] at h
  obtain ⟨t, ht, h⟩ := h
  subst h
  refine acct_zero_trans (acct_mono (acct_create_bucket c s _ env false _ t ht) ?_)
    (acct_response c t.1 _ _ _ _)
  intro q _
  dsimp only
  split_ifs <;> omega

theorem acct_handle_delete_bucket (c : Nat) (s : bucket_engine)
    (req : protocol_binary_request_header) (r : bucket_engine × ENGINE_ERROR_CODE)
    (h : handle_delete_bucket s c req = .ok r) : acct_step c (fun _ => 0) s r.1 := by
  unfold handle_delete_bucket at h
  simp only [bind_eq_ok] at h
  obtain ⟨userdata, _, h⟩ := h
  cases userdata with
  | some d =>
    simp only [bind_eq_ok, pure_eq_ok] at h
    obtain ⟨s1, hs1, h⟩ := h
    subst h
    exact acct_zero_trans (acct_bucket_store_engine_specific c s s1 none hs1)
      (acct_response c s1 _ _ _ _)
  | none =>
    simp only [] at h
    by_cases hb : 2 ^ 16 ≤ request_bodylen req
    · rw [if_pos hb] at h
      cases h
      exact acct_refl c s
    rw [if_neg hb] at h
    generalize (if request_body req = [] then some false else req.parse_force) = parsed at h
    cases parsed with
    | none =>
      cases h
      exact acct_response c s _ _ _ _
    | some force =>
      simp only [bind_eq_ok] at h
      obtain ⟨f, hf, h⟩ := h
      have af := acct_find_bucket c s _ f hf
      cases hf2 : f.2 with
      | none =>
        simp only [hf2, pure_eq_ok] at h
        subst h
        exact acct_zero_trans (acct_mono af (fun q _ => by simp [hf2]))
          (acct_response c f.1 _ _ _ _)
      | some p =>
        simp only [hf2, bind_eq_ok] at h
        obtain ⟨peh, hd, h⟩ := h
        rw [deref_eq_ok] at hd
        have key : ∀ (peh2 : proxied_engine_handle_t) (es : engine_specific_t),
            (get_conn f.1 c).es = some es → due peh - 1 ≤ due peh2 →
            acct_step c (fun _ => 0) s (store_handle (if es.peh = some p
              then store_es f.1 c (some { es with peh := none }) else f.1) p peh2) := by
          intro peh2 es hes hdue hi hs
          obtain ⟨hi1, hs1, _⟩ := af hi hs
          have hr := (hs1 c).1 es hes
          have a1 : acct_step c (fun _ => 0) f.1 (if es.peh = some p
              then store_es f.1 c (some { es with peh := none }) else f.1) := by
            split
            · exact acct_mono (acct_store_es_some c f.1 es { es with peh := none } hes hr)
                (fun q _ => by dsimp only; simp only [reduceCtorEq, if_false]; split_ifs <;> omega)
            · exact acct_refl c f.1
          have hp1 : (if es.peh = some p
              then store_es f.1 c (some { es with peh := none }) else f.1).heap[p]? =
              some peh := by
            split <;> exact hd.1
          refine acct_mono (acct_trans (acct_trans af a1) (acct_store_handle c _ p peh peh2 hp1))
            ?_ hi hs
          intro q _
          dsimp only
          simp only [hf2, Option.some.injEq]
          split_ifs <;> omega
        by_cases hr : peh.state = STATE_RUNNING
        · simp only [hr, decide_True, if_true, bind_eq_ok] at h
          obtain ⟨peh1, hpeh1, h⟩ := h
          have hd1 : due peh1 = due peh := by
            rw [due_release_handle_locked _ _ hpeh1]
            simp [due, set_state, hr]
          cases hes : (get_conn f.1 c).es with
          | none =>
            rw [hes] at h
            cases h
          | some es =>
            rw [hes] at h
            simp only [bind_eq_ok, pure_eq_ok] at h
            obtain ⟨peh2, hpeh2, s3, hs3, h⟩ := h
            subst h
            have hd2 := due_release_handle_locked _ _ hpeh2
            exact acct_zero_trans (key peh2 es hes (by omega))
              (acct_bucket_store_engine_specific c _ s3 _ hs3)
        · simp only [hr, decide_False, if_false, Bool.false_eq_true] at h
          cases hes : (get_conn f.1 c).es with
          | none =>
            rw [hes] at h
            simp only [bind_eq_ok, pure_eq_ok] at h
            obtain ⟨_, _, h⟩ := h
            cases h
          | some es =>
            rw [hes] at h
            simp only [bind_eq_ok, pure_eq_ok] at h
            obtain ⟨peh1, hpeh1, peh2, hpeh2, h⟩ := h
            subst hpeh1
            subst h
            have hd2 := due_release_handle_locked _ _ hpeh2
            exact acct_zero_trans (key peh2 es hes (by omega)) (acct_response c _ _ _ _ _)

theorem acct_attach_tail (c : Nat) (s s1 s' : bucket_engine) (peh : Option Nat)
    (s2 : bucket_engine × Option Nat)
    (a : acct_step c (fun q => if peh = some q then 1 else 0) s s1)
    (hs2 : set_engine_handle s1 c peh = .ok s2)
    (h : release_handle s2.1 peh = .ok s') : acct_step c (fun _ => 0) s s' := by
  refine acct_mono (acct_trans (acct_trans a (acct_set_engine_handle c s1 peh s2 hs2))
    (acct_release_handle c s2.1 s' peh h)) ?_
  intro q _
  dsimp only
  split_ifs <;> omega

theorem acct_find_or_create (c : Nat) (s : bucket_engine) (name : String) (env : create_env)
    (f : bucket_engine × Option Nat) (t : bucket_engine × create_result)
    (hf : find_bucket s name = .ok f) (hf2 : f.2 = none)
    (ht : create_bucket f.1 name env true none = .ok t) :
    acct_step c (fun q => if t.2.e_out = some q then 1 else 0) s t.1 := by
  refine acct_mono (acct_trans (acct_find_bucket c s name f hf)
    (acct_create_bucket c f.1 name env true none t ht)) ?_
  intro q _
  dsimp only
  simp only [hf2, reduceCtorEq, if_false]
  omega

theorem acct_handle_auth (c : Nat) (s s' : bucket_engine) (username : String)
    (env : create_env) (h : handle_auth s c username env = .ok s') :
    acct_step c (fun _ => 0) s s' := by
  unfold handle_auth at h
  simp only [bind_eq_ok] at h
  obtain ⟨f, hf, h⟩ := h
  by_cases hc : f.2 = none ∧ s.auto_create = true
  · rw [if_pos hc] at h
    simp only [bind_eq_ok, pure_eq_ok] at h
    obtain ⟨t, ht, r, hr, s2, hs2, h⟩ := h
    subst hr
    exact acct_attach_tail c s t.1 s' t.2.e_out s2
      (acct_find_or_create c s username env f t hf hc.1 ht) hs2 h
  · rw [if_neg hc] at h
    simp only [bind_eq_ok, pure_eq_ok] at h
    obtain ⟨r, hr, s2, hs2, h⟩ := h
    subst hr
    exact acct_attach_tail c s f.1 s' f.2 s2 (acct_find_bucket c s username f hf) hs2 h

theorem acct_handle_connect (c : Nat) (s s' : bucket_engine) (env : create_env)
    (h : handle_connect s c env = .ok s') : acct_step c (fun _ => 0) s s' := by
  unfold handle_connect at h
  have tail : ∀ (s0 s1 : bucket_engine) (peh : Option Nat) (s2 : bucket_engine × Option Nat),
      acct_step c (fun q => if peh = some q then 1 else 0) s s0 →
      create_engine_specific s0 c = .ok s1 → set_engine_handle s1 c peh = .ok s2 →
      release_handle s2.1 peh = .ok s' → acct_step c (fun _ => 0) s s' := by
    intro s0 s1 peh s2 a h1 h2 h3
    refine acct_attach_tail c s s1 s' peh s2 ?_ h2 h3
    exact acct_mono (acct_trans a (acct_create_engine_specific c s0 s1 h1)) (fun q _ => by simp)
  cases hd : s.default_bucket_name with
  | some name =>
    simp only [hd, bind_eq_ok] at h
    obtain ⟨f, hf, h⟩ := h
    by_cases hc : f.2 = none ∧ s.auto_create = true
    · rw [if_pos hc] at h
      simp only [bind_eq_ok, pure_eq_ok] at h
      obtain ⟨t, ht, r, hr, s1, hs1, s2, hs2, h⟩ := h
      subst hr
      exact tail t.1 s1 t.2.e_out s2 (acct_find_or_create c s name env f t hf hc.1 ht) hs1 hs2 h
    · rw [if_neg hc] at h
      simp only [bind_eq_ok, pure_eq_ok] at h
      obtain ⟨r, hr, s1, hs1, s2, hs2, h⟩ := h
      subst hr
      exact tail f.1 s1 f.2 s2 (acct_find_bucket c s name f hf) hs1 hs2 h
  | none =>
    simp only [hd] at h
    by_cases hpe : (s.heap.getD 0 calloc_handle).pe = true
    · rw [if_pos hpe] at h
      simp only [bind_eq_ok] at h
      obtain ⟨t, ht, h⟩ := h
      by_cases hc : t.2 = some 0
      · rw [if_pos hc] at h
        simp only [bind_eq_ok, pure_eq_ok] at h
        obtain ⟨r, hr, s1, hs1, s2, hs2, h⟩ := h
        subst hr
        exact tail t.1 s1 t.2 s2 (acct_retain_handle c s (some 0) t ht) hs1 hs2 h
      · rw [if_neg hc] at h
        simp only [bind_eq_ok] at h
        obtain ⟨_, hr, _⟩ := h
        cases hr
    · rw [if_neg hpe] at h
      simp only [bind_eq_ok, pure_eq_ok] at h
      obtain ⟨r, hr, s1, hs1, s2, hs2, h⟩ := h
      subst hr
      exact tail s s1 none s2 (acct_mono (acct_refl c s) (fun q _ => by simp)) hs1 hs2 h

theorem acct_bucket_unknown_command (c : Nat) (s : bucket_engine)
    (req : protocol_binary_request_header) (env : command_env)
    (r : bucket_engine × ENGINE_ERROR_CODE)
    (h : bucket_unknown_command s c req env = .ok r) : acct_step c (fun _ => 0) s r.1 := by
  unfold bucket_unknown_command at h
  split at h
  · split at h
    · split at h
      · exact acct_handle_create_bucket c s _ _ r h
      · exact acct_handle_create_bucket c s _ _ r h
      · exact acct_handle_delete_bucket c s _ r h
      · exact acct_handle_delete_bucket c s _ r h
      · exact acct_handle_list_buckets c s r h
      · exact acct_handle_list_buckets c s r h
      · exact acct_handle_select_bucket c s _ r h
      · exact acct_handle_select_bucket c s _ r h
      · cases h
    · cases h
      exact acct_refl c s
  · exact acct_proxied_call c s _ _ r h

theorem acct_engine_shutdown_thread (c : Nat) (s s' : bucket_engine) (p i : Nat)
    (h : engine_shutdown_thread s p i = .ok s') : acct_step c (fun _ => 0) s s' := by
  unfold engine_shutdown_thread at h
  simp only [bind_eq_ok] at h
  obtain ⟨e, hd, h⟩ := h
  rw [deref_eq_ok] at hd
  split at h
  · cases h
  · split at h
    · cases h
    · split at h
      · cases h
      · simp only [pure_eq_ok] at h
        subst h
        exact acct_zero_trans (acct_log_call c s p _)
          (acct_mono (acct_store_handle c _ p e _ hd.1) (fun q _ => by simp [due]))
  · simp only [bind_eq_ok] at h
    obtain ⟨r, hr, h⟩ := h
    split at h
    · cases h
    · simp only [bind_eq_ok, pure_eq_ok] at h
      obtain ⟨e1, hd1, h⟩ := h
      subst h
      rw [deref_eq_ok] at hd1
      exact acct_zero_trans (acct_genhash_delete_all c s _ r hr)
        (acct_mono (acct_store_handle c _ p e1 _ hd1.1) (fun q _ => by simp [due]))
  · simp only [pure_eq_ok] at h
    subst h
    have a1 : acct_step c (fun _ => 0) s (match e.cookie with
        | some c1 => { s with io_complete := s.io_complete ++ [c1] }
        | none => s) := by
      cases e.cookie
      · exact acct_refl c s
      · exact acct_of_same c s _ rfl rfl
    have hp1 : (match e.cookie with
        | some c1 => { s with io_complete := s.io_complete ++ [c1] }
        | none => s).heap[p]? = some e := by
      cases e.cookie <;> exact hd.1
    refine acct_zero_trans a1 (acct_mono (acct_store_handle c _ p e _ hp1) ?_)
    intro q _
    simp only [due, set_state]
    split_ifs <;> simp_all
  · split at h
    · cases h
    · simp only [pure_eq_ok] at h
      subst h
      exact acct_mono (acct_store_handle c _ p e _ hd.1) (fun q _ => by simp [due])
  · cases h

theorem Acct_of_acct (c : Nat) (s s' : bucket_engine) (a : acct_step c (fun _ => 0) s s')
    (hi : quiet (get_conn s c)) (ha : Acct s) : Acct s' := by
  obtain ⟨_, h2, h3⟩ := a hi ha.conns
  refine ⟨h2, ?_⟩
  intro q hq
  have := h3 q hq
  have := ha.refs q hq
  simp only [] at *
  omega

theorem get_conn_length (s : bucket_engine) : get_conn s s.conns.length = no_conn := by
  unfold get_conn
  simp [List.getD_eq_getElem?_getD]

theorem Acct_of_handles (s s' : bucket_engine)
    (a : acct_step s.conns.length (fun _ => 0) s s') (ha : Acct s) : Acct s' :=
  Acct_of_acct s.conns.length s s' a (by rw [get_conn_length]; exact ⟨rfl, rfl⟩) ha

theorem Acct_set_conn (s : bucket_engine) (c : Nat) (v : conn_t) (ha : Acct s)
    (hes : v.es = (get_conn s c).es) (hv : conn_ok v) : Acct (set_conn s c v) := by
  refine ⟨conn_ok_set_conn s c v ha.conns hv, ?_⟩
  intro q hq
  rw [slack_set_conn]
  have := ha.refs q hq
  have hpt : points_at q v = points_at q (get_conn s c) := by
    unfold points_at
    rw [hes]
  rw [hpt]
  omega

theorem get_engine_handle_points_at (s s' : bucket_engine) (c p : Nat)
    (h : get_engine_handle s c = .ok (s', some p)) (hp : p ≠ 0) :
    points_at p (get_conn s' c) = true := by
  obtain ⟨e, _, _, hs⟩ := get_engine_handle_some s s' c p h
  rw [hs, get_conn_store_handle]
  unfold get_engine_handle at h
  cases hes : (get_conn s c).es with
  | none =>
    rw [hes] at h
    cases h
  | some es =>
    rw [hes] at h
    cases hres : resolve_handle s es with
    | none =>
      simp only [hres] at h
      cases h
    | some p' =>
      simp only [hres, bind_eq_ok] at h
      obtain ⟨e', _, h⟩ := h
      have hpp : p' = p := by
        split at h
        · simp only [bind_eq_ok, pure_eq_ok] at h
          obtain ⟨_, _, h⟩ := h
          cases h
        · simp only [pure_eq_ok] at h
          cases h
          rfl
      subst hpp
      unfold resolve_handle at hres
      cases hpeh : es.peh with
      | none =>
        rw [hpeh] at hres
        simp only [] at hres
        split at hres
        · cases hres
          exact absurd rfl hp
        · cases hres
      | some p2 =>
        rw [hpeh] at hres
        cases hres
        simp [points_at, hes, hpeh]

theorem try_get_engine_handle_points_at (s s' : bucket_engine) (c p : Nat)
    (h : try_get_engine_handle s c = .ok (s', some p)) :
    points_at p (get_conn s' c) = true := by
  obtain ⟨e, _, _, hs⟩ := try_get_engine_handle_some s s' c p h
  rw [hs, get_conn_store_handle]
  unfold try_get_engine_handle at h
  cases hes : (get_conn s c).es with
  | none =>
    rw [hes] at h
    cases h
  | some es =>
    rw [hes] at h
    cases hpeh : es.peh with
    | none =>
      simp only [hpeh] at h
      cases h
    | some p' =>
      simp only [hpeh, bind_eq_ok] at h
      obtain ⟨e', _, h⟩ := h
      split at h
      · simp only [pure_eq_ok] at h
        cases h
        simp [points_at, hes, hpeh]
      · simp only [pure_eq_ok] at h
        cases h

theorem Acct_enter (s : bucket_engine) (c p : Nat) (op : engine_op) (ha : Acct s)
    (hpt : p ≠ 0 → points_at p (get_conn s c) = true) :
    Acct (set_inside (log_call s p op) c (some p)) := by
  have h1 : Acct (log_call s p op) :=
    ⟨conn_ok_of_conns s _ rfl ha.conns, fun q hq => by
      rw [slack_of_eq s (log_call s p op) rfl rfl q]; exact ha.refs q hq⟩
  unfold set_inside
  refine Acct_set_conn _ c _ h1 rfl ⟨?_, ?_, ?_⟩
  · exact (h1.conns c).1
  · intro p' hp' hne
    simp only [Option.some.injEq] at hp'
    subst hp'
    rw [get_conn_log_call]
    have := hpt hne
    unfold points_at at this ⊢
    exact this
  · exact (h1.conns c).2.2

theorem Acct_step (s s' : bucket_engine) (l : label) (hl : is_reservation l = false)
    (ha : Acct s) (h : step s l = .ok s') : Acct s' := by
  cases l with
  | connect cookie env =>
    simp only [step, bind_eq_ok] at h
    obtain ⟨u, hu, h⟩ := h
    rw [idle_eq_ok] at hu
    exact Acct_of_acct cookie s s' (acct_handle_connect cookie s s' env h) hu ha
  | auth cookie username env =>
    simp only [step, bind_eq_ok] at h
    obtain ⟨u, hu, h⟩ := h
    rw [idle_eq_ok] at hu
    have h1 : Acct (set_conn s cookie { get_conn s cookie with auth_user := some username }) :=
      Acct_set_conn s cookie _ ha rfl
        ⟨(ha.conns cookie).1, (ha.conns cookie).2.1, (ha.conns cookie).2.2⟩
    refine Acct_of_acct cookie _ s' (acct_handle_auth cookie _ s' username env h) ?_ h1
    rw [get_conn_set_conn, if_pos rfl]
    exact hu
  | disconnect cookie =>
    simp only [step, bind_eq_ok] at h
    obtain ⟨u, hu, a, hcb, h⟩ := h
    rw [idle_eq_ok] at hu
    cases a with
    | none => exact Acct_of_acct cookie s s' (acct_handle_disconnect cookie s s' h) hu ha
    | some p =>
      simp only [pure_eq_ok] at h
      subst h
      have hpt := handle_disconnect_callback_points_at s cookie p hcb
      have h1 : Acct (log_call s p engine_op.on_disconnect) :=
        ⟨conn_ok_of_conns s _ rfl ha.conns, fun q hq => by
          rw [slack_of_eq s (log_call s p engine_op.on_disconnect) rfl rfl q]
          exact ha.refs q hq⟩
      unfold set_callback
      refine Acct_set_conn _ cookie _ h1 rfl ⟨(h1.conns cookie).1, (h1.conns cookie).2.1, ?_⟩
      intro p' hp'
      simp only [Option.some.injEq] at hp'
      subst hp'
      rw [get_conn_log_call]
      unfold points_at at hpt ⊢
      exact hpt
  | disconnect_return cookie =>
    simp only [step] at h
    cases hcb : (get_conn s cookie).callback with
    | none =>
      rw [hcb] at h
      cases h
    | some p =>
      rw [hcb] at h
      cases hin : (get_conn s cookie).inside with
      | some q =>
        rw [hin] at h
        cases h
      | none =>
        rw [hin] at h
        simp only [] at h
        have hpt : points_at p (get_conn s cookie) = true := (ha.conns cookie).2.2 p hcb
        have h1 : Acct (set_callback s cookie none) := by
          unfold set_callback
          refine Acct_set_conn s cookie _ ha rfl
            ⟨(ha.conns cookie).1, (ha.conns cookie).2.1, ?_⟩
          intro p' hp'
          cases hp'
        have hq : quiet (get_conn (set_callback s cookie none) cookie) := by
          unfold set_callback
          rw [get_conn_set_conn, if_pos rfl]
          exact ⟨hin, rfl⟩
        have hpt1 : points_at p (get_conn (set_callback s cookie none) cookie) = true := by
          unfold set_callback
          rw [get_conn_set_conn, if_pos rfl]
          unfold points_at at hpt ⊢
          exact hpt
        exact Acct_of_acct cookie _ s'
          (acct_handle_disconnect_release cookie _ s' p hpt1 h) hq h1
  | register_callback eh =>
    exact Acct_of_handles s s' (acct_bucket_register_callback _ s s' eh h) ha
  | command cookie request env =>
    simp only [step, bind_eq_ok, pure_eq_ok] at h
    obtain ⟨u, hu, r, hr, h⟩ := h
    subst h
    rw [idle_eq_ok] at hu
    exact Acct_of_acct cookie s r.1 (acct_bucket_unknown_command cookie s request env r hr) hu ha
  | enter cookie op =>
    simp only [step, bind_eq_ok] at h
    obtain ⟨u, hu, g, hg, h⟩ := h
    rw [idle_eq_ok] at hu
    have hg1 : Acct g.1 := Acct_of_acct cookie s g.1 (acct_get_engine_handle cookie s g hg) hu ha
    cases hg2 : g.2 with
    | none =>
      simp only [hg2, pure_eq_ok] at h
      subst h
      exact hg1
    | some p =>
      simp only [hg2, pure_eq_ok] at h
      subst h
      exact Acct_enter g.1 cookie p op hg1
        (get_engine_handle_points_at s g.1 cookie p (by rw [hg, ← hg2]))
  | try_enter cookie op =>
    simp only [step, bind_eq_ok] at h
    obtain ⟨u, hu, g, hg, h⟩ := h
    rw [idle_eq_ok] at hu
    have hg1 : Acct g.1 :=
      Acct_of_acct cookie s g.1 (acct_try_get_engine_handle cookie s g hg) hu ha
    cases hg2 : g.2 with
    | none =>
      simp only [hg2, pure_eq_ok] at h
      subst h
      exact hg1
    | some p =>
      simp only [hg2, pure_eq_ok] at h
      subst h
      exact Acct_enter g.1 cookie p op hg1
        (fun _ => try_get_engine_handle_points_at s g.1 cookie p (by rw [hg, ← hg2]))
  | leave cookie =>
    simp only [step] at h
    cases hin : (get_conn s cookie).inside with
    | none =>
      rw [hin] at h
      cases h
    | some p =>
      rw [hin] at h
      simp only [bind_eq_ok, pure_eq_ok] at h
      obtain ⟨s1, hs1, h⟩ := h
      subst h
      have h1 : Acct s1 := Acct_of_handles s s1 (acct_release_engine_handle _ s s1 p hs1) ha
      unfold set_inside
      refine Acct_set_conn s1 cookie _ h1 rfl
        ⟨(h1.conns cookie).1, ?_, (h1.conns cookie).2.2⟩
      intro p' hp'
      cases hp'
  | reserve cookie => cases hl
  | release cookie => cases hl
  | shutdown p i =>
    exact Acct_of_handles s s' (acct_engine_shutdown_thread _ s s' p i h) ha

theorem Acct_bucket_initialized (cfg : config) : Acct (bucket_initialized cfg) := by
  constructor
  · intro c
    have : get_conn (bucket_initialized cfg) c = no_conn := by
      simp [get_conn, bucket_initialized]
    rw [this]
    exact ⟨fun es h => (by cases h), fun p h => (by cases h), fun p h => (by cases h)⟩
  · intro q hq
    obtain ⟨k, rfl⟩ : ∃ k, q = k + 1 := ⟨q - 1, by omega⟩
    simp [slack, due_of, attached, bucket_initialized]

theorem reachable_of_unreserved (cfg : config) (s : bucket_engine)
    (h : ReachableUnreserved cfg s) : Reachable cfg s := by
  induction h with
  | init => exact Reachable.init
  | step s s' l _ _ hs ih => exact Reachable.step s s' l ih hs

theorem Acct_reachable (cfg : config) (s : bucket_engine)
    (h : ReachableUnreserved cfg s) : Acct s := by
  induction h with
  | init => exact Acct_bucket_initialized cfg
  | step s s' l _ hl hs ih => exact Acct_step s s' l hl ih hs

theorem inside_le_attached (s : bucket_engine) (p : Nat) (ha : Acct s) (hp : p ≠ 0) :
    inside_count s p ≤ attached s p := by
  unfold inside_count attached
  apply List.countP_mono_left
  intro x hx hin
  obtain ⟨i, hi, rfl⟩ := List.getElem_of_mem hx
  have hc := ha.conns i
  have hg : get_conn s i = s.conns[i] := by
    unfold get_conn
    simp [List.getD_eq_getElem?_getD, List.getElem?_eq_getElem hi]
  rw [hg] at hc
  exact hc.2.1 p (by simpa using hin) hp

theorem unreserved_run (cfg : config) (ls : List label) :
    ∀ s s' : bucket_engine, ReachableUnreserved cfg s →
      ls.all (fun l => ! is_reservation l) = true → run s ls = .ok s' →
      ReachableUnreserved cfg s' := by
  induction ls with
  | nil =>
    intro s s' hr _ h
    simp only [run, Except.ok.injEq] at h
    subst h
    exact hr
  | cons l ls ih =>
    intro s s' hr hall h
    simp only [List.all_cons, Bool.and_eq_true, Bool.not_eq_true'] at hall
    simp only [run, bind_eq_ok] at h
    obtain ⟨s1, h1, h2⟩ := h
    exact ih s1 s' (ReachableUnreserved.step s s1 l hr hall.1 h1) hall.2 h2

theorem clients_exceed_refcount (h : proxied_engine_handle_t) (hr : h.refcount = 1)
    (hc : h.clients = 2) : ¬ h.clients ≤ h.refcount := by
  omega

/-- C3 (counterexample): with a default engine, two connections that authenticated as
a user without a bucket are attached to no handle; `get_engine_handle` lets both call
into the default engine without taking a reference, so the default engine has
`clients == 2` and `refcount == 1` in a reachable state. -/
theorem default_engine_clients_exceed_refcount :
    ∃ (s : bucket_engine) (h : proxied_engine_handle_t),
      run (bucket_initialized default_config) unattached_scenario = .ok s ∧
      Reachable default_config s ∧ s.heap[0]? = some h ∧
      h.refcount = 1 ∧ h.clients = 2 ∧ ¬ h.clients ≤ h.refcount :=
  ⟨_, _, rfl,
    reachable_run default_config unattached_scenario _ _ Reachable.init rfl,
    rfl, rfl, rfl, clients_exceed_refcount _ rfl rfl⟩

/-- C3 (amended): for every named bucket handle (every handle but the default engine)
in every state reached without cookie reservations, `clients` is the number of
connections inside the engine, each of them is attached to the handle, and the reference
count covers the attached connections and, while the bucket is RUNNING, the engine
table; so `refcount >= clients`. -/
theorem named_bucket_refcount_covers_clients (cfg : config) (s : bucket_engine) (p : Nat)
    (h : proxied_engine_handle_t) (hr : ReachableUnreserved cfg s)
    (hp : s.heap[p]? = some h) (hne : p ≠ 0) :
    h.clients ≤ h.refcount ∧ h.clients = inside_count s p ∧
    inside_count s p ≤ attached s p ∧
    (attached s p : Int) + (if h.state = STATE_RUNNING then 1 else 0) ≤ h.refcount := by
  have ha := Acct_reachable cfg s hr
  have hi := Inv_reachable cfg s (reachable_of_unreserved cfg s hr)
  have hc : h.clients = inside_count s p := by
    have := hi.clients p
    unfold clients_of at this
    rw [hp] at this
    exact this
  have hle := inside_le_attached s p ha hne
  have hs := ha.refs p hne
  unfold slack due_of at hs
  rw [hp] at hs
  simp only [due] at hs
  refine ⟨?_, hc, hle, ?_⟩
  · split_ifs at hs <;> omega
  · split_ifs at hs ⊢ <;> omega

/-- C3 (amended) at a reachable state: after `call_scenario` the handle of "b" has one
client inside and two references (the engine table and the attached connection). -/
theorem named_bucket_refcount_covers_clients_witness :
    ∃ (s : bucket_engine) (h : proxied_engine_handle_t),
      run (bucket_initialized sample_config) call_scenario = .ok s ∧
      s.heap[1]? = some h ∧ h.clients = 1 ∧ h.refcount = 2 ∧ h.clients ≤ h.refcount :=
  ⟨_, _, rfl, rfl, rfl, rfl,
    (named_bucket_refcount_covers_clients sample_config _ 1 _
      (unreserved_run sample_config call_scenario _ _ ReachableUnreserved.init rfl rfl)
      rfl (by decide)).1⟩

/-- C12: for a request with one of the eight admin opcodes, `bucket_unknown_command`
runs the handler of the opcode if `is_authorized` holds and otherwise returns
ENGINE_ENOTSUP with the state as it was; `is_authorized` holds exactly when the bypass
variable is set, or an admin user is configured and the authenticated username of the
connection equals it. With no admin user and no bypass no connection is authorized. -/
theorem admin_command_iff_authorized (s : bucket_engine) (cookie : Nat)
    (req : protocol_binary_request_header) (env : command_env)
    (hadmin : is_admin_command req.opcode = true) :
    (is_authorized s cookie = true ↔
      (s.disable_auth = true ∨
        ∃ admin, s.admin_user = some admin ∧ (get_conn s cookie).auth_user = some admin)) ∧
    (is_authorized s cookie = true →
      ((req.opcode = opcode_t.CREATE_BUCKET ∨ req.opcode = opcode_t.CREATE_BUCKET_DEPRECATED) →
        bucket_unknown_command s cookie req env =
          handle_create_bucket s cookie req env.create) ∧
      ((req.opcode = opcode_t.DELETE_BUCKET ∨ req.opcode = opcode_t.DELETE_BUCKET_DEPRECATED) →
        bucket_unknown_command s cookie req env = handle_delete_bucket s cookie req) ∧
      ((req.opcode = opcode_t.LIST_BUCKETS ∨ req.opcode = opcode_t.LIST_BUCKETS_DEPRECATED) →
        bucket_unknown_command s cookie req env = handle_list_buckets s cookie) ∧
      ((req.opcode = opcode_t.SELECT_BUCKET ∨ req.opcode = opcode_t.SELECT_BUCKET_DEPRECATED) →
        bucket_unknown_command s cookie req env = handle_select_bucket s cookie req)) ∧
    (is_authorized s cookie = false →
      bucket_unknown_command s cookie req env = .ok (s, ENGINE_ENOTSUP)) ∧
    (s.disable_auth = false → s.admin_user = none →
      ∀ c : Nat, is_authorized s c = false) := by
  refine ⟨?_, ?_, ?_, ?_⟩
  · unfold is_authorized
    cases hd : s.disable_auth
    · cases ha : s.admin_user with
      | none => simp
      | some admin =>
        cases hu : (get_conn s cookie).auth_user with
        | none => simp
        | some u =>
          simp only [Bool.false_eq_true, if_false, decide_eq_true_eq, false_or,
            Option.some.injEq, exists_eq_left']
    · simp
  · intro hauth
    unfold bucket_unknown_command
    rw [if_pos hadmin, if_pos hauth]
    refine ⟨?_, ?_, ?_, ?_⟩ <;> rintro (h | h) <;> rw [h]
  · intro hauth
    unfold bucket_unknown_command
    rw [if_pos hadmin, if_neg (by rw [hauth]; decide)]
  · intro hd ha c
    unfold is_authorized
    rw [hd, ha]
    rfl

theorem admin_command_iff_authorized_witness :
    is_admin_command (mk_request opcode_t.LIST_BUCKETS "" "").opcode = true ∧
    is_authorized (sample_state (sample_handle STATE_RUNNING 1 0)) 0 = true ∧
    bucket_unknown_command (sample_state (sample_handle STATE_RUNNING 1 0)) 0
      (mk_request opcode_t.LIST_BUCKETS "" "") cmd_ok =
      handle_list_buckets (sample_state (sample_handle STATE_RUNNING 1 0)) 0 :=
  ⟨rfl, rfl,
    ((admin_command_iff_authorized (sample_state (sample_handle STATE_RUNNING 1 0)) 0
      (mk_request opcode_t.LIST_BUCKETS "" "") cmd_ok rfl).2.1 rfl).2.2.1 (Or.inl rfl)⟩

theorem mem_lookup_of_nodup (l : List (String × Nat)) (k : String) (v : Nat)
    (hnd : (l.map Prod.fst).Nodup) (hm : (k, v) ∈ l) : l.lookup k = some v := by
  induction l with
  | nil => simp at hm
  | cons kv rest ih =>
    obtain ⟨a, b⟩ := kv
    simp only [List.map_cons, List.nodup_cons] at hnd
    simp only [List.mem_cons, Prod.mk.injEq] at hm
    simp only [List.lookup_cons]
    rcases hm with ⟨rfl, rfl⟩ | hm
    · simp
    · have hne : k ≠ a := by
        intro hka
        apply hnd.1
        rw [← hka]
        exact List.mem_map_of_mem Prod.fst hm
      have : (k == a) = false := by simpa using hne
      rw [this]
      exact ih hnd.2 hm

theorem lookup_filter_ne (l : List (String × Nat)) (k : String) :
    (l.filter (fun kv => decide (¬ kv.1 = k))).lookup k = none := by
  cases h : (l.filter (fun kv => decide (¬ kv.1 = k))).lookup k with
  | none => rfl
  | some v =>
    have hm := lookup_some_mem _ _ _ h
    rw [List.mem_filter] at hm
    simp at hm

theorem lookup_append_new (l : List (String × Nat)) (k : String) (v : Nat)
    (h : l.lookup k = none) : (l ++ [(k, v)]).lookup k = some v := by
  induction l with
  | nil => simp [List.lookup_cons]
  | cons kv rest ih =>
    obtain ⟨a, b⟩ := kv
    simp only [List.lookup_cons, List.cons_append] at h ⊢
    cases hka : k == a
    · rw [hka] at h
      exact ih h
    · rw [hka] at h
      cases h

theorem create_bucket_fresh (s : bucket_engine) (name : String) (env : create_env)
    (want_out : Bool) (msg : Option Nat)
    (hv : has_valid_bucket_name name.data = true) (hca : env.calloc_ok = true)
    (hi : env.init = init_outcome.ok) (hl : env.load_ok = true)
    (hini : env.initialize_ok = true)
    (hreg : genhash_find s.engines name = none) :
    create_bucket s name env want_out msg =
      .ok (log_call { s with
              heap := s.heap ++
                [{ (init_engine_handle calloc_handle name init_outcome.ok).1 with
                   pe := true, refcount := if want_out = true then 2 else 1 }],
              engines := s.engines ++ [(name, s.heap.length)] }
              s.heap.length engine_op.initialize_call,
           { rv := ENGINE_SUCCESS, e_out := if want_out = true then some s.heap.length else none,
             msg := none }) := by
  unfold create_bucket
  simp only [hv, hca, hi, hl, not_true_eq_false, if_false]
  have h1 : (init_engine_handle calloc_handle name init_outcome.ok).2 = ENGINE_SUCCESS := rfl
  simp only [h1, ne_eq, not_true_eq_false, if_false, find_bucket_inner, hreg, genhash_update,
    refcount_dup, hini, if_true]
  have hd : deref { s with
      heap := s.heap ++
        [{ (init_engine_handle calloc_handle name init_outcome.ok).1 with pe := true }],
      engines := s.engines ++ [(name, s.heap.length)] } s.heap.length =
      .ok { (init_engine_handle calloc_handle name init_outcome.ok).1 with pe := true } := by
    rw [deref_eq_ok]
    exact ⟨by simp, rfl⟩
  simp only [hd, bind, Except.bind, pure, Except.pure]
  cases want_out
  · simp only [Bool.false_eq_true, if_false, release_handle, deref_log_call]
    rw [deref_store_handle _ _
      { (init_engine_handle calloc_handle name init_outcome.ok).1 with pe := true } _
      (by simp) rfl]
    simp only [bind, Except.bind, pure, Except.pure]
    rw [release_handle_locked_ok _ (by simp [init_engine_handle, calloc_handle])]
    simp [store_handle, log_call, init_engine_handle, calloc_handle,
      maybe_start_engine_shutdown_LOCKED]
  · simp [store_handle, log_call, init_engine_handle, calloc_handle]

theorem engine_shutdown_thread_unlink (s : bucket_engine) (p i : Nat)
    (h : proxied_engine_handle_t) (hi : Inv s) (hp : s.heap[p]? = some h)
    (hf : h.freed = false) (hpc : h.shutdown_threads[i]? = some 1) :
    engine_shutdown_thread s p i =
      .ok (store_handle { s with engines := s.engines.filter (fun kv => ¬ kv.1 = h.name) } p
        { set_state h STATE_NULL with shutdown_threads := h.shutdown_threads.set i 2 }) := by
  have hl := hi.life p h hp
  obtain ⟨ht, _⟩ := lifecycle_ok_thread h i 1 hl hpc
  have hph : registered_phase h := by
    unfold lifecycle_ok at hl
    obtain ⟨hl, _⟩ := hl
    simp only [List.mem_cons, Prod.mk.injEq, List.mem_singleton, List.not_mem_nil, or_false]
      at hl
    rcases hl with h0 | h0 | h0 | h0 | h0 | h0 | h0 | h0 | h0 <;> obtain ⟨h1, _, h3⟩ := h0 <;>
      rw [ht] at h3 <;> first | exact Or.inr h1 | (exact absurd h3 (by decide))
  have hm := hi.registered p h hp hph
  have hd : deref s p = .ok h := (deref_eq_ok s p h).2 ⟨hp, hf⟩
  have hd1 : deref { s with engines := s.engines.filter (fun kv => ¬ kv.1 = h.name) } p =
      .ok h := (deref_eq_ok _ p h).2 ⟨hp, hf⟩
  unfold engine_shutdown_thread
  simp only [hd, bind, Except.bind, hpc, genhash_delete_all,
    filter_key_unique s.engines h.name p hi.nodup hm, free_values, engine_hash_free, hd1,
    pure, Except.pure, List.length_singleton, ne_eq, not_true_eq_false, if_false]
  rw [deref_store_handle { s with engines := s.engines.filter (fun kv => ¬ kv.1 = h.name) }
    p h _ hp (show (set_state h STATE_NULL).freed = false from hf)]
  simp only [store_handle_store_handle]
  rfl

/-- C13: a bucket whose delete was accepted and whose state is STOPPING stays in the
engine table until the teardown thread has run its unlink section, so until then
`create_bucket` with its (valid) name returns ENGINE_KEY_EEXISTS. The unlink section
(`genhash_delete_all`) removes the name from the table and leaves the old handle, with
all the references connections still hold on it, in the heap; a further `create_bucket`
with the same name then returns ENGINE_SUCCESS and installs a new RUNNING handle under
the name, next to the old one. -/
theorem recreate_after_unlink (cfg : config) (s : bucket_engine) (p : Nat)
    (h : proxied_engine_handle_t) (env : create_env) (want_out : Bool) (msg : Option Nat)
    (hr : Reachable cfg s) (hp : s.heap[p]? = some h) (hf : h.freed = false)
    (hst : h.state = STATE_STOPPING) (hv : has_valid_bucket_name h.name.data = true)
    (hca : env.calloc_ok = true) (hin : env.init = init_outcome.ok)
    (hlo : env.load_ok = true) (hini : env.initialize_ok = true) :
    (∃ s', create_bucket s h.name env want_out msg =
        .ok (s', { rv := ENGINE_KEY_EEXISTS, e_out := none,
                   msg := snprintf msg
                     ("Bucket exists: " ++ bucket_state_name STATE_STOPPING) }) ∧
      s'.engines = s.engines) ∧
    (∀ i : Nat, h.shutdown_threads[i]? = some 1 →
      ∃ s1 h1, engine_shutdown_thread s p i = .ok s1 ∧
        genhash_find s1.engines h.name = none ∧
        s1.heap[p]? = some h1 ∧ h1.refcount = h.refcount ∧ h1.state = STATE_NULL ∧
        ∃ s2 fresh, create_bucket s1 h.name env want_out msg =
            .ok (s2, { rv := ENGINE_SUCCESS,
                       e_out := if want_out = true then some s1.heap.length else none,
                       msg := none }) ∧
          genhash_find s2.engines h.name = some s1.heap.length ∧
          s2.heap[s1.heap.length]? = some fresh ∧ fresh.state = STATE_RUNNING ∧
          fresh.name = h.name ∧ fresh.freed = false ∧
          s1.heap.length ≠ p ∧ s2.heap[p]? = some h1) := by
  have hi := Inv_reachable cfg s hr
  have hm := hi.registered p h hp (Or.inr hst)
  have hfind : genhash_find s.engines h.name = some p :=
    mem_lookup_of_nodup s.engines h.name p hi.nodup hm
  have hlt := getElem?_lt_of_eq_some _ _ _ hp
  have hex := create_bucket_exists s h.name env want_out msg p h hv hca hin hlo hfind hp hf
  rw [hst] at hex
  refine ⟨⟨_, hex, rfl⟩, ?_⟩
  · intro i hpc
    have hu := engine_shutdown_thread_unlink s p i h hi hp hf hpc
    have hnone : genhash_find
        (store_handle { s with engines := s.engines.filter (fun kv => ¬ kv.1 = h.name) } p
          { set_state h STATE_NULL with
            shutdown_threads := h.shutdown_threads.set i 2 }).engines h.name = none :=
      lookup_filter_ne s.engines h.name
    have hget : (store_handle
          { s with engines := s.engines.filter (fun kv => ¬ kv.1 = h.name) } p
          { set_state h STATE_NULL with
            shutdown_threads := h.shutdown_threads.set i 2 }).heap[p]? =
        some { set_state h STATE_NULL with
          shutdown_threads := h.shutdown_threads.set i 2 } :=
      store_handle_get _ p h _ hp
    refine ⟨_, _, hu, hnone, hget, rfl, rfl, _,
      { (init_engine_handle calloc_handle h.name init_outcome.ok).1 with
        pe := true, refcount := if want_out = true then 2 else 1 },
      create_bucket_fresh _ h.name env want_out msg hv hca hin hlo hini hnone, ?_, ?_, rfl, rfl,
      rfl, ?_, ?_⟩
    · exact lookup_append_new _ _ _ (lookup_filter_ne s.engines h.name)
    · simp [log_call, store_handle]
    · simp only [store_handle_heap, List.length_set]
      omega
    · simp only [log_call_heap]
      rw [List.getElem?_append_left (by simp only [store_handle_heap, List.length_set]; exact hlt)]
      exact hget

/-- C13 at a reachable state: after `held_delete_scenario` the handle of "b" is STOPPING
with one reference held by the attached connection; creating "b" again is refused until
the unlink section has run. -/
theorem recreate_after_unlink_witness :
    ∃ (s : bucket_engine) (h : proxied_engine_handle_t),
      run (bucket_initialized sample_config) held_delete_scenario = .ok s ∧
      s.heap[1]? = some h ∧ h.refcount = 1 ∧ h.shutdown_threads = [1] ∧
      ∃ s', create_bucket s h.name env_ok false none =
          .ok (s', { rv := ENGINE_KEY_EEXISTS, e_out := none,
                     msg := snprintf none
                       ("Bucket exists: " ++ bucket_state_name STATE_STOPPING) }) ∧
        s'.engines = s.engines :=
  ⟨_, _, rfl, rfl, rfl, rfl,
    (recreate_after_unlink sample_config _ 1 _ env_ok false none
      (reachable_run sample_config held_delete_scenario _ _ Reachable.init rfl)
      rfl rfl rfl (by decide) rfl rfl rfl rfl).1⟩


theorem inc_heap_get (s : bucket_engine) (p q : Nat) (h : proxied_engine_handle_t)
    (hq : s.heap[q]? = some h) :
    (inc s p).heap[q]? =
      some (if q = p then { h with refcount := h.refcount + 1 } else h) := by
  unfold inc
  by_cases hqp : q = p
  · subst hqp
    rw [hq]
    simp only [if_true]
    exact store_handle_get s q h _ hq
  · rw [if_neg hqp]
    cases hp : s.heap[p]? with
    | none => exact hq
    | some e =>
      simp only []
      rw [store_handle_get_ne s p q _ (Ne.symm hqp)]
      exact hq

theorem inc_heap_none (s : bucket_engine) (p q : Nat) (hq : s.heap[q]? = none) :
    (inc s p).heap[q]? = none := by
  unfold inc
  cases hp : s.heap[p]? with
  | none => exact hq
  | some e =>
    simp only [store_handle_heap]
    rw [List.getElem?_eq_none_iff] at hq ⊢
    simpa using hq

theorem is_running_inc (s : bucket_engine) (p : Nat) (kv : String × Nat) :
    is_running (inc s p) kv = is_running s kv := by
  unfold is_running
  cases hq : s.heap[kv.2]? with
  | none => rw [inc_heap_none s p kv.2 hq]
  | some h =>
    rw [inc_heap_get s p kv.2 h hq]
    by_cases hqp : kv.2 = p
    · rw [if_pos hqp]
    · rw [if_neg hqp]

theorem live_inc (s : bucket_engine) (p q : Nat) (h : live s q) : live (inc s p) q := by
  obtain ⟨e, he, hf, hc⟩ := h
  refine ⟨_, inc_heap_get s p q e he, ?_, ?_⟩
  · split <;> exact hf
  · split
    · simp only []
      omega
    · exact hc

theorem inc_engines (s : bucket_engine) (p : Nat) : (inc s p).engines = s.engines := by
  unfold inc
  cases s.heap[p]? <;> rfl

theorem add_engine_running (s : bucket_engine) (bl : List (String × Nat)) (kv : String × Nat)
    (hl : live s kv.2) :
    add_engine (s, bl) kv =
      .ok (if is_running s kv = true then (inc s kv.2, kv :: bl) else (s, bl)) := by
  obtain ⟨h, hp, hf, hc⟩ := hl
  unfold add_engine is_running inc
  simp only [hp, decide_eq_true_eq]
  by_cases hr : h.state = STATE_RUNNING
  · rw [retain_handle_running s kv.2 h hp hf hr hc, if_pos hr]
    rfl
  · rw [retain_handle_not_running s kv.2 h hp hf hr, if_neg hr]
    rfl

theorem genhash_iter_running (es : List (String × Nat)) :
    ∀ (s : bucket_engine) (bl : List (String × Nat)), (∀ kv ∈ es, live s kv.2) →
      genhash_iter s es bl =
        .ok (bump s ((es.filter (is_running s)).map Prod.snd),
          (es.filter (is_running s)).reverse ++ bl) := by
  induction es with
  | nil =>
    intro s bl _
    rfl
  | cons kv rest ih =>
    intro s bl hl
    have hkv := hl kv (List.mem_cons_self _ _)
    have hrest : ∀ x ∈ rest, live s x.2 := fun x hx => hl x (List.mem_cons_of_mem _ hx)
    simp only [genhash_iter, add_engine_running s bl kv hkv, bind, Except.bind]
    by_cases hr : is_running s kv = true
    · simp only [hr, if_true, List.filter_cons, List.map_cons, bump, List.reverse_cons,
        List.append_assoc, List.singleton_append]
      rw [ih (inc s kv.2) (kv :: bl) (fun x hx => live_inc s kv.2 x.2 (hrest x hx))]
      have hfil : rest.filter (is_running (inc s kv.2)) = rest.filter (is_running s) := by
        congr 1
        funext x
        exact is_running_inc s kv.2 x
      rw [hfil]
    · simp only [hr, if_false, List.filter_cons, Bool.false_eq_true]
      exact ih s bl hrest

theorem bucket_list_free_append (a b : List (String × Nat)) :
    ∀ s : bucket_engine,
      bucket_list_free s (a ++ b) = (bucket_list_free s a >>= fun s' => bucket_list_free s' b) := by
  induction a with
  | nil =>
    intro s
    rfl
  | cons kv rest ih =>
    intro s
    simp only [List.cons_append, bucket_list_free]
    cases release_handle s (some kv.2) with
    | error e => rfl
    | ok s1 =>
      simp only [bind, Except.bind]
      exact ih s1

theorem release_handle_inc (s : bucket_engine) (p : Nat) (h : proxied_engine_handle_t)
    (hp : s.heap[p]? = some h) (hf : h.freed = false) (hc : 0 ≤ h.refcount)
    (hr : h.state = STATE_RUNNING) : release_handle (inc s p) (some p) = .ok s := by
  unfold inc release_handle
  simp only [hp]
  rw [deref_store_handle s p h _ hp (show ({ h with refcount := h.refcount + 1 } :
    proxied_engine_handle_t).freed = false from hf)]
  simp only [bind, Except.bind]
  rw [release_handle_locked_ok _ (by simp only []; omega)]
  simp only [pure, Except.pure, store_handle_store_handle]
  rw [maybe_start_running _ (show ({ h with refcount := h.refcount + 1 - 1 } :
    proxied_engine_handle_t).state = STATE_RUNNING from hr)]
  simp only [add_sub_cancel_right]
  rw [store_handle_self s p h hp]

theorem bucket_list_free_bump (l : List (String × Nat)) :
    ∀ s : bucket_engine, (∀ kv ∈ l, live s kv.2 ∧ is_running s kv = true) →
      bucket_list_free (bump s (l.map Prod.snd)) l.reverse = .ok s := by
  induction l with
  | nil =>
    intro s _
    rfl
  | cons kv rest ih =>
    intro s hl
    obtain ⟨⟨h, hp, hf, hc⟩, hr⟩ := hl kv (List.mem_cons_self _ _)
    simp only [List.map_cons, bump, List.reverse_cons]
    rw [bucket_list_free_append,
      ih (inc s kv.2) (fun x hx => ⟨live_inc s kv.2 x.2 (hl x (List.mem_cons_of_mem _ hx)).1,
        by rw [is_running_inc]; exact (hl x (List.mem_cons_of_mem _ hx)).2⟩)]
    simp only [bind, Except.bind, bucket_list_free]
    have hrun : h.state = STATE_RUNNING := by
      unfold is_running at hr
      rw [hp] at hr
      simpa using hr
    rw [release_handle_inc s kv.2 h hp hf hc hrun]

theorem blist_txt_cons (kv : String × Nat) (rest : List (String × Nat)) :
    blist_txt (kv :: rest) = if rest = [] then kv.1 else kv.1 ++ " " ++ blist_txt rest := by
  cases rest with
  | nil => rfl
  | cons a b => rfl

theorem intercalate_go_blist (l : List (String × Nat)) :
    ∀ acc : String, String.intercalate.go acc " " (l.map Prod.fst) =
      if l = [] then acc else acc ++ " " ++ blist_txt l := by
  induction l with
  | nil =>
    intro acc
    rfl
  | cons kv rest ih =>
    intro acc
    simp only [List.map_cons, String.intercalate.go, ih, blist_txt_cons, reduceCtorEq, if_false]
    split
    · rfl
    · simp only [String.append_assoc]

theorem blist_txt_intercalate (l : List (String × Nat)) :
    blist_txt l = " ".intercalate (l.map Prod.fst) := by
  cases l with
  | nil => rfl
  | cons kv rest =>
    simp only [List.map_cons, String.intercalate, intercalate_go_blist, blist_txt_cons]

theorem blist_len_eq (l : List (String × Nat)) :
    blist_len l = (((l.map Prod.fst).map String.length).sum, l.length) := by
  induction l with
  | nil => rfl
  | cons kv rest ih =>
    simp only [blist_len, ih, List.map_cons, List.sum_cons, List.length_cons]

theorem blist_txt_length (l : List (String × Nat)) :
    (blist_txt l).length =
      if (blist_len l).2 = 0 then 0 else (blist_len l).2 + (blist_len l).1 - 1 := by
  induction l with
  | nil => rfl
  | cons kv rest ih =>
    rw [blist_txt_cons]
    simp only [blist_len]
    cases rest with
    | nil =>
      simp [blist_len]
    | cons a b =>
      simp only [reduceCtorEq, if_false, String.length_append, ih]
      simp only [blist_len]
      have : (" " : String).length = 1 := rfl
      rw [this]
      simp only [Nat.add_one_ne_zero, if_false]
      omega

theorem blist_txt_edges (l : List (String × Nat)) (hne : l ≠ [])
    (hn : ∀ kv ∈ l, kv.1.data ≠ [] ∧ ' ' ∉ kv.1.data) :
    (blist_txt l).data.head? ≠ some ' ' ∧ (blist_txt l).data.getLast? ≠ some ' ' := by
  induction l with
  | nil => exact absurd rfl hne
  | cons kv rest ih =>
    obtain ⟨h1, h2⟩ := hn kv (List.mem_cons_self _ _)
    rw [blist_txt_cons]
    have hhead : ∀ t : List Char, (kv.1.data ++ t).head? ≠ some ' ' := by
      intro t
      cases hd : kv.1.data with
      | nil => exact absurd hd h1
      | cons c cs =>
        rw [hd] at h2
        simp only [List.cons_append, List.head?_cons, ne_eq, Option.some.injEq]
        intro hc
        apply h2
        rw [hc]
        exact List.mem_cons_self _ _
    have hlast : kv.1.data.getLast? ≠ some ' ' := by
      intro hl
      apply h2
      exact List.mem_of_getLast?_eq_some hl
    by_cases hr : rest = []
    · rw [if_pos hr]
      refine ⟨?_, hlast⟩
      have := hhead []
      simpa using this
    · rw [if_neg hr]
      obtain ⟨_, ih2⟩ := ih hr (fun x hx => hn x (List.mem_cons_of_mem _ hx))
      refine ⟨?_, ?_⟩
      · simp only [String.data_append, List.append_assoc]
        exact hhead _
      · simp only [String.data_append]
        have hne2 : (blist_txt rest).data ≠ [] := by
          intro h0
          cases hrest : rest with
          | nil => exact hr hrest
          | cons a b =>
            rw [hrest, blist_txt_cons] at h0
            have ha := (hn a (by rw [hrest]; exact List.mem_cons_of_mem _ (List.mem_cons_self _ _))).1
            split at h0
            · exact ha h0
            · simp only [String.data_append, List.append_eq_nil] at h0
              exact ha h0.1.1
        rw [List.getLast?_append_of_ne_nil _ hne2]
        exact ih2

theorem handle_list_buckets_eq (s : bucket_engine) (cookie : Nat)
    (hlive : ∀ kv ∈ s.engines, live s kv.2) :
    handle_list_buckets s cookie =
      .ok (response s cookie "" (" ".intercalate (running_names s))
        PROTOCOL_BINARY_RESPONSE_SUCCESS, ENGINE_SUCCESS) := by
  have hfree := bucket_list_free_bump (s.engines.filter (is_running s)) s (by
    intro kv hkv
    rw [List.mem_filter] at hkv
    exact ⟨hlive kv hkv.1, hkv.2⟩)
  unfold handle_list_buckets list_buckets
  simp only [genhash_iter_running s.engines s [] hlive, List.append_nil, bind, Except.bind,
    hfree, pure, Except.pure]
  have hlen := blist_txt_length (s.engines.filter (is_running s)).reverse
  rw [← hlen]
  have htake : (blist_txt (s.engines.filter (is_running s)).reverse).data.take
      (blist_txt (s.engines.filter (is_running s)).reverse).length =
      (blist_txt (s.engines.filter (is_running s)).reverse).data :=
    List.take_of_length_le (le_refl _)
  rw [htake, blist_txt_intercalate, List.map_reverse]
  rfl

/-- C11: when every handle of the engine table is live, `handle_list_buckets` answers
SUCCESS with a body that is the names of the RUNNING buckets of the table joined by
single spaces, and changes nothing else: every handle, hence every reference count, is
as before. The body length is the sum of the name lengths plus `n - 1` for `n >= 1`
names and 0 for none; a name is listed exactly when an entry of that name has a RUNNING
handle, and once if the keys of the table are distinct; with names of legal characters
the body neither starts nor ends with a space. -/
theorem handle_list_buckets_lists_running (s : bucket_engine) (cookie : Nat)
    (hlive : ∀ kv ∈ s.engines, live s kv.2) :
    handle_list_buckets s cookie =
      .ok (response s cookie "" (" ".intercalate (running_names s))
        PROTOCOL_BINARY_RESPONSE_SUCCESS, ENGINE_SUCCESS) ∧
    (response s cookie "" (" ".intercalate (running_names s))
      PROTOCOL_BINARY_RESPONSE_SUCCESS).heap = s.heap ∧
    (" ".intercalate (running_names s)).length =
      (if running_names s = [] then 0
        else ((running_names s).map String.length).sum + (running_names s).length - 1) ∧
    (∀ name : String, name ∈ running_names s ↔
      ∃ p h, (name, p) ∈ s.engines ∧ s.heap[p]? = some h ∧ h.state = STATE_RUNNING) ∧
    ((s.engines.map Prod.fst).Nodup → (running_names s).Nodup) ∧
    ((∀ kv ∈ s.engines, kv.1.data ≠ [] ∧ ∀ c ∈ kv.1.data, legal_char c) →
      running_names s ≠ [] →
      (" ".intercalate (running_names s)).data.head? ≠ some ' ' ∧
      (" ".intercalate (running_names s)).data.getLast? ≠ some ' ') := by
  have hnames : running_names s =
      (s.engines.filter (is_running s)).reverse.map Prod.fst := by
    unfold running_names
    rw [List.map_reverse]
  refine ⟨handle_list_buckets_eq s cookie hlive, rfl, ?_, ?_, ?_, ?_⟩
  · rw [hnames, ← blist_txt_intercalate, blist_txt_length, blist_len_eq]
    simp only [List.length_reverse, List.map_eq_nil_iff, List.reverse_eq_nil_iff]
    by_cases he : s.engines.filter (is_running s) = []
    · simp [he]
    · have : (s.engines.filter (is_running s)).length ≠ 0 := by
        intro h0
        exact he (List.length_eq_zero.1 h0)
      simp only [this, he, if_false, List.length_map, List.length_reverse]
      omega
  · intro name
    unfold running_names
    simp only [List.mem_reverse, List.mem_map, List.mem_filter, Prod.exists,
      exists_and_right, exists_eq_right]
    constructor
    · rintro ⟨p, hm, hr⟩
      unfold is_running at hr
      cases hp : s.heap[p]? with
      | none => simp [hp] at hr
      | some h =>
        simp only [hp, decide_eq_true_eq] at hr
        exact ⟨p, h, hm, hp, hr⟩
    · rintro ⟨p, h, hm, hp, hr⟩
      refine ⟨p, hm, ?_⟩
      unfold is_running
      simp [hp, hr]
  · intro hnd
    unfold running_names
    rw [List.nodup_reverse]
    exact (List.filter_sublist s.engines).map Prod.fst |>.nodup hnd
  · intro hlegal hne
    rw [hnames, ← blist_txt_intercalate]
    refine blist_txt_edges _ ?_ ?_
    · intro h0
      apply hne
      rw [hnames, h0]
      rfl
    · intro kv hkv
      rw [List.mem_reverse, List.mem_filter] at hkv
      obtain ⟨h1, h2⟩ := hlegal kv hkv.1
      refine ⟨h1, ?_⟩
      intro hsp
      have := h2 ' ' hsp
      unfold legal_char at this
      revert this
      decide

/-- C11 at a concrete state: with the RUNNING bucket "b" in the table the body is "b";
after its delete was accepted (state STOPPING) the body is empty. -/
theorem handle_list_buckets_lists_running_witness :
    handle_list_buckets (sample_state (sample_handle STATE_RUNNING 1 0)) 0 =
      .ok (response (sample_state (sample_handle STATE_RUNNING 1 0)) 0 "" "b"
        PROTOCOL_BINARY_RESPONSE_SUCCESS, ENGINE_SUCCESS) ∧
    handle_list_buckets (sample_state (sample_handle STATE_STOPPING 1 0)) 0 =
      .ok (response (sample_state (sample_handle STATE_STOPPING 1 0)) 0 "" ""
        PROTOCOL_BINARY_RESPONSE_SUCCESS, ENGINE_SUCCESS) :=
  ⟨(handle_list_buckets_lists_running (sample_state (sample_handle STATE_RUNNING 1 0)) 0
      (fun kv hkv => by
        have : kv = ("b", 1) := by simpa [sample_state] using hkv
        subst this
        exact ⟨_, rfl, rfl, by decide⟩)).1,
   (handle_list_buckets_lists_running (sample_state (sample_handle STATE_STOPPING 1 0)) 0
      (fun kv hkv => by
        have : kv = ("b", 1) := by simpa [sample_state] using hkv
        subst this
        exact ⟨_, rfl, rfl, by decide⟩)).1⟩

/-- C26 (code bug, evaluated at the failing input): cookie 0 creates "b", selects it and
deletes it. `handle_delete_bucket` clears `es->peh` of the requesting connection but
releases only the reference of `find_bucket` and the one of the engine table, so the
handle is left with reference count 1 although no connection points at it and no cookie
is reserved. The teardown thread destroys the engine, unlinks the bucket and notifies the
connection; the connection completes its command and disconnects; and the thread still
finds a reference and waits. When the deleting connection is not attached to the bucket
(`delete_scenario`), the count is 0 after the handler and the same steps release the
handle. -/
theorem delete_own_bucket_keeps_reference :
    (∃ s, run (bucket_initialized sample_config) own_delete_scenario = .ok s ∧
      s.heap.map (fun h => (h.refcount, h.state)) = [(0, STATE_NULL), (1, STATE_STOPPING)] ∧
      attached s 1 = 0 ∧
      s.conns.map (fun c => c.es.map (fun es => (es.peh, es.reserved))) = [some (none, 0)]) ∧
    run (bucket_initialized sample_config) (own_delete_scenario ++ teardown_steps) =
      .error "engine_shutdown_thread: waiting for the references" ∧
    (∃ s, run (bucket_initialized sample_config) delete_scenario = .ok s ∧
      s.heap.map (fun h => (h.refcount, h.state)) = [(0, STATE_NULL), (0, STATE_STOPPING)]) ∧
    (∃ s, run (bucket_initialized sample_config) (delete_scenario ++ teardown_steps) = .ok s ∧
      s.heap.map (fun h => (h.refcount, h.freed)) = [(0, false), (0, true)]) :=
  ⟨⟨_, rfl, rfl, rfl, rfl⟩, rfl, ⟨_, rfl, rfl⟩, ⟨_, rfl, rfl⟩⟩

theorem find_bucket_not_running (s : bucket_engine) (name : String)
    (hname : ∀ p, find_bucket_inner s name = some p →
      ∃ h, s.heap[p]? = some h ∧ h.freed = false ∧ h.state ≠ STATE_RUNNING) :
    find_bucket s name = .ok (s, none) := by
  unfold find_bucket
  cases hf : find_bucket_inner s name with
  | none => rfl
  | some p =>
    obtain ⟨h, hp, hfr, hst⟩ := hname p hf
    exact retain_handle_not_running s p h hp hfr hst

/-- C27 (counterexample): cookie 0 is attached to the RUNNING bucket "b", whose reference
count is 2, and sends SELECT_BUCKET for a name that is in no table. The response is
KEY_ENOENT, and afterwards the connection is attached to no bucket and the reference
count of "b" is 1. -/
theorem select_missing_bucket_drops_attachment :
    ∃ s0 s1,
      run (bucket_initialized sample_config) select_scenario = .ok s0 ∧
      s0.conns.map (fun c => c.es.map (fun es => es.peh)) = [some (some 1)] ∧
      s0.heap.map (fun h => (h.refcount, h.state)) = [(0, STATE_NULL), (2, STATE_RUNNING)] ∧
      step s0 (label.command 0 (mk_request opcode_t.SELECT_BUCKET "nobucket" "") cmd_ok) =
        .ok s1 ∧
      s1.responses.getLast? =
        some (⟨0, "", "Engine not found", PROTOCOL_BINARY_RESPONSE_KEY_ENOENT⟩ : response_t) ∧
      s1.conns.map (fun c => c.es.map (fun es => es.peh)) = [some none] ∧
      s1.heap.map (fun h => (h.refcount, h.state)) = [(0, STATE_NULL), (1, STATE_RUNNING)] :=
  ⟨_, _, rfl, rfl, rfl, rfl, rfl, rfl, rfl⟩

/-- C27 (amended): a SELECT_BUCKET request whose name is bound to no RUNNING bucket, sent
by a connection whose former bucket (if it has one) is allocated and referenced.
`handle_select_bucket` returns ENGINE_SUCCESS after sending one KEY_ENOENT response, and
it detaches the connection: afterwards the connection is attached to no bucket, the
reference count of the bucket it was attached to is one less than before, and every other
handle is as before. -/
theorem select_missing_bucket_detaches (s : bucket_engine) (cookie : Nat)
    (request : protocol_binary_request_header) (es : engine_specific_t)
    (hes : (get_conn s cookie).es = some es)
    (hname : ∀ p, find_bucket_inner s (EXTRACT_KEY request) = some p →
      ∃ h, s.heap[p]? = some h ∧ h.freed = false ∧ h.state ≠ STATE_RUNNING)
    (hold : ∀ p, es.peh = some p →
      ∃ h, s.heap[p]? = some h ∧ h.freed = false ∧ 0 < h.refcount) :
    ∃ s', handle_select_bucket s cookie request = .ok (s', ENGINE_SUCCESS) ∧
      s'.responses = s.responses ++
        [(⟨cookie, "", "Engine not found", PROTOCOL_BINARY_RESPONSE_KEY_ENOENT⟩ :
          response_t)] ∧
      (get_conn s' cookie).es = some { es with peh := none } ∧
      (∀ p h, es.peh = some p → s.heap[p]? = some h →
        ∃ h', s'.heap[p]? = some h' ∧ h'.refcount = h.refcount - 1) ∧
      (∀ q, es.peh ≠ some q → s'.heap[q]? = s.heap[q]?) := by
  have hfind := find_bucket_not_running s (EXTRACT_KEY request) hname
  unfold handle_select_bucket
  simp only [hfind, bind, Except.bind]
  unfold set_engine_handle
  rw [hes]
  simp only [bind, Except.bind]
  have hret : retain_handle s none = .ok (s, none) := rfl
  rw [hret]
  dsimp only
  cases hpeh : es.peh with
  | none =>
    have hrel : ∀ t : bucket_engine, release_handle t none = .ok t := fun _ => rfl
    rw [hrel]
    simp only [bind, Except.bind, pure, Except.pure, hrel]
    refine ⟨_, rfl, ?_, ?_, ?_, ?_⟩
    · simp [response, store_es_responses]
    · show (get_conn (store_es s cookie _) cookie).es = _
      rw [get_conn_store_es, if_pos rfl]
    · intro p h hp
      cases hp
    · intro q _
      rfl
  | some p =>
    obtain ⟨h, hp, hfr, hrc⟩ := hold p hpeh
    have hd : deref (store_es s cookie (some { es with peh := none })) p = .ok h := by
      rw [deref_store_es]
      exact (deref_eq_ok s p h).2 ⟨hp, hfr⟩
    have hrel : release_handle (store_es s cookie (some { es with peh := none })) (some p) =
        .ok (store_handle (store_es s cookie (some { es with peh := none })) p
          (maybe_start_engine_shutdown_LOCKED { h with refcount := h.refcount - 1 })) := by
      unfold release_handle
      simp only [hd, bind, Except.bind, release_handle_locked_ok h hrc]
      rfl
    have hrel0 : ∀ t : bucket_engine, release_handle t none = .ok t := fun _ => rfl
    rw [hrel]
    simp only [bind, Except.bind, pure, Except.pure, hrel0]
    refine ⟨_, rfl, ?_, ?_, ?_, ?_⟩
    · simp [response, store_es_responses]
    · show (get_conn (store_handle (store_es s cookie (some { es with peh := none })) p
          (maybe_start_engine_shutdown_LOCKED { h with refcount := h.refcount - 1 }))
        cookie).es = _
      rw [get_conn_store_handle, get_conn_store_es, if_pos rfl]
    · intro p' h' hp' hh'
      cases hp'
      rw [hp] at hh'
      cases hh'
      refine ⟨maybe_start_engine_shutdown_LOCKED { h with refcount := h.refcount - 1 }, ?_, ?_⟩
      · exact store_handle_get (store_es s cookie (some { es with peh := none })) p h _
          (by rw [store_es_heap]; exact hp)
      · rw [maybe_start_refcount]
    · intro q hq
      exact (store_handle_get_ne (store_es s cookie (some { es with peh := none })) p q
        (maybe_start_engine_shutdown_LOCKED { h with refcount := h.refcount - 1 })
        (fun e => hq (by rw [e]))).trans (by rw [store_es_heap])

theorem select_missing_bucket_detaches_witness :
    ∃ s', handle_select_bucket (sample_state (sample_handle STATE_RUNNING 2 0)) 1
        (mk_request opcode_t.SELECT_BUCKET "nobucket" "") = .ok (s', ENGINE_SUCCESS) ∧
      s'.responses = (sample_state (sample_handle STATE_RUNNING 2 0)).responses ++
        [(⟨1, "", "Engine not found", PROTOCOL_BINARY_RESPONSE_KEY_ENOENT⟩ :
          response_t)] ∧
      (get_conn s' 1).es =
        some { peh := none, engine_specific := none, reserved := 0, notified := false } ∧
      (∀ p h, (some 1 : Option Nat) = some p →
        (sample_state (sample_handle STATE_RUNNING 2 0)).heap[p]? = some h →
        ∃ h', s'.heap[p]? = some h' ∧ h'.refcount = h.refcount - 1) ∧
      (∀ q, (some 1 : Option Nat) ≠ some q →
        s'.heap[q]? = (sample_state (sample_handle STATE_RUNNING 2 0)).heap[q]?) :=
  select_missing_bucket_detaches (sample_state (sample_handle STATE_RUNNING 2 0)) 1
    (mk_request opcode_t.SELECT_BUCKET "nobucket" "")
    { peh := some 1, engine_specific := none, reserved := 0, notified := false } rfl
    (fun p hp => by cases hp)
    (fun p hp => by
      cases hp
      exact ⟨_, rfl, rfl, by decide⟩)

end BucketEngine

namespace Moxi

/-! # Properties of the proxy -/

theorem bind_ok_iff {α β : Type} (x : Except String α) (f : α → Except String β) (b : β) :
    x.bind f = Except.ok b ↔ ∃ a, x = Except.ok a ∧ f a = Except.ok b := by
  cases x with
  | error e => simp [Except.bind]
  | ok a => simp [Except.bind]

theorem bind_ok_iff2 {α β : Type} (x : Except String α) (f : α → Except String β) (b : β) :
    (x >>= f) = Except.ok b ↔ ∃ a, x = Except.ok a ∧ f a = Except.ok b :=
  bind_ok_iff x f b

theorem foldl_max_ge (l : List proxy) (a : Nat) :
    a ≤ l.foldl (fun mx p => if mx < p.config_ver then p.config_ver else mx) a ∧
    ∀ p ∈ l, p.config_ver ≤
      l.foldl (fun mx p => if mx < p.config_ver then p.config_ver else mx) a := by
  induction l generalizing a with
  | nil => simp
  | cons q rest ih =>
    simp only [List.foldl_cons, List.mem_cons]
    have h := ih (if a < q.config_ver then q.config_ver else a)
    refine ⟨le_trans (by split_ifs <;> omega) h.1, ?_⟩
    intro p hp
    rcases hp with rfl | hp
    · exact le_trans (by split_ifs <;> omega) h.1
    · exact h.2 p hp

theorem foldl_max_mem (l : List proxy) (a : Nat) :
    l.foldl (fun mx p => if mx < p.config_ver then p.config_ver else mx) a = a ∨
    ∃ p ∈ l, p.config_ver =
      l.foldl (fun mx p => if mx < p.config_ver then p.config_ver else mx) a := by
  induction l generalizing a with
  | nil => simp
  | cons q rest ih =>
    simp only [List.foldl_cons, List.mem_cons]
    rcases ih (if a < q.config_ver then q.config_ver else a) with h | ⟨p, hp, h⟩
    · by_cases hq : a < q.config_ver
      · rw [if_pos hq] at h ⊢
        exact Or.inr ⟨q, Or.inl rfl, h.symm⟩
      · rw [if_neg hq] at h ⊢
        exact Or.inl h
    · exact Or.inr ⟨p, Or.inr hp, h⟩

theorem le_max_config_ver (l : List proxy) (p : proxy) (hp : p ∈ l) :
    p.config_ver ≤ max_config_ver l :=
  (foldl_max_ge l 0).2 p hp

theorem max_config_ver_mem (l : List proxy) (hl : l ≠ []) :
    ∃ p ∈ l, p.config_ver = max_config_ver l := by
  rcases foldl_max_mem l 0 with h | h
  · cases l with
    | nil => exact absurd rfl hl
    | cons q rest =>
      refine ⟨q, List.mem_cons_self _ _, ?_⟩
      have := le_max_config_ver (q :: rest) q (List.mem_cons_self _ _)
      unfold max_config_ver at this ⊢
      omega
  · exact h

/-- The name and port under which `cproxy_on_config_pool` looks a pool up. -/
theorem find_proxy_some (name : String) (port : Int) (l : List proxy) (i : Nat)
    (h : find_proxy name port l = Except.ok (some i)) :
    ∃ p, l.get? i = some p ∧ p.port = port ∧ p.name = some name ∧ 0 < p.port ∧
      ∀ j q, j < i → l.get? j = some q → ¬ (q.port = port ∧ q.name = some name) := by
  induction l generalizing i with
  | nil => simp [find_proxy, pure, Except.pure] at h
  | cons p rest ih =>
    unfold find_proxy at h
    by_cases ha : p.port > 0 ∧ p.name ≠ none
    · rw [if_pos ha] at h
      by_cases hm : p.port = port ∧ p.name = some name
      · rw [if_pos hm] at h
        simp only [pure, Except.pure, Except.ok.injEq, Option.some.injEq] at h
        subst h
        exact ⟨p, rfl, hm.1, hm.2, ha.1, fun j q hj => absurd hj (Nat.not_lt_zero j)⟩
      · rw [if_neg hm] at h
        obtain ⟨r, hr, hp⟩ := (bind_ok_iff2 _ _ _).1 h
        simp only [pure, Except.pure, Except.ok.injEq] at hp
        cases r with
        | none => simp at hp
        | some k =>
          simp only [Option.map_some', Option.some.injEq] at hp
          subst hp
          obtain ⟨q, hq, h1, h2, h3, h4⟩ := ih k hr
          refine ⟨q, by simpa using hq, h1, h2, h3, ?_⟩
          intro j q' hj hq'
          cases j with
          | zero =>
            simp only [List.get?_cons_zero, Option.some.injEq] at hq'
            subst hq'
            exact hm
          | succ j =>
            simp only [List.get?_cons_succ] at hq'
            exact h4 j q' (by omega) hq'
    · rw [if_neg ha] at h
      cases h

theorem find_proxy_none (name : String) (port : Int) (l : List proxy)
    (h : find_proxy name port l = Except.ok none) :
    ∀ q ∈ l, ¬ (q.port = port ∧ q.name = some name) := by
  induction l with
  | nil => simp
  | cons p rest ih =>
    unfold find_proxy at h
    by_cases ha : p.port > 0 ∧ p.name ≠ none
    · rw [if_pos ha] at h
      by_cases hm : p.port = port ∧ p.name = some name
      · rw [if_pos hm] at h
        simp [pure, Except.pure] at h
      · rw [if_neg hm] at h
        obtain ⟨r, hr, hp⟩ := (bind_ok_iff2 _ _ _).1 h
        simp only [pure, Except.pure, Except.ok.injEq] at hp
        cases r with
        | some k => simp at hp
        | none =>
          intro q hq
          rcases List.mem_cons.1 hq with rfl | hq
          · exact hm
          · exact ih hr q hq
    · rw [if_neg ha] at h
      cases h

theorem restart_front_cache_fields (p : proxy) (base : proxy_behavior) :
    (restart_front_cache p base).port = p.port ∧
    (restart_front_cache p base).name = p.name ∧
    (restart_front_cache p base).config = p.config ∧
    (restart_front_cache p base).config_ver = p.config_ver ∧
    (restart_front_cache p base).behavior_pool = p.behavior_pool ∧
    (restart_front_cache p base).thread_data = p.thread_data ∧
    (restart_front_cache p base).queued = p.queued := by
  unfold restart_front_cache
  dsimp only
  split_ifs <;> simp

/-- What the update of an existing pool leaves behind. -/
theorem existing_ok (p : proxy) (config : Option String) (v : Nat) (bp : proxy_behavior_pool)
    (n : Nat) (r : proxy × Bool) (h : on_config_pool_existing p config v bp n = Except.ok r) :
    v ≠ p.config_ver ∧ r.1.config_ver = v ∧ r.1.name = p.name ∧ r.1.port = p.port ∧
    r.1.config = (update_str_config p.config config).1 ∧
    r.1.behavior_pool =
      { base := bp.base
        num := (update_behaviors_config p.behavior_pool.arr p.behavior_pool.num bp.arr bp.num).2.1
        arr := (update_behaviors_config p.behavior_pool.arr p.behavior_pool.num bp.arr bp.num).1 } ∧
    r.1.thread_data = p.thread_data := by
  unfold on_config_pool_existing at h
  dsimp only at h
  by_cases hv : v ≠ p.config_ver
  · rw [if_pos hv] at h
    simp only [pure, Except.pure, Except.ok.injEq] at h
    subst h
    refine ⟨hv, ?_⟩
    dsimp only
    split_ifs <;> simp [restart_front_cache_fields]
  · rw [if_neg hv] at h
    cases h

theorem forall2_refl_of (R : proxy → proxy → Prop) (h : ∀ p, R p p) (l : List proxy) :
    List.Forall₂ R l l := by
  induction l with
  | nil => exact List.Forall₂.nil
  | cons p rest ih => exact List.Forall₂.cons (h p) ih

theorem forall2_trans_of (R : proxy → proxy → Prop) (h : ∀ p q r, R p q → R q r → R p r)
    (l1 l2 l3 : List proxy) (h1 : List.Forall₂ R l1 l2) (h2 : List.Forall₂ R l2 l3) :
    List.Forall₂ R l1 l3 := by
  induction h1 generalizing l3 with
  | nil => cases h2; exact List.Forall₂.nil
  | cons hab _ ih =>
    cases h2 with
    | cons hbc h2 => exact List.Forall₂.cons (h _ _ _ hab hbc) (ih _ h2)

theorem forall2_append_split (R : proxy → proxy → Prop) (a r l : List proxy)
    (h : List.Forall₂ R (a ++ r) l) :
    ∃ x y, l = x ++ y ∧ List.Forall₂ R a x ∧ List.Forall₂ R r y := by
  induction a generalizing l with
  | nil => exact ⟨[], l, rfl, List.Forall₂.nil, h⟩
  | cons p a ih =>
    cases h with
    | cons hp h =>
      obtain ⟨x, y, rfl, hx, hy⟩ := ih _ h
      exact ⟨_ :: x, y, rfl, List.Forall₂.cons hp hx, hy⟩

theorem forall2_set (R : proxy → proxy → Prop) (hrefl : ∀ p, R p p) (l : List proxy)
    (i : Nat) (p q : proxy) (hp : l.get? i = some p) (hq : R p q) :
    List.Forall₂ R l (l.set i q) := by
  induction l generalizing i with
  | nil => simp at hp
  | cons a rest ih =>
    cases i with
    | zero =>
      simp only [List.get?_cons_zero, Option.some.injEq] at hp
      subst hp
      exact List.Forall₂.cons hq (forall2_refl_of R hrefl rest)
    | succ i =>
      simp only [List.get?_cons_succ] at hp
      exact List.Forall₂.cons (hrefl a) (ih i hp)

theorem grows_refl (R : proxy → proxy → Prop) (h : ∀ p, R p p) (l : List proxy) :
    grows R l l :=
  ⟨[], l, rfl, forall2_refl_of R h l⟩

theorem grows_trans (R : proxy → proxy → Prop) (h : ∀ p q r, R p q → R q r → R p r)
    (l1 l2 l3 : List proxy) (h1 : grows R l1 l2) (h2 : grows R l2 l3) : grows R l1 l3 := by
  obtain ⟨a, r, rfl, hr⟩ := h1
  obtain ⟨a', r', rfl, hr'⟩ := h2
  obtain ⟨x, y, rfl, _, hy⟩ := forall2_append_split R a r r' hr'
  exact ⟨a' ++ x, y, by simp, forall2_trans_of R h _ _ _ hr hy⟩

theorem frame_refl (R : proxy → proxy → Prop) (h : ∀ p, R p p) (m : proxy_main) :
    frame R m m :=
  ⟨rfl, rfl, grows_refl R h _⟩

theorem frame_trans (R : proxy → proxy → Prop) (h : ∀ p q r, R p q → R q r → R p r)
    (m1 m2 m3 : proxy_main) (h1 : frame R m1 m2) (h2 : frame R m2 m3) : frame R m1 m3 :=
  ⟨h2.1.trans h1.1, h2.2.1.trans h1.2.1, grows_trans R h _ _ _ h1.2.2 h2.2.2⟩

/-- The two outcomes of `cproxy_on_config_pool`: no pool of that name and port exists and
one is created at the head of the list (or cannot be created), or the first pool of that
name and port is updated in place. -/
theorem on_config_pool_cases (env : host_env) (m m' : proxy_main) (name : String)
    (port : Int) (config : Option String) (v : Nat) (bp : proxy_behavior_pool)
    (h : cproxy_on_config_pool env m name port config v bp = Except.ok m') :
    m'.behavior = m.behavior ∧ m'.nthreads = m.nthreads ∧ 0 ≤ port ∧
    ((find_proxy name port m.proxy_head = Except.ok none ∧
        ((env.cproxy_create_ok name port = false ∧ m'.proxy_head = m.proxy_head) ∨
         (env.cproxy_create_ok name port = true ∧ m'.proxy_head =
            cproxy_create name port config v bp m.nthreads :: m.proxy_head))) ∨
     (∃ i p r, find_proxy name port m.proxy_head = Except.ok (some i) ∧
        m.proxy_head.get? i = some p ∧
        on_config_pool_existing p config v bp m.nthreads = Except.ok r ∧
        m'.proxy_head = m.proxy_head.set i r.1)) := by
  unfold cproxy_on_config_pool at h
  by_cases hport : port ≥ 0
  · simp only [hport, not_true_eq_false, if_false] at h
    obtain ⟨u, _, h⟩ := (bind_ok_iff2 _ _ _).1 h
    obtain ⟨found, hfound, h⟩ := (bind_ok_iff2 _ _ _).1 h
    cases found with
    | none =>
      dsimp only at h
      by_cases hc : env.cproxy_create_ok name port = true
      · rw [if_pos hc] at h
        by_cases hl : env.cproxy_listen name port > 0
        · rw [if_pos hl] at h
          simp only [pure, Except.pure, Except.ok.injEq] at h
          subst h
          exact ⟨rfl, rfl, hport, Or.inl ⟨hfound, Or.inr ⟨hc, rfl⟩⟩⟩
        · rw [if_neg hl] at h
          simp only [pure, Except.pure, Except.ok.injEq] at h
          subst h
          exact ⟨rfl, rfl, hport, Or.inl ⟨hfound, Or.inr ⟨hc, rfl⟩⟩⟩
      · rw [if_neg hc] at h
        simp only [pure, Except.pure, Except.ok.injEq] at h
        subst h
        exact ⟨rfl, rfl, hport, Or.inl ⟨hfound, Or.inl ⟨by simpa using hc, rfl⟩⟩⟩
    | some i =>
      dsimp only at h
      cases hp : m.proxy_head.get? i with
      | none => rw [hp] at h; cases h
      | some p =>
        rw [hp] at h
        dsimp only at h
        obtain ⟨r, hr, h⟩ := (bind_ok_iff2 _ _ _).1 h
        refine ⟨?_, ?_, hport, Or.inr ⟨i, p, r, hfound, hp, hr, ?_⟩⟩
        all_goals
          by_cases hs : r.2 = true
          · rw [if_pos hs] at h
            simp only [pure, Except.pure, Except.ok.injEq] at h
            subst h
            rfl
          · rw [if_neg hs] at h
            simp only [pure, Except.pure, Except.ok.injEq] at h
            subst h
            rfl
  · simp only [hport, not_false_eq_true, if_true] at h
    cases h

theorem on_config_pool_frame (env : host_env) (v : Nat) (R : proxy → proxy → Prop)
    (hR : step_rel v R) (m m' : proxy_main) (name : String) (port : Int)
    (config : Option String) (bp : proxy_behavior_pool)
    (h : cproxy_on_config_pool env m name port config v bp = Except.ok m') : frame R m m' := by
  obtain ⟨hb, hn, _, hc⟩ := on_config_pool_cases env m m' name port config v bp h
  refine ⟨hb, hn, ?_⟩
  rcases hc with ⟨_, ⟨_, hl⟩ | ⟨_, hl⟩⟩ | ⟨i, p, r, _, hp, hr, hl⟩
  · rw [hl]; exact grows_refl R hR.refl _
  · rw [hl]; exact ⟨[_], m.proxy_head, rfl, forall2_refl_of R hR.refl _⟩
  · rw [hl]
    exact ⟨[], _, rfl, forall2_set R hR.refl _ i p r.1 hp (hR.upd p config bp _ r hr)⟩

theorem json_one_vbucket_frame (env : host_env) (v : Nat) (R : proxy → proxy → Prop)
    (hR : step_rel v R) (m : proxy_main) (config name : String) (r : proxy_main × Bool)
    (h : cproxy_on_config_json_one_vbucket env m v config name = Except.ok r) :
    frame R m r.1 := by
  unfold cproxy_on_config_json_one_vbucket at h
  split at h
  · obtain ⟨m1, hm1, h⟩ := (bind_ok_iff2 _ _ _).1 h
    simp only [pure, Except.pure, Except.ok.injEq] at h
    subst h
    exact on_config_pool_frame env v R hR _ _ _ _ _ _ hm1
  · simp only [pure, Except.pure, Except.ok.injEq] at h
    subst h
    exact frame_refl R hR.refl m

theorem json_one_ketama_frame (env : host_env) (v : Nat) (R : proxy → proxy → Prop)
    (hR : step_rel v R) (m : proxy_main) (config name : String) (r : proxy_main × Bool)
    (h : cproxy_on_config_json_one_ketama env m v config name = Except.ok r) :
    frame R m r.1 := by
  unfold cproxy_on_config_json_one_ketama at h
  split at h
  · obtain ⟨m1, hm1, h⟩ := (bind_ok_iff2 _ _ _).1 h
    simp only [pure, Except.pure, Except.ok.injEq] at h
    subst h
    exact on_config_pool_frame env v R hR _ _ _ _ _ _ hm1
  · simp only [pure, Except.pure, Except.ok.injEq] at h
    subst h
    exact frame_refl R hR.refl m

theorem json_one_frame (env : host_env) (v : Nat) (R : proxy → proxy → Prop)
    (hR : step_rel v R) (m : proxy_main) (config name : String) (r : proxy_main × Bool)
    (h : cproxy_on_config_json_one env m v config name = Except.ok r) : frame R m r.1 := by
  unfold cproxy_on_config_json_one at h
  split at h
  · split at h
    · dsimp only at h
      split at h
      · split at h
        · exact json_one_ketama_frame env v R hR _ _ _ _ h
        · exact json_one_vbucket_frame env v R hR _ _ _ _ h
      · exact json_one_vbucket_frame env v R hR _ _ _ _ h
    · simp only [pure, Except.pure, Except.ok.injEq] at h
      subst h
      exact frame_refl R hR.refl m
  · simp only [pure, Except.pure, Except.ok.injEq] at h
    subst h
    exact frame_refl R hR.refl m

theorem json_buckets_frame (env : host_env) (v : Nat) (R : proxy → proxy → Prop)
    (hR : step_rel v R) (want : Bool) (l : List cJSON) (m : proxy_main) (rv : Bool)
    (r : proxy_main × Bool)
    (h : cproxy_on_config_json_buckets env v want l m rv = Except.ok r) : frame R m r.1 := by
  induction l generalizing m rv with
  | nil =>
    simp only [cproxy_on_config_json_buckets, pure, Except.pure, Except.ok.injEq] at h
    subst h
    exact frame_refl R hR.refl m
  | cons j rest ih =>
    unfold cproxy_on_config_json_buckets at h
    split at h
    · dsimp only at h
      split at h
      · split at h
        · obtain ⟨r1, hr1, h⟩ := (bind_ok_iff2 _ _ _).1 h
          exact frame_trans R hR.trans _ _ _ (json_one_frame env v R hR _ _ _ _ hr1)
            (ih _ _ h)
        · exact ih _ _ h
      · exact ih _ _ h
    · exact ih _ _ h

theorem json_frame (env : host_env) (v : Nat) (R : proxy → proxy → Prop)
    (hR : step_rel v R) (m : proxy_main) (config : String) (r : proxy_main × Bool)
    (h : cproxy_on_config_json env m v config = Except.ok r) : frame R m r.1 := by
  unfold cproxy_on_config_json at h
  split at h
  · split at h
    · obtain ⟨r1, hr1, h⟩ := (bind_ok_iff2 _ _ _).1 h
      obtain ⟨r2, hr2, h⟩ := (bind_ok_iff2 _ _ _).1 h
      simp only [pure, Except.pure, Except.ok.injEq] at h
      subst h
      show frame R m r2.1
      exact frame_trans R hR.trans _ _ _ (json_buckets_frame env v R hR _ _ _ _ _ hr1)
        (json_buckets_frame env v R hR _ _ _ _ _ hr2)
    · exact json_one_frame env v R hR _ _ _ _ h
  · simp only [pure, Except.pure, Except.ok.injEq] at h
    subst h
    exact frame_refl R hR.refl m

theorem close_loop_frame (env : host_env) (v : Nat) (R : proxy → proxy → Prop)
    (hR : step_rel v R) (k : Nat) (m m' : proxy_main)
    (h : close_loop env v k m = Except.ok m') : frame R m m' := by
  induction k generalizing m with
  | zero =>
    simp only [close_loop, pure, Except.pure, Except.ok.injEq] at h
    subst h
    exact frame_refl R hR.refl m
  | succ k ih =>
    unfold close_loop at h
    split at h
    · cases h
    · split at h
      · split at h
        · split at h
          · split at h
            · obtain ⟨m1, hm1, h⟩ := (bind_ok_iff _ _ _).1 h
              exact frame_trans R hR.trans _ _ _
                (on_config_pool_frame env v R hR _ _ _ _ _ _ hm1) (ih _ h)
            · exact ih _ h
          · cases h
        · cases h
      · exact ih _ h

theorem on_config_frame (env : host_env) (R : proxy → proxy → Prop) (m m' : proxy_main)
    (hR : step_rel (new_config_ver m) R) (kvs : List (String × List String))
    (h : cproxy_on_config env m kvs = Except.ok m') : frame R m m' := by
  unfold cproxy_on_config at h
  dsimp only at h
  have hv : new_config_ver { m with stat_configs := (m.stat_configs + 1) % UINT64 } =
      new_config_ver m := rfl
  rw [hv] at h
  have h0 : frame R m { m with stat_configs := (m.stat_configs + 1) % UINT64 } :=
    ⟨rfl, rfl, grows_refl R hR.refl _⟩
  split at h
  · split at h
    · obtain ⟨r, hr, h⟩ := (bind_ok_iff2 _ _ _).1 h
      exact frame_trans R hR.trans _ _ _ h0 (frame_trans R hR.trans _ _ _
        (json_frame env _ R hR _ _ _ hr) (close_loop_frame env _ R hR _ _ _ h))
    · simp only [pure, Except.pure, Except.ok.injEq] at h
      subst h
      exact ⟨rfl, rfl, grows_refl R hR.refl _⟩
  · exact frame_trans R hR.trans _ _ _ h0 (close_loop_frame env _ R hR _ _ _ h)

theorem forall2_imp_mem (R S : proxy → proxy → Prop) (l r : List proxy)
    (h : ∀ p ∈ l, ∀ q, R p q → S p q) (hr : List.Forall₂ R l r) : List.Forall₂ S l r := by
  induction hr with
  | nil => exact List.Forall₂.nil
  | cons hab _ ih =>
    exact List.Forall₂.cons (h _ (List.mem_cons_self _ _) _ hab)
      (ih (fun p hp q hq => h p (List.mem_cons_of_mem _ hp) q hq))

theorem versioned_step_rel (v : Nat) : step_rel v (versioned v) where
  refl := fun p => Or.inl rfl
  trans := by
    intro p q r hpq hqr
    rcases hqr with rfl | ⟨h1, h2⟩
    · exact hpq
    · rcases hpq with rfl | ⟨h3, _⟩
      · exact Or.inr ⟨h1, h2⟩
      · exact absurd h3 h2
  upd := by
    intro p config bp n r h
    obtain ⟨h1, h2, _⟩ := existing_ok p config v bp n r h
    exact Or.inr ⟨h2, fun h3 => h1 h3.symm⟩

theorem new_config_ver_eq (m : proxy_main) (hmax : max_config_ver m.proxy_head < UINT32 - 1) :
    new_config_ver m = max_config_ver m.proxy_head + 1 := by
  unfold new_config_ver
  have : UINT32 = 4294967296 := by norm_num [UINT32]
  rw [this] at hmax ⊢
  omega

theorem get_append_mid (pre suf : List proxy) (p : proxy) :
    (pre ++ p :: suf).get? pre.length = some p := by
  induction pre with
  | nil => rfl
  | cons a pre ih => simpa using ih

theorem set_append_mid (pre suf : List proxy) (p q : proxy) :
    (pre ++ p :: suf).set pre.length q = pre ++ q :: suf := by
  induction pre with
  | nil => rfl
  | cons a pre ih => simp [ih]

theorem find_proxy_at (name : String) (port : Int) (pre suf : List proxy) (p : proxy)
    (hpre : ∀ q ∈ pre, 0 < q.port ∧ q.name ≠ none ∧ ¬ (q.port = port ∧ q.name = some name))
    (hp : 0 < p.port ∧ p.port = port ∧ p.name = some name) :
    find_proxy name port (pre ++ p :: suf) = Except.ok (some pre.length) := by
  induction pre with
  | nil =>
    simp only [List.nil_append, find_proxy, List.length_nil]
    rw [if_pos ⟨hp.1, by rw [hp.2.2]; simp⟩, if_pos ⟨hp.2.1, hp.2.2⟩]
    rfl
  | cons a pre ih =>
    have ha := hpre a (List.mem_cons_self _ _)
    have ih1 := ih (fun q hq => hpre q (List.mem_cons_of_mem _ hq))
    show find_proxy name port (a :: (pre ++ p :: suf)) = _
    unfold find_proxy
    rw [if_pos ⟨ha.1, ha.2.1⟩, if_neg ha.2.2, ih1]
    rfl

theorem find_proxy_absent (name : String) (port : Int) (l : List proxy)
    (hl : ∀ q ∈ l, 0 < q.port ∧ q.name ≠ none ∧ ¬ (q.port = port ∧ q.name = some name)) :
    find_proxy name port l = Except.ok none := by
  induction l with
  | nil => rfl
  | cons a l ih =>
    have ha := hl a (List.mem_cons_self _ _)
    have ih1 := ih (fun q hq => hl q (List.mem_cons_of_mem _ hq))
    unfold find_proxy
    rw [if_pos ⟨ha.1, ha.2.1⟩, if_neg ha.2.2, ih1]
    rfl

/-- The update of the pool in the middle of the list, found by its name and port. -/
theorem on_config_pool_at (env : host_env) (m : proxy_main) (name : String)
    (config : Option String) (v : Nat) (bp : proxy_behavior_pool) (pre suf : List proxy)
    (p : proxy) (r : proxy × Bool)
    (hm : m.proxy_head = pre ++ p :: suf)
    (hpre : ∀ q ∈ pre, 0 < q.port ∧ q.name ≠ none ∧ ¬ (q.port = p.port ∧ q.name = some name))
    (hp : 0 < p.port ∧ p.name = some name)
    (hr : on_config_pool_existing p config v bp m.nthreads = Except.ok r) :
    ∃ m', cproxy_on_config_pool env m name p.port config v bp = Except.ok m' ∧
      m'.proxy_head = pre ++ r.1 :: suf ∧ m'.behavior = m.behavior ∧
      m'.nthreads = m.nthreads := by
  unfold cproxy_on_config_pool
  have hport : p.port ≥ 0 := le_of_lt hp.1
  simp only [hport, not_true_eq_false, if_false]
  rw [hm, find_proxy_at name p.port pre suf p hpre ⟨hp.1, rfl, hp.2⟩]
  simp only [bind, Except.bind, pure, Except.pure]
  rw [get_append_mid]
  dsimp only
  rw [hr]
  dsimp only
  rw [set_append_mid]
  by_cases hs : r.2 = true
  · rw [if_pos hs]; exact ⟨_, rfl, rfl, rfl, rfl⟩
  · rw [if_neg hs]; exact ⟨_, rfl, rfl, rfl, rfl⟩

theorem update_str_config_none (c : Option String) : (update_str_config c none).1 = none := by
  cases c <;> simp [update_str_config]

theorem update_behaviors_config_none (a : Option (List proxy_behavior)) (n : Int) :
    (update_behaviors_config a n none 0).1 = none ∧
    ((a = none → n = 0) → (update_behaviors_config a n none 0).2.1 = 0) := by
  cases a with
  | none =>
    refine ⟨rfl, fun h => ?_⟩
    rw [h rfl]
    rfl
  | some l => exact ⟨rfl, fun _ => rfl⟩

theorem existing_total (p : proxy) (config : Option String) (v : Nat)
    (bp : proxy_behavior_pool) (n : Nat) (hv : v ≠ p.config_ver) :
    ∃ r, on_config_pool_existing p config v bp n = Except.ok r := by
  unfold on_config_pool_existing
  dsimp only
  rw [if_pos hv]
  exact ⟨_, rfl⟩

theorem pools_ok_replace (pre suf : List proxy) (p q : proxy)
    (h : pools_ok (pre ++ p :: suf)) (hk : pool_key q = pool_key p)
    (hq : 0 < q.port ∧ q.name ≠ none ∧ (q.behavior_pool.arr = none → q.behavior_pool.num = 0)) :
    pools_ok (pre ++ q :: suf) := by
  refine ⟨?_, ?_⟩
  · have := h.1
    simp only [List.map_append, List.map_cons] at this ⊢
    rw [hk]
    exact this
  · intro x hx
    rcases List.mem_append.1 hx with hx | hx
    · exact h.2 x (List.mem_append_left _ hx)
    · rcases List.mem_cons.1 hx with rfl | hx
      · exact hq
      · exact h.2 x (List.mem_append_right _ (List.mem_cons_of_mem _ hx))

theorem pools_ok_pre (pre suf : List proxy) (p : proxy) (name : String)
    (h : pools_ok (pre ++ p :: suf)) (hn : p.name = some name) :
    ∀ q ∈ pre, 0 < q.port ∧ q.name ≠ none ∧ ¬ (q.port = p.port ∧ q.name = some name) := by
  intro q hq
  have hq2 := h.2 q (List.mem_append_left _ hq)
  refine ⟨hq2.1, hq2.2.1, ?_⟩
  intro hc
  have hnd := h.1
  simp only [List.map_append, List.map_cons] at hnd
  have hdis := (List.nodup_append.1 hnd).2.2
  have h1 : pool_key q ∈ List.map pool_key pre := List.mem_map_of_mem _ hq
  have h2 : pool_key q ∈ pool_key p :: List.map pool_key suf := by
    have : pool_key q = pool_key p := by
      unfold pool_key
      rw [hc.1, hc.2, hn]
    rw [this]
    exact List.mem_cons_self _ _
  exact hdis h1 h2

/-- The loop of `close_outdated_proxies` over the last `k` pools of a well-formed list
returns, and what it leaves of them is their retirement. -/
theorem close_loop_retires (env : host_env) (v : Nat) (k : Nat) (m : proxy_main)
    (pre suf : List proxy) (hm : m.proxy_head = pre ++ suf) (hk : suf.length = k)
    (hok : pools_ok m.proxy_head) :
    ∃ m' suf', close_loop env v k m = Except.ok m' ∧ m'.proxy_head = pre ++ suf' ∧
      List.Forall₂ (retired v m.behavior) suf suf' ∧ m'.behavior = m.behavior ∧
      m'.nthreads = m.nthreads := by
  induction k generalizing m pre suf with
  | zero =>
    have : suf = [] := List.length_eq_zero.1 hk
    subst this
    exact ⟨m, [], rfl, hm, List.Forall₂.nil, rfl, rfl⟩
  | succ k ih =>
    cases suf with
    | nil => simp at hk
    | cons p suf =>
      have hk1 : suf.length = k := by simpa using hk
      have hidx : m.proxy_head.length - (k + 1) = pre.length := by
        rw [hm]; simp [hk1]
      have hget : m.proxy_head.get? (m.proxy_head.length - (k + 1)) = some p := by
        rw [hidx, hm]; exact get_append_mid pre suf p
      have hm2 : m.proxy_head = (pre ++ [p]) ++ suf := by rw [hm]; simp
      unfold close_loop
      rw [hget]
      dsimp only
      by_cases hv : p.config_ver ≠ v
      · rw [if_pos hv]
        have hp := hok.2 p (by rw [hm]; simp)
        cases hname : p.name with
        | none => exact absurd hname hp.2.1
        | some name =>
          dsimp only
          rw [if_pos hp.1]
          by_cases hnb : name ≠ NULL_BUCKET
          · rw [if_pos hnb]
            obtain ⟨r, hr⟩ := existing_total p none v
              { base := m.behavior, num := 0, arr := none } m.nthreads (fun h => hv h.symm)
            obtain ⟨_, h2, h3, h4, h5, h6, h7⟩ := existing_ok p none v _ _ r hr
            have hokm := hok
            rw [hm] at hokm
            obtain ⟨m1, hm1, hl1, hb1, hn1⟩ := on_config_pool_at env m name none v
              { base := m.behavior, num := 0, arr := none } pre suf p r hm
              (pools_ok_pre pre suf p name hokm hname) ⟨hp.1, hname⟩ hr
            have hnone := update_behaviors_config_none p.behavior_pool.arr p.behavior_pool.num
            have harr : r.1.behavior_pool.arr = none := by rw [h6]; exact hnone.1
            have hnum : r.1.behavior_pool.num = 0 := by rw [h6]; exact hnone.2 hp.2.2
            have hok1 : pools_ok m1.proxy_head := by
              rw [hl1]
              refine pools_ok_replace pre suf p r.1 hokm ?_ ⟨?_, ?_, fun _ => hnum⟩
              · unfold pool_key; rw [h3, h4]
              · rw [h4]; exact hp.1
              · rw [h3]; exact hp.2.1
            obtain ⟨m', suf', hc, hl, hf, hb, hn⟩ :=
              ih m1 (pre ++ [r.1]) suf (by rw [hl1]; simp) hk1 hok1
            rw [hb1] at hf
            refine ⟨m', r.1 :: suf', ?_, by rw [hl]; simp, List.Forall₂.cons ?_ hf,
              hb.trans hb1, hn.trans hn1⟩
            · rw [hm1]; exact hc
            · unfold retired
              rw [if_pos ⟨hv, by rw [hname]; simpa using hnb⟩]
              exact ⟨by rw [h5]; exact update_str_config_none _, harr, hnum, h2, h3, h4,
                by rw [h6], h7⟩
          · rw [if_neg hnb]
            obtain ⟨m', suf', hc, hl, hf, hb, hn⟩ := ih m (pre ++ [p]) suf hm2 hk1 hok
            refine ⟨m', p :: suf', hc, by rw [hl]; simp, List.Forall₂.cons ?_ hf, hb, hn⟩
            unfold retired
            rw [if_neg (fun h => h.2 (by rw [hname]; simpa using hnb))]
      · rw [if_neg hv]
        obtain ⟨m', suf', hc, hl, hf, hb, hn⟩ := ih m (pre ++ [p]) suf hm2 hk1 hok
        refine ⟨m', p :: suf', hc, by rw [hl]; simp, List.Forall₂.cons ?_ hf, hb, hn⟩
        unfold retired
        rw [if_neg (fun h => hv h.1)]

theorem get_split (l : List proxy) (i : Nat) (p : proxy) (h : l.get? i = some p) :
    ∃ pre suf, l = pre ++ p :: suf ∧ pre.length = i := by
  induction l generalizing i with
  | nil => simp at h
  | cons a l ih =>
    cases i with
    | zero =>
      simp only [List.get?_cons_zero, Option.some.injEq] at h
      subst h
      exact ⟨[], l, rfl, rfl⟩
    | succ i =>
      simp only [List.get?_cons_succ] at h
      obtain ⟨pre, suf, hl, hlen⟩ := ih i h
      exact ⟨a :: pre, suf, by rw [hl]; rfl, by simp [hlen]⟩

theorem update_behaviors_config_wf (a : Option (List proxy_behavior)) (n : Int)
    (b : Option (List proxy_behavior)) (k : Int) (ha : a = none → n = 0) :
    (update_behaviors_config a n b k).1 = none → (update_behaviors_config a n b k).2.1 = 0 := by
  unfold update_behaviors_config
  cases a with
  | none =>
    cases b with
    | none => intro _; simpa using ha rfl
    | some y => intro h; simp at h
  | some x =>
    cases b with
    | none => intro _; simp
    | some y =>
      dsimp only
      by_cases he : cproxy_equal_behaviors n x k y = true
      · simp [he]
      · simp [he]

theorem cproxy_create_fields (name : String) (port : Int) (config : Option String) (v : Nat)
    (bp : proxy_behavior_pool) (n : Nat) :
    (cproxy_create name port config v bp n).port = port ∧
    (cproxy_create name port config v bp n).name = some name ∧
    (cproxy_create name port config v bp n).config = config.map trimstrdup ∧
    (cproxy_create name port config v bp n).config_ver = v ∧
    (cproxy_create name port config v bp n).behavior_pool =
      { base := bp.base, num := bp.num, arr := bp.arr.map (cproxy_copy_behaviors bp.num) } := by
  unfold cproxy_create
  simp [restart_front_cache_fields]

/-- The invariant of the pool list is kept by `cproxy_on_config_pool` when it is called
with a positive port and a behavior pool that has size zero when it has no array. -/
theorem on_config_pool_pools_ok (env : host_env) (m m' : proxy_main) (name : String)
    (port : Int) (config : Option String) (v : Nat) (bp : proxy_behavior_pool)
    (hport : 0 < port) (hbp : bp.arr = none → bp.num = 0) (hok : pools_ok m.proxy_head)
    (h : cproxy_on_config_pool env m name port config v bp = Except.ok m') :
    pools_ok m'.proxy_head := by
  obtain ⟨_, _, _, hc⟩ := on_config_pool_cases env m m' name port config v bp h
  rcases hc with ⟨hf, ⟨_, hl⟩ | ⟨_, hl⟩⟩ | ⟨i, p, r, hf, hp, hr, hl⟩
  · rw [hl]; exact hok
  · rw [hl]
    obtain ⟨c1, c2, _, _, c5⟩ := cproxy_create_fields name port config v bp m.nthreads
    refine ⟨?_, ?_⟩
    · simp only [List.map_cons, List.nodup_cons]
      refine ⟨?_, hok.1⟩
      intro hmem
      obtain ⟨q, hq, hk⟩ := List.mem_map.1 hmem
      unfold pool_key at hk
      rw [c1, c2] at hk
      simp only [Prod.mk.injEq] at hk
      exact find_proxy_none name port _ hf q hq ⟨hk.2, hk.1⟩
    · intro x hx
      rcases List.mem_cons.1 hx with rfl | hx
      · refine ⟨by rw [c1]; exact hport, by rw [c2]; simp, ?_⟩
        rw [c5]
        dsimp only
        intro ha
        cases hb : bp.arr with
        | none => exact hbp hb
        | some y => rw [hb] at ha; simp at ha
      · exact hok.2 x hx
  · obtain ⟨pre, suf, hsplit, hlen⟩ := get_split _ i p hp
    obtain ⟨_, _, h3, h4, _, h6, _⟩ := existing_ok p config v bp _ r hr
    rw [hl, hsplit, ← hlen, set_append_mid]
    rw [hsplit] at hok
    have hpp := hok.2 p (by simp)
    refine pools_ok_replace pre suf p r.1 hok (by unfold pool_key; rw [h3, h4])
      ⟨by rw [h4]; exact hpp.1, by rw [h3]; exact hpp.2.1, ?_⟩
    rw [h6]
    exact update_behaviors_config_wf _ _ _ _ hpp.2.2

/-- Whenever the loop of `close_outdated_proxies` over the last `k` pools returns, on a
list whose pools visited so far carry version `v` unless they are the NULL bucket, what
it leaves of the `k` pools is their retirement. -/
theorem close_loop_result (env : host_env) (v : Nat) (k : Nat) (m m' : proxy_main)
    (pre suf : List proxy) (hm : m.proxy_head = pre ++ suf) (hk : suf.length = k)
    (hvis : ∀ q ∈ pre, q.name ≠ some NULL_BUCKET → q.config_ver = v)
    (hwf : ∀ p ∈ suf, p.behavior_pool.arr = none → p.behavior_pool.num = 0)
    (h : close_loop env v k m = Except.ok m') :
    ∃ suf', m'.proxy_head = pre ++ suf' ∧ List.Forall₂ (retired v m.behavior) suf suf' := by
  induction k generalizing m pre suf with
  | zero =>
    have : suf = [] := List.length_eq_zero.1 hk
    subst this
    simp only [close_loop, pure, Except.pure, Except.ok.injEq] at h
    subst h
    exact ⟨[], hm, List.Forall₂.nil⟩
  | succ k ih =>
    cases suf with
    | nil => simp at hk
    | cons p suf =>
      have hk1 : suf.length = k := by simpa using hk
      have hidx : m.proxy_head.length - (k + 1) = pre.length := by
        rw [hm]; simp [hk1]
      have hget : m.proxy_head.get? (m.proxy_head.length - (k + 1)) = some p := by
        rw [hidx, hm]; exact get_append_mid pre suf p
      have hm2 : m.proxy_head = (pre ++ [p]) ++ suf := by rw [hm]; simp
      have hwf1 : ∀ x ∈ suf, x.behavior_pool.arr = none → x.behavior_pool.num = 0 :=
        fun x hx => hwf x (List.mem_cons_of_mem _ hx)
      unfold close_loop at h
      rw [hget] at h
      dsimp only at h
      by_cases hv : p.config_ver ≠ v
      · rw [if_pos hv] at h
        cases hname : p.name with
        | none => rw [hname] at h; cases h
        | some name =>
          rw [hname] at h
          dsimp only at h
          by_cases hport : p.port > 0
          · rw [if_pos hport] at h
            by_cases hnb : name ≠ NULL_BUCKET
            · rw [if_pos hnb] at h
              obtain ⟨m1, hm1, hrest⟩ := (bind_ok_iff _ _ _).1 h
              obtain ⟨hb1, _, _, hc⟩ := on_config_pool_cases env m m1 name p.port none v _ hm1
              have hpmem : p ∈ m.proxy_head := by rw [hm]; simp
              rcases hc with ⟨hf, _⟩ | ⟨j, q, r, hf, hq, hr, hl⟩
              · exact absurd ⟨rfl, hname⟩ (find_proxy_none _ _ _ hf p hpmem)
              · obtain ⟨q', hq', hqp, hqn, _, hfirst⟩ := find_proxy_some _ _ _ _ hf
                rw [hq] at hq'
                simp only [Option.some.injEq] at hq'
                subst hq'
                obtain ⟨e1, e2, e3, e4, e5, e6, e7⟩ := existing_ok q none v _ _ r hr
                have hj : j = pre.length := by
                  rcases Nat.lt_trichotomy j pre.length with hlt | heq | hgt
                  · exfalso
                    have hqpre : q ∈ pre := by
                      rw [hm, List.get?_eq_getElem?, List.getElem?_append_left hlt] at hq
                      exact List.mem_iff_getElem?.2 ⟨j, hq⟩
                    exact e1 (hvis q hqpre (by rw [hqn]; simpa using hnb)).symm
                  · exact heq
                  · exfalso
                    have hp' : m.proxy_head.get? pre.length = some p := by
                      rw [hm]; exact get_append_mid pre suf p
                    exact hfirst pre.length p hgt hp' ⟨rfl, hname⟩
                subst hj
                have hqp' : q = p := by
                  rw [hm, get_append_mid] at hq
                  simpa using hq.symm
                subst hqp'
                have hl1 : m1.proxy_head = (pre ++ [r.1]) ++ suf := by
                  rw [hl, hm, set_append_mid]; simp
                obtain ⟨suf', hs', hf'⟩ := ih m1 (pre ++ [r.1]) suf hl1 hk1
                  (by
                    intro x hx hxn
                    rcases List.mem_append.1 hx with hx | hx
                    · exact hvis x hx hxn
                    · simp only [List.mem_singleton] at hx
                      subst hx
                      exact e2) hwf1 hrest
                have hnone := update_behaviors_config_none q.behavior_pool.arr
                  q.behavior_pool.num
                refine ⟨r.1 :: suf', by rw [hs']; simp, List.Forall₂.cons ?_ ?_⟩
                · unfold retired
                  rw [if_pos ⟨hv, by rw [hname]; simpa using hnb⟩]
                  refine ⟨by rw [e5]; exact update_str_config_none _, by rw [e6]; exact hnone.1,
                    ?_, e2, e3, e4, by rw [e6], e7⟩
                  rw [e6]
                  exact hnone.2 (hwf q (List.mem_cons_self _ _))
                · rw [hb1] at hf'
                  exact hf'
            · rw [if_neg hnb] at h
              obtain ⟨suf', hs', hf'⟩ := ih m (pre ++ [p]) suf hm2 hk1
                (by
                  intro x hx hxn
                  rcases List.mem_append.1 hx with hx | hx
                  · exact hvis x hx hxn
                  · simp only [List.mem_singleton] at hx
                    subst hx
                    exact absurd (by rw [hname]; simpa using hnb) hxn) hwf1 h
              refine ⟨p :: suf', by rw [hs']; simp, List.Forall₂.cons ?_ hf'⟩
              unfold retired
              rw [if_neg (fun hc => hc.2 (by rw [hname]; simpa using hnb))]
          · rw [if_neg hport] at h
            cases h
      · rw [if_neg hv] at h
        obtain ⟨suf', hs', hf'⟩ := ih m (pre ++ [p]) suf hm2 hk1
          (by
            intro x hx hxn
            rcases List.mem_append.1 hx with hx | hx
            · exact hvis x hx hxn
            · simp only [List.mem_singleton] at hx
              subst hx
              by_contra hne
              exact hv hne) hwf1 h
        refine ⟨p :: suf', by rw [hs']; simp, List.Forall₂.cons ?_ hf'⟩
        unfold retired
        rw [if_neg (fun hc => hv hc.1)]

theorem run_calls_append (env : host_env) (v : Nat) (a b : List pool_call) (m : proxy_main) :
    run_calls env v (a ++ b) m = (run_calls env v a m).bind (run_calls env v b) := by
  induction a generalizing m with
  | nil => rfl
  | cons c a ih =>
    simp only [List.cons_append, run_calls]
    cases cproxy_on_config_pool env m c.name c.port c.config v c.bp with
    | error e => rfl
    | ok m1 => exact ih m1

theorem run_calls_single (env : host_env) (v : Nat) (c : pool_call) (m : proxy_main) :
    run_calls env v [c] m = cproxy_on_config_pool env m c.name c.port c.config v c.bp := by
  simp only [run_calls]
  cases cproxy_on_config_pool env m c.name c.port c.config v c.bp <;> rfl

theorem json_one_vbucket_run (env : host_env) (m : proxy_main) (v : Nat)
    (config name : String) :
    (cproxy_on_config_json_one_vbucket env m v config name).map Prod.fst =
      run_calls env v
        (match vbucket_behavior_pool env m.behavior config name with
          | some bp =>
            [{ name := name, port := m.behavior.port_listen, config := some config, bp := bp }]
          | none => []) m := by
  unfold cproxy_on_config_json_one_vbucket
  cases vbucket_behavior_pool env m.behavior config name with
  | none => rfl
  | some bp =>
    dsimp only
    rw [run_calls_single]
    dsimp only
    cases cproxy_on_config_pool env m name m.behavior.port_listen (some config) v bp <;> rfl

theorem json_one_ketama_run (env : host_env) (m : proxy_main) (v : Nat)
    (config name : String) :
    (cproxy_on_config_json_one_ketama env m v config name).map Prod.fst =
      run_calls env v
        (match ketama_behavior_pool env m.behavior config name with
          | some cb =>
            [{ name := name, port := m.behavior.port_listen, config := some cb.1, bp := cb.2 }]
          | none => []) m := by
  unfold cproxy_on_config_json_one_ketama
  cases ketama_behavior_pool env m.behavior config name with
  | none => rfl
  | some cb =>
    dsimp only
    rw [run_calls_single]
    dsimp only
    cases cproxy_on_config_pool env m name m.behavior.port_listen (some cb.1) v cb.2 <;> rfl

theorem json_one_run (env : host_env) (m : proxy_main) (v : Nat) (config name : String) :
    (cproxy_on_config_json_one env m v config name).map Prod.fst =
      run_calls env v (json_one_calls env m.behavior config name) m := by
  unfold cproxy_on_config_json_one json_one_calls
  by_cases hlen : config.length > 0
  · rw [if_pos hlen, if_pos hlen]
    cases env.cJSON_Parse config with
    | none => rfl
    | some jConfig =>
      dsimp only
      split
      · split
        · exact json_one_ketama_run env m v config _
        · exact json_one_vbucket_run env m v config _
      · exact json_one_vbucket_run env m v config _
  · rw [if_neg hlen, if_neg hlen]
    rfl

theorem true_step_rel (v : Nat) : step_rel v (fun _ _ => True) where
  refl := fun _ => trivial
  trans := fun _ _ _ _ _ => trivial
  upd := fun _ _ _ _ _ _ => trivial

theorem json_buckets_run (env : host_env) (v : Nat) (want : Bool) (l : List cJSON)
    (m : proxy_main) (rv : Bool) :
    (cproxy_on_config_json_buckets env v want l m rv).map Prod.fst =
      run_calls env v (json_buckets_calls env m.behavior want l) m := by
  induction l generalizing m rv with
  | nil => rfl
  | cons j rest ih =>
    unfold cproxy_on_config_json_buckets json_buckets_calls
    split
    · dsimp only
      split
      · split
        · rw [run_calls_append, ← json_one_run]
          rename_i s _
          cases hj : cproxy_on_config_json_one env m v s
              (bucket_name env (cJSON.cJSON_Object _)) with
          | error e => rfl
          | ok r =>
            have hb := (json_one_frame env v _ (true_step_rel v) _ _ _ _ hj).1
            simp only [bind, Except.bind, Except.map]
            rw [← hb]
            exact ih r.1 _
        · exact ih m rv
      · exact ih m rv
    · exact ih m rv

theorem json_run (env : host_env) (m : proxy_main) (v : Nat) (config : String) :
    (cproxy_on_config_json env m v config).map Prod.fst =
      run_calls env v (json_calls env m.behavior config) m := by
  unfold cproxy_on_config_json json_calls
  cases env.cJSON_Parse config with
  | none => rfl
  | some c =>
    dsimp only
    split
    · rename_i jBuckets _
      rw [run_calls_append, ← json_buckets_run env v true jBuckets m false]
      cases h1 : cproxy_on_config_json_buckets env v true jBuckets m false with
      | error e => rfl
      | ok r1 =>
        have hb := (json_buckets_frame env v _ (true_step_rel v) _ _ _ _ _ h1).1
        simp only [bind, Except.bind, Except.map]
        rw [← hb, ← json_buckets_run env v false jBuckets r1.1 false]
        cases cproxy_on_config_json_buckets env v false jBuckets r1.1 false <;> rfl
    · exact json_one_run env m v config "default"

/-- The function `cproxy_on_config` as a sequence of calls of `cproxy_on_config_pool`
followed by `close_outdated_proxies`. -/
theorem on_config_run (env : host_env) (m : proxy_main) (kvs : List (String × List String)) :
    cproxy_on_config env m kvs =
      match doc_calls env m.behavior kvs with
      | none =>
        Except.ok
          { m with
            stat_configs := (m.stat_configs + 1) % UINT64
            stat_config_fails := (m.stat_config_fails + 1) % UINT64 }
      | some cs =>
        (run_calls env (new_config_ver m) cs
            { m with stat_configs := (m.stat_configs + 1) % UINT64 }).bind
          (fun a => close_outdated_proxies env a (new_config_ver m)) := by
  unfold cproxy_on_config doc_calls
  dsimp only
  have hv : new_config_ver { m with stat_configs := (m.stat_configs + 1) % UINT64 } =
      new_config_ver m := rfl
  rw [hv]
  split
  · rename_i c0 _ _
    by_cases hlen : (trimstrdup c0).length > 0
    · rw [if_pos hlen, if_pos hlen]
      dsimp only
      have := json_run env { m with stat_configs := (m.stat_configs + 1) % UINT64 }
        (new_config_ver m) (trimstrdup c0)
      dsimp only at this
      rw [← this]
      cases cproxy_on_config_json env { m with stat_configs := (m.stat_configs + 1) % UINT64 }
        (new_config_ver m) (trimstrdup c0) <;> rfl
    · rw [if_neg hlen, if_neg hlen]
      rfl
  · rfl

theorem update_str_config_idem (x c : Option String) :
    (update_str_config (update_str_config x c).1 c).1 = (update_str_config x c).1 := by
  cases x with
  | none =>
    cases c with
    | none => rfl
    | some s =>
      by_cases hs : trimstrdup s = s
      · simp [update_str_config, hs]
      · simp [update_str_config, hs]
  | some t =>
    cases c with
    | none => rfl
    | some s =>
      by_cases hts : t = s
      · subst hts
        simp [update_str_config]
      · by_cases hs : trimstrdup s = s
        · simp [update_str_config, hts, hs]
        · simp [update_str_config, hts, hs]

theorem cproxy_equal_behaviors_copy (k : Int) (y : List proxy_behavior) :
    cproxy_equal_behaviors k (cproxy_copy_behaviors k y) k y = true := by
  simp [cproxy_equal_behaviors, cproxy_copy_behaviors, List.take_take]

theorem update_behaviors_config_idem (a : Option (List proxy_behavior)) (n : Int)
    (b : Option (List proxy_behavior)) (k : Int) :
    (update_behaviors_config (update_behaviors_config a n b k).1
        (update_behaviors_config a n b k).2.1 b k).1 = (update_behaviors_config a n b k).1 ∧
    (update_behaviors_config (update_behaviors_config a n b k).1
        (update_behaviors_config a n b k).2.1 b k).2.1 =
      (update_behaviors_config a n b k).2.1 := by
  cases a with
  | none =>
    cases b with
    | none => exact ⟨rfl, rfl⟩
    | some y =>
      have h1 : update_behaviors_config none n (some y) k =
          (some (cproxy_copy_behaviors k y), k, false) := rfl
      rw [h1]
      dsimp only
      simp [update_behaviors_config, cproxy_equal_behaviors_copy]
  | some x =>
    cases b with
    | none => exact ⟨rfl, rfl⟩
    | some y =>
      by_cases he : cproxy_equal_behaviors n x k y = true
      · have h1 : update_behaviors_config (some x) n (some y) k = (some x, n, false) := by
          simp [update_behaviors_config, he]
        rw [h1]
        dsimp only
        rw [h1]
        exact ⟨rfl, rfl⟩
      · have h1 : update_behaviors_config (some x) n (some y) k =
            (some (cproxy_copy_behaviors k y), k, true) := by
          simp [update_behaviors_config, he]
        rw [h1]
        dsimp only
        simp [update_behaviors_config, cproxy_equal_behaviors_copy]

/-- After the update of a pool by a call, the pool is stable under that call. -/
theorem stable_after_update (c : pool_call) (p : proxy) (v n : Nat) (r : proxy × Bool)
    (h : on_config_pool_existing p c.config v c.bp n = Except.ok r) : stable c r.1 := by
  obtain ⟨_, _, _, _, h5, h6, _⟩ := existing_ok p c.config v c.bp n r h
  unfold stable
  rw [h5, h6]
  dsimp only
  exact ⟨update_str_config_idem _ _, rfl, update_behaviors_config_idem _ _ _ _⟩

/-- A pool created by a call is stable under that call. -/
theorem stable_after_create (c : pool_call) (v n : Nat) :
    stable c (cproxy_create c.name c.port c.config v c.bp n) := by
  obtain ⟨_, _, h3, _, h5⟩ := cproxy_create_fields c.name c.port c.config v c.bp n
  unfold stable
  rw [h3, h5]
  dsimp only
  have hs := update_str_config_idem none c.config
  have hb := update_behaviors_config_idem none c.bp.num c.bp.arr c.bp.num
  have e1 : (update_str_config none c.config).1 = c.config.map trimstrdup := by
    cases c.config <;> rfl
  have e2 : (update_behaviors_config none c.bp.num c.bp.arr c.bp.num).1 =
      c.bp.arr.map (cproxy_copy_behaviors c.bp.num) := by
    cases c.bp.arr <;> rfl
  have e3 : (update_behaviors_config none c.bp.num c.bp.arr c.bp.num).2.1 = c.bp.num := by
    cases c.bp.arr <;> rfl
  rw [e1] at hs
  rw [e2, e3] at hb
  exact ⟨hs, rfl, hb⟩

/-- The update of a pool that is stable under the call changes neither its config string
nor its behaviors nor its worker copies, and gives it the version of the call. -/
theorem update_of_stable (c : pool_call) (p : proxy) (v n : Nat) (r : proxy × Bool)
    (hs : stable c p) (h : on_config_pool_existing p c.config v c.bp n = Except.ok r) :
    same_pool p r.1 ∧ r.1.config_ver = v := by
  obtain ⟨_, h2, h3, h4, h5, h6, h7⟩ := existing_ok p c.config v c.bp n r h
  refine ⟨⟨h3, h4, by rw [h5]; exact hs.1, ?_, h7⟩, h2⟩
  rw [h6, hs.2.2.1, hs.2.2.2, ← hs.2.1]

/-- The shape of the pool list after a call of `cproxy_on_config_pool`. -/
theorem on_config_pool_shape (env : host_env) (m m' : proxy_main) (c : pool_call) (v : Nat)
    (h : cproxy_on_config_pool env m c.name c.port c.config v c.bp = Except.ok m') :
    (m'.proxy_head = m.proxy_head ∧ (∀ p ∈ m.proxy_head, pool_key p ≠ call_key c) ∧
      env.cproxy_create_ok c.name c.port = false) ∨
    (m'.proxy_head = cproxy_create c.name c.port c.config v c.bp m.nthreads :: m.proxy_head ∧
      (∀ p ∈ m.proxy_head, pool_key p ≠ call_key c) ∧
      env.cproxy_create_ok c.name c.port = true) ∨
    (∃ pre p suf r, m.proxy_head = pre ++ p :: suf ∧ m'.proxy_head = pre ++ r.1 :: suf ∧
      pool_key p = call_key c ∧
      on_config_pool_existing p c.config v c.bp m.nthreads = Except.ok r) := by
  obtain ⟨_, _, _, hc⟩ := on_config_pool_cases env m m' c.name c.port c.config v c.bp h
  have hkey : ∀ q : proxy, ¬ (q.port = c.port ∧ q.name = some c.name) →
      pool_key q ≠ call_key c := by
    intro q hq hk
    unfold pool_key call_key at hk
    simp only [Prod.mk.injEq] at hk
    exact hq ⟨hk.2, hk.1⟩
  rcases hc with ⟨hf, ⟨hcr, hl⟩ | ⟨hcr, hl⟩⟩ | ⟨i, p, r, hf, hp, hr, hl⟩
  · exact Or.inl ⟨hl, fun q hq => hkey q (find_proxy_none _ _ _ hf q hq), hcr⟩
  · exact Or.inr (Or.inl ⟨hl, fun q hq => hkey q (find_proxy_none _ _ _ hf q hq), hcr⟩)
  · obtain ⟨pre, suf, hsplit, hlen⟩ := get_split _ i p hp
    obtain ⟨p', hp', h1, h2, _, _⟩ := find_proxy_some _ _ _ _ hf
    rw [hp] at hp'
    simp only [Option.some.injEq] at hp'
    subst hp'
    refine Or.inr (Or.inr ⟨pre, p, suf, r, hsplit, ?_, ?_, hr⟩)
    · rw [hl, hsplit, ← hlen, set_append_mid]
    · unfold pool_key call_key; rw [h1, h2]

/-- A pool that carries the version of the call is not touched by the call. -/
theorem on_config_pool_frozen (env : host_env) (m m' : proxy_main) (c : pool_call) (v : Nat)
    (h : cproxy_on_config_pool env m c.name c.port c.config v c.bp = Except.ok m')
    (p : proxy) (hp : p ∈ m.proxy_head) (hv : p.config_ver = v) : p ∈ m'.proxy_head := by
  rcases on_config_pool_shape env m m' c v h with ⟨hl, _⟩ | ⟨hl, _⟩ | ⟨pre, p0, suf, r, hL, hl, _, hr⟩
  · rw [hl]; exact hp
  · rw [hl]; exact List.mem_cons_of_mem _ hp
  · rw [hl]
    rw [hL] at hp
    have hne : p ≠ p0 := by
      intro he
      subst he
      exact (existing_ok p c.config v c.bp _ r hr).1 hv.symm
    rcases List.mem_append.1 hp with hp | hp
    · exact List.mem_append_left _ hp
    · rcases List.mem_cons.1 hp with hp | hp
      · exact absurd hp hne
      · exact List.mem_append_right _ (List.mem_cons_of_mem _ hp)

/-- Every pool of the list after a call was in the list before, or is the pool the call
addresses and carries its version. -/
theorem on_config_pool_claimed (env : host_env) (m m' : proxy_main) (c : pool_call) (v : Nat)
    (h : cproxy_on_config_pool env m c.name c.port c.config v c.bp = Except.ok m')
    (q : proxy) (hq : q ∈ m'.proxy_head) :
    q ∈ m.proxy_head ∨ (pool_key q = call_key c ∧ q.config_ver = v) := by
  rcases on_config_pool_shape env m m' c v h with ⟨hl, _⟩ | ⟨hl, _⟩ | ⟨pre, p0, suf, r, hL, hl, hk, hr⟩
  · rw [hl] at hq; exact Or.inl hq
  · rw [hl] at hq
    rcases List.mem_cons.1 hq with rfl | hq
    · obtain ⟨c1, c2, _, c4, _⟩ := cproxy_create_fields c.name c.port c.config v c.bp m.nthreads
      exact Or.inr ⟨by unfold pool_key call_key; rw [c1, c2], c4⟩
    · exact Or.inl hq
  · rw [hl] at hq
    rw [hL]
    obtain ⟨_, h2, h3, h4, _⟩ := existing_ok p0 c.config v c.bp _ r hr
    rcases List.mem_append.1 hq with hq | hq
    · exact Or.inl (List.mem_append_left _ hq)
    · rcases List.mem_cons.1 hq with rfl | hq
      · refine Or.inr ⟨?_, h2⟩
        rw [← hk]; unfold pool_key; rw [h3, h4]
      · exact Or.inl (List.mem_append_right _ (List.mem_cons_of_mem _ hq))

/-- After a call, the call has been carried out. -/
theorem on_config_pool_carried (env : host_env) (m m' : proxy_main) (c : pool_call) (v : Nat)
    (h : cproxy_on_config_pool env m c.name c.port c.config v c.bp = Except.ok m') :
    carried env v c m'.proxy_head := by
  rcases on_config_pool_shape env m m' c v h with ⟨hl, ha, hc⟩ | ⟨hl, _, _⟩ | ⟨pre, p0, suf, r, hL, hl, hk, hr⟩
  · rw [hl]; exact Or.inl ⟨ha, hc⟩
  · rw [hl]
    obtain ⟨c1, c2, _, c4, _⟩ := cproxy_create_fields c.name c.port c.config v c.bp m.nthreads
    exact Or.inr ⟨_, List.mem_cons_self _ _, by unfold pool_key call_key; rw [c1, c2],
      stable_after_create c v _, c4⟩
  · rw [hl]
    obtain ⟨_, h2, h3, h4, _⟩ := existing_ok p0 c.config v c.bp _ r hr
    refine Or.inr ⟨r.1, by simp, ?_, stable_after_update c p0 v _ r hr, h2⟩
    rw [← hk]; unfold pool_key; rw [h3, h4]

/-- A call that has been carried out stays carried out across later calls at the same
version. -/
theorem on_config_pool_keeps (env : host_env) (m m' : proxy_main) (c d : pool_call) (v : Nat)
    (h : cproxy_on_config_pool env m d.name d.port d.config v d.bp = Except.ok m')
    (hc : carried env v c m.proxy_head) : carried env v c m'.proxy_head := by
  rcases hc with ⟨ha, hcr⟩ | ⟨p, hp, hk, hs, hv⟩
  · refine Or.inl ⟨?_, hcr⟩
    intro q hq
    rcases on_config_pool_claimed env m m' d v h q hq with hq | ⟨hqk, _⟩
    · exact ha q hq
    · intro hqc
      rcases on_config_pool_shape env m m' d v h with ⟨hl, _⟩ | ⟨_, _, hcr2⟩ | ⟨pre, p0, suf, r, hL, _, hk0, _⟩
      · rw [hl] at hq; exact ha q hq hqc
      · have hdc : call_key d = call_key c := by rw [← hqk, hqc]
        unfold call_key at hdc
        simp only [Prod.mk.injEq, Option.some.injEq] at hdc
        rw [hdc.1, hdc.2, hcr] at hcr2
        cases hcr2
      · exact ha p0 (by rw [hL]; simp) (by rw [hk0, ← hqk, hqc])
  · exact Or.inr ⟨p, on_config_pool_frozen env m m' d v h p hp hv, hk, hs, hv⟩

theorem run_calls_keeps (env : host_env) (v : Nat) (c : pool_call) (cs : List pool_call)
    (m a : proxy_main) (h : run_calls env v cs m = Except.ok a)
    (hc : carried env v c m.proxy_head) : carried env v c a.proxy_head := by
  induction cs generalizing m with
  | nil =>
    simp only [run_calls, Except.ok.injEq] at h
    subst h
    exact hc
  | cons d cs ih =>
    obtain ⟨m1, h1, h2⟩ := (bind_ok_iff _ _ _).1 h
    exact ih m1 h2 (on_config_pool_keeps env m m1 c d v h1 hc)

theorem run_calls_carried (env : host_env) (v : Nat) (cs : List pool_call)
    (m a : proxy_main) (h : run_calls env v cs m = Except.ok a) :
    ∀ c ∈ cs, carried env v c a.proxy_head := by
  induction cs generalizing m with
  | nil => intro c hc; cases hc
  | cons d cs ih =>
    obtain ⟨m1, h1, h2⟩ := (bind_ok_iff _ _ _).1 h
    intro c hc
    rcases List.mem_cons.1 hc with rfl | hc
    · exact run_calls_keeps env v c cs m1 a h2 (on_config_pool_carried env m m1 c v h1)
    · exact ih m1 h2 c hc

theorem run_calls_claimed (env : host_env) (v : Nat) (cs : List pool_call)
    (m a : proxy_main) (h : run_calls env v cs m = Except.ok a) :
    ∀ q ∈ a.proxy_head, q ∈ m.proxy_head ∨
      (q.config_ver = v ∧ ∃ c ∈ cs, pool_key q = call_key c) := by
  induction cs generalizing m with
  | nil =>
    simp only [run_calls, Except.ok.injEq] at h
    subst h
    exact fun q hq => Or.inl hq
  | cons d cs ih =>
    obtain ⟨m1, h1, h2⟩ := (bind_ok_iff _ _ _).1 h
    intro q hq
    rcases ih m1 h2 q hq with hq1 | ⟨hv, c, hc, hk⟩
    · rcases on_config_pool_claimed env m m1 d v h1 q hq1 with hq0 | ⟨hk, hv⟩
      · exact Or.inl hq0
      · exact Or.inr ⟨hv, d, List.mem_cons_self _ _, hk⟩
    · exact Or.inr ⟨hv, c, List.mem_cons_of_mem _ hc, hk⟩

theorem run_calls_pools_ok (env : host_env) (v : Nat) (cs : List pool_call)
    (m a : proxy_main)
    (hcs : ∀ c ∈ cs, 0 < c.port ∧ (c.bp.arr = none → c.bp.num = 0))
    (hok : pools_ok m.proxy_head) (h : run_calls env v cs m = Except.ok a) :
    pools_ok a.proxy_head ∧ a.behavior = m.behavior ∧ a.nthreads = m.nthreads := by
  induction cs generalizing m with
  | nil =>
    simp only [run_calls, Except.ok.injEq] at h
    subst h
    exact ⟨hok, rfl, rfl⟩
  | cons d cs ih =>
    obtain ⟨m1, h1, h2⟩ := (bind_ok_iff _ _ _).1 h
    have hd := hcs d (List.mem_cons_self _ _)
    have hok1 := on_config_pool_pools_ok env m m1 d.name d.port d.config v d.bp hd.1 hd.2 hok h1
    obtain ⟨hb, hn, _⟩ := on_config_pool_cases env m m1 d.name d.port d.config v d.bp h1
    obtain ⟨r1, r2, r3⟩ := ih m1 (fun c hc => hcs c (List.mem_cons_of_mem _ hc)) hok1 h2
    exact ⟨r1, r2.trans hb, r3.trans hn⟩

theorem json_one_calls_wf (env : host_env) (b : proxy_behavior) (config name : String) :
    ∀ c ∈ json_one_calls env b config name, c.port = b.port_listen ∧ c.bp.arr ≠ none := by
  have hv : ∀ n : String, ∀ c ∈ (match vbucket_behavior_pool env b config n with
      | some bp => [({ name := n, port := b.port_listen, config := some config, bp := bp } :
          pool_call)]
      | none => []), c.port = b.port_listen ∧ c.bp.arr ≠ none := by
    intro n c hc
    cases hvb : vbucket_behavior_pool env b config n with
    | none => rw [hvb] at hc; cases hc
    | some bp =>
      rw [hvb] at hc
      simp only [List.mem_singleton] at hc
      subst hc
      refine ⟨rfl, ?_⟩
      dsimp only
      unfold vbucket_behavior_pool at hvb
      split at hvb
      · dsimp only at hvb
        split at hvb
        · split at hvb
          · simp only [Option.some.injEq] at hvb
            subst hvb
            simp
          · cases hvb
        · cases hvb
      · cases hvb
  have hk : ∀ n : String, ∀ c ∈ (match ketama_behavior_pool env b config n with
      | some cb => [({ name := n, port := b.port_listen, config := some cb.1, bp := cb.2 } :
          pool_call)]
      | none => []), c.port = b.port_listen ∧ c.bp.arr ≠ none := by
    intro n c hc
    cases hkb : ketama_behavior_pool env b config n with
    | none => rw [hkb] at hc; cases hc
    | some cb =>
      rw [hkb] at hc
      simp only [List.mem_singleton] at hc
      subst hc
      refine ⟨rfl, ?_⟩
      dsimp only
      unfold ketama_behavior_pool at hkb
      split at hkb
      · cases hkb
      · dsimp only at hkb
        split at hkb
        · split at hkb
          · split at hkb
            · split at hkb
              · simp only [Option.some.injEq] at hkb
                subst hkb
                simp
              · cases hkb
            · cases hkb
          · cases hkb
        · cases hkb
  intro c hc
  unfold json_one_calls at hc
  split at hc
  · split at hc
    · dsimp only at hc
      split at hc
      · split at hc
        · exact hk _ c hc
        · exact hv _ c hc
      · exact hv _ c hc
    · cases hc
  · cases hc

theorem json_buckets_calls_wf (env : host_env) (b : proxy_behavior) (want : Bool)
    (l : List cJSON) :
    ∀ c ∈ json_buckets_calls env b want l, c.port = b.port_listen ∧ c.bp.arr ≠ none := by
  induction l with
  | nil => intro c hc; cases hc
  | cons j rest ih =>
    intro c hc
    unfold json_buckets_calls at hc
    split at hc
    · dsimp only at hc
      split at hc
      · split at hc
        · rcases List.mem_append.1 hc with hc | hc
          · exact json_one_calls_wf env b _ _ c hc
          · exact ih c hc
        · exact ih c hc
      · exact ih c hc
    · exact ih c hc

theorem doc_calls_wf (env : host_env) (b : proxy_behavior) (kvs : List (String × List String))
    (cs : List pool_call) (h : doc_calls env b kvs = some cs) :
    ∀ c ∈ cs, c.port = b.port_listen ∧ c.bp.arr ≠ none := by
  unfold doc_calls at h
  split at h
  · split at h
    · simp only [Option.some.injEq] at h
      subst h
      intro c hc
      unfold json_calls at hc
      split at hc
      · split at hc
        · rcases List.mem_append.1 hc with hc | hc
          · exact json_buckets_calls_wf env b _ _ c hc
          · exact json_buckets_calls_wf env b _ _ c hc
        · exact json_one_calls_wf env b _ _ c hc
      · cases hc
    · cases h
  · simp only [Option.some.injEq] at h
    subst h
    intro c hc
    cases hc

theorem forall2_mem_left (R : proxy → proxy → Prop) (l r : List proxy)
    (h : List.Forall₂ R l r) (p : proxy) (hp : p ∈ l) : ∃ q ∈ r, R p q := by
  induction h with
  | nil => cases hp
  | cons hab _ ih =>
    rcases List.mem_cons.1 hp with rfl | hp
    · exact ⟨_, List.mem_cons_self _ _, hab⟩
    · obtain ⟨q, hq, hr⟩ := ih hp
      exact ⟨q, List.mem_cons_of_mem _ hq, hr⟩

theorem forall2_mem_right (R : proxy → proxy → Prop) (l r : List proxy)
    (h : List.Forall₂ R l r) (q : proxy) (hq : q ∈ r) : ∃ p ∈ l, R p q := by
  induction h with
  | nil => cases hq
  | cons hab _ ih =>
    rcases List.mem_cons.1 hq with rfl | hq
    · exact ⟨_, List.mem_cons_self _ _, hab⟩
    · obtain ⟨p, hp, hr⟩ := ih hq
      exact ⟨p, List.mem_cons_of_mem _ hp, hr⟩

theorem forall2_split_right (R : proxy → proxy → Prop) (l pre suf : List proxy) (q : proxy)
    (h : List.Forall₂ R l (pre ++ q :: suf)) :
    ∃ pre1 p suf1, l = pre1 ++ p :: suf1 ∧ List.Forall₂ R pre1 pre ∧ R p q ∧
      List.Forall₂ R suf1 suf := by
  induction pre generalizing l with
  | nil =>
    cases h with
    | cons hp hs => exact ⟨[], _, _, rfl, List.Forall₂.nil, hp, hs⟩
  | cons a pre ih =>
    cases h with
    | cons ha hs =>
      obtain ⟨pre1, p, suf1, hl, h1, h2, h3⟩ := ih _ hs
      exact ⟨_ :: pre1, p, suf1, by rw [hl]; rfl, List.Forall₂.cons ha h1, h2, h3⟩

theorem forall2_join (R : proxy → proxy → Prop) (pre1 suf1 pre suf : List proxy)
    (p q : proxy) (h1 : List.Forall₂ R pre1 pre) (h2 : R p q) (h3 : List.Forall₂ R suf1 suf) :
    List.Forall₂ R (pre1 ++ p :: suf1) (pre ++ q :: suf) := by
  induction h1 with
  | nil => exact List.Forall₂.cons h2 h3
  | cons hab _ ih => exact List.Forall₂.cons hab ih

theorem forall2_and (R S : proxy → proxy → Prop) (l r : List proxy)
    (h1 : List.Forall₂ R l r) (h2 : List.Forall₂ S l r) :
    List.Forall₂ (fun p q => R p q ∧ S p q) l r := by
  induction h1 with
  | nil => exact List.Forall₂.nil
  | cons hab _ ih =>
    cases h2 with
    | cons hs h2 => exact List.Forall₂.cons ⟨hab, hs⟩ (ih h2)

theorem forall2_keys (R : proxy → proxy → Prop) (l r : List proxy)
    (hR : ∀ p q, R p q → pool_key q = pool_key p) (h : List.Forall₂ R l r) :
    r.map pool_key = l.map pool_key := by
  induction h with
  | nil => rfl
  | cons hab _ ih => simp only [List.map_cons, hR _ _ hab, ih]

theorem pools_ok_of_forall2 (R : proxy → proxy → Prop) (l r : List proxy)
    (hR : ∀ p q, R p q → pool_key q = pool_key p ∧
      ((p.behavior_pool.arr = none → p.behavior_pool.num = 0) →
        (q.behavior_pool.arr = none → q.behavior_pool.num = 0)))
    (h : List.Forall₂ R l r) (hok : pools_ok l) : pools_ok r := by
  refine ⟨?_, ?_⟩
  · rw [forall2_keys R l r (fun p q hpq => (hR p q hpq).1) h]
    exact hok.1
  · intro q hq
    obtain ⟨p, hp, hpq⟩ := forall2_mem_right R l r h q hq
    obtain ⟨hk, hwf⟩ := hR p q hpq
    obtain ⟨h1, h2, h3⟩ := hok.2 p hp
    unfold pool_key at hk
    simp only [Prod.mk.injEq] at hk
    exact ⟨by rw [hk.2]; exact h1, by rw [hk.1]; exact h2, hwf h3⟩

theorem pool_key_unique (l : List proxy) (hok : pools_ok l) (p q : proxy) (hp : p ∈ l)
    (hq : q ∈ l) (hk : pool_key p = pool_key q) : p = q :=
  List.inj_on_of_nodup_map hok.1 hp hq hk

theorem retired_key (v : Nat) (b : proxy_behavior) (p q : proxy) (h : retired v b p q) :
    pool_key q = pool_key p ∧
      ((p.behavior_pool.arr = none → p.behavior_pool.num = 0) →
        (q.behavior_pool.arr = none → q.behavior_pool.num = 0)) := by
  unfold retired at h
  by_cases hc : p.config_ver ≠ v ∧ p.name ≠ some NULL_BUCKET
  · rw [if_pos hc] at h
    refine ⟨?_, fun _ _ => h.2.2.1⟩
    unfold pool_key
    rw [h.2.2.2.2.1, h.2.2.2.2.2.1]
  · rw [if_neg hc] at h
    subst h
    exact ⟨rfl, id⟩

theorem same_pool_key (p q : proxy) (h : same_pool p q) :
    pool_key q = pool_key p ∧
      ((p.behavior_pool.arr = none → p.behavior_pool.num = 0) →
        (q.behavior_pool.arr = none → q.behavior_pool.num = 0)) := by
  refine ⟨?_, ?_⟩
  · unfold pool_key; rw [h.1, h.2.1]
  · rw [h.2.2.2.1]; exact id

theorem same_pool_refl (p : proxy) : same_pool p p :=
  ⟨rfl, rfl, rfl, rfl, rfl⟩

theorem same_pool_trans (p q r : proxy) (h1 : same_pool p q) (h2 : same_pool q r) :
    same_pool p r :=
  ⟨h2.1.trans h1.1, h2.2.1.trans h1.2.1, h2.2.2.1.trans h1.2.2.1,
    h2.2.2.2.1.trans h1.2.2.2.1, h2.2.2.2.2.trans h1.2.2.2.2⟩

theorem stable_of_same (c : pool_call) (p q : proxy) (h : same_pool p q) (hs : stable c p) :
    stable c q := by
  unfold stable at hs ⊢
  rw [h.2.2.1, h.2.2.2.1]
  exact hs

/-- A call that has been carried out on `l1` changes nothing but the version when it is
made again on a list that agrees with `l1`. -/
theorem on_config_pool_again (env : host_env) (v1 v2 : Nat) (l1 : List proxy)
    (m m' : proxy_main) (d : pool_call)
    (hs : List.Forall₂ same_pool l1 m.proxy_head) (hok : pools_ok l1)
    (hc : carried env v1 d l1)
    (h : cproxy_on_config_pool env m d.name d.port d.config v2 d.bp = Except.ok m') :
    List.Forall₂ same_pool l1 m'.proxy_head ∧
    ∀ q ∈ m'.proxy_head, pool_key q = call_key d → q.config_ver = v2 := by
  rcases on_config_pool_shape env m m' d v2 h with
    ⟨hl, ha, _⟩ | ⟨_, ha, hcr⟩ | ⟨pre, p, suf, r, hL, hl, hk, hr⟩
  · rw [hl]
    exact ⟨hs, fun q hq hqk => absurd hqk (ha q hq)⟩
  · exfalso
    rcases hc with ⟨_, hcr1⟩ | ⟨p1, hp1, hk1, _, _⟩
    · rw [hcr1] at hcr; cases hcr
    · obtain ⟨q, hq, hpq⟩ := forall2_mem_left _ _ _ hs p1 hp1
      exact ha q hq ((same_pool_key p1 q hpq).1.trans hk1)
  · rw [hL] at hs
    obtain ⟨pre1, p1, suf1, hl1, f1, f2, f3⟩ := forall2_split_right _ _ _ _ _ hs
    have hp1 : p1 ∈ l1 := by rw [hl1]; simp
    have hstab : stable d p := by
      rcases hc with ⟨ha, _⟩ | ⟨p1', hp1', hk1, hst, _⟩
      · exact absurd ((same_pool_key p1 p f2).1.symm.trans hk) (ha p1 hp1)
      · have : p1' = p1 :=
          pool_key_unique l1 hok p1' p1 hp1' hp1
            (hk1.trans (hk.symm.trans (same_pool_key p1 p f2).1))
        subst this
        exact stable_of_same d _ p f2 hst
    obtain ⟨hsame, hver⟩ := update_of_stable d p v2 _ r hstab hr
    have hs' : List.Forall₂ same_pool l1 m'.proxy_head := by
      rw [hl, hl1]
      exact forall2_join _ _ _ _ _ _ _ f1 (same_pool_trans _ _ _ f2 hsame) f3
    refine ⟨hs', ?_⟩
    intro q hq hqk
    have hok' : pools_ok m'.proxy_head :=
      pools_ok_of_forall2 same_pool _ _ same_pool_key hs' hok
    have hr1 : r.1 ∈ m'.proxy_head := by rw [hl]; simp
    have hkr : pool_key r.1 = call_key d := (same_pool_key p r.1 hsame).1.trans hk
    have : q = r.1 := pool_key_unique _ hok' q r.1 hq hr1 (hqk.trans hkr.symm)
    rw [this]
    exact hver

theorem run_calls_frozen (env : host_env) (v : Nat) (cs : List pool_call) (m a : proxy_main)
    (h : run_calls env v cs m = Except.ok a) (p : proxy) (hp : p ∈ m.proxy_head)
    (hv : p.config_ver = v) : p ∈ a.proxy_head := by
  induction cs generalizing m with
  | nil =>
    simp only [run_calls, Except.ok.injEq] at h
    subst h
    exact hp
  | cons d cs ih =>
    obtain ⟨m1, h1, h2⟩ := (bind_ok_iff _ _ _).1 h
    exact ih m1 h2 (on_config_pool_frozen env m m1 d v h1 p hp hv)

/-- The calls of a delivery that has been carried out, made again at a new version, change
nothing but versions, and every pool they address ends with the new version. -/
theorem run_calls_again (env : host_env) (v1 v2 : Nat) (l1 : List proxy)
    (cs : List pool_call) (m a : proxy_main)
    (hs : List.Forall₂ same_pool l1 m.proxy_head) (hok : pools_ok l1)
    (hc : ∀ c ∈ cs, carried env v1 c l1)
    (h : run_calls env v2 cs m = Except.ok a) :
    List.Forall₂ same_pool l1 a.proxy_head ∧
    ∀ c ∈ cs, ∀ q ∈ a.proxy_head, pool_key q = call_key c → q.config_ver = v2 := by
  induction cs generalizing m with
  | nil =>
    simp only [run_calls, Except.ok.injEq] at h
    subst h
    exact ⟨hs, fun c hc => by cases hc⟩
  | cons d cs ih =>
    obtain ⟨m1, h1, h2⟩ := (bind_ok_iff _ _ _).1 h
    obtain ⟨hs1, hd⟩ := on_config_pool_again env v1 v2 l1 m m1 d hs hok
      (hc d (List.mem_cons_self _ _)) h1
    obtain ⟨hsa, hrest⟩ := ih m1 hs1 (fun c hcc => hc c (List.mem_cons_of_mem _ hcc)) h2
    refine ⟨hsa, ?_⟩
    intro c hcc q hq hqk
    rcases List.mem_cons.1 hcc with rfl | hcc
    · have hoka : pools_ok a.proxy_head :=
        pools_ok_of_forall2 same_pool _ _ same_pool_key hsa hok
      obtain ⟨p1, hp1, hp1q⟩ := forall2_mem_right _ _ _ hsa q hq
      obtain ⟨q1, hq1, hp1q1⟩ := forall2_mem_left _ _ _ hs1 p1 hp1
      have hk1 : pool_key q1 = call_key c :=
        (same_pool_key p1 q1 hp1q1).1.trans ((same_pool_key p1 q hp1q).1.symm.trans hqk)
      have hv1 := hd q1 hq1 hk1
      have hq1a := run_calls_frozen env v2 cs m1 a h2 q1 hq1 hv1
      have : q = q1 := pool_key_unique _ hoka q q1 hq hq1a (hqk.trans hk1.symm)
      rw [this]
      exact hv1
    · exact hrest c hcc q hq hqk

theorem behavior_pool_ext (x y : proxy_behavior_pool) (h1 : x.base = y.base)
    (h2 : x.num = y.num) (h3 : x.arr = y.arr) : x = y := by
  cases x; cases y; simp_all

theorem restart_front_cache_map (p : proxy) (base : proxy_behavior)
    (hp : p.front_cache.map = none) :
    (restart_front_cache p base).front_cache.map = none ∨
      (restart_front_cache p base).front_cache.map = some [] := by
  unfold restart_front_cache
  dsimp only
  split_ifs <;> simp [mcache_start, hp]

theorem reversioned_step_rel (v : Nat) : step_rel v (reversioned v) where
  refl := fun p => Or.inl rfl
  trans := by
    intro p q r hpq hqr
    rcases hqr with rfl | ⟨h1, h2, h3⟩
    · exact hpq
    · rcases hpq with rfl | ⟨h4, _, _⟩
      · exact Or.inr ⟨h1, h2, h3⟩
      · exact absurd h4 h2
  upd := by
    intro p config bp n r h
    obtain ⟨h1, h2, _⟩ := existing_ok p config v bp n r h
    refine Or.inr ⟨h2, fun h3 => h1 h3.symm, ?_⟩
    unfold on_config_pool_existing at h
    dsimp only at h
    rw [if_pos h1] at h
    simp only [pure, Except.pure, Except.ok.injEq] at h
    subst h
    dsimp only
    split_ifs
    · exact Or.inl rfl
    · exact restart_front_cache_map _ _ rfl

theorem run_calls_behavior (env : host_env) (v : Nat) (cs : List pool_call)
    (m a : proxy_main) (h : run_calls env v cs m = Except.ok a) : a.behavior = m.behavior := by
  induction cs generalizing m with
  | nil =>
    simp only [run_calls, Except.ok.injEq] at h
    subst h
    rfl
  | cons d cs ih =>
    obtain ⟨m1, h1, h2⟩ := (bind_ok_iff _ _ _).1 h
    obtain ⟨hb, _⟩ := on_config_pool_cases env m m1 d.name d.port d.config v d.bp h1
    exact (ih m1 h2).trans hb

/-- After a delivery, the pool list is well formed, every call of the document has been
carried out, and every pool other than the NULL bucket is addressed by a call of the
document or is retired. -/
theorem first_delivery_settled (env : host_env) (m0 m1 : proxy_main)
    (kvs : List (String × List String)) (cs : List pool_call)
    (hok : pools_ok m0.proxy_head) (hport : 0 < m0.behavior.port_listen)
    (hfresh : ∀ p ∈ m0.proxy_head, p.config_ver ≠ new_config_ver m0)
    (hdoc : doc_calls env m0.behavior kvs = some cs)
    (h1 : cproxy_on_config env m0 kvs = Except.ok m1) :
    pools_ok m1.proxy_head ∧ m1.behavior = m0.behavior ∧
    (∀ c ∈ cs, carried env (new_config_ver m0) c m1.proxy_head) ∧
    (∀ q ∈ m1.proxy_head, q.name ≠ some NULL_BUCKET →
      (∃ c ∈ cs, pool_key q = call_key c) ∨ retire_stable m0.behavior q) := by
  rw [on_config_run, hdoc] at h1
  dsimp only at h1
  obtain ⟨a, ha, hclose⟩ := (bind_ok_iff _ _ _).1 h1
  have hwf := doc_calls_wf env m0.behavior kvs cs hdoc
  obtain ⟨hoka, hba, _⟩ := run_calls_pools_ok env _ cs
    ({ m0 with stat_configs := (m0.stat_configs + 1) % UINT64 } : proxy_main) a
    (fun c hc => ⟨by rw [(hwf c hc).1]; exact hport, fun h => absurd h (hwf c hc).2⟩) hok ha
  have hcar := run_calls_carried env _ cs _ a ha
  have hcl := run_calls_claimed env _ cs _ a ha
  obtain ⟨m1', suf', hc, hl, hf, hb, _⟩ :=
    close_loop_retires env (new_config_ver m0) a.proxy_head.length a [] a.proxy_head rfl rfl hoka
  unfold close_outdated_proxies at hclose
  rw [hc] at hclose
  simp only [Except.ok.injEq] at hclose
  subst hclose
  simp only [List.nil_append] at hl
  rw [← hl] at hf
  refine ⟨pools_ok_of_forall2 _ _ _ (retired_key _ _) hf hoka, hb.trans hba, ?_, ?_⟩
  · intro c hcc
    rcases hcar c hcc with ⟨habs, hcr⟩ | ⟨p, hp, hk, hs, hv⟩
    · refine Or.inl ⟨?_, hcr⟩
      intro q hq
      obtain ⟨p, hp, hpq⟩ := forall2_mem_right _ _ _ hf q hq
      rw [(retired_key _ _ p q hpq).1]
      exact habs p hp
    · obtain ⟨q, hq, hpq⟩ := forall2_mem_left _ _ _ hf p hp
      unfold retired at hpq
      rw [if_neg (fun h => h.1 hv)] at hpq
      subst hpq
      exact Or.inr ⟨q, hq, hk, hs, hv⟩
  · intro q hq hname
    obtain ⟨p, hp, hpq⟩ := forall2_mem_right _ _ _ hf q hq
    unfold retired at hpq
    by_cases hcond : p.config_ver ≠ new_config_ver m0 ∧ p.name ≠ some NULL_BUCKET
    · rw [if_pos hcond] at hpq
      exact Or.inr ⟨hpq.1, hpq.2.1, by rw [hpq.2.2.2.2.2.2.1, hba]⟩
    · rw [if_neg hcond] at hpq
      subst hpq
      have hv : q.config_ver = new_config_ver m0 := by
        by_contra hne
        exact hcond ⟨hne, hname⟩
      rcases hcl q hp with h0 | ⟨_, c, hcc, hk⟩
      · exact absurd hv (hfresh q h0)
      · exact Or.inl ⟨c, hcc, hk⟩

/-- A delivery on a settled pool list changes no pool's name, port, config string,
behaviors or worker copies. -/
theorem second_delivery_same (env : host_env) (m1 m2 : proxy_main) (v1 : Nat)
    (kvs : List (String × List String)) (cs : List pool_call)
    (hok : pools_ok m1.proxy_head)
    (hdoc : doc_calls env m1.behavior kvs = some cs)
    (hcar : ∀ c ∈ cs, carried env v1 c m1.proxy_head)
    (hret : ∀ q ∈ m1.proxy_head, q.name ≠ some NULL_BUCKET →
      (∃ c ∈ cs, pool_key q = call_key c) ∨ retire_stable m1.behavior q)
    (h2 : cproxy_on_config env m1 kvs = Except.ok m2) :
    List.Forall₂ same_pool m1.proxy_head m2.proxy_head := by
  rw [on_config_run, hdoc] at h2
  dsimp only at h2
  obtain ⟨a, ha, hclose⟩ := (bind_ok_iff _ _ _).1 h2
  obtain ⟨hsa, hver⟩ := run_calls_again env v1 (new_config_ver m1) m1.proxy_head cs
    ({ m1 with stat_configs := (m1.stat_configs + 1) % UINT64 } : proxy_main) a
    (forall2_refl_of _ same_pool_refl _) hok hcar ha
  have hoka : pools_ok a.proxy_head := pools_ok_of_forall2 same_pool _ _ same_pool_key hsa hok
  have hba : a.behavior = m1.behavior := run_calls_behavior env _ cs
    ({ m1 with stat_configs := (m1.stat_configs + 1) % UINT64 } : proxy_main) a ha
  obtain ⟨m2', suf', hc, hl, hf, _, _⟩ :=
    close_loop_retires env (new_config_ver m1) a.proxy_head.length a [] a.proxy_head rfl rfl hoka
  unfold close_outdated_proxies at hclose
  rw [hc] at hclose
  simp only [Except.ok.injEq] at hclose
  subst hclose
  simp only [List.nil_append] at hl
  rw [← hl] at hf
  refine forall2_trans_of _ same_pool_trans _ _ _ hsa (forall2_imp_mem _ _ _ _ ?_ hf)
  intro p hp q hpq
  unfold retired at hpq
  by_cases hcond : p.config_ver ≠ new_config_ver m1 ∧ p.name ≠ some NULL_BUCKET
  · rw [if_pos hcond] at hpq
    obtain ⟨p1, hp1, hp1p⟩ := forall2_mem_right _ _ _ hsa p hp
    have hname1 : p1.name ≠ some NULL_BUCKET := by rw [← hp1p.1]; exact hcond.2
    rcases hret p1 hp1 hname1 with ⟨c, hcc, hk⟩ | hrs
    · exact absurd (hver c hcc p hp ((same_pool_key p1 p hp1p).1.trans hk)) hcond.1
    · have hwf := (hok.2 p1 hp1).2.2
      refine ⟨hpq.2.2.2.2.1, hpq.2.2.2.2.2.1, ?_, ?_, hpq.2.2.2.2.2.2.2⟩
      · rw [hpq.1, hp1p.2.2.1, hrs.1]
      · rw [hp1p.2.2.2.1]
        exact behavior_pool_ext _ _ (by rw [hpq.2.2.2.2.2.2.1, hba, hrs.2.2])
          (by rw [hpq.2.2.1, hwf hrs.2.1]) (by rw [hpq.2.1, hrs.2.1])
  · rw [if_neg hcond] at hpq
    subst hpq
    exact same_pool_refl _

theorem update_str_config_self (x : Option String) : update_str_config x x = (x, false) := by
  cases x <;> simp [update_str_config]

theorem update_behaviors_config_self (a : Option (List proxy_behavior)) (n : Int) :
    update_behaviors_config a n a n = (a, n, false) := by
  cases a with
  | none => rfl
  | some x => simp [update_behaviors_config, cproxy_equal_behaviors]

/-- A worker copy that holds the pool's config string and behaviors is left as it is by
`update_ptd_config`, apart from the version: the key stats are not restarted. -/
theorem update_ptd_config_in_sync (q : proxy) (ptd : proxy_td) (hc : ptd.config = q.config)
    (hb : ptd.behavior_pool = q.behavior_pool) :
    update_ptd_config q ptd = ({ ptd with config_ver := q.config_ver }, false) := by
  unfold update_ptd_config
  by_cases hv : ptd.config_ver ≠ q.config_ver
  · rw [if_pos hv]
    dsimp only
    rw [← hc, ← hb, update_str_config_self, update_behaviors_config_self]
    simp
  · rw [if_neg hv]
    have hv' : ptd.config_ver = q.config_ver := by
      by_contra h
      exact hv h
    cases ptd
    simp only at hv'
    simp [hv']

theorem grows_same_length (R : proxy → proxy → Prop) (l l' : List proxy) (h : grows R l l')
    (hlen : l'.length = l.length) : List.Forall₂ R l l' := by
  obtain ⟨added, rest, hl, hr⟩ := h
  have h1 := hr.length_eq
  rw [hl, List.length_append] at hlen
  have : added = [] := List.length_eq_zero.1 (by omega)
  subst this
  rw [hl]
  exact hr

theorem genhash_find_update_same (m : List (String × List multiget_entry)) (key : String)
    (v : List multiget_entry) : genhash_find (genhash_update m key v) key = some v := by
  induction m with
  | nil => simp [genhash_update, genhash_find]
  | cons kv rest ih =>
    unfold genhash_update
    by_cases h : kv.1 = key
    · rw [if_pos h]; simp [genhash_find]
    · rw [if_neg h]
      unfold genhash_find at ih ⊢
      simp only [List.find?_cons, h, decide_False]
      exact ih

theorem genhash_find_update_other (m : List (String × List multiget_entry)) (key key' : String)
    (v : List multiget_entry) (hne : key' ≠ key) :
    genhash_find (genhash_update m key v) key' = genhash_find m key' := by
  induction m with
  | nil => simp [genhash_update, genhash_find, Ne.symm hne]
  | cons kv rest ih =>
    unfold genhash_update
    by_cases h : kv.1 = key
    · rw [if_pos h]
      have h' : ¬ kv.1 = key' := by rw [h]; exact Ne.symm hne
      simp [genhash_find, List.find?_cons, h', Ne.symm hne]
    · rw [if_neg h]
      unfold genhash_find at ih ⊢
      by_cases h2 : kv.1 = key'
      · simp [List.find?_cons, h2]
      · simp only [List.find?_cons, h2, decide_False]
        exact ih

theorem entry_conns_update (m : List (String × List multiget_entry)) (key key' : String)
    (v : List multiget_entry) :
    entry_conns (genhash_update m key v) key' =
      if key' = key then v.map (fun e => e.upstream_conn) else entry_conns m key' := by
  unfold entry_conns
  by_cases h : key' = key
  · rw [if_pos h, h, genhash_find_update_same]; rfl
  · rw [if_neg h, genhash_find_update_other m key key' v h]

theorem recorded_append (P : List (Nat × String)) (u : Nat) (key key' : String) :
    recorded (P ++ [(u, key)]) key' =
      if key' = key then some u :: recorded P key' else recorded P key' := by
  unfold recorded
  simp only [List.reverse_append, List.reverse_cons, List.reverse_nil, List.nil_append,
    List.singleton_append, List.filter_cons]
  by_cases h : key' = key
  · subst h; simp
  · have h' : ¬ key = key' := fun e => h e.symm
    simp [h, h']

theorem count_recorded (P : List (Nat × String)) (u : Nat) (key : String) :
    (recorded P key).count (some u) = P.count (u, key) := by
  induction P using List.reverseRecOn with
  | nil => rfl
  | append_singleton P x ih =>
    obtain ⟨u', key'⟩ := x
    rw [recorded_append, List.count_append]
    by_cases hk : key = key'
    · subst hk
      rw [if_pos rfl, List.count_cons, ih]
      by_cases hu : u' = u
      · subst hu; simp
      · have : ¬ u = u' := fun e => hu e.symm
        simp [hu, this]
    · rw [if_neg hk, ih]
      have : ¬ ((u', key') = (u, key)) := by
        intro e
        simp only [Prod.mk.injEq] at e
        exact hk e.2.symm
      rw [List.count_singleton]
      simp [this]

theorem count_key_fields (d : downstream) (k : String × Bool × Nat) :
    (count_key d k).multiget = d.multiget ∧ (count_key d k).sent = d.sent ∧
    (count_key d k).upstream_conn = d.upstream_conn ∧
    (count_key d k).downstream_conns = d.downstream_conns ∧
    (count_key d k).allocs = d.allocs := by
  unfold count_key
  dsimp only
  split_ifs <;> exact ⟨rfl, rfl, rfl, rfl, rfl⟩

theorem live_conn_congr (d d' : downstream) (h : d'.downstream_conns = d.downstream_conns)
    (i : Nat) : live_conn d' i = live_conn d i := by
  unfold live_conn
  rw [h]

theorem resolves_congr (env : mg_env) (d d' : downstream)
    (h : ∀ i, (live_conn d i).isSome = true → (live_conn d' i).isSome = true)
    (hr : resolves env d) : resolves env d' := by
  intro key
  obtain ⟨i, v, h1, h2⟩ := hr key
  exact ⟨i, v, h1, h i h2⟩

theorem front_cache_hit_none (env : mg_env) (use_front_cache cas_emit : Bool) (d : downstream)
    (key : String) (h : no_front_cache_hit env use_front_cache) :
    front_cache_hit env use_front_cache cas_emit d key = none := by
  unfold front_cache_hit
  split
  · rename_i hc
    simp only [Bool.and_eq_true] at hc
    exact h _ key hc.1.2 hc.2
  · rfl

theorem dedupe_key_fields (env : mg_env) (uc : uconn) (d : downstream) (key : String)
    (key_last : Bool) :
    (dedupe_key env uc d key key_last).1.sent = d.sent ∧
    (dedupe_key env uc d key key_last).1.upstream_conn = d.upstream_conn ∧
    (dedupe_key env uc d key key_last).1.downstream_conns = d.downstream_conns := by
  unfold dedupe_key
  dsimp only
  by_cases h1 : key_last = false ∧ d.multiget = none
  · rw [if_pos h1]
    dsimp only
    by_cases hc : env.calloc_ok d.allocs = true
    · rw [if_pos hc]; exact ⟨rfl, rfl, rfl⟩
    · rw [if_neg hc]; exact ⟨rfl, rfl, rfl⟩
  · rw [if_neg h1]
    cases hm : d.multiget with
    | none => exact ⟨rfl, rfl, rfl⟩
    | some m =>
      dsimp only
      by_cases hc : env.calloc_ok d.allocs = true
      · rw [if_pos hc]; exact ⟨rfl, rfl, rfl⟩
      · rw [if_neg hc]; exact ⟨rfl, rfl, rfl⟩

/-- The de-duplication step when the map exists. -/
theorem dedupe_key_map (env : mg_env) (uc : uconn) (d : downstream) (key : String)
    (key_last : Bool) (m : List (String × List multiget_entry)) (hm : d.multiget = some m)
    (halloc : ∀ n, env.calloc_ok n = true) :
    (dedupe_key env uc d key key_last).1.multiget =
      some (genhash_update m key
        ({ upstream_conn := some uc.sfd, opaque_id := 0, hits := 0 } ::
          (genhash_find m key).getD [])) := by
  unfold dedupe_key
  dsimp only
  have h1 : ¬ (key_last = false ∧ d.multiget = none) := by
    rw [hm]; simp
  rw [if_neg h1, hm]
  dsimp only
  rw [if_pos (halloc _)]

/-- The de-duplication step when there is no map and the key is not the last of its
command. -/
theorem dedupe_key_create (env : mg_env) (uc : uconn) (d : downstream) (key : String)
    (hm : d.multiget = none) (halloc : ∀ n, env.calloc_ok n = true) :
    (dedupe_key env uc d key false).1.multiget =
      some (genhash_update [] key
        ({ upstream_conn := some uc.sfd, opaque_id := 0, hits := 0 } ::
          (genhash_find [] key).getD [])) := by
  unfold dedupe_key
  dsimp only
  rw [if_pos ⟨rfl, hm⟩]
  dsimp only
  rw [if_pos (halloc _)]

theorem emit_key_fields (ops : emit_ops) (d : downstream) (i : Nat) (c : dconn)
    (cmd key : String) (vbucket : Int) (key_index : Nat) :
    (emit_key ops d i c cmd key vbucket key_index).multiget = d.multiget ∧
    (emit_key ops d i c cmd key vbucket key_index).sent = d.sent ∧
    (emit_key ops d i c cmd key vbucket key_index).upstream_conn = d.upstream_conn ∧
    ∀ j, (live_conn d j).isSome = true →
      (live_conn (emit_key ops d i c cmd key vbucket key_index) j).isSome = true := by
  refine ⟨rfl, rfl, rfl, ?_⟩
  intro j hj
  unfold emit_key live_conn at *
  dsimp only at *
  by_cases hij : i = j
  · subst hij
    cases hg : d.downstream_conns.get? i with
    | none => rw [hg] at hj; simp at hj
    | some s =>
      have hlt : i < d.downstream_conns.length := by
        rcases Nat.lt_or_ge i d.downstream_conns.length with h | h
        · exact h
        · rw [List.get?_eq_none.2 h] at hg; cases hg
      rw [List.get?_eq_getElem?, List.getElem?_set_self hlt]
      rfl
  · rw [List.get?_eq_getElem?, List.getElem?_set_ne hij, ← List.get?_eq_getElem?]
    exact hj

theorem entry_conns_nil (key : String) : entry_conns [] key = [] := rfl

theorem recorded_nil (key : String) : recorded [] key = [] := rfl

/-- One round of the key loop keeps the invariant of the reservation and records the
key. -/
theorem multiget_key_inv (env : mg_env) (ops : emit_ops) (use_front_cache : Bool)
    (uc : uconn) (cas_emit : Bool) (cmd : String) (d0 d : downstream)
    (P : List (Nat × String)) (k : String × Bool × Nat)
    (hinv : mg_inv env d0 d P) (hfc : no_front_cache_hit env use_front_cache)
    (halloc : ∀ n, env.calloc_ok n = true)
    (hcond : d.multiget ≠ none ∨ k.1.length = 0 ∨ k.2.1 = false) :
    ∃ d', multiget_key env ops use_front_cache uc cas_emit cmd d k = Except.ok d' ∧
      mg_inv env d0 d' (P ++ (if k.1.length > 0 then [(uc.sfd, k.1)] else [])) ∧
      (d.multiget ≠ none → d'.multiget ≠ none) ∧
      (k.1.length > 0 → d'.multiget ≠ none) := by
  obtain ⟨hsent, huc, hres, hmap⟩ := hinv
  obtain ⟨c1, c2, c3, c4, _⟩ := count_key_fields d k
  unfold multiget_key
  by_cases hlen : k.1.length > 0
  · rw [if_pos hlen, if_pos hlen, front_cache_hit_none env _ _ _ _ hfc]
    dsimp only
    obtain ⟨i, v, hfind, hlive⟩ := hres k.1
    rw [hfind]
    dsimp only
    rw [live_conn_congr d (count_key d k) c4 i]
    cases hl : live_conn d i with
    | none => rw [hl] at hlive; simp at hlive
    | some c =>
      dsimp only
      obtain ⟨f1, f2, f3⟩ := dedupe_key_fields env uc (count_key d k) k.1 k.2.1
      have hmulti : ∃ m', (dedupe_key env uc (count_key d k) k.1 k.2.1).1.multiget = some m' ∧
          ∀ key, entry_conns m' key = recorded (P ++ [(uc.sfd, k.1)]) key := by
        rcases hmap with ⟨hnone, hP⟩ | ⟨m, hm, hrec⟩
        · have hk : k.2.1 = false := by
            rcases hcond with h | h | h
            · exact absurd hnone h
            · omega
            · exact h
          rw [hk, dedupe_key_create env uc (count_key d k) k.1 (c1.trans hnone) halloc]
          refine ⟨_, rfl, ?_⟩
          intro key
          rw [entry_conns_update, hP, recorded_append]
          by_cases hkey : key = k.1
          · rw [if_pos hkey, if_pos hkey]; rfl
          · rw [if_neg hkey, if_neg hkey]; rfl
        · rw [dedupe_key_map env uc (count_key d k) k.1 k.2.1 m (c1.trans hm) halloc]
          refine ⟨_, rfl, ?_⟩
          intro key
          rw [entry_conns_update, recorded_append]
          by_cases hkey : key = k.1
          · rw [if_pos hkey, if_pos hkey, hkey, ← hrec k.1]
            rfl
          · rw [if_neg hkey, if_neg hkey, hrec key]
      obtain ⟨m', hm', hrec'⟩ := hmulti
      have hres1 : resolves env (dedupe_key env uc (count_key d k) k.1 k.2.1).1 :=
        resolves_congr env d _ (fun j hj => by
          rw [live_conn_congr d _ (f3.trans c4) j]; exact hj) hres
      by_cases hr : (dedupe_key env uc (count_key d k) k.1 k.2.1).2 = true
      · rw [if_pos hr]
        obtain ⟨e1, e2, e3, e4⟩ := emit_key_fields ops
          (dedupe_key env uc (count_key d k) k.1 k.2.1).1 i c cmd k.1 v k.2.2
        refine ⟨_, rfl, ⟨?_, ?_, ?_, Or.inr ⟨m', e1.trans hm', hrec'⟩⟩, ?_, ?_⟩
        · rw [e2, f1, c2, hsent]
        · rw [e3, f2, c3, huc]
        · exact resolves_congr env _ _ e4 hres1
        · intro _; rw [e1, hm']; simp
        · intro _; rw [e1, hm']; simp
      · rw [if_neg hr]
        refine ⟨_, rfl, ⟨?_, ?_, ?_, Or.inr ⟨m', hm', hrec'⟩⟩, ?_, ?_⟩
        · show (dedupe_key env uc (count_key d k) k.1 k.2.1).1.sent = d0.sent
          rw [f1, c2, hsent]
        · show (dedupe_key env uc (count_key d k) k.1 k.2.1).1.upstream_conn = _
          rw [f2, c3, huc]
        · exact resolves_congr env _ _ (fun j hj => hj) hres1
        · intro _
          show (dedupe_key env uc (count_key d k) k.1 k.2.1).1.multiget ≠ none
          rw [hm']; simp
        · intro _
          show (dedupe_key env uc (count_key d k) k.1 k.2.1).1.multiget ≠ none
          rw [hm']; simp
  · rw [if_neg hlen, if_neg hlen, List.append_nil]
    refine ⟨_, rfl, ⟨c2.trans hsent, c3.trans huc, ?_, ?_⟩, ?_, ?_⟩
    · exact resolves_congr env d _ (fun j hj => by
        rw [live_conn_congr d _ c4 j]; exact hj) hres
    · rw [c1]; exact hmap
    · intro h; rw [c1]; exact h
    · intro h; exact absurd h hlen

theorem rounds_keys_cons (k : String × Bool × Nat) (rest : List (String × Bool × Nat)) :
    rounds_keys (k :: rest) =
      if k.1.length > 0 then k.1 :: rounds_keys rest else rounds_keys rest := by
  unfold rounds_keys
  by_cases h : k.1.length > 0
  · simp [h]
  · simp [h]

theorem rounds_keys_of_find (rounds : List (String × Bool × Nat)) (k : String × Bool × Nat)
    (h : rounds.find? (fun k => k.1.length > 0) = some k) : rounds_keys rounds ≠ [] := by
  induction rounds with
  | nil => simp at h
  | cons a rest ih =>
    rw [rounds_keys_cons]
    by_cases ha : a.1.length > 0
    · rw [if_pos ha]; simp
    · rw [if_neg ha]
      rw [List.find?_cons] at h
      simp only [ha, decide_False] at h
      exact ih h

/-- The key loop over the rounds of one command keeps the invariant and records the
non-empty keys of the command. -/
theorem multiget_keys_inv (env : mg_env) (ops : emit_ops) (use_front_cache : Bool)
    (uc : uconn) (cas_emit : Bool) (cmd : String) (d0 : downstream)
    (hfc : no_front_cache_hit env use_front_cache) (halloc : ∀ n, env.calloc_ok n = true)
    (rounds : List (String × Bool × Nat)) (d : downstream) (P : List (Nat × String))
    (hinv : mg_inv env d0 d P)
    (hcond : d.multiget ≠ none ∨ first_round_ok rounds = true) :
    ∃ d', multiget_keys env ops use_front_cache uc cas_emit cmd rounds d = Except.ok d' ∧
      mg_inv env d0 d' (P ++ (rounds_keys rounds).map (fun key => (uc.sfd, key))) ∧
      (d.multiget ≠ none → d'.multiget ≠ none) ∧
      (rounds_keys rounds ≠ [] → d'.multiget ≠ none) := by
  induction rounds generalizing d P with
  | nil =>
    refine ⟨d, rfl, ?_, id, fun h => absurd rfl h⟩
    simpa [rounds_keys] using hinv
  | cons k rest ih =>
    have hk : d.multiget ≠ none ∨ k.1.length = 0 ∨ k.2.1 = false := by
      rcases hcond with h | h
      · exact Or.inl h
      · by_cases hlen : k.1.length > 0
        · unfold first_round_ok at h
          rw [List.find?_cons] at h
          simp only [hlen, decide_True] at h
          exact Or.inr (Or.inr (by simpa using h))
        · exact Or.inr (Or.inl (by omega))
    obtain ⟨d1, h1, hinv1, hkeep1, hnew1⟩ :=
      multiget_key_inv env ops use_front_cache uc cas_emit cmd d0 d P k hinv hfc halloc hk
    have hrest : d1.multiget ≠ none ∨ first_round_ok rest = true := by
      by_cases hlen : k.1.length > 0
      · exact Or.inl (hnew1 hlen)
      · rcases hcond with h | h
        · exact Or.inl (hkeep1 h)
        · refine Or.inr ?_
          unfold first_round_ok at h ⊢
          rw [List.find?_cons] at h
          simp only [hlen, decide_False] at h
          exact h
    obtain ⟨d', h2, hinv2, hkeep2, hnew2⟩ := ih d1 _ hinv1 hrest
    refine ⟨d', ?_, ?_, fun h => hkeep2 (hkeep1 h), ?_⟩
    · unfold multiget_keys
      rw [h1]
      exact h2
    · rw [rounds_keys_cons]
      by_cases hlen : k.1.length > 0
      · rw [if_pos hlen] at hinv2 ⊢
        simpa using hinv2
      · rw [if_neg hlen] at hinv2 ⊢
        simpa using hinv2
    · intro hne
      rw [rounds_keys_cons] at hne
      by_cases hlen : k.1.length > 0
      · exact hkeep2 (hnew1 hlen)
      · rw [if_neg hlen] at hne
        exact hnew2 hne

theorem keys_of_eq (uc : uconn) : keys_of uc = rounds_keys (rounds_of uc) := by
  unfold keys_of rounds_of rounds_keys
  cases split_command uc with
  | none => rfl
  | some cr => rfl

theorem multiget_upstream_eq (env : mg_env) (ops : emit_ops) (use_front_cache : Bool)
    (d : downstream) (uc : uconn) (h : well_formed uc) :
    ∃ cas_emit cmd, multiget_upstream env ops use_front_cache d uc =
      multiget_keys env ops use_front_cache uc cas_emit cmd (rounds_of uc) d := by
  obtain ⟨cmd, rest, hs, hlen⟩ := h
  unfold multiget_upstream rounds_of
  rw [hs]
  dsimp only
  rw [if_pos hlen]
  exact ⟨_, _, rfl⟩

theorem chain_keys_cons (uc : uconn) (rest : List uconn) :
    chain_keys (uc :: rest) = (keys_of uc).map (fun key => (uc.sfd, key)) ++ chain_keys rest := by
  unfold chain_keys
  simp

/-- The upstream loop keeps the invariant, records the keys of the chain, and leaves a
map behind when the first key of the chain creates it. -/
theorem multiget_chain_inv (env : mg_env) (ops : emit_ops) (use_front_cache : Bool)
    (d0 : downstream) (hfc : no_front_cache_hit env use_front_cache)
    (halloc : ∀ n, env.calloc_ok n = true) (chain : List uconn) (d : downstream)
    (P : List (Nat × String)) (hwf : ∀ uc ∈ chain, well_formed uc)
    (hinv : mg_inv env d0 d P)
    (hcond : d.multiget ≠ none ∨ map_from_first_key chain = true) :
    ∃ d', multiget_chain env ops use_front_cache chain d = Except.ok d' ∧
      mg_inv env d0 d' (P ++ chain_keys chain) ∧ d'.multiget ≠ none := by
  induction chain generalizing d P with
  | nil =>
    refine ⟨d, rfl, by simpa [chain_keys] using hinv, ?_⟩
    rcases hcond with h | h
    · exact h
    · simp [map_from_first_key] at h
  | cons uc rest ih =>
    obtain ⟨cas_emit, cmd, heq⟩ := multiget_upstream_eq env ops use_front_cache d uc
      (hwf uc (List.mem_cons_self _ _))
    have hround : d.multiget ≠ none ∨ first_round_ok (rounds_of uc) = true := by
      rcases hcond with h | h
      · exact Or.inl h
      · refine Or.inr ?_
        unfold map_from_first_key at h
        unfold first_round_ok
        cases hf : (rounds_of uc).find? (fun k => k.1.length > 0) with
        | none => rfl
        | some k => rw [hf] at h; exact h
    obtain ⟨d1, h1, hinv1, hkeep1, hnew1⟩ :=
      multiget_keys_inv env ops use_front_cache uc cas_emit cmd d0 hfc halloc (rounds_of uc)
        d P hinv hround
    have hrest : d1.multiget ≠ none ∨ map_from_first_key rest = true := by
      rcases hcond with h | h
      · exact Or.inl (hkeep1 h)
      · unfold map_from_first_key at h
        cases hf : (rounds_of uc).find? (fun k => k.1.length > 0) with
        | none => rw [hf] at h; exact Or.inr h
        | some k => exact Or.inl (hnew1 (rounds_keys_of_find _ k hf))
    obtain ⟨d', h2, hinv2, hne⟩ :=
      ih d1 _ (fun u hu => hwf u (List.mem_cons_of_mem _ hu)) hinv1 hrest
    refine ⟨d', ?_, ?_, hne⟩
    · unfold multiget_chain
      rw [heq, h1]
      exact h2
    · rw [chain_keys_cons, keys_of_eq, ← List.append_assoc]
      exact hinv2

theorem item_response_sent (d : downstream) (it : item) (uc : Nat) (h : it.crlf = true) :
    cproxy_upstream_ascii_item_response d it uc (-1) =
      { d with sent := d.sent ++ reply_of it uc } := by
  unfold cproxy_upstream_ascii_item_response reply_of
  rw [if_pos h]
  by_cases hc : it.cas = CPROXY_NOT_CAS
  · rw [if_pos (Or.inr ⟨by decide, hc⟩), if_pos hc]
  · rw [if_neg (by
      intro h1
      rcases h1 with h1 | h1
      · exact absurd h1 (by decide)
      · exact hc h1.2), if_neg hc]

theorem values_sent_append (a b : List (Nat × iov)) (u : Nat) :
    values_sent (a ++ b) u = values_sent a u ++ values_sent b u := by
  unfold values_sent
  rw [List.filterMap_append]

theorem values_sent_reply (it : item) (uc u : Nat) :
    values_sent (reply_of it uc) u = if uc = u then [it.key] else [] := by
  unfold reply_of values_sent
  by_cases hc : it.cas = CPROXY_NOT_CAS
  · rw [if_pos hc]
    by_cases hu : uc = u
    · simp [hu]
    · simp [hu]
  · rw [if_neg hc]
    by_cases hu : uc = u
    · simp [hu]
    · simp [hu]

theorem values_sent_entries (it : item) (u : Nat) (es : List multiget_entry) :
    values_sent (es.flatMap (fun e =>
        match e.upstream_conn with
        | some uc => reply_of it uc
        | none => [])) u =
      List.replicate ((es.map (fun e => e.upstream_conn)).count (some u)) it.key := by
  induction es with
  | nil => rfl
  | cons e rest ih =>
    rw [List.flatMap_cons, values_sent_append, ih, List.map_cons, List.count_cons]
    cases hc : e.upstream_conn with
    | none =>
      simp [values_sent]
    | some uc =>
      dsimp only
      rw [values_sent_reply]
      by_cases hu : uc = u
      · subst hu
        simp [List.replicate_succ]
      · have : ¬ (some uc = some u) := by simpa using hu
        simp [hu]

theorem respond_entry_fields (it : item) (hcrlf : it.crlf = true) (uc : Nat) (first : Bool)
    (d : downstream) :
    (respond_entry it uc first d).sent = d.sent ++ reply_of it uc ∧
    (respond_entry it uc first d).upstream_conn = d.upstream_conn ∧
    (respond_entry it uc first d).multiget = d.multiget := by
  unfold respond_entry
  rw [item_response_sent d it uc hcrlf]
  cases first <;> exact ⟨rfl, rfl, rfl⟩

theorem respond_entries_spec (it : item) (hcrlf : it.crlf = true) (es : List multiget_entry)
    (first : Bool) (d : downstream) :
    (respond_entries it es first d).sent = d.sent ++ es.flatMap (fun e =>
        match e.upstream_conn with
        | some uc => reply_of it uc
        | none => []) ∧
    (respond_entries it es first d).upstream_conn = d.upstream_conn ∧
    (respond_entries it es first d).multiget = d.multiget := by
  induction es generalizing first d with
  | nil => simp [respond_entries]
  | cons e rest ih =>
    unfold respond_entries
    cases hc : e.upstream_conn with
    | none =>
      dsimp only
      obtain ⟨h1, h3, h4⟩ := ih false d
      refine ⟨?_, h3, h4⟩
      rw [h1, List.flatMap_cons, hc]; rfl
    | some uc =>
      dsimp only
      obtain ⟨h1, h3, h4⟩ := ih false (respond_entry it uc first d)
      obtain ⟨f1, f2, f3⟩ := respond_entry_fields it hcrlf uc first d
      refine ⟨?_, h3.trans f2, h4.trans f3⟩
      rw [h1, f1, List.flatMap_cons, hc]; simp

/-- A response handled with the map: every upstream connection gets one `VALUE` reply per
request it made for the key of the item, and the map still records the same requests. -/
theorem response_inv (env : mg_env) (d : downstream) (P : List (Nat × String)) (it : item)
    (m : List (String × List multiget_entry)) (hm : d.multiget = some m)
    (hrec : ∀ key, entry_conns m key = recorded P key)
    (hcrlf : it.crlf = true) (hlen : it.key.length > 0) :
    ∃ d' m', multiget_ascii_downstream_response env d it = Except.ok d' ∧
      d'.multiget = some m' ∧ (∀ key, entry_conns m' key = recorded P key) ∧
      ∀ u, values_sent d'.sent u =
        values_sent d.sent u ++ List.replicate (P.count (u, it.key)) it.key := by
  unfold multiget_ascii_downstream_response
  rw [if_pos hlen]
  dsimp only
  have hd1 : ∀ X : downstream, X = (if env.front_cache_key it.key = true then
      { d with front_cache := mcache_set d.front_cache it } else d) →
      X.multiget = some m ∧ X.sent = d.sent := by
    intro X hX
    subst hX
    split_ifs <;> exact ⟨hm, rfl⟩
  generalize hX : (if env.front_cache_key it.key = true then
      ({ d with front_cache := mcache_set d.front_cache it } : downstream) else d) = X
  obtain ⟨hXm, hXs⟩ := hd1 X hX.symm
  rw [hXm]
  dsimp only
  have hcount : ∀ u, ((recorded P it.key).count (some u)) = P.count (u, it.key) :=
    fun u => count_recorded P u it.key
  cases hf : genhash_find m it.key with
  | none =>
    refine ⟨X, m, rfl, hXm, hrec, ?_⟩
    intro u
    have : recorded P it.key = [] := by
      rw [← hrec it.key]; unfold entry_conns; rw [hf]; rfl
    rw [← hcount u, this, hXs]
    simp
  | some es =>
    cases es with
    | nil =>
      refine ⟨X, m, rfl, hXm, hrec, ?_⟩
      intro u
      have : recorded P it.key = [] := by
        rw [← hrec it.key]; unfold entry_conns; rw [hf]; rfl
      rw [← hcount u, this, hXs]
      simp
    | cons e rest =>
      dsimp only
      obtain ⟨h1, _, h4⟩ := respond_entries_spec it hcrlf (e :: rest) true
        ({ X with multiget := some (genhash_update m it.key
            ({ e with hits := (e.hits + 1) % UINT64 } :: rest)) } : downstream)
      refine ⟨_, _, rfl, h4, ?_, ?_⟩
      · intro key
        rw [entry_conns_update]
        by_cases hk : key = it.key
        · rw [if_pos hk, hk, ← hrec it.key]
          unfold entry_conns
          rw [hf]
          rfl
        · rw [if_neg hk]; exact hrec key
      · intro u
        rw [h1, values_sent_append, values_sent_entries]
        show values_sent X.sent u ++ _ = _
        rw [hXs, ← hcount u, ← hrec it.key]
        unfold entry_conns
        rw [hf]
        rfl

theorem responses_inv (env : mg_env) (P : List (Nat × String)) (its : List item)
    (hits : ∀ it ∈ its, it.crlf = true ∧ it.key.length > 0) (d : downstream)
    (m : List (String × List multiget_entry)) (hm : d.multiget = some m)
    (hrec : ∀ key, entry_conns m key = recorded P key) :
    ∃ d', multiget_responses env its d = Except.ok d' ∧
      ∀ u, values_sent d'.sent u =
        values_sent d.sent u ++
          its.flatMap (fun it => List.replicate (P.count (u, it.key)) it.key) := by
  induction its generalizing d m with
  | nil => exact ⟨d, rfl, fun u => by simp⟩
  | cons it rest ih =>
    obtain ⟨hc, hl⟩ := hits it (List.mem_cons_self _ _)
    obtain ⟨d1, m1, h1, hm1, hrec1, hv1⟩ := response_inv env d P it m hm hrec hc hl
    obtain ⟨d', h2, hv2⟩ := ih (fun x hx => hits x (List.mem_cons_of_mem _ hx)) d1 m1 hm1 hrec1
    refine ⟨d', ?_, ?_⟩
    · unfold multiget_responses
      rw [h1]
      exact h2
    · intro u
      rw [hv2 u, hv1 u, List.flatMap_cons, List.append_assoc]

/-- The function `multiget_ascii_downstream` on a reservation without map, for a chain
whose first key creates the map: it returns, nothing is queued upstream, and the map
records the keys of the chain. -/
theorem multiget_ascii_downstream_inv (env : mg_env) (ops : emit_ops)
    (use_front_cache : Bool) (d : downstream) (chain : List uconn)
    (hmap : d.multiget = none) (hfirst : map_from_first_key chain = true)
    (hfc : no_front_cache_hit env use_front_cache) (hres : resolves env d)
    (halloc : ∀ n, env.calloc_ok n = true) (hwf : ∀ uc ∈ chain, well_formed uc)
    (hnoreply : ∀ uc ∈ chain, uc.noreply = false)
    (hprep : prep_failure d.downstream_conns 0 = none) :
    ∃ d1 r m, multiget_ascii_downstream env ops use_front_cache d chain = Except.ok (d1, r) ∧
      d1.sent = d.sent ∧ d1.multiget = some m ∧
      ∀ key, entry_conns m key = recorded (chain_keys chain) key := by
  obtain ⟨d', hchain, hinv, hne⟩ :=
    multiget_chain_inv env ops use_front_cache d hfc halloc chain d [] hwf
      ⟨rfl, rfl, hres, Or.inl ⟨hmap, rfl⟩⟩ (Or.inr hfirst)
  obtain ⟨hsent, _, _, hm⟩ := hinv
  rcases hm with ⟨hnone, _⟩ | ⟨m, hm, hrec⟩
  · exact absurd hnone hne
  · cases chain with
    | nil => simp [map_from_first_key] at hfirst
    | cons uc0 rest =>
      unfold multiget_ascii_downstream
      dsimp only
      have hn := hnoreply uc0 (List.mem_cons_self _ _)
      rw [hn, hprep]
      simp only [Bool.false_eq_true, if_false]
      rw [hchain]
      exact ⟨_, _, m, rfl, hsent, hm, by simpa using hrec⟩

theorem extend_recorded_nil (P : List (Nat × String)) : extend_recorded P [] = P := by
  unfold extend_recorded
  by_cases h : P = []
  · rw [if_pos h, h]; rfl
  · rw [if_neg h]; simp

theorem recorded_from_append (R1 R2 : List (Nat × String × Bool)) :
    recorded_from (R1 ++ R2) = extend_recorded (recorded_from R1) R2 := by
  induction R1 with
  | nil => rfl
  | cons r R1 ih =>
    rw [List.cons_append]
    unfold recorded_from
    by_cases hl : r.2.2 = true
    · rw [if_pos hl, if_pos hl]
      exact ih
    · rw [if_neg hl, if_neg hl]
      unfold extend_recorded
      rw [if_neg (by simp)]
      simp

theorem extend_recorded_append (P : List (Nat × String)) (R1 R2 : List (Nat × String × Bool)) :
    extend_recorded (extend_recorded P R1) R2 = extend_recorded P (R1 ++ R2) := by
  by_cases h : P = []
  · subst h
    show extend_recorded (recorded_from R1) R2 = recorded_from (R1 ++ R2)
    rw [recorded_from_append]
  · have h1 : extend_recorded P R1 = P ++ R1.map (fun x => (x.1, x.2.1)) := by
      unfold extend_recorded
      rw [if_neg h]
    have h2 : extend_recorded P (R1 ++ R2) = P ++ (R1 ++ R2).map (fun x => (x.1, x.2.1)) := by
      unfold extend_recorded
      rw [if_neg h]
    rw [h1, h2]
    unfold extend_recorded
    rw [if_neg (by simp [h])]
    simp

/-- The de-duplication step when there is no map and the key is the last of its
command: no map is created and the key counts as requested for the first time. -/
theorem dedupe_key_last (env : mg_env) (uc : uconn) (d : downstream) (key : String)
    (hm : d.multiget = none) : dedupe_key env uc d key true = (d, true) := by
  unfold dedupe_key
  dsimp only
  rw [if_neg (by simp), hm]

/-- A round of the key loop for a last key on a reservation without map: the key is
emitted and nothing is recorded. -/
theorem multiget_key_last (env : mg_env) (ops : emit_ops) (use_front_cache : Bool)
    (uc : uconn) (cas_emit : Bool) (cmd : String) (d0 d : downstream)
    (k : String × Bool × Nat) (hinv : mg_inv env d0 d [])
    (hfc : no_front_cache_hit env use_front_cache) (hm : d.multiget = none)
    (hlen : k.1.length > 0) (hlast : k.2.1 = true) :
    ∃ d', multiget_key env ops use_front_cache uc cas_emit cmd d k = Except.ok d' ∧
      mg_inv env d0 d' [] ∧ d'.multiget = none := by
  obtain ⟨hsent, huc, hres, _⟩ := hinv
  obtain ⟨c1, c2, c3, c4, _⟩ := count_key_fields d k
  unfold multiget_key
  rw [if_pos hlen, front_cache_hit_none env _ _ _ _ hfc]
  dsimp only
  obtain ⟨i, v, hfind, hlive⟩ := hres k.1
  rw [hfind]
  dsimp only
  rw [live_conn_congr d (count_key d k) c4 i]
  cases hl : live_conn d i with
  | none => rw [hl] at hlive; simp at hlive
  | some c =>
    dsimp only
    rw [hlast, dedupe_key_last env uc (count_key d k) k.1 (c1.trans hm)]
    dsimp only
    rw [if_pos rfl]
    obtain ⟨e1, e2, e3, e4⟩ := emit_key_fields ops (count_key d k) i c cmd k.1 v k.2.2
    have hres1 : resolves env (count_key d k) :=
      resolves_congr env d _ (fun j hj => by
        rw [live_conn_congr d _ c4 j]; exact hj) hres
    refine ⟨_, rfl, ⟨?_, ?_, ?_, Or.inl ⟨?_, rfl⟩⟩, ?_⟩
    · rw [e2, c2, hsent]
    · rw [e3, c3, huc]
    · exact resolves_congr env _ _ e4 hres1
    · rw [e1, c1, hm]
    · rw [e1, c1, hm]

/-- The request of a round of the key loop. -/
theorem uc_round_eq (uc : uconn) (k : String × Bool × Nat)
    (rest : List (String × Bool × Nat)) :
    ((k :: rest).filter (fun k => decide (k.1.length > 0))).map
        (fun k => (uc.sfd, k.1, k.2.1)) =
      (if k.1.length > 0 then [(uc.sfd, k.1, k.2.1)] else []) ++
        (rest.filter (fun k => decide (k.1.length > 0))).map (fun k => (uc.sfd, k.1, k.2.1)) := by
  by_cases h : k.1.length > 0
  · simp [List.filter_cons, h]
  · simp [List.filter_cons, h]

/-- One round of the key loop, with or without map. -/
theorem multiget_key_gen (env : mg_env) (ops : emit_ops) (use_front_cache : Bool)
    (uc : uconn) (cas_emit : Bool) (cmd : String) (d0 d : downstream)
    (P : List (Nat × String)) (k : String × Bool × Nat)
    (hinv : mg_inv env d0 d P) (hiff : d.multiget = none ↔ P = [])
    (hfc : no_front_cache_hit env use_front_cache)
    (halloc : ∀ n, env.calloc_ok n = true) :
    ∃ d', multiget_key env ops use_front_cache uc cas_emit cmd d k = Except.ok d' ∧
      mg_inv env d0 d'
        (extend_recorded P (if k.1.length > 0 then [(uc.sfd, k.1, k.2.1)] else [])) ∧
      (d'.multiget = none ↔
        extend_recorded P (if k.1.length > 0 then [(uc.sfd, k.1, k.2.1)] else []) = []) := by
  by_cases hcase : d.multiget = none ∧ k.1.length > 0 ∧ k.2.1 = true
  · obtain ⟨hm, hlen, hlast⟩ := hcase
    have hP : P = [] := hiff.1 hm
    subst hP
    obtain ⟨d', h1, h2, h3⟩ :=
      multiget_key_last env ops use_front_cache uc cas_emit cmd d0 d k hinv hfc hm hlen hlast
    have hex : extend_recorded [] (if k.1.length > 0 then [(uc.sfd, k.1, k.2.1)] else []) =
        [] := by
      rw [if_pos hlen]
      unfold extend_recorded
      rw [if_pos rfl]
      unfold recorded_from
      rw [if_pos hlast]
      rfl
    rw [hex]
    exact ⟨d', h1, h2, ⟨fun _ => rfl, fun _ => h3⟩⟩
  · have hcond : d.multiget ≠ none ∨ k.1.length = 0 ∨ k.2.1 = false := by
      by_cases hm : d.multiget = none
      · by_cases hlen : k.1.length > 0
        · refine Or.inr (Or.inr ?_)
          cases hk : k.2.1 with
          | false => rfl
          | true => exact absurd ⟨hm, hlen, hk⟩ hcase
        · exact Or.inr (Or.inl (by omega))
      · exact Or.inl hm
    obtain ⟨d', h1, h2, h3, h4⟩ :=
      multiget_key_inv env ops use_front_cache uc cas_emit cmd d0 d P k hinv hfc halloc hcond
    have hex : extend_recorded P (if k.1.length > 0 then [(uc.sfd, k.1, k.2.1)] else []) =
        P ++ (if k.1.length > 0 then [(uc.sfd, k.1)] else []) := by
      by_cases hlen : k.1.length > 0
      · rw [if_pos hlen, if_pos hlen]
        unfold extend_recorded
        by_cases hP : P = []
        · rw [if_pos hP, hP]
          have hk : k.2.1 = false := by
            rcases hcond with h | h | h
            · exact absurd (hiff.2 hP) h
            · omega
            · exact h
          unfold recorded_from
          rw [if_neg (by rw [hk]; simp)]
          rfl
        · rw [if_neg hP]
          rfl
      · rw [if_neg hlen, if_neg hlen, extend_recorded_nil, List.append_nil]
    rw [hex]
    refine ⟨d', h1, h2, ?_⟩
    by_cases hlen : k.1.length > 0
    · rw [if_pos hlen]
      exact ⟨fun h => absurd h (h4 hlen), fun h => by simp at h⟩
    · rw [if_neg hlen, List.append_nil]
      constructor
      · intro h
        by_contra hP
        exact h3 (fun hm => hP (hiff.1 hm)) h
      · intro hP
        rcases h2.2.2.2 with ⟨hn, _⟩ | ⟨m, hm, _⟩
        · exact hn
        · exfalso
          have hd : d.multiget = none := hiff.2 hP
          obtain ⟨c1, _⟩ := count_key_fields d k
          unfold multiget_key at h1
          rw [if_neg hlen] at h1
          simp only [pure, Except.pure, Except.ok.injEq] at h1
          rw [← h1, c1, hd] at hm
          cases hm

/-- The key loop over the rounds of one command, with or without map. -/
theorem multiget_keys_gen (env : mg_env) (ops : emit_ops) (use_front_cache : Bool)
    (uc : uconn) (cas_emit : Bool) (cmd : String) (d0 : downstream)
    (hfc : no_front_cache_hit env use_front_cache) (halloc : ∀ n, env.calloc_ok n = true)
    (rounds : List (String × Bool × Nat)) (d : downstream) (P : List (Nat × String))
    (hinv : mg_inv env d0 d P) (hiff : d.multiget = none ↔ P = []) :
    ∃ d', multiget_keys env ops use_front_cache uc cas_emit cmd rounds d = Except.ok d' ∧
      mg_inv env d0 d' (extend_recorded P
        ((rounds.filter (fun k => decide (k.1.length > 0))).map
          (fun k => (uc.sfd, k.1, k.2.1)))) ∧
      (d'.multiget = none ↔ extend_recorded P
        ((rounds.filter (fun k => decide (k.1.length > 0))).map
          (fun k => (uc.sfd, k.1, k.2.1))) = []) := by
  induction rounds generalizing d P with
  | nil =>
    refine ⟨d, rfl, ?_, ?_⟩
    · simpa [extend_recorded_nil] using hinv
    · simpa [extend_recorded_nil] using hiff
  | cons k rest ih =>
    obtain ⟨d1, h1, hinv1, hiff1⟩ :=
      multiget_key_gen env ops use_front_cache uc cas_emit cmd d0 d P k hinv hiff hfc halloc
    obtain ⟨d', h2, hinv2, hiff2⟩ := ih d1 _ hinv1 hiff1
    rw [extend_recorded_append, ← uc_round_eq] at hinv2 hiff2
    refine ⟨d', ?_, hinv2, hiff2⟩
    unfold multiget_keys
    rw [h1]
    exact h2

/-- The upstream loop over the chain, with or without map. -/
theorem multiget_chain_gen (env : mg_env) (ops : emit_ops) (use_front_cache : Bool)
    (d0 : downstream) (hfc : no_front_cache_hit env use_front_cache)
    (halloc : ∀ n, env.calloc_ok n = true) (chain : List uconn) (d : downstream)
    (P : List (Nat × String)) (hwf : ∀ uc ∈ chain, well_formed uc)
    (hinv : mg_inv env d0 d P) (hiff : d.multiget = none ↔ P = []) :
    ∃ d', multiget_chain env ops use_front_cache chain d = Except.ok d' ∧
      mg_inv env d0 d' (extend_recorded P (chain_rounds chain)) ∧
      (d'.multiget = none ↔ extend_recorded P (chain_rounds chain) = []) := by
  induction chain generalizing d P with
  | nil =>
    refine ⟨d, rfl, ?_, ?_⟩
    · simpa [chain_rounds, extend_recorded_nil] using hinv
    · simpa [chain_rounds, extend_recorded_nil] using hiff
  | cons uc rest ih =>
    obtain ⟨cas_emit, cmd, heq⟩ := multiget_upstream_eq env ops use_front_cache d uc
      (hwf uc (List.mem_cons_self _ _))
    obtain ⟨d1, h1, hinv1, hiff1⟩ :=
      multiget_keys_gen env ops use_front_cache uc cas_emit cmd d0 hfc halloc (rounds_of uc)
        d P hinv hiff
    obtain ⟨d', h2, hinv2, hiff2⟩ :=
      ih d1 _ (fun u hu => hwf u (List.mem_cons_of_mem _ hu)) hinv1 hiff1
    have hcr : chain_rounds (uc :: rest) = uc_rounds uc ++ chain_rounds rest := by
      unfold chain_rounds
      simp
    rw [extend_recorded_append] at hinv2 hiff2
    rw [hcr]
    refine ⟨d', ?_, hinv2, hiff2⟩
    unfold multiget_chain
    rw [heq, h1]
    exact h2

/-- The function `multiget_ascii_downstream` on a reservation without map: it returns,
nothing is queued upstream, the chain of the reservation is in place, and the map, which
exists exactly when a request of the chain is recorded, records those requests. -/
theorem multiget_ascii_downstream_gen (env : mg_env) (ops : emit_ops)
    (use_front_cache : Bool) (d : downstream) (chain : List uconn)
    (hmap : d.multiget = none) (hne : chain ≠ [])
    (hfc : no_front_cache_hit env use_front_cache) (hres : resolves env d)
    (halloc : ∀ n, env.calloc_ok n = true) (hwf : ∀ uc ∈ chain, well_formed uc)
    (hnoreply : ∀ uc ∈ chain, uc.noreply = false)
    (hprep : prep_failure d.downstream_conns 0 = none) :
    ∃ d1 r, multiget_ascii_downstream env ops use_front_cache d chain = Except.ok (d1, r) ∧
      d1.sent = d.sent ∧ d1.upstream_conn = d.upstream_conn ∧
      ((d1.multiget = none ∧ recorded_from (chain_rounds chain) = []) ∨
        (∃ m, d1.multiget = some m ∧ recorded_from (chain_rounds chain) ≠ [] ∧
          ∀ key, entry_conns m key = recorded (recorded_from (chain_rounds chain)) key)) := by
  obtain ⟨d', hchain, hinv, hiff⟩ :=
    multiget_chain_gen env ops use_front_cache d hfc halloc chain d [] hwf
      ⟨rfl, rfl, hres, Or.inl ⟨hmap, rfl⟩⟩ ⟨fun _ => rfl, fun _ => hmap⟩
  have hex : extend_recorded [] (chain_rounds chain) = recorded_from (chain_rounds chain) := by
    unfold extend_recorded
    rw [if_pos rfl]
  rw [hex] at hinv hiff
  obtain ⟨hsent, huc, _, hm⟩ := hinv
  cases chain with
  | nil => exact absurd rfl hne
  | cons uc0 rest =>
    unfold multiget_ascii_downstream
    dsimp only
    have hn := hnoreply uc0 (List.mem_cons_self _ _)
    rw [hn, hprep]
    simp only [Bool.false_eq_true, if_false]
    rw [hchain]
    refine ⟨_, _, rfl, hsent, huc, ?_⟩
    rcases hm with ⟨hnone, hP⟩ | ⟨m, hm, hrec⟩
    · exact Or.inl ⟨hnone, hP⟩
    · refine Or.inr ⟨m, hm, ?_, hrec⟩
      intro hP
      rw [hiff.2 hP] at hm
      cases hm

theorem respond_chain_spec (it : item) (hcrlf : it.crlf = true) (chain : List uconn)
    (d : downstream) :
    (respond_chain it chain d).sent =
      d.sent ++ chain.flatMap (fun uc => reply_of it uc.sfd) ∧
    (respond_chain it chain d).upstream_conn = d.upstream_conn ∧
    (respond_chain it chain d).multiget = d.multiget := by
  induction chain generalizing d with
  | nil => simp [respond_chain]
  | cons uc rest ih =>
    unfold respond_chain
    dsimp only
    rw [item_response_sent d it uc.sfd hcrlf]
    obtain ⟨h1, h2, h3⟩ := ih
      ({ ({ d with sent := d.sent ++ reply_of it uc.sfd } : downstream) with
        psc_get_key := { d.psc_get_key with
          hits := (d.psc_get_key.hits + 1) % UINT64
          write_bytes := (d.psc_get_key.write_bytes + it.nbytes) % UINT64 } } : downstream)
    refine ⟨?_, ?_, ?_⟩
    · rw [h1]
      simp
    · rw [h2]
    · rw [h3]

theorem values_sent_chain (it : item) (u : Nat) (chain : List uconn) :
    values_sent (chain.flatMap (fun uc => reply_of it uc.sfd)) u =
      List.replicate (chain.countP (fun uc => decide (uc.sfd = u))) it.key := by
  induction chain with
  | nil => rfl
  | cons uc rest ih =>
    rw [List.flatMap_cons, values_sent_append, ih, values_sent_reply, List.countP_cons]
    by_cases hu : uc.sfd = u
    · simp [hu, List.replicate_succ']
      rw [← List.replicate_succ, List.replicate_succ']
    · simp [hu]

/-- The responses handled without map: every item goes once to every connection of the
chain of the reservation. -/
theorem responses_broadcast (env : mg_env) (its : List item)
    (hits : ∀ it ∈ its, it.crlf = true ∧ it.key.length > 0) (d : downstream)
    (hm : d.multiget = none) :
    ∃ d', multiget_responses env its d = Except.ok d' ∧
      ∀ u, values_sent d'.sent u =
        values_sent d.sent u ++
          its.flatMap (fun it =>
            List.replicate (d.upstream_conn.countP (fun uc => decide (uc.sfd = u))) it.key) := by
  induction its generalizing d with
  | nil => exact ⟨d, rfl, fun u => by simp⟩
  | cons it rest ih =>
    obtain ⟨hc, hl⟩ := hits it (List.mem_cons_self _ _)
    have hstep : ∃ d1, multiget_ascii_downstream_response env d it = Except.ok d1 ∧
        d1.multiget = none ∧ d1.upstream_conn = d.upstream_conn ∧
        d1.sent = d.sent ++ d.upstream_conn.flatMap (fun uc => reply_of it uc.sfd) := by
      unfold multiget_ascii_downstream_response
      rw [if_pos hl]
      dsimp only
      have hX : ∀ X : downstream, X = (if env.front_cache_key it.key = true then
          { d with front_cache := mcache_set d.front_cache it } else d) →
          X.multiget = none ∧ X.upstream_conn = d.upstream_conn ∧ X.sent = d.sent := by
        intro X hX
        subst hX
        split_ifs <;> exact ⟨hm, rfl, rfl⟩
      generalize (if env.front_cache_key it.key = true then
          ({ d with front_cache := mcache_set d.front_cache it } : downstream) else d) = X at hX
      obtain ⟨x1, x2, x3⟩ := hX X rfl
      rw [x1]
      dsimp only
      obtain ⟨s1, s2, s3⟩ := respond_chain_spec it hc X.upstream_conn X
      refine ⟨_, rfl, s3.trans x1, s2.trans x2, ?_⟩
      rw [s1, x2, x3]
    obtain ⟨d1, h1, hm1, huc1, hs1⟩ := hstep
    obtain ⟨d', h2, hv⟩ := ih (fun x hx => hits x (List.mem_cons_of_mem _ hx)) d1 hm1
    refine ⟨d', ?_, ?_⟩
    · unfold multiget_responses
      rw [h1]
      exact h2
    · intro u
      rw [hv u, hs1, values_sent_append, values_sent_chain, huc1, List.flatMap_cons,
        List.append_assoc]

theorem chain_keys_eq_rounds (chain : List uconn) :
    chain_keys chain = (chain_rounds chain).map (fun x => (x.1, x.2.1)) := by
  induction chain with
  | nil => rfl
  | cons uc rest ih =>
    have hcr : chain_rounds (uc :: rest) = uc_rounds uc ++ chain_rounds rest := by
      unfold chain_rounds
      simp
    rw [chain_keys_cons, hcr, List.map_append, ← ih, keys_of_eq]
    congr 1
    unfold rounds_keys uc_rounds
    rw [List.filter_map, List.map_map, List.map_map]
    rfl

theorem recorded_from_cons_false (r : Nat × String × Bool) (R : List (Nat × String × Bool))
    (h : r.2.2 = false) :
    recorded_from (r :: R) = (r :: R).map (fun x => (x.1, x.2.1)) := by
  unfold recorded_from
  rw [if_neg (by rw [h]; simp)]

theorem filter_of_find (l : List (String × Bool × Nat)) (p : String × Bool × Nat → Bool)
    (k : String × Bool × Nat) (h : l.find? p = some k) : ∃ t, l.filter p = k :: t := by
  induction l with
  | nil => simp at h
  | cons a rest ih =>
    rw [List.find?_cons] at h
    by_cases ha : p a = true
    · rw [ha] at h
      simp only [Option.some.injEq] at h
      subst h
      exact ⟨rest.filter p, by rw [List.filter_cons, if_pos ha]⟩
    · have ha' : p a = false := by simpa using ha
      rw [ha'] at h
      obtain ⟨t, ht⟩ := ih h
      exact ⟨t, by rw [List.filter_cons, if_neg ha, ht]⟩

/-- When the first key of the chain is not the last key of its command, every request of
the chain is recorded. -/
theorem recorded_from_first_key (chain : List uconn) (h : map_from_first_key chain = true) :
    recorded_from (chain_rounds chain) = chain_keys chain ∧
      recorded_from (chain_rounds chain) ≠ [] := by
  induction chain with
  | nil => simp [map_from_first_key] at h
  | cons uc rest ih =>
    have hcr : chain_rounds (uc :: rest) = uc_rounds uc ++ chain_rounds rest := by
      unfold chain_rounds
      simp
    unfold map_from_first_key at h
    cases hf : (rounds_of uc).find? (fun k => decide (k.1.length > 0)) with
    | none =>
      rw [hf] at h
      have hnil : uc_rounds uc = [] := by
        unfold uc_rounds
        rw [List.find?_eq_none] at hf
        rw [List.filter_eq_nil_iff.2 (fun a ha => hf a ha)]
        rfl
      obtain ⟨i1, i2⟩ := ih h
      have hk : chain_keys (uc :: rest) = chain_keys rest := by
        rw [chain_keys_eq_rounds, chain_keys_eq_rounds, hcr, hnil, List.nil_append]
      rw [hcr, hnil, List.nil_append, hk]
      exact ⟨i1, i2⟩
    | some k =>
      rw [hf] at h
      obtain ⟨t, hfil⟩ := filter_of_find _ _ k hf
      have hhead : uc_rounds uc ++ chain_rounds rest =
          (uc.sfd, k.1, k.2.1) ::
            (t.map (fun k => (uc.sfd, k.1, k.2.1)) ++ chain_rounds rest) := by
        unfold uc_rounds
        rw [hfil]
        rfl
      have hk : k.2.1 = false := by simpa using h
      rw [hcr, hhead, recorded_from_cons_false _ _ hk, chain_keys_eq_rounds, hcr, hhead]
      exact ⟨rfl, by simp⟩

/-- The rounds of a key loop: only the last round has `key_last` set. -/
theorem scan_keys_last (cs : List Char) :
    ∀ (off : Nat) (acc : List Char), ∃ init x, scan_keys cs off acc = init ++ [x] ∧
      x.2.1 = true ∧ ∀ k ∈ init, k.2.1 = false := by
  induction cs with
  | nil =>
    intro off acc
    exact ⟨[], _, rfl, rfl, fun k hk => by cases hk⟩
  | cons c cs ih =>
    intro off acc
    unfold scan_keys
    by_cases hc : c = ' '
    · rw [if_pos hc]
      obtain ⟨init, x, h1, h2, h3⟩ := ih (off + acc.length + 1) []
      refine ⟨(String.mk acc.reverse, false, off) :: init, x, ?_, h2, ?_⟩
      · rw [h1]
        rfl
      · intro k hk
        rcases List.mem_cons.1 hk with rfl | hk
        · rfl
        · exact h3 k hk
    · rw [if_neg hc]
      exact ih off (c :: acc)

/-- The requests of one command: all of them are recorded, or there is at most one and
it is not recorded. -/
theorem uc_rounds_cases (uc : uconn) :
    (recorded_from (uc_rounds uc) = (uc_rounds uc).map (fun x => (x.1, x.2.1)) ∧
      recorded_from (uc_rounds uc) ≠ []) ∨
    (recorded_from (uc_rounds uc) = [] ∧ (uc_rounds uc).length ≤ 1) := by
  unfold uc_rounds rounds_of
  cases hs : split_command uc with
  | none => exact Or.inr ⟨rfl, by simp⟩
  | some cr =>
    dsimp only
    obtain ⟨init, x, h1, h2, h3⟩ := scan_keys_last cr.2 (cr.1.length + 1) []
    rw [h1, List.filter_append, List.map_append]
    cases hi : init.filter (fun k => decide (k.1.length > 0)) with
    | nil =>
      refine Or.inr ⟨?_, ?_⟩
      · rw [List.map_nil, List.nil_append]
        by_cases hx : x.1.length > 0
        · simp [List.filter_cons, hx, recorded_from, h2]
        · simp [List.filter_cons, hx, recorded_from]
      · rw [List.map_nil, List.nil_append, List.length_map]
        exact le_trans (List.length_filter_le _ _) (by simp)
    | cons a t =>
      have ha : a ∈ init := by
        have : a ∈ init.filter (fun k => decide (k.1.length > 0)) := by
          rw [hi]
          exact List.mem_cons_self _ _
        exact (List.mem_filter.1 this).1
      rw [List.map_cons, List.cons_append, recorded_from_cons_false _ _ (h3 a ha)]
      exact Or.inl ⟨rfl, by simp⟩

/-- A chain of one command: the replies for a key of the command are as many as the
command asks for the key. -/
theorem replies_for_single (uc : uconn) (u : Nat) (key : String) (hkey : key ∈ keys_of uc) :
    replies_for [uc] [uc] u key = requested [uc] u key := by
  have hcr : chain_rounds [uc] = uc_rounds uc := by
    unfold chain_rounds
    simp
  have hck : chain_keys [uc] = (uc_rounds uc).map (fun x => (x.1, x.2.1)) := by
    rw [chain_keys_eq_rounds, hcr]
  unfold replies_for requested
  rw [hcr, hck]
  rcases uc_rounds_cases uc with ⟨h1, h2⟩ | ⟨h1, h2⟩
  · rw [if_neg h2, h1]
  · rw [if_pos h1]
    have hmem : (uc.sfd, key) ∈ (uc_rounds uc).map (fun x => (x.1, x.2.1)) := by
      rw [← hck, chain_keys_cons]
      simp only [chain_keys, List.flatMap_nil, List.append_nil]
      exact List.mem_map.2 ⟨key, hkey, rfl⟩
    cases hR : uc_rounds uc with
    | nil => rw [hR] at hmem; cases hmem
    | cons r t =>
      have ht : t = [] := by
        rw [hR] at h2
        simp only [List.length_cons] at h2
        exact List.length_eq_zero.1 (by omega)
      subst ht
      rw [hR] at hmem
      simp only [List.map_cons, List.map_nil, List.mem_singleton] at hmem
      simp only [List.map_cons, List.map_nil, ← hmem, List.countP_cons, List.countP_nil,
        List.count_cons, List.count_nil]
      by_cases hu : uc.sfd = u
      · simp [hu]
      · have : ¬ (u, key) = (uc.sfd, key) := by
          intro he
          exact hu (by injection he with h3 _; exact h3.symm)
        simp [hu, this]

theorem forall2_imp_mem2 (R S : proxy → proxy → Prop) (l r : List proxy)
    (h : ∀ p ∈ l, ∀ q ∈ r, R p q → S p q) (hr : List.Forall₂ R l r) :
    List.Forall₂ S l r := by
  induction hr with
  | nil => exact List.Forall₂.nil
  | cons hab _ ih =>
    exact List.Forall₂.cons (h _ (List.mem_cons_self _ _) _ (List.mem_cons_self _ _) hab)
      (ih (fun p hp q hq hpq =>
        h p (List.mem_cons_of_mem _ hp) q (List.mem_cons_of_mem _ hq) hpq))

/-- A call of `cproxy_on_config_pool` returns when the pool list is well formed, the port
is positive and the pool the call addresses, if there is one, does not carry the version
of the call. -/
theorem on_config_pool_total (env : host_env) (m : proxy_main) (c : pool_call) (v : Nat)
    (hok : pools_ok m.proxy_head) (hport : 0 < c.port)
    (hfresh : ∀ p ∈ m.proxy_head, pool_key p = call_key c → p.config_ver ≠ v) :
    ∃ m', cproxy_on_config_pool env m c.name c.port c.config v c.bp = Except.ok m' := by
  by_cases hex : ∃ p ∈ m.proxy_head, pool_key p = call_key c
  · obtain ⟨p, hp, hk⟩ := hex
    obtain ⟨pre, suf, hsplit⟩ := List.append_of_mem hp
    have hkp : p.name = some c.name ∧ p.port = c.port := by
      unfold pool_key call_key at hk
      simpa using hk
    have hnd := hok.1
    rw [hsplit, List.map_append, List.map_cons] at hnd
    have hnot : pool_key p ∉ pre.map pool_key := by
      intro hmem
      have := (List.nodup_append.1 hnd).2.2
      exact this hmem (List.mem_cons_self _ _)
    have hpre : ∀ q ∈ pre, 0 < q.port ∧ q.name ≠ none ∧
        ¬ (q.port = p.port ∧ q.name = some c.name) := by
      intro q hq
      have hq' : q ∈ m.proxy_head := by
        rw [hsplit]
        exact List.mem_append_left _ hq
      refine ⟨(hok.2 q hq').1, (hok.2 q hq').2.1, ?_⟩
      intro hm
      apply hnot
      refine List.mem_map.2 ⟨q, hq, ?_⟩
      unfold pool_key
      rw [hm.1, hm.2, hkp.1]
    obtain ⟨r, hr⟩ := existing_total p c.config v c.bp m.nthreads
      (fun h => hfresh p hp hk h.symm)
    obtain ⟨m', hm', _⟩ := on_config_pool_at env m c.name c.config v c.bp pre suf p r hsplit
      hpre ⟨(hok.2 p hp).1, hkp.1⟩ hr
    rw [hkp.2] at hm'
    exact ⟨m', hm'⟩
  · have habs : find_proxy c.name c.port m.proxy_head = Except.ok none := by
      refine find_proxy_absent _ _ _ ?_
      intro q hq
      refine ⟨(hok.2 q hq).1, (hok.2 q hq).2.1, ?_⟩
      intro hm
      apply hex
      refine ⟨q, hq, ?_⟩
      unfold pool_key call_key
      rw [hm.1, hm.2]
    unfold cproxy_on_config_pool
    have hp0 : c.port ≥ 0 := le_of_lt hport
    simp only [hp0, not_true_eq_false, if_false, habs, bind, Except.bind, pure, Except.pure]
    split_ifs <;> exact ⟨_, rfl⟩

/-- A sequence of calls that address different pools returns. -/
theorem run_calls_total (env : host_env) (v : Nat) (cs : List pool_call) (m : proxy_main)
    (hcs : ∀ c ∈ cs, 0 < c.port ∧ (c.bp.arr = none → c.bp.num = 0))
    (hnd : (cs.map call_key).Nodup) (hok : pools_ok m.proxy_head)
    (hfresh : ∀ p ∈ m.proxy_head, ∀ c ∈ cs, pool_key p = call_key c → p.config_ver ≠ v) :
    ∃ a, run_calls env v cs m = Except.ok a := by
  induction cs generalizing m with
  | nil => exact ⟨m, rfl⟩
  | cons d cs ih =>
    have hd := hcs d (List.mem_cons_self _ _)
    rw [List.map_cons, List.nodup_cons] at hnd
    obtain ⟨m1, h1⟩ := on_config_pool_total env m d v hok hd.1
      (fun p hp hk => hfresh p hp d (List.mem_cons_self _ _) hk)
    have hok1 := on_config_pool_pools_ok env m m1 d.name d.port d.config v d.bp hd.1 hd.2 hok h1
    obtain ⟨a, ha⟩ := ih m1 (fun c hc => hcs c (List.mem_cons_of_mem _ hc)) hnd.2 hok1 (by
      intro p hp c hc hk
      rcases on_config_pool_claimed env m m1 d v h1 p hp with hp0 | ⟨hkd, _⟩
      · exact hfresh p hp0 c (List.mem_cons_of_mem _ hc) hk
      · exfalso
        apply hnd.1
        rw [← hkd, hk]
        exact List.mem_map.2 ⟨c, hc, rfl⟩)
    refine ⟨a, ?_⟩
    unfold run_calls
    rw [h1]
    exact ha

/-- C19: `cproxy_on_config`, called on a well-formed pool list with a positive listen port,
with a document whose calls address different pools, while the greatest `config_ver` of
the list is below `2^32 - 1`. The version of the reconfiguration is that maximum plus one
in 32-bit unsigned arithmetic (`1` for the empty list) and is greater than the version of
every pool of the list. The function returns; afterwards every pool other than the NULL
bucket carries the new version, and every pool that was in the list either carries the
new version, greater than the one it had, or is the NULL bucket and is exactly as it
was. -/
theorem new_config_ver_exceeds_existing (env : host_env) (m : proxy_main)
    (kvs : List (String × List String)) (cs : List pool_call)
    (hok : pools_ok m.proxy_head) (hport : 0 < m.behavior.port_listen)
    (hmax : max_config_ver m.proxy_head < UINT32 - 1)
    (hdoc : doc_calls env m.behavior kvs = some cs) (hnd : (cs.map call_key).Nodup) :
    new_config_ver m = (max_config_ver m.proxy_head + 1) % 2 ^ 32 ∧
    (m.proxy_head = [] → new_config_ver m = 1) ∧
    (∀ p ∈ m.proxy_head, p.config_ver ≤ max_config_ver m.proxy_head) ∧
    (m.proxy_head ≠ [] → ∃ p ∈ m.proxy_head, p.config_ver = max_config_ver m.proxy_head) ∧
    (∀ p ∈ m.proxy_head, p.config_ver < new_config_ver m) ∧
    ∃ m', cproxy_on_config env m kvs = Except.ok m' ∧
      (∀ q ∈ m'.proxy_head, q.name ≠ some NULL_BUCKET → q.config_ver = new_config_ver m) ∧
      ∃ added rest, m'.proxy_head = added ++ rest ∧
        List.Forall₂
          (fun p q => (q.config_ver = new_config_ver m ∧ p.config_ver < q.config_ver) ∨
            (q = p ∧ p.name = some NULL_BUCKET))
          m.proxy_head rest := by
  have hlt : ∀ p ∈ m.proxy_head, p.config_ver < new_config_ver m := by
    intro p hp
    rw [new_config_ver_eq m hmax]
    exact Nat.lt_succ_of_le (le_max_config_ver _ p hp)
  refine ⟨rfl, ?_, le_max_config_ver _, max_config_ver_mem _, hlt, ?_⟩
  · intro hl
    rw [new_config_ver, hl]
    rfl
  have hwf := doc_calls_wf env m.behavior kvs cs hdoc
  have hcs : ∀ c ∈ cs, 0 < c.port ∧ (c.bp.arr = none → c.bp.num = 0) :=
    fun c hc => ⟨by rw [(hwf c hc).1]; exact hport, fun h => absurd h (hwf c hc).2⟩
  obtain ⟨a, ha⟩ := run_calls_total env (new_config_ver m) cs
    ({ m with stat_configs := (m.stat_configs + 1) % UINT64 } : proxy_main) hcs hnd hok
    (fun p hp c _ _ => Nat.ne_of_lt (hlt p hp))
  obtain ⟨hoka, _, _⟩ := run_calls_pools_ok env _ cs
    ({ m with stat_configs := (m.stat_configs + 1) % UINT64 } : proxy_main) a hcs hok ha
  obtain ⟨m', suf', hc, hl, hf, _, _⟩ :=
    close_loop_retires env (new_config_ver m) a.proxy_head.length a [] a.proxy_head rfl rfl hoka
  simp only [List.nil_append] at hl
  rw [← hl] at hf
  have hrun : cproxy_on_config env m kvs = Except.ok m' := by
    rw [on_config_run, hdoc]
    dsimp only
    rw [ha]
    exact hc
  have hall : ∀ q ∈ m'.proxy_head, q.name ≠ some NULL_BUCKET →
      q.config_ver = new_config_ver m := by
    intro q hq hname
    obtain ⟨p, hp, hpq⟩ := forall2_mem_right _ _ _ hf q hq
    unfold retired at hpq
    by_cases hcond : p.config_ver ≠ new_config_ver m ∧ p.name ≠ some NULL_BUCKET
    · rw [if_pos hcond] at hpq
      exact hpq.2.2.2.1
    · rw [if_neg hcond] at hpq
      subst hpq
      by_contra hne
      exact hcond ⟨hne, hname⟩
  refine ⟨m', hrun, hall, ?_⟩
  obtain ⟨_, _, added, rest, hl2, hr⟩ :=
    on_config_frame env _ m m' (versioned_step_rel (new_config_ver m)) kvs hrun
  refine ⟨added, rest, hl2, ?_⟩
  refine forall2_imp_mem2 _ _ _ _ ?_ hr
  intro p hp q hq hpq
  have hq' : q ∈ m'.proxy_head := by
    rw [hl2]
    exact List.mem_append_right _ hq
  rcases hpq with rfl | ⟨h1, _⟩
  · by_cases hname : q.name = some NULL_BUCKET
    · exact Or.inr ⟨rfl, hname⟩
    · exact absurd (hall q hq' hname) (Nat.ne_of_lt (hlt q hp))
  · exact Or.inl ⟨h1, by rw [h1]; exact hlt p hp⟩

theorem new_config_ver_exceeds_existing_witness :
    pools_ok sample_main.proxy_head ∧ 0 < sample_main.behavior.port_listen ∧
    max_config_ver sample_main.proxy_head < UINT32 - 1 ∧
    sample_main.proxy_head.map (fun p => (p.name, p.config_ver)) =
      [(some "default", 1), (some "old", 3), (some NULL_BUCKET, 0)] ∧
    (∃ m', cproxy_on_config sample_env sample_main sample_kvs = Except.ok m' ∧
      m'.proxy_head.map (fun p => (p.name, p.config_ver)) =
        [(some "default", 4), (some "old", 4), (some NULL_BUCKET, 0)]) ∧
    new_config_ver sample_main = 4 ∧
    ∃ m', cproxy_on_config sample_env sample_main sample_kvs = Except.ok m' ∧
      (∀ q ∈ m'.proxy_head, q.name ≠ some NULL_BUCKET →
        q.config_ver = new_config_ver sample_main) ∧
      ∃ added rest, m'.proxy_head = added ++ rest ∧
        List.Forall₂
          (fun p q =>
            (q.config_ver = new_config_ver sample_main ∧ p.config_ver < q.config_ver) ∨
            (q = p ∧ p.name = some NULL_BUCKET))
          sample_main.proxy_head rest :=
  ⟨by unfold pools_ok; decide, by decide, by decide, rfl, ⟨_, rfl, rfl⟩, by decide,
    (new_config_ver_exceeds_existing sample_env sample_main sample_kvs
      [{ name := "default", port := 11211, config := some sample_doc, bp := lap_bp }]
      (by unfold pools_ok; decide) (by decide) (by decide) rfl
      (List.nodup_singleton _)).2.2.2.2.2⟩

/-- C20, counterexample: a pool description whose `nodeLocator` is the string `"spread"`,
neither `"ketama"` nor `"vbucket"`, is not failed by `cproxy_on_config_json_one`: with a
libvbucket that reads its server list the function returns `true` and the pool `other` has
been created by `cproxy_on_config_pool`. -/
theorem unknown_node_locator_creates_pool :
    ∃ jConfig m',
      sample_env.cJSON_Parse spread_doc = some jConfig ∧
      sample_env.cJSON_GetObjectItem jConfig "nodeLocator" =
        some (cJSON.cJSON_String "spread") ∧
      "spread" ≠ "ketama" ∧ "spread" ≠ "vbucket" ∧
      cproxy_on_config_json_one sample_env empty_main 1 spread_doc "default" =
        Except.ok (m', true) ∧
      m'.proxy_head.map (fun p => (p.name, p.config_ver, p.behavior_pool.base.nodeLocator)) =
        [(some "other", 1, "vbucket")] ∧
      m'.stat_proxy_starts = empty_main.stat_proxy_starts + 1 :=
  ⟨_, _, rfl, rfl, by decide, by decide, rfl, rfl, rfl⟩

/-- C20, amended: a pool description whose `nodeLocator` is a string other than
`"ketama"` (also one other than `"vbucket"`) is handled by `cproxy_on_config_json_one`
as a vbucket description under the name the description gives: the pool fails, with
result `false` and the state untouched, exactly when no behavior pool can be built
(libvbucket does not accept the config, the listen port is not positive, the server list is
empty or has an entry that is not `host:port`); otherwise `cproxy_on_config_pool` is
called once, with the `vbucket` behavior, and the result is `true`. -/
theorem other_node_locator_is_vbucket (env : host_env) (m : proxy_main) (v : Nat)
    (config name s : String) (jConfig : cJSON)
    (hlen : config.length > 0)
    (hparse : env.cJSON_Parse config = some jConfig)
    (hloc : env.cJSON_GetObjectItem jConfig "nodeLocator" = some (cJSON.cJSON_String s))
    (hs : s ≠ "ketama") :
    cproxy_on_config_json_one env m v config name =
      cproxy_on_config_json_one_vbucket env m v config
        (match env.cJSON_GetObjectItem jConfig "name" with
          | some (cJSON.cJSON_String n) => n
          | _ => name) ∧
    (vbucket_behavior_pool env m.behavior config
        (match env.cJSON_GetObjectItem jConfig "name" with
          | some (cJSON.cJSON_String n) => n
          | _ => name) = none →
      cproxy_on_config_json_one env m v config name = Except.ok (m, false)) ∧
    (∀ bp, vbucket_behavior_pool env m.behavior config
        (match env.cJSON_GetObjectItem jConfig "name" with
          | some (cJSON.cJSON_String n) => n
          | _ => name) = some bp →
      bp.base.nodeLocator = "vbucket" ∧
      cproxy_on_config_json_one env m v config name =
        (cproxy_on_config_pool env m
          (match env.cJSON_GetObjectItem jConfig "name" with
            | some (cJSON.cJSON_String n) => n
            | _ => name) m.behavior.port_listen (some config) v bp).bind
          (fun m1 => Except.ok (m1, true))) := by
  have h1 : cproxy_on_config_json_one env m v config name =
      cproxy_on_config_json_one_vbucket env m v config
        (match env.cJSON_GetObjectItem jConfig "name" with
          | some (cJSON.cJSON_String n) => n
          | _ => name) := by
    unfold cproxy_on_config_json_one
    rw [if_pos hlen, hparse]
    dsimp only
    rw [hloc]
    dsimp only
    rw [if_neg hs]
  refine ⟨h1, ?_, ?_⟩
  · intro hnone
    rw [h1]
    unfold cproxy_on_config_json_one_vbucket
    rw [hnone]
    rfl
  · intro bp hbp
    refine ⟨?_, ?_⟩
    · unfold vbucket_behavior_pool at hbp
      split at hbp
      · dsimp only at hbp
        split at hbp
        · split at hbp
          · simp only [Option.some.injEq] at hbp
            subst hbp
            unfold cproxy_parse_json_auth
            dsimp only
            split
            · split <;> rfl
            · rfl
          · cases hbp
        · cases hbp
      · cases hbp
    · rw [h1]
      unfold cproxy_on_config_json_one_vbucket
      rw [hbp]
      rfl

theorem other_node_locator_is_vbucket_witness :
    ∃ jConfig, spread_doc.length > 0 ∧
      sample_env.cJSON_Parse spread_doc = some jConfig ∧
      sample_env.cJSON_GetObjectItem jConfig "nodeLocator" =
        some (cJSON.cJSON_String "spread") ∧
      "spread" ≠ "ketama" ∧
      cproxy_on_config_json_one sample_env empty_main 1 spread_doc "default" =
        cproxy_on_config_json_one_vbucket sample_env empty_main 1 spread_doc
          (match sample_env.cJSON_GetObjectItem jConfig "name" with
            | some (cJSON.cJSON_String n) => n
            | _ => "default") :=
  ⟨_, by decide, rfl, rfl, by decide,
    (other_node_locator_is_vbucket sample_env empty_main 1 spread_doc "default" "spread" _
      (by decide) rfl rfl (by decide)).1⟩

/-- C18: on a pool list in which a pool without behavior array has size zero. When name
and port identify a pool and every pool has a name and a positive port,
`close_outdated_proxies(m, v)` returns; and whenever it returns, position by position: a
pool whose version differed from `v` and which is not the NULL bucket has
`config == NULL`, `arr == NULL`, `num == 0` and version `v` (name and port kept); every
pool whose version was `v` already, and the NULL bucket whatever its version, is exactly as
before. -/
theorem close_outdated_proxies_retires (env : host_env) (m : proxy_main) (v : Nat)
    (hwf : ∀ p ∈ m.proxy_head, p.behavior_pool.arr = none → p.behavior_pool.num = 0) :
    (pools_ok m.proxy_head → ∃ m', close_outdated_proxies env m v = Except.ok m') ∧
    ∀ m', close_outdated_proxies env m v = Except.ok m' →
      List.Forall₂
        (fun p q =>
          if p.config_ver ≠ v ∧ p.name ≠ some NULL_BUCKET then
            q.config = none ∧ q.behavior_pool.arr = none ∧ q.behavior_pool.num = 0 ∧
              q.config_ver = v ∧ q.name = p.name ∧ q.port = p.port
          else q = p)
        m.proxy_head m'.proxy_head := by
  refine ⟨?_, ?_⟩
  · intro hok
    obtain ⟨m', _, hc, _⟩ :=
      close_loop_retires env v m.proxy_head.length m [] m.proxy_head rfl rfl hok
    exact ⟨m', hc⟩
  · intro m' h
    obtain ⟨suf', hl, hf⟩ := close_loop_result env v m.proxy_head.length m m' []
      m.proxy_head rfl rfl (fun q hq => by cases hq) hwf h
    rw [hl]
    refine forall2_imp_mem _ _ _ _ ?_ hf
    intro p _ q hq
    unfold retired at hq
    by_cases hc : p.config_ver ≠ v ∧ p.name ≠ some NULL_BUCKET
    · rw [if_pos hc] at hq ⊢
      exact ⟨hq.1, hq.2.1, hq.2.2.1, hq.2.2.2.1, hq.2.2.2.2.1, hq.2.2.2.2.2.1⟩
    · rw [if_neg hc] at hq ⊢
      exact hq

theorem close_outdated_proxies_retires_witness :
    (∀ p ∈ sample_main.proxy_head, p.behavior_pool.arr = none → p.behavior_pool.num = 0) ∧
    ∃ m', close_outdated_proxies sample_env sample_main 3 = Except.ok m' ∧
      List.Forall₂
        (fun p q =>
          if p.config_ver ≠ 3 ∧ p.name ≠ some NULL_BUCKET then
            q.config = none ∧ q.behavior_pool.arr = none ∧ q.behavior_pool.num = 0 ∧
              q.config_ver = 3 ∧ q.name = p.name ∧ q.port = p.port
          else q = p)
        sample_main.proxy_head m'.proxy_head :=
  ⟨by decide, _, rfl,
    (close_outdated_proxies_retires sample_env sample_main 3 (by decide)).2 _ rfl⟩

/-- C17, counterexample: the same document delivered twice to a proxy without pools. After
the first delivery the pool `default` has version 1, after the second version 2; and when
a worker has cached an item in the pool's front cache between the two deliveries, the
front cache is empty after the second. -/
theorem second_delivery_changes_version :
    ∃ m1 m2 m3,
      cproxy_on_config sample_env empty_main sample_kvs = Except.ok m1 ∧
      cproxy_on_config sample_env m1 sample_kvs = Except.ok m2 ∧
      m1.proxy_head.map (fun p => (p.name, p.config_ver)) = [(some "default", 1)] ∧
      m2.proxy_head.map (fun p => (p.name, p.config_ver)) = [(some "default", 2)] ∧
      (cache_item m1).proxy_head.map (fun p => p.front_cache.map) = [some [sample_item]] ∧
      cproxy_on_config sample_env (cache_item m1) sample_kvs = Except.ok m3 ∧
      m3.proxy_head.map (fun p => p.front_cache.map) = [some []] :=
  ⟨_, _, _, rfl, rfl, rfl, rfl, rfl, rfl, rfl⟩

/-- C17, amended: the same document delivered twice in succession through
`cproxy_on_config`, on a pool list in which name and port identify a pool, with a positive
listen port and versions below `2^32 - 1`. The second delivery creates no pool and leaves
name, port, config string, base and per-server behaviors of every pool as the first
delivery left them; a worker copy that holds the pool's config string and behaviors is not
changed by `update_ptd_config` apart from its version, and the key stats are not
restarted. What the second delivery does change: every pool it touches takes the new
version, greater than the one it had, and its front cache is stopped and restarted
empty. -/
theorem second_delivery_keeps_config (env : host_env) (m0 m1 m2 : proxy_main)
    (kvs : List (String × List String))
    (hok : pools_ok m0.proxy_head) (hport : 0 < m0.behavior.port_listen)
    (hmax0 : max_config_ver m0.proxy_head < UINT32 - 1)
    (hmax1 : max_config_ver m1.proxy_head < UINT32 - 1)
    (h1 : cproxy_on_config env m0 kvs = Except.ok m1)
    (h2 : cproxy_on_config env m1 kvs = Except.ok m2) :
    List.Forall₂
      (fun p q =>
        q.name = p.name ∧ q.port = p.port ∧ q.config = p.config ∧
        q.behavior_pool = p.behavior_pool ∧ q.thread_data = p.thread_data ∧
        (q = p ∨ (q.config_ver = new_config_ver m1 ∧ p.config_ver < q.config_ver ∧
          (q.front_cache.map = none ∨ q.front_cache.map = some []))) ∧
        ∀ ptd : proxy_td, ptd.config = p.config → ptd.behavior_pool = p.behavior_pool →
          update_ptd_config q ptd = ({ ptd with config_ver := q.config_ver }, false))
      m1.proxy_head m2.proxy_head := by
  have hsame : List.Forall₂ same_pool m1.proxy_head m2.proxy_head := by
    cases hdoc : doc_calls env m0.behavior kvs with
    | none =>
      rw [on_config_run, hdoc] at h1
      simp only [Except.ok.injEq] at h1
      subst h1
      rw [on_config_run] at h2
      dsimp only at h2
      rw [hdoc] at h2
      simp only [Except.ok.injEq] at h2
      subst h2
      exact forall2_refl_of _ same_pool_refl _
    | some cs =>
      have hfresh : ∀ p ∈ m0.proxy_head, p.config_ver ≠ new_config_ver m0 := by
        intro p hp
        have := le_max_config_ver _ p hp
        rw [new_config_ver_eq m0 hmax0]
        omega
      obtain ⟨hok1, hb1, hcar, hret⟩ :=
        first_delivery_settled env m0 m1 kvs cs hok hport hfresh hdoc h1
      rw [← hb1] at hdoc hret
      exact second_delivery_same env m1 m2 _ kvs cs hok1 hdoc hcar hret h2
  have hrev : List.Forall₂ (reversioned (new_config_ver m1)) m1.proxy_head m2.proxy_head :=
    grows_same_length _ _ _
      (on_config_frame env _ m1 m2 (reversioned_step_rel (new_config_ver m1)) kvs h2).2.2
      hsame.length_eq.symm
  refine forall2_imp_mem _ _ _ _ ?_ (forall2_and _ _ _ _ hsame hrev)
  intro p hp q hpq
  obtain ⟨⟨s1, s2, s3, s4, s5⟩, hr⟩ := hpq
  refine ⟨s1, s2, s3, s4, s5, ?_, ?_⟩
  · rcases hr with rfl | ⟨r1, _, r3⟩
    · exact Or.inl rfl
    · refine Or.inr ⟨r1, ?_, r3⟩
      rw [r1, new_config_ver_eq m1 hmax1]
      exact Nat.lt_succ_of_le (le_max_config_ver _ p hp)
  · intro ptd hc hb
    exact update_ptd_config_in_sync q ptd (hc.trans s3.symm) (hb.trans s4.symm)

theorem second_delivery_keeps_config_witness :
    ∃ m1 m2,
      pools_ok sample_main.proxy_head ∧ 0 < sample_main.behavior.port_listen ∧
      max_config_ver sample_main.proxy_head < UINT32 - 1 ∧
      max_config_ver m1.proxy_head < UINT32 - 1 ∧
      cproxy_on_config sample_env sample_main sample_kvs = Except.ok m1 ∧
      cproxy_on_config sample_env m1 sample_kvs = Except.ok m2 ∧
      List.Forall₂
        (fun p q =>
          q.name = p.name ∧ q.port = p.port ∧ q.config = p.config ∧
          q.behavior_pool = p.behavior_pool ∧ q.thread_data = p.thread_data ∧
          (q = p ∨ (q.config_ver = new_config_ver m1 ∧ p.config_ver < q.config_ver ∧
            (q.front_cache.map = none ∨ q.front_cache.map = some []))) ∧
          ∀ ptd : proxy_td, ptd.config = p.config → ptd.behavior_pool = p.behavior_pool →
            update_ptd_config q ptd = ({ ptd with config_ver := q.config_ver }, false))
        m1.proxy_head m2.proxy_head :=
  ⟨_, _, by unfold pools_ok; decide, by decide, by decide, by decide, rfl, rfl,
    second_delivery_keeps_config sample_env sample_main _ _ sample_kvs
      (by unfold pools_ok; decide) (by decide) (by decide) (by decide) rfl rfl⟩

/-- C14, counterexample: the upstream connection 7 asks `get A B A C A` and the downstream
returns values for `A` and `C`. The upstream is sent three `VALUE A` replies, one for each
time it named `A`, and one `VALUE C`. -/
theorem duplicate_key_answered_per_occurrence :
    ∃ d1 d2,
      multiget_ascii_downstream sample_mg_env a2a_ops false (sample_downstream [dup_request])
        [dup_request] = Except.ok (d1, true) ∧
      emitted_keys d1.emitted = ["A", "B", "C"] ∧
      multiget_responses sample_mg_env [value_of "A", value_of "C"] d1 = Except.ok d2 ∧
      keys_of dup_request = ["A", "B", "A", "C", "A"] ∧
      values_sent d2.sent 7 = ["A", "A", "A", "C"] :=
  ⟨_, _, rfl, rfl, rfl, rfl, rfl⟩

/-- C14, amended: a call of `multiget_ascii_downstream` on a reservation without map (as
its caller asserts), for a chain of well-formed `get` requests, with no key answered by
the front cache, every key resolving to a downstream connection and every entry
allocated, followed by the downstream `VALUE` responses `its` handled by
`multiget_ascii_downstream_response`. Both return, and for every upstream connection `u`
the `VALUE` replies queued on `u` are, item by item in the order of the responses,
`replies_for` the key of the item. When the first key of the chain is not the last key of
its command, so that the de-duplication map exists from the first key on, that is one
reply for each time `u` asked for the key: none for a key that `u` did not ask for or
that the downstream returned no value for. The same holds for a chain of one command and
the keys of that command, with or without map. -/
theorem multiget_value_per_request (env : mg_env) (ops : emit_ops) (use_front_cache : Bool)
    (d : downstream) (chain : List uconn) (its : List item)
    (hmap : d.multiget = none) (hne : chain ≠ [])
    (hfc : no_front_cache_hit env use_front_cache) (hres : resolves env d)
    (halloc : ∀ n, env.calloc_ok n = true) (hwf : ∀ uc ∈ chain, well_formed uc)
    (hnoreply : ∀ uc ∈ chain, uc.noreply = false)
    (hprep : prep_failure d.downstream_conns 0 = none)
    (hits : ∀ it ∈ its, it.crlf = true ∧ it.key.length > 0) :
    ∃ d1 r d2,
      multiget_ascii_downstream env ops use_front_cache d chain = Except.ok (d1, r) ∧
      multiget_responses env its d1 = Except.ok d2 ∧
      (∀ u, values_sent d2.sent u =
        values_sent d.sent u ++
          its.flatMap (fun it =>
            List.replicate (replies_for d.upstream_conn chain u it.key) it.key)) ∧
      (map_from_first_key chain = true →
        ∀ u key, replies_for d.upstream_conn chain u key = requested chain u key) ∧
      (∀ uc, chain = [uc] → d.upstream_conn = chain →
        ∀ u key, key ∈ keys_of uc →
          replies_for d.upstream_conn chain u key = requested chain u key) := by
  obtain ⟨d1, r, h1, hsent, huc, hm⟩ :=
    multiget_ascii_downstream_gen env ops use_front_cache d chain hmap hne hfc hres halloc
      hwf hnoreply hprep
  have hfirst : map_from_first_key chain = true →
      ∀ u key, replies_for d.upstream_conn chain u key = requested chain u key := by
    intro hf u key
    obtain ⟨e1, e2⟩ := recorded_from_first_key chain hf
    unfold replies_for requested
    rw [if_neg e2, e1]
  have hsingle : ∀ uc, chain = [uc] → d.upstream_conn = chain →
      ∀ u key, key ∈ keys_of uc →
        replies_for d.upstream_conn chain u key = requested chain u key := by
    intro uc hc hu u key hkey
    rw [hu, hc]
    exact replies_for_single uc u key hkey
  rcases hm with ⟨hnone, hP⟩ | ⟨m, hsome, hP, hrec⟩
  · obtain ⟨d2, h2, hv⟩ := responses_broadcast env its hits d1 hnone
    refine ⟨d1, r, d2, h1, h2, ?_, hfirst, hsingle⟩
    intro u
    have hr : ∀ key, replies_for d.upstream_conn chain u key =
        d.upstream_conn.countP (fun uc => decide (uc.sfd = u)) := by
      intro key
      unfold replies_for
      rw [if_pos hP]
    rw [hv u, hsent, huc]
    simp only [hr]
  · obtain ⟨d2, h2, hv⟩ :=
      responses_inv env (recorded_from (chain_rounds chain)) its hits d1 m hsome hrec
    refine ⟨d1, r, d2, h1, h2, ?_, hfirst, hsingle⟩
    intro u
    have hr : ∀ key, replies_for d.upstream_conn chain u key =
        (recorded_from (chain_rounds chain)).count (u, key) := by
      intro key
      unfold replies_for
      rw [if_neg hP]
    rw [hv u, hsent]
    simp only [hr]

theorem multiget_value_per_request_witness :
    map_from_first_key [dup_request] = true ∧
    requested [dup_request] 7 "A" = 3 ∧
    replies_for [dup_request] [dup_request] 7 "A" = 3 ∧
    requested [single_request] 7 "A" = 1 ∧
    replies_for [single_request] [single_request] 7 "A" = 1 ∧
    requested mixed_chain 7 "A" = 1 ∧ replies_for mixed_chain mixed_chain 7 "A" = 0 ∧
    requested separate_chain 8 "A" = 0 ∧
    replies_for separate_chain separate_chain 8 "A" = 1 ∧
    ∃ d1 r d2,
      multiget_ascii_downstream sample_mg_env a2a_ops false (sample_downstream [dup_request])
        [dup_request] = Except.ok (d1, r) ∧
      multiget_responses sample_mg_env [value_of "A", value_of "C"] d1 = Except.ok d2 ∧
      (∀ u, values_sent d2.sent u =
        values_sent (sample_downstream [dup_request]).sent u ++
          [value_of "A", value_of "C"].flatMap (fun it =>
            List.replicate
              (replies_for (sample_downstream [dup_request]).upstream_conn [dup_request] u
                it.key) it.key)) ∧
      (map_from_first_key [dup_request] = true →
        ∀ u key, replies_for (sample_downstream [dup_request]).upstream_conn [dup_request] u
          key = requested [dup_request] u key) ∧
      (∀ uc, [dup_request] = [uc] →
        (sample_downstream [dup_request]).upstream_conn = [dup_request] →
        ∀ u key, key ∈ keys_of uc →
          replies_for (sample_downstream [dup_request]).upstream_conn [dup_request] u key =
            requested [dup_request] u key) :=
  ⟨rfl, rfl, rfl, rfl, rfl, rfl, rfl, rfl, rfl,
    multiget_value_per_request sample_mg_env a2a_ops false (sample_downstream [dup_request])
      [dup_request] [value_of "A", value_of "C"] rfl (List.cons_ne_nil _ _)
      (fun _ _ h => absurd h (by decide))
      (fun _ => ⟨0, -1, rfl, rfl⟩) (fun _ => rfl)
      (fun uc huc => by
        rw [List.mem_singleton] at huc
        subst huc
        exact ⟨_, _, rfl, Or.inl rfl⟩)
      (fun uc huc => by
        rw [List.mem_singleton] at huc
        subst huc
        rfl)
      rfl (by decide)⟩

/-- C15, evaluation: a chain of two upstream connections that each ask `get A`, on a
reservation without map, with every key resolving and no front cache. Each `A` is the
last key of its request, so no de-duplication map is created: `A` is emitted twice and
`tot_multiget_keys_dedupe` stays as it was, where the keys of the chain are `A, A` with one
distinct key. The same run for the single request `get A B A C A` emits `A, B, C` and
raises the counter by 2. -/
theorem single_key_requests_not_deduplicated :
    ∃ d1 d2,
      multiget_ascii_downstream sample_mg_env a2a_ops false
        (sample_downstream single_key_chain) single_key_chain = Except.ok (d1, true) ∧
      (chain_keys single_key_chain).map Prod.snd = ["A", "A"] ∧
      d1.multiget = none ∧
      d1.tot_multiget_keys = (sample_downstream single_key_chain).tot_multiget_keys + 2 ∧
      d1.tot_multiget_keys_dedupe =
        (sample_downstream single_key_chain).tot_multiget_keys_dedupe ∧
      emitted_keys d1.emitted = ["A", "A"] ∧
      multiget_ascii_downstream sample_mg_env a2a_ops false (sample_downstream [dup_request])
        [dup_request] = Except.ok (d2, true) ∧
      d2.tot_multiget_keys_dedupe =
        (sample_downstream [dup_request]).tot_multiget_keys_dedupe + 2 ∧
      emitted_keys d2.emitted = ["A", "B", "C"] :=
  ⟨_, _, rfl, rfl, rfl, rfl, rfl, rfl, rfl, rfl, rfl⟩

/-- C16, counterexample: with one retry allowed and the command retried once already, a
not-my-vbucket response to a GET is written to the upstream as it came from the
downstream: the one item queued on the upstream carries the status not-my-vbucket, not a
temporary failure. And a not-my-vbucket response whose opcode is FLUSH invalidates nothing
in the routing table. -/
theorem exhausted_retry_forwards_reply :
    ∃ s1 uc1 s2,
      cproxy_process_b2b_downstream_nread sample_b2b_env (sample_b2b_state nmv_reply 1) =
        Except.ok s1 ∧
      s1.upstream_conn = some uc1 ∧ uc1.cmd_retries = sample_b2b_env.max_retries ∧
      uc1.sent = [nmv_reply] ∧
      uc1.sent.map (fun it => it.header.status) = [PROTOCOL_BINARY_RESPONSE_NOT_MY_VBUCKET] ∧
      PROTOCOL_BINARY_RESPONSE_NOT_MY_VBUCKET ≠ PROTOCOL_BINARY_RESPONSE_ETMPFAIL ∧
      cproxy_process_b2b_downstream_nread sample_b2b_env
        (sample_b2b_state
          { nmv_reply with header :=
              { nmv_reply.header with opcode := PROTOCOL_BINARY_CMD_FLUSH } } 0) =
        Except.ok s2 ∧
      s2.invalid = [] :=
  ⟨_, _, _, rfl, rfl, rfl, rfl, rfl, by decide, rfl, rfl⟩

/-- C16, amended: in `cproxy_process_b2b_downstream_nread`, for a downstream response that
is not ignored, not quiet, whose opcode is none of NOOP, FLUSH and STAT and whose status is
not-my-vbucket, while the upstream is attached and holds its request: the function
returns; the pair (index of the replying connection, vbucket read from the `reserved`
field of the request header) is invalidated in the routing table; if
`uc.cmd_retries < max_retries` then `cmd_retries`, `d.upstream_retry` and
`tot_retry_vbucket` each increase by exactly one and nothing is written to the upstream;
otherwise the counters stay and the not-my-vbucket response itself is written to the
upstream (or, when it cannot be queued, `err_oom` is raised and the upstream closed); and
`cmd_retries` does not get above `max_retries`. -/
theorem not_my_vbucket_retry (env : b2b_env) (s : b2b_state) (it : message) (uc : uconn_b)
    (req : message)
    (hitem : s.c_item = some it) (hquiet : s.c_noreply = false)
    (hign : env.ignore_reply = false)
    (hop : it.header.opcode ≠ PROTOCOL_BINARY_CMD_NOOP ∧
      it.header.opcode ≠ PROTOCOL_BINARY_CMD_FLUSH ∧
      it.header.opcode ≠ PROTOCOL_BINARY_CMD_STAT)
    (hstatus : it.header.status = PROTOCOL_BINARY_RESPONSE_NOT_MY_VBUCKET)
    (huc : s.upstream_conn = some uc) (hreq : uc.item = some req) :
    ∃ s', cproxy_process_b2b_downstream_nread env s = Except.ok s' ∧
      s'.invalid = (env.downstream_conn_index, req.reserved) :: s.invalid ∧
      (uc.cmd_retries < env.max_retries →
        s'.upstream_conn = some { uc with cmd_retries := uc.cmd_retries + 1 } ∧
        s'.upstream_retry = s.upstream_retry + 1 ∧
        s'.tot_retry_vbucket = (s.tot_retry_vbucket + 1) % 2 ^ 64 ∧
        s'.err_oom = s.err_oom) ∧
      (¬ uc.cmd_retries < env.max_retries →
        s'.upstream_retry = s.upstream_retry ∧
        s'.tot_retry_vbucket = s.tot_retry_vbucket ∧
        (env.add_conn_item_ok = true ∧ env.add_iov_ok = true →
          s'.upstream_conn =
            some { uc with sent := uc.sent ++ [it], state := conn_state.conn_mwrite } ∧
          s'.err_oom = s.err_oom) ∧
        (¬ (env.add_conn_item_ok = true ∧ env.add_iov_ok = true) →
          s'.upstream_conn = some { uc with closed := true } ∧
          s'.err_oom = (s.err_oom + 1) % 2 ^ 64)) ∧
      (∀ uc', s'.upstream_conn = some uc' → uc.cmd_retries ≤ env.max_retries →
        uc'.cmd_retries ≤ env.max_retries) := by
  unfold cproxy_process_b2b_downstream_nread
  rw [hitem]
  dsimp only
  rw [hign, hquiet]
  simp only [Bool.false_eq_true, if_false]
  rw [if_neg (fun h => h.elim hop.1 hop.2.1), if_neg hop.2.2, huc]
  dsimp only
  rw [if_pos hstatus, hreq]
  dsimp only
  by_cases hr : uc.cmd_retries < env.max_retries
  · rw [if_pos hr]
    refine ⟨_, rfl, rfl, fun _ => ⟨rfl, rfl, rfl, rfl⟩, fun h => absurd hr h, ?_⟩
    intro uc' huc' _
    simp only [Option.some.injEq] at huc'
    subst huc'
    dsimp only
    omega
  · rw [if_neg hr]
    unfold write_upstream
    dsimp only
    by_cases hq : env.add_conn_item_ok = true ∧ env.add_iov_ok = true
    · rw [if_pos hq]
      refine ⟨_, rfl, rfl, fun h => absurd h hr, fun _ => ⟨rfl, rfl, fun _ => ⟨?_, rfl⟩,
        fun h => absurd hq h⟩, ?_⟩
      · simp [hreq]
      · intro uc' huc' hle
        simp only [Option.some.injEq] at huc'
        subst huc'
        exact hle
    · rw [if_neg hq]
      refine ⟨_, rfl, rfl, fun h => absurd h hr, fun _ => ⟨rfl, rfl, fun h => absurd h hq,
        fun _ => ⟨by rw [hreq], rfl⟩⟩, ?_⟩
      intro uc' huc' hle
      simp only [Option.some.injEq] at huc'
      subst huc'
      exact hle

theorem not_my_vbucket_retry_witness :
    ∃ s', cproxy_process_b2b_downstream_nread sample_b2b_env (sample_b2b_state nmv_reply 0) =
        Except.ok s' ∧
      s'.invalid = [(2, 37)] ∧
      s'.upstream_conn = some (sample_uconn_b 1) ∧
      s'.upstream_retry = 1 ∧ s'.tot_retry_vbucket = 1 :=
  (not_my_vbucket_retry sample_b2b_env (sample_b2b_state nmv_reply 0) nmv_reply
    (sample_uconn_b 0) get_request rfl rfl rfl (by decide) rfl rfl rfl).elim
    (fun s' h => ⟨s', h.1, h.2.1, (h.2.2.1 (by decide)).1, (h.2.2.1 (by decide)).2.1,
      (h.2.2.1 (by decide)).2.2.1⟩)

/-- C22, evaluation: the upstream connections 7 and 8 each ask `get A B` and the downstream
returns values for `A` and for `B`. Both connections are sent both values and the hits of
`GET_KEY` rise by four, but in the list of each key only the first entry (the one recorded
last, for connection 8) has its `hits` raised: the entries of connection 7 still have
`hits == 0`, and the walk with `multiget_foreach_free` counts two misses although every
requested occurrence of a key received a value. -/
theorem deduplicated_hit_counted_as_miss :
    ∃ d1 d2,
      multiget_ascii_downstream sample_mg_env a2a_ops false (sample_downstream shared_chain)
        shared_chain = Except.ok (d1, true) ∧
      multiget_responses sample_mg_env [value_of "A", value_of "B"] d1 = Except.ok d2 ∧
      values_sent d2.sent 7 = ["A", "B"] ∧ values_sent d2.sent 8 = ["A", "B"] ∧
      d2.multiget = some
        [("A", [{ upstream_conn := some 8, opaque_id := 0, hits := 1 },
                { upstream_conn := some 7, opaque_id := 0, hits := 0 }]),
         ("B", [{ upstream_conn := some 8, opaque_id := 0, hits := 1 },
                { upstream_conn := some 7, opaque_id := 0, hits := 0 }])] ∧
      d2.psc_get_key.hits = 4 ∧ d2.psc_get_key.misses = 0 ∧
      (multiget_free d2).psc_get_key.misses = 2 :=
  ⟨_, _, rfl, rfl, rfl, rfl, rfl, rfl, rfl, rfl⟩

theorem count_key_counters (d : downstream) (k : String × Bool × Nat) :
    (count_key d k).front_cache = d.front_cache ∧ (count_key d k).emitted = d.emitted ∧
    (count_key d k).tot_multiget_keys_dedupe = d.tot_multiget_keys_dedupe ∧
    (count_key d k).psc_get_key.hits = d.psc_get_key.hits := by
  unfold count_key
  dsimp only
  split_ifs <;> exact ⟨rfl, rfl, rfl, rfl⟩

theorem front_cache_hit_gets (env env' : mg_env) (use_front_cache : Bool) (d : downstream)
    (key : String) :
    front_cache_hit env' use_front_cache true d key =
      front_cache_hit env use_front_cache true d key := by
  unfold front_cache_hit
  simp

theorem multiget_key_gets (env env' : mg_env) (ops : emit_ops) (use_front_cache : Bool)
    (uc_cur : uconn) (cmd : String) (d : downstream) (k : String × Bool × Nat)
    (hfind : env'.find_downstream_conn = env.find_downstream_conn)
    (hcalloc : env'.calloc_ok = env.calloc_ok) :
    multiget_key env' ops use_front_cache uc_cur true cmd d k =
      multiget_key env ops use_front_cache uc_cur true cmd d k := by
  unfold multiget_key
  rw [front_cache_hit_gets env env', hfind]
  have hd : ∀ d0 key key_last, dedupe_key env' uc_cur d0 key key_last =
      dedupe_key env uc_cur d0 key key_last := by
    intro d0 key key_last
    unfold dedupe_key
    rw [hcalloc]
  simp only [hd]

theorem multiget_keys_gets (env env' : mg_env) (ops : emit_ops) (use_front_cache : Bool)
    (uc_cur : uconn) (cmd : String)
    (hfind : env'.find_downstream_conn = env.find_downstream_conn)
    (hcalloc : env'.calloc_ok = env.calloc_ok) (rounds : List (String × Bool × Nat))
    (d : downstream) :
    multiget_keys env' ops use_front_cache uc_cur true cmd rounds d =
      multiget_keys env ops use_front_cache uc_cur true cmd rounds d := by
  induction rounds generalizing d with
  | nil => rfl
  | cons k rest ih =>
    unfold multiget_keys
    rw [multiget_key_gets env env' ops use_front_cache uc_cur cmd d k hfind hcalloc]
    cases multiget_key env ops use_front_cache uc_cur true cmd d k with
    | error e => rfl
    | ok d1 => exact ih d1

/-- C23: one round of the key loop of `multiget_ascii_downstream` for a non-empty key of a
`get` command (`cas_emit` false) with a front cache handed in. When
`cproxy_front_cache_key` admits the key and `mcache_get` returns an item for it (whose
data block ends in `"\r\n"`), the round returns, the requesting upstream connection is
queued exactly one `VALUE` reply built from the cached item, without cas, the hits of
`GET_KEY` rise by one, nothing is emitted and no downstream connection is written to, and
the de-duplication map, the number of entries allocated and the dedupe counter stay as
they were. For a `gets` command (fourth character `s`) the whole key loop of the upstream
connection does not depend on the front cache: it is the same for every
`cproxy_front_cache_key` and `mcache_get`. -/
theorem front_cache_hit_answers_get (env : mg_env) (ops : emit_ops) (uc_cur : uconn)
    (cmd : String) (d : downstream) (k : String × Bool × Nat) :
    (∀ it, k.1.length > 0 → env.front_cache_key k.1 = true →
      env.mcache_get d.front_cache k.1 = some it → it.key = k.1 → it.crlf = true →
      ∃ d', multiget_key env ops true uc_cur false cmd d k = Except.ok d' ∧
        d'.sent = d.sent ++ [(uc_cur.sfd, iov.text "VALUE "), (uc_cur.sfd, iov.item_key it),
          (uc_cur.sfd, iov.item_suffix_data it)] ∧
        d'.psc_get_key.hits = (d.psc_get_key.hits + 1) % UINT64 ∧
        d'.emitted = d.emitted ∧ d'.downstream_conns = d.downstream_conns ∧
        d'.multiget = d.multiget ∧ d'.allocs = d.allocs ∧
        d'.tot_multiget_keys_dedupe = d.tot_multiget_keys_dedupe) ∧
    (∀ (env' : mg_env) (use_front_cache : Bool) (c rest : List Char),
      env'.find_downstream_conn = env.find_downstream_conn →
      env'.calloc_ok = env.calloc_ok →
      split_command uc_cur = some (c, rest) → c.get? 3 = some 's' →
      multiget_upstream env' ops use_front_cache d uc_cur =
        multiget_upstream env ops use_front_cache d uc_cur) := by
  constructor
  · intro it hk hpass hget hkey hcrlf
    obtain ⟨h1, h2, h3, h4, h5⟩ := count_key_fields d k
    obtain ⟨c1, c2, c3, c4⟩ := count_key_counters d k
    have hhit : front_cache_hit env true false (count_key d k) k.1 = some it := by
      unfold front_cache_hit
      rw [hpass, c1]
      simpa using hget
    unfold multiget_key
    rw [if_pos hk, hhit]
    dsimp only
    rw [if_pos hkey]
    unfold cproxy_upstream_ascii_item_response
    rw [if_pos hcrlf, if_pos (Or.inl rfl)]
    refine ⟨_, rfl, ?_, ?_, c2, h4, h1, h5, c3⟩
    · show (count_key d k).sent ++ _ = _
      rw [h2]
    · show ((count_key d k).psc_get_key.hits + 1) % UINT64 = _
      rw [c4]
  · intro env' use_front_cache c rest hfind hcalloc hsplit hs
    unfold multiget_upstream
    rw [hsplit]
    dsimp only
    have hdec : decide (c.get? 3 = some 's') = true := by simpa using hs
    rw [hdec]
    split
    · exact multiget_keys_gets env env' ops use_front_cache uc_cur (String.mk c) hfind hcalloc
        _ d
    · rfl

theorem front_cache_hit_answers_get_witness :
    (cached_mg_env.front_cache_key "A" = true ∧
      cached_mg_env.mcache_get (cached_downstream [get_request_ab]).front_cache "A" =
        some (value_of "A")) ∧
    (∃ d', multiget_key cached_mg_env a2a_ops true get_request_ab false "get"
        (cached_downstream [get_request_ab]) ("A", false, 4) = Except.ok d' ∧
      d'.sent = (cached_downstream [get_request_ab]).sent ++
        [(7, iov.text "VALUE "), (7, iov.item_key (value_of "A")),
          (7, iov.item_suffix_data (value_of "A"))] ∧
      d'.psc_get_key.hits =
        ((cached_downstream [get_request_ab]).psc_get_key.hits + 1) % UINT64 ∧
      d'.emitted = (cached_downstream [get_request_ab]).emitted ∧
      d'.downstream_conns = (cached_downstream [get_request_ab]).downstream_conns ∧
      d'.multiget = (cached_downstream [get_request_ab]).multiget ∧
      d'.allocs = (cached_downstream [get_request_ab]).allocs ∧
      d'.tot_multiget_keys_dedupe =
        (cached_downstream [get_request_ab]).tot_multiget_keys_dedupe) ∧
    ∃ d1, multiget_ascii_downstream cached_mg_env a2a_ops true
        (cached_downstream [get_request_ab]) [get_request_ab] = Except.ok (d1, true) ∧
      values_sent d1.sent 7 = ["A"] ∧ emitted_keys d1.emitted = ["B"] ∧
      d1.psc_get_key.hits = 1 ∧ d1.tot_multiget_keys_dedupe = 0 :=
  ⟨⟨rfl, rfl⟩,
    (front_cache_hit_answers_get cached_mg_env a2a_ops get_request_ab "get"
      (cached_downstream [get_request_ab]) ("A", false, 4)).1 (value_of "A") (by decide) rfl
      rfl rfl rfl,
    _, rfl, rfl, rfl, rfl, rfl⟩

/-- C28, counterexample: a string stored where none was stored is not reported
(`update_str_config` returns false although the stored string changed), a `next` that
differs from the stored string only by a leading space is reported although the stored
string stays the same, also on every further call, and an array stored where none was
stored is not reported either. -/
theorem update_config_result_is_not_change :
    update_str_config none (some "a") = (some "a", false) ∧
    update_str_config (some "a") (some " a") = (some "a", true) ∧
    update_str_config (update_str_config (some "a") (some " a")).1 (some " a") =
      (some "a", true) ∧
    update_behaviors_config none 0 (some [sample_behavior]) 1 =
      (some [sample_behavior], 1, false) := by
  refine ⟨by decide, by decide, by decide, by decide⟩

/-- C28, amended: `update_str_config(curr, next)` returns true if and only if a string was
stored before the call and `next` is `NULL` or differs from it; after the call the stored
string is `NULL` when `next` is `NULL` and the whitespace-trimmed copy of `next` otherwise,
provided the string stored before was trimmed; and when `next` is `NULL` or free of
surrounding whitespace a second call with the same `next` returns false and changes
nothing. `update_behaviors_config` returns true if and only if an array was stored before
the call and `next` is `NULL` or not equal to it for `cproxy_equal_behaviors`; after the
call nothing is stored when `next` is `NULL` (with size 0 unless nothing was stored
before), and otherwise an array of size `next_num` with the first `next_num` behaviors of
`next`; and a second call with the same `next` returns false and changes nothing. -/
theorem update_config_reports_release (curr next : Option String)
    (a b : Option (List proxy_behavior)) (n k : Int) :
    (((update_str_config curr next).2 = true ↔
        (curr ≠ none ∧ (next = none ∨ curr ≠ next))) ∧
      (curr.map trimstrdup = curr →
        (update_str_config curr next).1 = next.map trimstrdup) ∧
      (next.map trimstrdup = next →
        update_str_config (update_str_config curr next).1 next =
          ((update_str_config curr next).1, false))) ∧
    (((update_behaviors_config a n b k).2.2 = true ↔
        (a ≠ none ∧ (b = none ∨
          ∃ x y, a = some x ∧ b = some y ∧ cproxy_equal_behaviors n x k y = false))) ∧
      (b = none → (update_behaviors_config a n b k).1 = none ∧
        (a ≠ none → (update_behaviors_config a n b k).2.1 = 0)) ∧
      (∀ y, b = some y → ∃ z, (update_behaviors_config a n b k).1 = some z ∧
        (update_behaviors_config a n b k).2.1 = k ∧ z.take k.toNat = y.take k.toNat) ∧
      update_behaviors_config (update_behaviors_config a n b k).1
          (update_behaviors_config a n b k).2.1 b k =
        ((update_behaviors_config a n b k).1, (update_behaviors_config a n b k).2.1,
          false)) := by
  refine ⟨⟨?_, ?_, ?_⟩, ?_, ?_, ?_, ?_⟩
  · unfold update_str_config
    dsimp only
    by_cases h : curr ≠ none ∧ (next = none ∨ curr ≠ next)
    · rw [if_pos h]; simp [h]
    · rw [if_neg h]; simp [h]
  · intro hc
    cases curr with
    | none => cases next <;> simp [update_str_config]
    | some c =>
      cases next with
      | none => simp [update_str_config]
      | some x =>
        by_cases hx : c = x
        · subst hx
          rw [update_str_config_self]
          exact hc.symm
        · simp [update_str_config, hx]
  · intro hn
    have hX : (update_str_config curr next).1 = next := by
      cases curr with
      | none =>
        cases next with
        | none => simp [update_str_config]
        | some x => simpa [update_str_config] using hn
      | some c =>
        cases next with
        | none => simp [update_str_config]
        | some x =>
          by_cases hx : c = x
          · subst hx
            rw [update_str_config_self]
          · simpa [update_str_config, hx] using hn
    rw [hX, update_str_config_self]
  · cases a with
    | none => cases b <;> simp [update_behaviors_config]
    | some x =>
      cases b with
      | none => simp [update_behaviors_config]
      | some y =>
        cases he : cproxy_equal_behaviors n x k y <;> simp [update_behaviors_config, he]
  · intro hb
    subst hb
    cases a with
    | none => simp [update_behaviors_config]
    | some x => simp [update_behaviors_config]
  · intro y hb
    subst hb
    cases a with
    | none => exact ⟨_, rfl, rfl, by simp [cproxy_copy_behaviors]⟩
    | some x =>
      cases he : cproxy_equal_behaviors n x k y with
      | false =>
        refine ⟨cproxy_copy_behaviors k y, ?_, ?_, by simp [cproxy_copy_behaviors]⟩
        · simp [update_behaviors_config, he]
        · simp [update_behaviors_config, he]
      | true =>
        have he' := he
        unfold cproxy_equal_behaviors at he'
        simp only [Bool.and_eq_true, decide_eq_true_eq] at he'
        obtain ⟨hnk, htake⟩ := he'
        subst hnk
        refine ⟨x, ?_, ?_, htake⟩
        · simp [update_behaviors_config, he]
        · simp [update_behaviors_config, he]
  · cases b with
    | none =>
      cases a with
      | none => simp [update_behaviors_config]
      | some x => simp [update_behaviors_config]
    | some y =>
      have hself : ∀ z, cproxy_equal_behaviors k (cproxy_copy_behaviors k y) k z =
          decide ((y.take k.toNat) = z.take k.toNat) := by
        intro z
        simp [cproxy_equal_behaviors, cproxy_copy_behaviors, List.take_take]
      cases a with
      | none => simp [update_behaviors_config, hself]
      | some x =>
        cases he : cproxy_equal_behaviors n x k y with
        | false => simp [update_behaviors_config, he, hself]
        | true => simp [update_behaviors_config, he]

theorem update_config_reports_release_witness :
    ((some "a" : Option String).map trimstrdup = some "a" ∧
      (some "b" : Option String).map trimstrdup = some "b") ∧
    (update_str_config (some "a") (some "b")).2 = true ∧
    (update_str_config (some "a") (some "b")).1 = (some "b" : Option String).map trimstrdup ∧
    update_str_config (update_str_config (some "a") (some "b")).1 (some "b") =
      ((update_str_config (some "a") (some "b")).1, false) ∧
    (update_behaviors_config (some [sample_behavior]) 1 none 0).1 = none ∧
    (update_behaviors_config (some [sample_behavior]) 1 none 0).2.1 = 0 :=
  ⟨⟨by decide, by decide⟩,
    (update_config_reports_release (some "a") (some "b") (some [sample_behavior]) none 1
      0).1.1.2 ⟨by decide, Or.inr (by decide)⟩,
    (update_config_reports_release (some "a") (some "b") (some [sample_behavior]) none 1
      0).1.2.1 (by decide),
    (update_config_reports_release (some "a") (some "b") (some [sample_behavior]) none 1
      0).1.2.2 (by decide),
    ((update_config_reports_release (some "a") (some "b") (some [sample_behavior]) none 1
      0).2.2.1 rfl).1,
    ((update_config_reports_release (some "a") (some "b") (some [sample_behavior]) none 1
      0).2.2.1 rfl).2 (by decide)⟩

/-- C29, evaluation: a document whose `buckets` array holds two descriptions of a bucket
named `a`. Both are processed in the second pass and both lead to a call of
`cproxy_on_config_pool` for the name `a` and the listen port 11211: the first call creates
the pool with the new version, and the second finds that pool and fails
`assert(config_ver != p->config_ver)`, so `cproxy_on_config_json` and `cproxy_on_config`
abort. A document with the buckets `a` and `b` is accepted and creates both pools. -/
theorem duplicate_bucket_name_fails_assertion :
    (json_calls json_env empty_main.behavior twin_doc).map call_key =
      [(some "a", 11211), (some "a", 11211)] ∧
    cproxy_on_config_json json_env empty_main 1 twin_doc =
      Except.error "assert(config_ver != p->config_ver)" ∧
    cproxy_on_config json_env empty_main [("contents", [twin_doc])] =
      Except.error "assert(config_ver != p->config_ver)" ∧
    ∃ r, cproxy_on_config_json json_env empty_main 1 pair_doc = Except.ok (r, true) ∧
      r.proxy_head.map pool_key = [(some "b", 11211), (some "a", 11211)] :=
  ⟨rfl, rfl, rfl, _, rfl, rfl⟩

theorem ketama_node_plain (env : host_env) (base : proxy_behavior) (n : cJSON)
    (h : plain_node env n) :
    ketama_node env base n =
      if node_unhealthy env n then node_result.skipped
      else node_result.added (node_behavior env base n) := by
  obtain ⟨⟨items, rfl⟩, hn, v, hh, hlen, hd, hv⟩ := h
  unfold node_behavior
  rw [hh, hd]
  unfold node_hostname at hh
  unfold node_direct at hd
  unfold ketama_node node_unhealthy
  dsimp only
  cases hs : env.cJSON_GetObjectItem (cJSON.cJSON_Object items) "status" with
  | none =>
    dsimp only
    cases hH : env.cJSON_GetObjectItem (cJSON.cJSON_Object items) "hostname" with
    | none => rw [hH] at hh; simp at hh
    | some jh =>
      rw [hH] at hh
      cases jh <;> simp at hh
      subst hh
      cases hP : env.cJSON_GetObjectItem (cJSON.cJSON_Object items) "ports" with
      | none => rw [hP] at hd; simp at hd
      | some jp =>
        rw [hP] at hd
        cases jp <;> simp at hd
        rename_i ports
        cases hD : env.cJSON_GetObjectItem (cJSON.cJSON_Object ports) "direct" with
        | none => rw [hD] at hd; simp at hd
        | some jd =>
          rw [hD] at hd
          cases jd <;> simp at hd
          subst hd
          simp [hlen, hv, hH, hP, hD]
  | some js =>
    have key : ∀ u : Bool,
        (if u = true then node_result.skipped
          else
            match env.cJSON_GetObjectItem (cJSON.cJSON_Object items) "hostname" with
            | some (cJSON.cJSON_String hostname) =>
              if hostname.length < 249 then
                match env.cJSON_GetObjectItem (cJSON.cJSON_Object items) "ports" with
                | some (cJSON.cJSON_Object ports) =>
                  match env.cJSON_GetObjectItem (cJSON.cJSON_Object ports) "direct" with
                  | some (cJSON.cJSON_Number valueint) =>
                    if valueint > 0 then
                      node_result.added { base with
                        host := String.mk (hostname.data.takeWhile (fun c => c ≠ ':'))
                        port := valueint }
                    else node_result.broken
                  | _ => node_result.broken
                | _ => node_result.broken
              else node_result.broken
            | _ => node_result.broken) =
          if u = true then node_result.skipped
          else node_result.added { base with
            host := String.mk (((some hn : Option String).getD "").data.takeWhile
              (fun c => c ≠ ':'))
            port := (some v : Option Int).getD 0 } := by
      intro u
      cases u
      · simp only [Bool.false_eq_true, if_false]
        cases hH : env.cJSON_GetObjectItem (cJSON.cJSON_Object items) "hostname" with
        | none => rw [hH] at hh; simp at hh
        | some jh =>
          rw [hH] at hh
          cases jh <;> simp at hh
          subst hh
          cases hP : env.cJSON_GetObjectItem (cJSON.cJSON_Object items) "ports" with
          | none => rw [hP] at hd; simp at hd
          | some jp =>
            rw [hP] at hd
            cases jp <;> simp at hd
            rename_i ports
            cases hD : env.cJSON_GetObjectItem (cJSON.cJSON_Object ports) "direct" with
            | none => rw [hD] at hd; simp at hd
            | some jd =>
              rw [hD] at hd
              cases jd <;> simp at hd
              subst hd
              simp [hlen, hv, hH, hP, hD]
      · rfl
    cases js <;> exact key _

theorem ketama_nodes_plain (env : host_env) (base : proxy_behavior) (nodes : List cJSON)
    (h : ∀ n ∈ nodes, plain_node env n) :
    ketama_nodes env base nodes =
      some ((nodes.filter (fun n => !node_unhealthy env n)).map (node_behavior env base)) := by
  induction nodes with
  | nil => rfl
  | cons n rest ih =>
    unfold ketama_nodes
    rw [ketama_node_plain env base n (h n (List.mem_cons_self _ _)),
      ih (fun x hx => h x (List.mem_cons_of_mem _ hx))]
    cases hu : node_unhealthy env n <;> simp [hu]

theorem ketama_nodes_broken (env : host_env) (base : proxy_behavior) (nodes : List cJSON)
    (h : ∃ n ∈ nodes, ketama_node env base n = node_result.broken) :
    ketama_nodes env base nodes = none := by
  induction nodes with
  | nil =>
    obtain ⟨n, hn, _⟩ := h
    cases hn
  | cons a rest ih =>
    obtain ⟨n, hn, hb⟩ := h
    unfold ketama_nodes
    cases ha : ketama_node env base a with
    | broken => rfl
    | skipped =>
      dsimp only
      rcases List.mem_cons.1 hn with rfl | hr
      · rw [ha] at hb; cases hb
      · exact ih ⟨n, hr, hb⟩
    | added b =>
      dsimp only
      rcases List.mem_cons.1 hn with rfl | hr
      · rw [ha] at hb; cases hb
      · rw [ih ⟨n, hr, hb⟩]; rfl

theorem ketama_behavior_pool_eq (env : host_env) (behavior : proxy_behavior)
    (config name : String) (jConfig : cJSON) (nodes : List cJSON)
    (hparse : env.cJSON_Parse config = some jConfig)
    (harr : ketama_node_array env jConfig = some nodes) :
    ketama_behavior_pool env behavior config name =
      if nodes.length > 0 then
        match ketama_nodes env
          (cproxy_parse_json_auth env config name { behavior with nodeLocator := "ketama" })
          nodes with
        | some arr =>
          if arr.length > 0 then
            some (ketama_config_str arr,
              { base := cproxy_parse_json_auth env config name
                  { behavior with nodeLocator := "ketama" },
                num := arr.length, arr := some arr })
          else none
        | none => none
      else none := by
  unfold ketama_behavior_pool
  rw [hparse]
  unfold ketama_node_array at harr
  dsimp only at harr ⊢
  generalize hj : (match
      (match env.cJSON_GetObjectItem jConfig "vBucketServerMap" with
        | some jVBSM => env.cJSON_GetObjectItem jVBSM "serverList"
        | none => none) with
      | some (cJSON.cJSON_Array xs) => some (cJSON.cJSON_Array xs)
      | x => env.cJSON_GetObjectItem jConfig "nodes") = jArr at harr ⊢
  cases jArr with
  | none => simp at harr
  | some j =>
    cases j <;> simp at harr
    subst harr
    rfl

theorem ketama_entry_render (b : proxy_behavior) (hh : b.host.length > 0) (hp : b.port > 0) :
    ketama_entry b = render_entry b := by
  unfold ketama_entry render_entry
  rw [if_pos ⟨hh, hp⟩]

theorem render_entry_length (b : proxy_behavior) (hh : b.host.length > 0) :
    (render_entry b).length > 0 := by
  unfold render_entry
  rw [String.length_append, String.length_append, String.length_append]
  omega

theorem config_fold_go (es : List String) (acc : String) (hacc : acc.length > 0) :
    es.foldl (fun a e => (if a.length > 0 then a ++ "," else a) ++ e) acc =
      String.intercalate.go acc "," es := by
  induction es generalizing acc with
  | nil => rfl
  | cons e rest ih =>
    rw [List.foldl_cons, if_pos hacc]
    have : (acc ++ "," ++ e).length > 0 := by
      rw [String.length_append, String.length_append]
      omega
    rw [ih _ this]
    rfl

theorem ketama_config_str_render (arr : List proxy_behavior)
    (h : ∀ b ∈ arr, b.host.length > 0 ∧ b.port > 0) :
    ketama_config_str arr = ",".intercalate (arr.map render_entry) := by
  have hmap : arr.map ketama_entry = arr.map render_entry :=
    List.map_congr_left (fun b hb => ketama_entry_render b (h b hb).1 (h b hb).2)
  have hfold : ketama_config_str arr =
      (arr.map ketama_entry).foldl
        (fun a e => (if a.length > 0 then a ++ "," else a) ++ e) "" := by
    unfold ketama_config_str
    rw [List.foldl_map]
  rw [hfold, hmap]
  cases arr with
  | nil => rfl
  | cons b rest =>
    rw [List.map_cons, List.foldl_cons]
    have h0 : ¬ ("" : String).length > 0 := by decide
    rw [if_neg h0, String.empty_append,
      config_fold_go _ _ (render_entry_length b (h b (List.mem_cons_self _ _)).1)]
    rfl

theorem kept_nodes_port (env : host_env) (base : proxy_behavior) (nodes : List cJSON)
    (h : ∀ n ∈ nodes, plain_node env n) : ∀ b ∈ kept_nodes env base nodes, b.port > 0 := by
  intro b hb
  unfold kept_nodes at hb
  obtain ⟨n, hn, rfl⟩ := List.mem_map.1 hb
  obtain ⟨_, _, v, _, _, hd, hv⟩ := h n (List.mem_filter.1 hn).1
  unfold node_behavior
  rw [hd]
  exact hv

/-- C21, counterexample: a ketama pool description with three node objects, each with a
hostname shorter than 249 characters and a positive `ports.direct`: one healthy, one
without `status` whose hostname `:8091` has nothing in front of the colon, and one whose
`status` is the number 0. The nodes whose status is absent or equal to `"healthy"` are the
first two, yet all three are put into the behavior pool, and the config string has no
`host:port` for the second: it is `10.0.0.1:11210,,10.0.0.3:11210`. -/
theorem ketama_pool_keeps_odd_nodes :
    (∀ n ∈ ketama_doc_nodes, plain_node json_env n) ∧
    (ketama_doc_nodes.filter (node_status_ok json_env)).map (node_hostname json_env) =
      [some "10.0.0.1:8091", some ":8091"] ∧
    ∃ bp m1,
      ketama_behavior_pool json_env sample_behavior ketama_doc "default" =
        some ("10.0.0.1:11210,,10.0.0.3:11210", bp) ∧
      bp.num = 3 ∧
      bp.arr.map (fun l => l.map (fun b => (b.host, b.port))) =
        some [("10.0.0.1", 11210), ("", 11210), ("10.0.0.3", 11210)] ∧
      cproxy_on_config_json_one json_env empty_main 1 ketama_doc "default" =
        Except.ok (m1, true) ∧
      m1.proxy_head.map (fun p => (p.name, p.config, p.behavior_pool.num)) =
        [(some "default", some "10.0.0.1:11210,,10.0.0.3:11210", 3)] := by
  refine ⟨?_, rfl, _, _, rfl, rfl, rfl, rfl, rfl⟩
  intro n hn
  simp only [ketama_doc_nodes, List.mem_cons, List.mem_singleton, List.not_mem_nil,
    or_false] at hn
  rcases hn with rfl | rfl | rfl <;>
    exact ⟨⟨_, rfl⟩, _, _, rfl, by decide, rfl, by decide⟩

/-- C21, amended: for a ketama pool description whose node array
(`vBucketServerMap.serverList` when it is an array, otherwise `nodes`) consists of node
objects each with a hostname string shorter than 249 characters and a positive number
`ports.direct`: the behavior pool passed to `cproxy_on_config_pool` holds exactly the
nodes that have no `status` string other than `"healthy"`, in document order, each with
the hostname cut at the first colon as host and `ports.direct` as port; when each of these
hosts is non-empty the config string is these entries rendered as `host:port` (followed by
`:weight` when the weight is positive) joined by commas; and when no node is left the
function returns false without calling `cproxy_on_config_pool`. For every node array, a
node on which the loop breaks makes the function return false without that call. -/
theorem ketama_pool_from_nodes (env : host_env) (m : proxy_main) (v : Nat)
    (config name : String) (jConfig : cJSON) (nodes : List cJSON)
    (hparse : env.cJSON_Parse config = some jConfig)
    (harr : ketama_node_array env jConfig = some nodes) :
    ((∀ n ∈ nodes, plain_node env n) →
      (kept_nodes env (ketama_base env m.behavior config name) nodes ≠ [] →
        cproxy_on_config_json_one_ketama env m v config name =
          (cproxy_on_config_pool env m name m.behavior.port_listen
            (some (ketama_config_str
              (kept_nodes env (ketama_base env m.behavior config name) nodes))) v
            { base := ketama_base env m.behavior config name
              num := (kept_nodes env (ketama_base env m.behavior config name) nodes).length
              arr := some (kept_nodes env (ketama_base env m.behavior config name) nodes) }).bind
            (fun m1 => Except.ok (m1, true)) ∧
        ((∀ b ∈ kept_nodes env (ketama_base env m.behavior config name) nodes,
            b.host.length > 0) →
          ketama_config_str (kept_nodes env (ketama_base env m.behavior config name) nodes) =
            ",".intercalate
              ((kept_nodes env (ketama_base env m.behavior config name) nodes).map
                render_entry))) ∧
      (kept_nodes env (ketama_base env m.behavior config name) nodes = [] →
        cproxy_on_config_json_one_ketama env m v config name = Except.ok (m, false))) ∧
    ((∃ n ∈ nodes, ketama_node env (ketama_base env m.behavior config name) n =
        node_result.broken) →
      cproxy_on_config_json_one_ketama env m v config name = Except.ok (m, false)) := by
  have heq := ketama_behavior_pool_eq env m.behavior config name jConfig nodes hparse harr
  refine ⟨fun hplain => ⟨fun hne => ⟨?_, ?_⟩, fun hnil => ?_⟩, fun hbroken => ?_⟩
  · have hk : ketama_nodes env
        (cproxy_parse_json_auth env config name { m.behavior with nodeLocator := "ketama" })
        nodes = some (kept_nodes env (ketama_base env m.behavior config name) nodes) :=
      ketama_nodes_plain env (ketama_base env m.behavior config name) nodes hplain
    have hlen : nodes.length > 0 := by
      cases nodes with
      | nil => exact absurd rfl hne
      | cons a l => simp
    have hal : (kept_nodes env (ketama_base env m.behavior config name) nodes).length > 0 :=
      List.length_pos.2 hne
    unfold cproxy_on_config_json_one_ketama
    rw [heq, if_pos hlen, hk]
    dsimp only
    rw [if_pos hal]
    rfl
  · intro hhost
    exact ketama_config_str_render _
      (fun b hb => ⟨hhost b hb, kept_nodes_port env _ nodes hplain b hb⟩)
  · have hk : ketama_nodes env
        (cproxy_parse_json_auth env config name { m.behavior with nodeLocator := "ketama" })
        nodes = some (kept_nodes env (ketama_base env m.behavior config name) nodes) :=
      ketama_nodes_plain env (ketama_base env m.behavior config name) nodes hplain
    unfold cproxy_on_config_json_one_ketama
    rw [heq, hk, hnil]
    by_cases hlen : nodes.length > 0
    · rw [if_pos hlen]; rfl
    · rw [if_neg hlen]; rfl
  · have hk : ketama_nodes env
        (cproxy_parse_json_auth env config name { m.behavior with nodeLocator := "ketama" })
        nodes = none :=
      ketama_nodes_broken env (ketama_base env m.behavior config name) nodes hbroken
    unfold cproxy_on_config_json_one_ketama
    rw [heq, hk]
    by_cases hlen : nodes.length > 0
    · rw [if_pos hlen]; rfl
    · rw [if_neg hlen]; rfl

theorem ketama_pool_from_nodes_witness :
    (∀ n ∈ healthy_doc_nodes, plain_node json_env n) ∧
    (kept_nodes json_env (ketama_base json_env weighted_main.behavior healthy_doc "default")
        healthy_doc_nodes).map (fun b => (b.host, b.port)) =
      [("10.0.0.1", 11210), ("10.0.0.5", 11210)] ∧
    cproxy_on_config_json_one_ketama json_env weighted_main 1 healthy_doc "default" =
      (cproxy_on_config_pool json_env weighted_main "default"
        weighted_main.behavior.port_listen
        (some (ketama_config_str
          (kept_nodes json_env
            (ketama_base json_env weighted_main.behavior healthy_doc "default")
            healthy_doc_nodes))) 1
        { base := ketama_base json_env weighted_main.behavior healthy_doc "default"
          num := (kept_nodes json_env
            (ketama_base json_env weighted_main.behavior healthy_doc "default")
            healthy_doc_nodes).length
          arr := some (kept_nodes json_env
            (ketama_base json_env weighted_main.behavior healthy_doc "default")
            healthy_doc_nodes) }).bind
        (fun m1 => Except.ok (m1, true)) ∧
    ketama_config_str (kept_nodes json_env
        (ketama_base json_env weighted_main.behavior healthy_doc "default")
        healthy_doc_nodes) = "10.0.0.1:11210:3,10.0.0.5:11210:3" :=
  have hplain : ∀ n ∈ healthy_doc_nodes, plain_node json_env n := by
    intro n hn
    simp only [healthy_doc_nodes, List.mem_cons, List.mem_singleton, List.not_mem_nil,
      or_false] at hn
    rcases hn with rfl | rfl | rfl <;>
      exact ⟨⟨_, rfl⟩, _, _, rfl, by decide, rfl, by decide⟩
  ⟨hplain, rfl,
    (((ketama_pool_from_nodes json_env weighted_main 1 healthy_doc "default"
      (ketama_json healthy_doc_nodes) healthy_doc_nodes rfl rfl).1 hplain).1
        (by decide)).1,
    rfl⟩

theorem optimize_set_fields (env : a2a_env) (s : a2a_state) (key : String) :
    (cproxy_optimize_set_ascii env s key).1.optimize_calls = s.optimize_calls ∧
    (cproxy_optimize_set_ascii env s key).1.c = s.c ∧
    (cproxy_optimize_set_ascii env s key).1.tot_optimize_sets = s.tot_optimize_sets := by
  unfold cproxy_optimize_set_ascii
  dsimp only
  split_ifs <;> exact ⟨rfl, rfl, rfl⟩

theorem optimize_set_result (env : a2a_env) (s : a2a_state) (key : String) :
    (cproxy_optimize_set_ascii env s key).2 = true ↔
      (s.optimize_set.length > 0 ∧ env.matcher_check s.optimize_set_matcher key = true) := by
  unfold cproxy_optimize_set_ascii
  dsimp only
  by_cases h0 : s.optimize_set.length = 0
  · rw [if_pos h0]
    simp [h0]
  · rw [if_neg h0]
    by_cases hm : env.matcher_check s.optimize_set_matcher key = true
    · rw [if_pos hm]
      have : s.optimize_set.length > 0 := by omega
      split_ifs <;> simp [this, hm]
    · rw [if_neg hm]
      simp [hm]

theorem add_iovs_all (env : a2a_env) (hiov : ∀ n, env.add_iov_ok n = true) (ps : List piece)
    (n : Nat) (c : item_conn) :
    add_iovs env ps n c = ({ c with iov := c.iov ++ ps }, true) := by
  induction ps generalizing n c with
  | nil => simp [add_iovs]
  | cons p rest ih =>
    unfold add_iovs
    rw [if_pos (hiov n), ih]
    simp

theorem add_iovs_ok (env : a2a_env) (ps : List piece) (n : Nat) (c : item_conn)
    (h : (add_iovs env ps n c).2 = true) :
    (add_iovs env ps n c).1 = { c with iov := c.iov ++ ps } := by
  induction ps generalizing n c with
  | nil => simp [add_iovs]
  | cons p rest ih =>
    unfold add_iovs at h ⊢
    by_cases hn : env.add_iov_ok n = true
    · rw [if_pos hn] at h ⊢
      rw [ih _ _ h]
      simp
    · rw [if_neg hn] at h
      cases h

theorem dettach_with_reply (s : a2a_state) (h : s.uc.noreply = false) :
    cproxy_dettach_if_noreply s = (s, false) := by
  unfold cproxy_dettach_if_noreply
  rw [h]
  rfl

theorem optimize_step (env : a2a_env) (S : a2a_state) (key : String) :
    (if (cproxy_optimize_set_ascii env S key).2 = true then
        ({ (cproxy_optimize_set_ascii env S key).1 with
            tot_optimize_sets :=
              ((cproxy_optimize_set_ascii env S key).1.tot_optimize_sets + 1) % UINT64 }, true)
      else ((cproxy_optimize_set_ascii env S key).1, true)).1.optimize_calls =
        S.optimize_calls ∧
    (if (cproxy_optimize_set_ascii env S key).2 = true then
        ({ (cproxy_optimize_set_ascii env S key).1 with
            tot_optimize_sets :=
              ((cproxy_optimize_set_ascii env S key).1.tot_optimize_sets + 1) % UINT64 }, true)
      else ((cproxy_optimize_set_ascii env S key).1, true)).1.c = S.c ∧
    (if (cproxy_optimize_set_ascii env S key).2 = true then
        ({ (cproxy_optimize_set_ascii env S key).1 with
            tot_optimize_sets :=
              ((cproxy_optimize_set_ascii env S key).1.tot_optimize_sets + 1) % UINT64 }, true)
      else ((cproxy_optimize_set_ascii env S key).1, true)).1.tot_optimize_sets =
      if S.optimize_set.length > 0 ∧ env.matcher_check S.optimize_set_matcher key = true then
        (S.tot_optimize_sets + 1) % UINT64
      else S.tot_optimize_sets := by
  obtain ⟨f1, f2, f3⟩ := optimize_set_fields env S key
  by_cases h : (cproxy_optimize_set_ascii env S key).2 = true
  · rw [if_pos h, if_pos ((optimize_set_result env S key).1 h)]
    exact ⟨f1, f2, by rw [← f3]⟩
  · rw [if_neg h, if_neg (fun hc => h ((optimize_set_result env S key).2 hc))]
    exact ⟨f1, f2, f3⟩

/-- C24: `cproxy_optimize_set_ascii(d, uc, key)` returns true if and only if the
`optimize_set` spec is not empty and the pool's `optimize_set` matcher matches the key.
When it returns true the reservation is detached from the upstream (`upstream_conn` and
`upstream_suffix` are `NULL`, suffix length and retry are 0) and `STORED` has been made the
reply of the upstream, which waits for one; when it returns false nothing has changed.
`cproxy_forward_a2a_item_downstream` either does not invoke it and leaves
`tot_optimize_sets` as it is, or invokes it once, and then the command is `NREAD_SET`, the
upstream waits for a reply, the item is queued on the downstream connection, which is in
`conn_mwrite`, and `tot_optimize_sets` has been raised by one exactly when the condition of
a true result holds. It does invoke it for such a `set` when the calls into the host
succeed. -/
theorem optimize_set_only_for_set_with_reply (env : a2a_env) (s : a2a_state)
    (cmd : nread_cmd) (it : store_item) (key : String) :
    (((cproxy_optimize_set_ascii env s key).2 = true ↔
        (s.optimize_set.length > 0 ∧ env.matcher_check s.optimize_set_matcher key = true)) ∧
      ((cproxy_optimize_set_ascii env s key).2 = true →
        (cproxy_optimize_set_ascii env s key).1.upstream_conn = none ∧
        (cproxy_optimize_set_ascii env s key).1.upstream_suffix = none ∧
        (cproxy_optimize_set_ascii env s key).1.upstream_suffix_len = 0 ∧
        (cproxy_optimize_set_ascii env s key).1.upstream_retry = 0 ∧
        (s.uc.noreply = false →
          (cproxy_optimize_set_ascii env s key).1.uc.out = s.uc.out ++ ["STORED"])) ∧
      ((cproxy_optimize_set_ascii env s key).2 = false →
        (cproxy_optimize_set_ascii env s key).1 = s)) ∧
    (((cproxy_forward_a2a_item_downstream env s cmd it).1.optimize_calls = s.optimize_calls ∧
        (cproxy_forward_a2a_item_downstream env s cmd it).1.tot_optimize_sets =
          s.tot_optimize_sets) ∨
      ((cproxy_forward_a2a_item_downstream env s cmd it).1.optimize_calls =
          s.optimize_calls ++ [it.key] ∧
        cmd = nread_cmd.NREAD_SET ∧ s.uc.noreply = false ∧
        (cproxy_forward_a2a_item_downstream env s cmd it).1.c.iov =
          s.c.iov ++ item_pieces nread_cmd.NREAD_SET it false false ∧
        (cproxy_forward_a2a_item_downstream env s cmd it).1.c.state =
          conn_state.conn_mwrite ∧
        (cproxy_forward_a2a_item_downstream env s cmd it).1.tot_optimize_sets =
          if s.optimize_set.length > 0 ∧
              env.matcher_check s.optimize_set_matcher it.key = true then
            (s.tot_optimize_sets + 1) % UINT64
          else s.tot_optimize_sets)) ∧
    (cmd = nread_cmd.NREAD_SET → s.uc.noreply = false →
      env.find_downstream_conn it.key = true → env.prep_ok = true → it.suffix_ok = true →
      env.add_conn_suffix_ok 0 = true → (∀ n, env.add_iov_ok n = true) →
      env.update_event_c = true →
      (cproxy_forward_a2a_item_downstream env s cmd it).1.optimize_calls =
        s.optimize_calls ++ [it.key]) := by
  refine ⟨⟨optimize_set_result env s key, ?_, ?_⟩, ?_, ?_⟩
  · intro h
    have hc := (optimize_set_result env s key).1 h
    have h0 : ¬ s.optimize_set.length = 0 := by omega
    unfold cproxy_optimize_set_ascii
    dsimp only
    rw [if_neg h0, if_pos hc.2]
    have hout : s.uc.noreply = false → (out_string s.uc "STORED").out = s.uc.out ++ ["STORED"] := by
      intro hn
      unfold out_string
      rw [hn]
      rfl
    split_ifs <;> exact ⟨rfl, rfl, rfl, rfl, hout⟩
  · intro h
    unfold cproxy_optimize_set_ascii at h ⊢
    dsimp only at h ⊢
    by_cases h0 : s.optimize_set.length = 0
    · rw [if_pos h0]
    · rw [if_neg h0] at h ⊢
      by_cases hm : env.matcher_check s.optimize_set_matcher key = true
      · rw [if_pos hm] at h
        split_ifs at h
      · rw [if_neg hm]
  · unfold cproxy_forward_a2a_item_downstream
    dsimp only
    by_cases h1 : env.find_downstream_conn it.key = true
    swap
    · rw [if_neg h1]; exact Or.inl ⟨rfl, rfl⟩
    rw [if_pos h1]
    by_cases h2 : env.prep_ok = true
    swap
    · rw [if_neg h2]; exact Or.inl ⟨rfl, rfl⟩
    rw [if_pos h2]
    by_cases h3 : it.suffix_ok = true ∧ env.add_conn_suffix_ok 0 = true ∧
        (cmd ≠ nread_cmd.NREAD_CAS ∨
          (decide (cmd = nread_cmd.NREAD_CAS) && env.add_conn_suffix_ok 1) = true)
    swap
    · rw [if_neg h3]; exact Or.inl ⟨rfl, rfl⟩
    rw [if_pos h3]
    by_cases h4 : (add_iovs env (item_pieces cmd it
        (decide (cmd = nread_cmd.NREAD_CAS) && env.add_conn_suffix_ok 1) s.uc.noreply) 0 s.c).2 = true
    swap
    · rw [if_neg h4]; exact Or.inl ⟨rfl, rfl⟩
    rw [if_pos h4]
    by_cases h5 : env.update_event_c = true
    swap
    · rw [if_neg h5]; exact Or.inl ⟨rfl, rfl⟩
    rw [if_pos h5]
    cases hnr : s.uc.noreply with
    | true =>
      left
      unfold cproxy_dettach_if_noreply
      dsimp only
      rw [hnr]
      exact ⟨rfl, rfl⟩
    | false =>
      rw [dettach_with_reply _ (by exact hnr)]
      dsimp only
      rw [if_pos rfl]
      by_cases hset : cmd = nread_cmd.NREAD_SET
      swap
      · rw [if_neg hset]; exact Or.inl ⟨rfl, rfl⟩
      subst hset
      rw [if_pos rfl]
      have hst := optimize_step env
        { s with
          c := { (add_iovs env (item_pieces nread_cmd.NREAD_SET it
              (decide (nread_cmd.NREAD_SET = nread_cmd.NREAD_CAS) &&
                env.add_conn_suffix_ok 1) false) 0 s.c).1 with
            state := conn_state.conn_mwrite, write_and_go := conn_state.conn_new_cmd }
          downstream_used_start := 1, downstream_used := 1
          timeout_started := true
          optimize_calls := s.optimize_calls ++ [it.key] } it.key
      rw [hnr] at h4
      have hq := add_iovs_ok env _ 0 s.c h4
      refine Or.inr ⟨hst.1, rfl, rfl, ?_, ?_, hst.2.2⟩
      · rw [hst.2.1]
        show (add_iovs env _ 0 s.c).1.iov = _
        rw [hq]
        rfl
      · rw [hst.2.1]
  · intro hcmd hnr h1 h2 h3 h4 h5 h6
    subst hcmd
    unfold cproxy_forward_a2a_item_downstream
    dsimp only
    rw [if_pos h1, if_pos h2, if_pos ⟨h3, h4, Or.inl (by decide)⟩, add_iovs_all env h5]
    dsimp only
    rw [if_pos rfl, if_pos h6, dettach_with_reply _ (by exact hnr)]
    dsimp only
    rw [if_pos rfl, if_pos rfl]
    exact (optimize_step env _ it.key).1

theorem optimize_set_only_for_set_with_reply_witness :
    (sample_a2a_state.optimize_set.length > 0 ∧
      sample_a2a_env.matcher_check sample_a2a_state.optimize_set_matcher "tmp:k" = true) ∧
    ((cproxy_optimize_set_ascii sample_a2a_env sample_a2a_state "tmp:k").2 = true ∧
      (cproxy_optimize_set_ascii sample_a2a_env sample_a2a_state "tmp:k").1.upstream_conn =
        none ∧
      (cproxy_optimize_set_ascii sample_a2a_env sample_a2a_state "tmp:k").1.uc.out =
        ["STORED"]) ∧
    (cproxy_forward_a2a_item_downstream sample_a2a_env sample_a2a_state nread_cmd.NREAD_SET
        tmp_item).1.optimize_calls = sample_a2a_state.optimize_calls ++ [tmp_item.key] ∧
    (cproxy_forward_a2a_item_downstream sample_a2a_env sample_a2a_state nread_cmd.NREAD_SET
        tmp_item).1.tot_optimize_sets = 1 ∧
    (cproxy_forward_a2a_item_downstream sample_a2a_env sample_a2a_state nread_cmd.NREAD_SET
        tmp_item).1.c.iov =
      [piece.verb "set ", piece.key "tmp:k", piece.flags, piece.exptime 0, piece.length,
        piece.data] ∧
    (cproxy_forward_a2a_item_downstream sample_a2a_env sample_a2a_state nread_cmd.NREAD_ADD
        tmp_item).1.optimize_calls = [] ∧
    (cproxy_forward_a2a_item_downstream sample_a2a_env sample_a2a_state nread_cmd.NREAD_ADD
        tmp_item).1.uc.out = [] :=
  ⟨⟨by decide, rfl⟩,
    ⟨((optimize_set_only_for_set_with_reply sample_a2a_env sample_a2a_state
        nread_cmd.NREAD_SET tmp_item "tmp:k").1.1).2 ⟨by decide, rfl⟩,
      (((optimize_set_only_for_set_with_reply sample_a2a_env sample_a2a_state
        nread_cmd.NREAD_SET tmp_item "tmp:k").1.2.1) rfl).1,
      (((optimize_set_only_for_set_with_reply sample_a2a_env sample_a2a_state
        nread_cmd.NREAD_SET tmp_item "tmp:k").1.2.1) rfl).2.2.2.2 rfl⟩,
    (optimize_set_only_for_set_with_reply sample_a2a_env sample_a2a_state
      nread_cmd.NREAD_SET tmp_item "tmp:k").2.2 rfl rfl rfl rfl rfl rfl (fun _ => rfl) rfl,
    rfl, rfl, rfl, rfl⟩

/-- C30, evaluation: `map_key_stats_foreach_merge` returns the aggregate map as it was,
whatever the maps. In the run, the first worker holds key statistics for the cache key `a`
of the pool `11211:default` and the second worker for the cache key `b` of the same pool:
after the merge the aggregate still holds `a` only, and `a` has been added to the second
worker's map instead, while `map_pstd_foreach_merge` has added the second worker's two
commands to the five of the aggregate. -/
theorem key_stats_merged_into_worker_map :
    (∀ (env : stats_env) (key : String) (value : List (String × key_stats))
        (agg : List (String × List (String × key_stats))),
      (map_key_stats_foreach_merge env key value agg).2 = agg) ∧
    strhash_find [("b", sample_key_stats "b" 2)] "b" = some (sample_key_stats "b" 2) ∧
    (merge_pair sample_stats_env first_worker_pair second_worker_pair).1.map_key_stats =
      [("11211:default", [("a", sample_key_stats "a" 5)])] ∧
    (merge_pair sample_stats_env first_worker_pair second_worker_pair).2.map_key_stats =
      [("11211:default", [("b", sample_key_stats "b" 2), ("a", sample_key_stats "a" 5)])] ∧
    (merge_pair sample_stats_env first_worker_pair second_worker_pair).1.map_pstd =
      [("11211:default", { stats_cmd := [seen_cmd 7] })] ∧
    (merge_pair sample_stats_env first_worker_pair second_worker_pair).2.map_pstd =
      second_worker_pair.map_pstd := by
  refine ⟨?_, rfl, rfl, rfl, rfl, rfl⟩
  intro env key value agg
  unfold map_key_stats_foreach_merge
  cases strhash_find agg key <;> rfl

/-! ## Worker copies of a pool configuration -/

theorem dropWhile_eq_self_of_head {α : Type} (p : α → Bool) (l : List α)
    (h : ∀ a, l.head? = some a → p a = false) : l.dropWhile p = l := by
  cases l with
  | nil => rfl
  | cons a t =>
    have := h a rfl
    simp [List.dropWhile, this]

theorem head_dropWhile_false {α : Type} (p : α → Bool) (l : List α) :
    ∀ a, (l.dropWhile p).head? = some a → p a = false := by
  induction l with
  | nil => intro a h; simp at h
  | cons x t ih =>
    intro a h
    by_cases hx : p x = true
    · rw [List.dropWhile_cons_of_pos hx] at h
      exact ih a h
    · rw [List.dropWhile_cons_of_neg hx] at h
      simp only [List.head?_cons, Option.some.injEq] at h
      subst h
      simpa using hx

theorem trimstrdup_idem (s : String) : trimstrdup (trimstrdup s) = trimstrdup s := by
  unfold trimstrdup
  simp only
  congr 1
  set u := s.data.dropWhile isspace with hu
  -- t = (u.reverse.dropWhile sp).reverse
  have hhead : ∀ a, ((u.reverse.dropWhile isspace).reverse).head? = some a → isspace a = false := by
    intro a ha
    -- the head of the reverse is the last of the dropWhile
    cases hu' : u with
    | nil => rw [hu'] at ha; simp at ha
    | cons x t =>
      have hx : isspace x = false := head_dropWhile_false isspace s.data x (by rw [← hu, hu']; rfl)
      rw [hu'] at ha
      rw [List.reverse_cons] at ha
      have hd : (t.reverse ++ [x]).dropWhile isspace =
          (t.reverse.dropWhile isspace) ++ [x] := by
        induction t.reverse with
        | nil => simp [List.dropWhile, hx]
        | cons y r ih =>
          by_cases hy : isspace y = true
          · simp [List.dropWhile, hy, ih]
          · simp [List.dropWhile, hy]
      rw [hd, List.reverse_append] at ha
      simp at ha
      subst ha
      exact hx
  rw [dropWhile_eq_self_of_head isspace _ hhead, List.reverse_reverse,
    List.dropWhile_idempotent]


theorem update_str_config_trimmed (x c : Option String) (hx : x.map trimstrdup = x) :
    (update_str_config x c).1.map trimstrdup = (update_str_config x c).1 := by
  cases x with
  | none =>
    cases c with
    | none => rfl
    | some s => simp [update_str_config, trimstrdup_idem]
  | some t =>
    cases c with
    | none => rfl
    | some s =>
      by_cases hts : t = s
      · subst hts
        rw [update_str_config_self]
        exact hx
      · simp [update_str_config, hts, trimstrdup_idem]

theorem update_str_config_follows (x c : Option String) (hc : c.map trimstrdup = c) :
    (update_str_config x c).1 = c := by
  cases x with
  | none =>
    cases c with
    | none => rfl
    | some s => simpa [update_str_config] using hc
  | some t =>
    cases c with
    | none => rfl
    | some s =>
      by_cases hts : t = s
      · subst hts
        rw [update_str_config_self]
      · simpa [update_str_config, hts] using hc

theorem sized_update (x y : proxy_behavior) (a b : Option (List proxy_behavior)) (n k : Int)
    (ha : sized { base := x, num := n, arr := a }) :
    sized { base := y, num := (update_behaviors_config a n b k).2.1,
            arr := (update_behaviors_config a n b k).1 } := by
  unfold sized at ha ⊢
  dsimp only at ha ⊢
  cases a with
  | none =>
    cases b with
    | none => simpa [update_behaviors_config] using ha
    | some l => simp [update_behaviors_config, cproxy_copy_behaviors, List.length_take]
  | some l0 =>
    cases b with
    | none => simp [update_behaviors_config]
    | some l =>
      cases he : cproxy_equal_behaviors n l0 k l with
      | true => simpa [update_behaviors_config, he] using ha
      | false => simp [update_behaviors_config, he, cproxy_copy_behaviors, List.length_take]

theorem update_behaviors_config_follows (x y : proxy_behavior)
    (a b : Option (List proxy_behavior)) (n k : Int)
    (ha : sized { base := x, num := n, arr := a })
    (hb : sized { base := y, num := k, arr := b }) :
    (update_behaviors_config a n b k).1 = b ∧ (update_behaviors_config a n b k).2.1 = k := by
  unfold sized at ha hb
  dsimp only at ha hb
  cases a with
  | none =>
    cases b with
    | none =>
      dsimp only at ha hb
      simp [update_behaviors_config, ha, hb]
    | some l =>
      dsimp only at hb
      simp [update_behaviors_config, cproxy_copy_behaviors, List.take_of_length_le hb]
  | some l0 =>
    cases b with
    | none =>
      dsimp only at hb
      simp [update_behaviors_config, hb]
    | some l =>
      dsimp only at ha hb
      cases he : cproxy_equal_behaviors n l0 k l with
      | true =>
        have he' := he
        unfold cproxy_equal_behaviors at he'
        simp only [Bool.and_eq_true, decide_eq_true_eq] at he'
        obtain ⟨hnk, ht⟩ := he'
        subst hnk
        rw [List.take_of_length_le ha, List.take_of_length_le hb] at ht
        subst ht
        simp [update_behaviors_config, he]
      | false =>
        simp [update_behaviors_config, he, cproxy_copy_behaviors, List.take_of_length_le hb]

theorem restart_key_stats_fields (t : proxy_td) :
    (restart_key_stats t).config_ver = t.config_ver ∧
    (restart_key_stats t).config = t.config ∧
    (restart_key_stats t).behavior_pool = t.behavior_pool := by
  unfold restart_key_stats
  dsimp only
  split_ifs <;> exact ⟨rfl, rfl, rfl⟩

theorem update_ptd_config_result (p : proxy) (t : proxy_td) :
    (update_ptd_config p t).1.config_ver = p.config_ver ∧
    (t.config_ver = p.config_ver →
      (update_ptd_config p t).1.config = t.config ∧
      (update_ptd_config p t).1.behavior_pool = t.behavior_pool) ∧
    (t.config_ver ≠ p.config_ver →
      (update_ptd_config p t).1.config = (update_str_config t.config p.config).1 ∧
      (update_ptd_config p t).1.behavior_pool =
        { base := p.behavior_pool.base
          num := (update_behaviors_config t.behavior_pool.arr t.behavior_pool.num
            p.behavior_pool.arr p.behavior_pool.num).2.1
          arr := (update_behaviors_config t.behavior_pool.arr t.behavior_pool.num
            p.behavior_pool.arr p.behavior_pool.num).1 }) := by
  unfold update_ptd_config
  by_cases hv : t.config_ver ≠ p.config_ver
  · rw [if_pos hv]
    dsimp only
    refine ⟨?_, fun h => absurd h hv, fun _ => ?_⟩
    · split_ifs
      · exact (restart_key_stats_fields _).1
      · rfl
    · split_ifs
      · exact ⟨(restart_key_stats_fields _).2.1, (restart_key_stats_fields _).2.2⟩
      · exact ⟨rfl, rfl⟩
  · rw [if_neg hv]
    have hv' : t.config_ver = p.config_ver := by
      by_contra h
      exact hv h
    exact ⟨hv', fun _ => ⟨rfl, rfl⟩, fun h => absurd hv' h⟩

/-- A worker copy is in step with its pool after `update_ptd_config`, in a pool whose
copies follow it. -/
theorem update_ptd_config_synced (p : proxy) (t : proxy_td)
    (hp : p.config.map trimstrdup = p.config) (hsp : sized p.behavior_pool)
    (hst : sized t.behavior_pool)
    (h : t.config_ver = p.config_ver → t.config = p.config ∧ t.behavior_pool = p.behavior_pool) :
    (update_ptd_config p t).1.config_ver = p.config_ver ∧
    (update_ptd_config p t).1.config = p.config ∧
    (update_ptd_config p t).1.behavior_pool = p.behavior_pool := by
  obtain ⟨h1, h2, h3⟩ := update_ptd_config_result p t
  refine ⟨h1, ?_⟩
  by_cases hv : t.config_ver = p.config_ver
  · obtain ⟨a, b⟩ := h2 hv
    obtain ⟨c, d⟩ := h hv
    exact ⟨a.trans c, b.trans d⟩
  · obtain ⟨a, b⟩ := h3 hv
    obtain ⟨c, d⟩ := update_behaviors_config_follows t.behavior_pool.base
      p.behavior_pool.base t.behavior_pool.arr p.behavior_pool.arr t.behavior_pool.num
      p.behavior_pool.num hst hsp
    refine ⟨a.trans (update_str_config_follows _ _ hp), ?_⟩
    rw [b, c, d]

theorem cproxy_create_td_fields (config : Option String) (v : Nat) (bp : proxy_behavior_pool) :
    (cproxy_create_td config v bp).config_ver = v ∧
    (cproxy_create_td config v bp).config = config.map trimstrdup ∧
    (cproxy_create_td config v bp).behavior_pool =
      { base := bp.base, num := bp.num, arr := bp.arr.map (cproxy_copy_behaviors bp.num) } := by
  unfold cproxy_create_td
  dsimp only
  split_ifs <;> exact ⟨rfl, rfl, rfl⟩

theorem cproxy_create_thread_data (name : String) (port : Int) (config : Option String)
    (v : Nat) (bp : proxy_behavior_pool) (n : Nat) :
    (cproxy_create name port config v bp n).thread_data =
      List.replicate n (cproxy_create_td config v bp) := by
  unfold cproxy_create
  rw [(restart_front_cache_fields _ _).2.2.2.2.2.1]

theorem sized_create (bp : proxy_behavior_pool) (hbp : bp.arr = none → bp.num = 0) :
    sized { base := bp.base, num := bp.num,
            arr := bp.arr.map (cproxy_copy_behaviors bp.num) } := by
  unfold sized
  dsimp only
  cases ha : bp.arr with
  | none => exact hbp ha
  | some l => simp [cproxy_copy_behaviors, List.length_take]

theorem ptd_ok_create (name : String) (port : Int) (config : Option String) (v : Nat)
    (bp : proxy_behavior_pool) (n : Nat) (hbp : bp.arr = none → bp.num = 0) :
    ptd_ok (cproxy_create name port config v bp n) := by
  obtain ⟨_, _, c3, c4, c5⟩ := cproxy_create_fields name port config v bp n
  obtain ⟨t1, t2, t3⟩ := cproxy_create_td_fields config v bp
  refine ⟨?_, ?_, ?_⟩
  · rw [c3]
    cases config with
    | none => rfl
    | some s => simp [trimstrdup_idem]
  · rw [c5]; exact sized_create bp hbp
  · intro t ht
    rw [cproxy_create_thread_data] at ht
    have := List.eq_of_mem_replicate ht
    subst this
    refine ⟨?_, ?_, fun _ => ⟨?_, ?_⟩⟩
    · rw [t3]; exact sized_create bp hbp
    · rw [t1, c4]
    · rw [t2, c3]
    · rw [t3, c5]

theorem ptd_ok_update (p : proxy) (config : Option String) (v : Nat) (bp : proxy_behavior_pool)
    (n : Nat) (r : proxy × Bool) (hp : ptd_ok p) (hv : p.config_ver ≤ v)
    (h : on_config_pool_existing p config v bp n = Except.ok r) :
    ptd_ok r.1 ∧ r.1.config_ver ≤ v := by
  obtain ⟨e1, e2, _, _, e5, e6, e7⟩ := existing_ok p config v bp n r h
  obtain ⟨p1, p2, p3⟩ := hp
  have hlt : p.config_ver < v := by omega
  refine ⟨⟨?_, ?_, ?_⟩, by rw [e2]⟩
  · rw [e5]; exact update_str_config_trimmed _ _ p1
  · rw [e6]; exact sized_update p.behavior_pool.base _ _ _ _ _ p2
  · intro t ht
    rw [e7] at ht
    obtain ⟨q1, q2, _⟩ := p3 t ht
    refine ⟨q1, by rw [e2]; omega, fun he => ?_⟩
    rw [e2] at he
    omega

theorem on_config_pool_synced (env : host_env) (m m' : proxy_main) (name : String)
    (port : Int) (config : Option String) (v : Nat) (bp : proxy_behavior_pool)
    (hbp : bp.arr = none → bp.num = 0)
    (hQ : ∀ p ∈ m.proxy_head, ptd_ok p ∧ p.config_ver ≤ v)
    (h : cproxy_on_config_pool env m name port config v bp = Except.ok m') :
    ∀ p ∈ m'.proxy_head, ptd_ok p ∧ p.config_ver ≤ v := by
  obtain ⟨_, _, _, hc⟩ := on_config_pool_cases env m m' name port config v bp h
  rcases hc with ⟨_, ⟨_, hl⟩ | ⟨_, hl⟩⟩ | ⟨i, p, r, _, hp, hr, hl⟩
  · rw [hl]; exact hQ
  · rw [hl]
    intro x hx
    rcases List.mem_cons.1 hx with rfl | hx
    · exact ⟨ptd_ok_create name port config v bp m.nthreads hbp,
        by rw [(cproxy_create_fields name port config v bp m.nthreads).2.2.2.1]⟩
    · exact hQ x hx
  · rw [hl]
    intro x hx
    have hpm : p ∈ m.proxy_head := List.get?_mem hp
    rcases List.mem_or_eq_of_mem_set hx with hx | rfl
    · exact hQ x hx
    · exact ptd_ok_update p config v bp m.nthreads r (hQ p hpm).1 (hQ p hpm).2 hr

theorem run_calls_synced (env : host_env) (v : Nat) (cs : List pool_call) (m a : proxy_main)
    (hcs : ∀ c ∈ cs, c.bp.arr = none → c.bp.num = 0)
    (hQ : ∀ p ∈ m.proxy_head, ptd_ok p ∧ p.config_ver ≤ v)
    (h : run_calls env v cs m = Except.ok a) :
    ∀ p ∈ a.proxy_head, ptd_ok p ∧ p.config_ver ≤ v := by
  induction cs generalizing m with
  | nil =>
    simp only [run_calls, Except.ok.injEq] at h
    subst h
    exact hQ
  | cons d cs ih =>
    obtain ⟨m1, h1, h2⟩ := (bind_ok_iff _ _ _).1 h
    exact ih m1 (fun c hc => hcs c (List.mem_cons_of_mem _ hc))
      (on_config_pool_synced env m m1 d.name d.port d.config v d.bp
        (hcs d (List.mem_cons_self _ _)) hQ h1) h2

theorem close_loop_synced (env : host_env) (v : Nat) (k : Nat) (m m' : proxy_main)
    (hQ : ∀ p ∈ m.proxy_head, ptd_ok p ∧ p.config_ver ≤ v)
    (h : close_loop env v k m = Except.ok m') :
    ∀ p ∈ m'.proxy_head, ptd_ok p ∧ p.config_ver ≤ v := by
  induction k generalizing m with
  | zero =>
    simp only [close_loop, pure, Except.pure, Except.ok.injEq] at h
    subst h
    exact hQ
  | succ k ih =>
    unfold close_loop at h
    split at h
    · cases h
    · split at h
      · split at h
        · split at h
          · split at h
            · obtain ⟨m1, hm1, h⟩ := (bind_ok_iff _ _ _).1 h
              exact ih _ (on_config_pool_synced env m m1 _ _ _ v _ (fun _ => rfl) hQ hm1) h
            · exact ih _ hQ h
          · cases h
        · cases h
      · exact ih _ hQ h

theorem on_config_synced (env : host_env) (m m' : proxy_main)
    (kvs : List (String × List String)) (hs : pools_synced m)
    (hmax : max_config_ver m.proxy_head < UINT32 - 1)
    (h : cproxy_on_config env m kvs = Except.ok m') : pools_synced m' := by
  have hv := new_config_ver_eq m hmax
  have hQ : ∀ p ∈ ({ m with stat_configs := (m.stat_configs + 1) % UINT64 } :
      proxy_main).proxy_head, ptd_ok p ∧ p.config_ver ≤ new_config_ver m := by
    intro p hp
    refine ⟨hs p hp, ?_⟩
    have := le_max_config_ver m.proxy_head p hp
    omega
  rw [on_config_run] at h
  cases hd : doc_calls env m.behavior kvs with
  | none =>
    rw [hd] at h
    simp only [Except.ok.injEq] at h
    subst h
    exact hs
  | some cs =>
    rw [hd] at h
    dsimp only at h
    obtain ⟨a, ha, h⟩ := (bind_ok_iff _ _ _).1 h
    have hcs : ∀ c ∈ cs, c.bp.arr = none → c.bp.num = 0 := by
      intro c hc hn
      exact absurd hn (doc_calls_wf env m.behavior kvs cs hd c hc).2
    have h1 := run_calls_synced env _ cs _ a hcs hQ ha
    intro p hp
    exact (close_loop_synced env _ _ a m' h1 h p hp).1

theorem thread_data_step_rel (v : Nat) :
    step_rel v (fun p q => q.thread_data = p.thread_data) where
  refl := fun _ => rfl
  trans := fun _ _ _ h1 h2 => h2.trans h1
  upd := fun p config bp n r h => (existing_ok p config v bp n r h).2.2.2.2.2.2

theorem forall2_get (R : proxy → proxy → Prop) (l r : List proxy) (h : List.Forall₂ R l r)
    (k : Nat) (p : proxy) (hp : l.get? k = some p) : ∃ q, r.get? k = some q ∧ R p q := by
  induction h generalizing k with
  | nil => simp at hp
  | cons hab _ ih =>
    cases k with
    | zero =>
      simp only [List.get?_cons_zero, Option.some.injEq] at hp
      subst hp
      exact ⟨_, rfl, hab⟩
    | succ k =>
      simp only [List.get?_cons_succ] at hp ⊢
      exact ih k hp

theorem forall2_reverse (R : proxy → proxy → Prop) (l r : List proxy)
    (h : List.Forall₂ R l r) : List.Forall₂ R l.reverse r.reverse := by
  induction h with
  | nil => exact List.Forall₂.nil
  | cons hab _ ih =>
    rw [List.reverse_cons, List.reverse_cons]
    exact List.rel_append ih (List.Forall₂.cons hab List.Forall₂.nil)

theorem pool_at_grows (R : proxy → proxy → Prop) (m m' : proxy_main)
    (h : grows R m.proxy_head m'.proxy_head) (k : Nat) (p : proxy)
    (hp : pool_at m k = some p) : ∃ q, pool_at m' k = some q ∧ R p q := by
  obtain ⟨added, rest, hl, hr⟩ := h
  unfold pool_at at hp ⊢
  obtain ⟨q, hq, hR⟩ := forall2_get R _ _ (forall2_reverse R _ _ hr) k p hp
  refine ⟨q, ?_, hR⟩
  rw [hl, List.reverse_append]
  rw [List.get?_eq_getElem?] at hq ⊢
  have hk : k < rest.reverse.length := by
    by_contra hc
    rw [List.getElem?_eq_none (by omega)] at hq
    cases hq
  rw [List.getElem?_append_left hk]
  exact hq

theorem ptd_at_config (env : host_env) (m m' : proxy_main)
    (kvs : List (String × List String)) (h : cproxy_on_config env m kvs = Except.ok m')
    (k j : Nat) (t : proxy_td) (ht : ptd_at m k j = some t) : ptd_at m' k j = some t := by
  have hf := on_config_frame env _ m m' (thread_data_step_rel (new_config_ver m)) kvs h
  unfold ptd_at at ht ⊢
  cases hp : pool_at m k with
  | none => rw [hp] at ht; cases ht
  | some p =>
    rw [hp] at ht
    obtain ⟨q, hq, hR⟩ := pool_at_grows _ m m' hf.2.2 k p hp
    rw [hq]
    simp only [Option.bind] at ht ⊢
    rw [hR]
    exact ht

/-- What the run of an `update_ptd_config` item leaves behind. -/
theorem run_update_ptd_config_ok (m m' : proxy_main) (k j : Nat)
    (h : run_update_ptd_config m k j = Except.ok m') :
    ∃ p t, pool_at m k = some p ∧ p.thread_data.get? j = some t ∧
      m'.proxy_head = (m.proxy_head.reverse.set k
        { p with
          thread_data := p.thread_data.set j (update_ptd_config p t).1
          queued := p.queued.erase j }).reverse := by
  unfold run_update_ptd_config at h
  cases hp : pool_at m k with
  | none => rw [hp] at h; cases h
  | some p =>
    rw [hp] at h
    dsimp only at h
    cases ht : p.thread_data.get? j with
    | none => rw [ht] at h; cases h
    | some t =>
      rw [ht] at h
      dsimp only at h
      by_cases hq : j ∈ p.queued
      · rw [if_pos hq] at h
        simp only [pure, Except.pure, Except.ok.injEq] at h
        subst h
        exact ⟨p, t, rfl, ht, rfl⟩
      · rw [if_neg hq] at h
        cases h

theorem pool_at_set (m m' : proxy_main) (k : Nat) (q : proxy)
    (hk : k < m.proxy_head.length)
    (hm : m'.proxy_head = (m.proxy_head.reverse.set k q).reverse) (k' : Nat) :
    pool_at m' k' = if k = k' then some q else pool_at m k' := by
  unfold pool_at
  rw [hm, List.reverse_reverse, List.get?_eq_getElem?, List.get?_eq_getElem?,
    List.getElem?_set]
  have : k < m.proxy_head.reverse.length := by simpa using hk
  by_cases hkk : k = k'
  · subst hkk
    simp [this, hk]
  · simp [hkk]

theorem pool_at_lt (m : proxy_main) (k : Nat) (p : proxy) (h : pool_at m k = some p) :
    k < m.proxy_head.length ∧ p ∈ m.proxy_head := by
  unfold pool_at at h
  have hmem := List.get?_mem h
  rw [List.get?_eq_getElem?] at h
  constructor
  · by_contra hc
    rw [List.getElem?_eq_none (by simpa using Nat.le_of_not_lt hc)] at h
    cases h
  · exact List.mem_reverse.1 hmem

/-- The run of an `update_ptd_config` item leaves the copy in step with its pool, keeps
the invariant and lowers the version of no copy. -/
theorem run_update_ptd_config_synced (m m' : proxy_main) (k j : Nat) (hs : pools_synced m)
    (h : run_update_ptd_config m k j = Except.ok m') :
    pools_synced m' ∧
    (∃ p t, pool_at m' k = some p ∧ p.thread_data.get? j = some t ∧
      t.config_ver = p.config_ver ∧ t.config = p.config ∧
      t.behavior_pool = p.behavior_pool) ∧
    ∀ k' j' t, ptd_at m k' j' = some t →
      ∃ t', ptd_at m' k' j' = some t' ∧ t.config_ver ≤ t'.config_ver := by
  obtain ⟨p, t, hp, ht, hm⟩ := run_update_ptd_config_ok m m' k j h
  obtain ⟨hk, hpm⟩ := pool_at_lt m k p hp
  obtain ⟨p1, p2, p3⟩ := hs p hpm
  have htm : t ∈ p.thread_data := List.get?_mem ht
  obtain ⟨q1, q2, q3⟩ := p3 t htm
  obtain ⟨u1, u2, u3⟩ := update_ptd_config_synced p t p1 p2 q1 q3
  have hj : j < p.thread_data.length := by
    rw [List.get?_eq_getElem?] at ht
    by_contra hc
    rw [List.getElem?_eq_none (by omega)] at ht
    cases ht
  have hat := pool_at_set m m' k _ hk hm
  refine ⟨?_, ?_, ?_⟩
  · intro x hx
    rw [hm, List.mem_reverse] at hx
    rcases List.mem_or_eq_of_mem_set hx with hx | rfl
    · exact hs x (List.mem_reverse.1 hx)
    · refine ⟨p1, p2, ?_⟩
      intro y hy
      rcases List.mem_or_eq_of_mem_set hy with hy | rfl
      · exact p3 y hy
      · refine ⟨?_, by rw [u1], fun _ => ⟨u2, u3⟩⟩
        show sized (update_ptd_config p t).1.behavior_pool
        rw [u3]; exact p2
  · refine ⟨{ p with
        thread_data := p.thread_data.set j (update_ptd_config p t).1
        queued := p.queued.erase j }, (update_ptd_config p t).1, by rw [hat k, if_pos rfl],
      ?_, u1, u2, u3⟩
    show (p.thread_data.set j _).get? j = _
    rw [List.get?_eq_getElem?, List.getElem?_set_self hj]
  · intro k' j' t0 ht0
    unfold ptd_at at ht0 ⊢
    rw [hat k']
    by_cases hkk : k = k'
    · subst hkk
      rw [if_pos rfl]
      rw [hp] at ht0
      simp only [Option.bind] at ht0 ⊢
      show ∃ t', (p.thread_data.set j _).get? j' = some t' ∧ _
      rw [List.get?_eq_getElem?, List.getElem?_set]
      by_cases hjj : j = j'
      · subst hjj
        rw [if_pos rfl]
        simp only [hj, if_true]
        refine ⟨_, rfl, ?_⟩
        rw [ht] at ht0
        cases ht0
        rw [u1]
        exact q2
      · rw [if_neg hjj, ← List.get?_eq_getElem?]
        exact ⟨t0, ht0, le_refl _⟩
    · rw [if_neg hkk]
      exact ⟨t0, ht0, le_refl _⟩

/-! ## Reaching the greatest version -/

theorem lap_existing (n v : Nat) (ws q : List Nat) (hv : v ≠ n) :
    on_config_pool_existing (lap_pool n ws q) (some sample_doc) v lap_bp 4 =
      Except.ok (lap_pool v ws (q ++ [1, 2, 3]), false) := by
  unfold on_config_pool_existing
  dsimp only
  rw [if_pos (show v ≠ (lap_pool n ws q).config_ver from hv)]
  rfl

theorem lap_on_config_pool (n v s e : Nat) (ws q : List Nat) (hv : v ≠ n) :
    cproxy_on_config_pool sample_env (lap_main n ws q s e) "default" 11211 (some sample_doc)
        v lap_bp =
      Except.ok (lap_main v ws (q ++ [1, 2, 3]) s ((e + 1) % UINT64)) := by
  unfold cproxy_on_config_pool
  have hf : find_proxy "default" 11211 (lap_main n ws q s e).proxy_head =
      Except.ok (some 0) := rfl
  have he : on_config_pool_existing (lap_pool n ws q) (some sample_doc) v lap_bp
      (lap_main n ws q s e).nthreads = Except.ok (lap_pool v ws (q ++ [1, 2, 3]), false) :=
    lap_existing n v ws q hv
  have hg : (lap_main n ws q s e).proxy_head.get? 0 = some (lap_pool n ws q) := rfl
  simp only [bind, Except.bind, hf, hg, he]
  rfl

theorem lap_new_config_ver (n s e : Nat) (ws q : List Nat) :
    new_config_ver (lap_main n ws q s e) = (n + 1) % UINT32 := by
  have h : max_config_ver (lap_main n ws q s e).proxy_head = if 0 < n then n else 0 := rfl
  unfold new_config_ver
  rw [h]
  split_ifs with h0
  · rfl
  · have : n = 0 := by omega
    subst this
    rfl

/-- A delivery of the sample document to a proxy whose only pool is the pool `default`
of that document. -/
theorem lap_config (n s e : Nat) (ws q : List Nat) :
    cproxy_on_config sample_env (lap_main n ws q s e) sample_kvs =
      Except.ok (lap_main ((n + 1) % UINT32) ws (q ++ [1, 2, 3]) ((s + 1) % UINT64)
        ((e + 1) % UINT64)) := by
  have hv : (n + 1) % UINT32 ≠ n := by
    unfold UINT32
    omega
  rw [on_config_run]
  have hd : doc_calls sample_env (lap_main n ws q s e).behavior sample_kvs =
      some [{ name := "default", port := 11211, config := some sample_doc, bp := lap_bp }] :=
    rfl
  rw [hd, lap_new_config_ver]
  dsimp only
  have hm : ({ lap_main n ws q s e with
      stat_configs := ((lap_main n ws q s e).stat_configs + 1) % UINT64 } : proxy_main) =
      lap_main n ws q ((s + 1) % UINT64) e := rfl
  rw [hm]
  unfold run_calls
  dsimp only
  rw [lap_on_config_pool n _ _ e ws q hv]
  simp only [Except.bind, run_calls]
  unfold close_outdated_proxies
  have hl : (lap_main ((n + 1) % UINT32) ws (q ++ [1, 2, 3]) ((s + 1) % UINT64)
      ((e + 1) % UINT64)).proxy_head.length = 1 := rfl
  rw [hl]
  unfold close_loop
  have hg : (lap_main ((n + 1) % UINT32) ws (q ++ [1, 2, 3]) ((s + 1) % UINT64)
      ((e + 1) % UINT64)).proxy_head.get? (1 - (0 + 1)) =
      some (lap_pool ((n + 1) % UINT32) ws (q ++ [1, 2, 3])) := rfl
  simp only [hl, hg]
  rw [if_neg (fun h => h rfl)]
  rfl

theorem lap_update_ptd (v a : Nat) (ws q : List Nat) (ha : a ≠ v) :
    (update_ptd_config (lap_pool v ws q) (cproxy_create_td (some sample_doc) a lap_bp)).1 =
      cproxy_create_td (some sample_doc) v lap_bp := by
  unfold update_ptd_config
  rw [if_pos (show (cproxy_create_td (some sample_doc) a lap_bp).config_ver ≠
    (lap_pool v ws q).config_ver from ha)]
  rfl

/-- A worker thread whose copy is out of date runs its `update_ptd_config` item. -/
theorem lap_update (v s e j a : Nat) (ws q : List Nat) (hj : ws.get? j = some a)
    (ha : a ≠ v) (hq : j ∈ q) :
    run_update_ptd_config (lap_main v ws q s e) 0 j =
      Except.ok (lap_main v (ws.set j v) (q.erase j) s e) := by
  unfold run_update_ptd_config
  have hp : pool_at (lap_main v ws q s e) 0 = some (lap_pool v ws q) := rfl
  have ht : (lap_pool v ws q).thread_data.get? j =
      some (cproxy_create_td (some sample_doc) a lap_bp) := by
    show (ws.map _).get? j = _
    rw [List.get?_eq_getElem?, List.getElem?_map, ← List.get?_eq_getElem?, hj]
    rfl
  simp only [hp, ht]
  have hq' : j ∈ (lap_pool v ws q).queued := hq
  rw [if_pos hq', lap_update_ptd v a ws q ha]
  show Except.ok _ = Except.ok _
  congr 1
  unfold lap_main
  congr 1
  show [_] = [_]
  congr 1
  unfold lap_pool
  simp only [List.map_set]

theorem pool_run_append (env : host_env) (m : proxy_main) (a b : List pool_event) :
    pool_run env m (a ++ b) = (pool_run env m a).bind (fun m1 => pool_run env m1 b) := by
  induction a generalizing m with
  | nil => rfl
  | cons x t ih =>
    simp only [List.cons_append, pool_run]
    cases pool_step env m x with
    | error err => rfl
    | ok m1 => exact ih m1

/-- One round: delivery and the three updates lead from `lap n` to `lap (n + 1)`, while
the version does not wrap around. -/
theorem lap_step (n : Nat) (h1 : 1 ≤ n) (h2 : n < UINT32 - 1) :
    pool_run sample_env (lap n) lap_events = Except.ok (lap (n + 1)) := by
  have hv : (n + 1) % UINT32 = n + 1 := Nat.mod_eq_of_lt (by omega)
  have hs : (n + 1) % UINT64 = n + 1 := Nat.mod_eq_of_lt (by unfold UINT32 at h2; unfold UINT64; omega)
  have he : (n - 1 + 1) % UINT64 = n := by
    rw [Nat.sub_add_cancel h1]
    exact Nat.mod_eq_of_lt (by unfold UINT32 at h2; unfold UINT64; omega)
  unfold lap lap_events
  simp only [pool_run, pool_step, Except.bind]
  rw [lap_config n n (n - 1) [1, n, n, n] [], hv, hs, he, List.nil_append]
  dsimp only
  rw [lap_update (n + 1) (n + 1) n 1 n [1, n, n, n] [1, 2, 3] rfl (by omega) (by decide),
    show ([1, n, n, n] : List Nat).set 1 (n + 1) = [1, n + 1, n, n] from rfl,
    show ([1, 2, 3] : List Nat).erase 1 = [2, 3] from rfl]
  dsimp only
  rw [lap_update (n + 1) (n + 1) n 2 n [1, n + 1, n, n] [2, 3] rfl (by omega) (by decide),
    show ([1, n + 1, n, n] : List Nat).set 2 (n + 1) = [1, n + 1, n + 1, n] from rfl,
    show ([2, 3] : List Nat).erase 2 = [3] from rfl]
  dsimp only
  rw [lap_update (n + 1) (n + 1) n 3 n [1, n + 1, n + 1, n] [3] rfl (by omega) (by decide)]
  rfl

/-- The state `lap (k + 1)` is reached from the proxy without pools by the first delivery
and `k` further rounds, as long as the version stays below `2^32`. -/
theorem lap_reached (k : Nat) (hk : k + 1 ≤ UINT32 - 1) :
    pool_run sample_env empty_main (lap_run k) = Except.ok (lap (k + 1)) := by
  induction k with
  | zero => rfl
  | succ k ih =>
    have h := ih (by omega)
    unfold lap_run at h ⊢
    rw [List.replicate_succ', List.flatten_append, ← List.cons_append, pool_run_append, h]
    simp only [Except.bind, List.flatten, List.append_nil]
    exact lap_step (k + 1) (by omega) (by omega)

theorem lap_synced (n : Nat) (h1 : 1 ≤ n) : pools_synced (lap n) := by
  intro p hp
  have hp' : p = lap_pool n [1, n, n, n] [] := by
    simpa [lap, lap_main] using hp
  subst hp'
  refine ⟨rfl, Nat.le_refl 2, ?_⟩
  intro t ht
  have ht' : t = cproxy_create_td (some sample_doc) 1 lap_bp ∨
      t = cproxy_create_td (some sample_doc) n lap_bp := by
    simpa [lap_pool] using ht
  rcases ht' with rfl | rfl
  · exact ⟨Nat.le_refl 2, h1, fun _ => ⟨rfl, rfl⟩⟩
  · exact ⟨Nat.le_refl 2, le_refl _, fun _ => ⟨rfl, rfl⟩⟩

/-- The state with the greatest version is reached after `2^32 - 1` deliveries. -/
theorem lap_last : pool_run sample_env empty_main (lap_run (2 ^ 32 - 2)) =
    Except.ok (lap (2 ^ 32 - 1)) := by
  have h := lap_reached (2 ^ 32 - 2) (by decide)
  exact h

/-- C25, counterexample: the sample document is delivered to a proxy without pools
`2^32 - 1` times, the three worker threads running their `update_ptd_config` items after
each delivery. The worker copies follow their pool, and the copy of thread 1 carries
version `2^32 - 1`. The next delivery computes `new_config_ver = 0` and gives the pool
version 0, and when thread 1 runs its `update_ptd_config` item the version of its copy
goes from `2^32 - 1` down to 0. -/
theorem worker_version_wraps_around :
    ∃ m m',
      pool_run sample_env empty_main (lap_run (2 ^ 32 - 2)) = Except.ok m ∧
      pools_synced m ∧
      new_config_ver m = 0 ∧
      pool_run sample_env m [pool_event.config sample_kvs, pool_event.update 0 1] =
        Except.ok m' ∧
      (ptd_at m 0 1).map (fun t => t.config_ver) = some (2 ^ 32 - 1) ∧
      (pool_at m' 0).map (fun p => p.config_ver) = some 0 ∧
      (ptd_at m' 0 1).map (fun t => t.config_ver) = some 0 :=
  ⟨lap (2 ^ 32 - 1), _, lap_last,
    lap_synced (2 ^ 32 - 1) (by decide), rfl, rfl, rfl, rfl, rfl⟩


/-- C25, amended: along every sequence of reconfigurations and `update_ptd_config`
executions that starts in a state whose worker copies follow their pools (as they do when
there is no pool yet, and in every state reached from there) and in which every
configuration is delivered while the greatest version is below `2^32 - 1`: the worker
copies still follow their pools at the end, the version of no worker copy has decreased,
and an `update_ptd_config` item run at the end leaves the copy with the version, the
config string (both `NULL`, or equal strings) and the base and server behaviors of its
pool. -/
theorem worker_copy_follows_pool (env : host_env) (m m' : proxy_main)
    (evs : List pool_event) (hs : pools_synced m) (hwrap : below_wrap env m evs = true)
    (hrun : pool_run env m evs = Except.ok m') :
    pools_synced m' ∧
    (∀ k j t, ptd_at m k j = some t →
      ∃ t', ptd_at m' k j = some t' ∧ t.config_ver ≤ t'.config_ver) ∧
    (∀ k j m'', run_update_ptd_config m' k j = Except.ok m'' →
      ∃ p t, pool_at m'' k = some p ∧ p.thread_data.get? j = some t ∧
        t.config_ver = p.config_ver ∧ t.config = p.config ∧
        t.behavior_pool = p.behavior_pool) := by
  induction evs generalizing m with
  | nil =>
    simp only [pool_run, Except.ok.injEq] at hrun
    subst hrun
    exact ⟨hs, fun k j t ht => ⟨t, ht, le_refl _⟩,
      fun k j m'' h => (run_update_ptd_config_synced m m'' k j hs h).2.1⟩
  | cons e rest ih =>
    unfold pool_run at hrun
    obtain ⟨m1, h1, h2⟩ := (bind_ok_iff _ _ _).1 hrun
    unfold below_wrap at hwrap
    rw [h1] at hwrap
    simp only [Bool.and_eq_true] at hwrap
    obtain ⟨hw1, hw2⟩ := hwrap
    cases e with
    | config kvs =>
      simp only [decide_eq_true_eq] at hw1
      have hs1 : pools_synced m1 := on_config_synced env m m1 kvs hs hw1 h1
      obtain ⟨r1, r2, r3⟩ := ih m1 hs1 hw2 h2
      refine ⟨r1, ?_, r3⟩
      intro k j t ht
      exact r2 k j t (ptd_at_config env m m1 kvs h1 k j t ht)
    | update k0 j0 =>
      obtain ⟨hs1, _, hmono⟩ := run_update_ptd_config_synced m m1 k0 j0 hs h1
      obtain ⟨r1, r2, r3⟩ := ih m1 hs1 hw2 h2
      refine ⟨r1, ?_, r3⟩
      intro k j t ht
      obtain ⟨t1, ht1, hle1⟩ := hmono k j t ht
      obtain ⟨t2, ht2, hle2⟩ := r2 k j t1 ht1
      exact ⟨t2, ht2, le_trans hle1 hle2⟩

theorem worker_copy_follows_pool_witness :
    ∃ m1 m2,
      pool_run sample_env empty_main [pool_event.config sample_kvs] = Except.ok m1 ∧
      below_wrap sample_env m1 [pool_event.config [], pool_event.update 0 1] = true ∧
      pool_run sample_env m1 [pool_event.config [], pool_event.update 0 1] =
        Except.ok m2 ∧
      (ptd_at m1 0 1).map (fun t => (t.config_ver, t.config)) = some (1, some sample_doc) ∧
      (ptd_at m2 0 1).map (fun t => (t.config_ver, t.config)) = some (2, none) ∧
      pools_synced m2 ∧
      ∀ k j t, ptd_at m1 k j = some t →
        ∃ t', ptd_at m2 k j = some t' ∧ t.config_ver ≤ t'.config_ver :=
  ⟨_, _, rfl, rfl, rfl, rfl, rfl,
    (worker_copy_follows_pool sample_env _ _ [pool_event.config [], pool_event.update 0 1]
      (worker_copy_follows_pool sample_env empty_main _ [pool_event.config sample_kvs]
        (fun p hp => absurd hp (List.not_mem_nil p)) rfl rfl).1 rfl rfl).1,
    (worker_copy_follows_pool sample_env _ _ [pool_event.config [], pool_event.update 0 1]
      (worker_copy_follows_pool sample_env empty_main _ [pool_event.config sample_kvs]
        (fun p hp => absurd hp (List.not_mem_nil p)) rfl rfl).1 rfl rfl).2.1⟩

end Moxi
